import Mathlib

/-!
Session store and aggregation engine of Projekt-Stacje-Pomiarowe

A shallow embedding of `historymanager.cpp` (class `HistoryManager`), of the
aggregation part of `window_2_data_vis.cpp` (`aggregateData`, `displayCharts`,
`fetchMeasurementData`, `onDisplayButtonClicked`, `onDateClicked`) and of the station
reply of `mainwindow.cpp` (`onNetworkReply`), followed by the properties proved of them.

Modelling conventions

* `QVariant` and `QJsonValue` are one type, the JSON image of a value; the invalid
  `QVariant` and JSON null are the same value.  Writing a `QVariantMap` with
  `QJsonDocument::toJson` and reading it back with `QJsonDocument::fromJson` is the
  identity on that image.  A conversion (`toInt`, `toDouble`, `toString`, `toList`,
  `toMap`) of a value of another kind gives the default value of the target type.
* A `double` is the rational it stands for (`Rat`); infinities and NaN are outside the
  model.  `std::numeric_limits<double>::max()` is the constant `DBL_MAX`.  The embedding
  computes with doubles exactly, and the literal `0.01` is one hundredth.  The loops
  whose result depends on the rounding of doubles (the `+=` of `aggregateData` and the
  statistics of `displayCharts`) are embedded a second time, in the namespace
  `window_2_data_vis.Rounded`, with every operation on doubles followed by a rounding;
  `roundDouble` is the rounding of IEEE 754 binary64.
* A `QMap` is an association list that `QMap.insert` keeps in ascending key order, as
  `QMap::keys` returns it.
* The history directory is a map from file names to files; a file is identified with the
  document `QJsonDocument::fromJson` makes of its bytes.  Opening an existing file and
  writing a file always succeed.
* The clock reading of `QDateTime::currentDateTime()` and the answer of
  `checkInternetConnection` are explicit arguments.
* A `QDate` is its Julian day number, so that `daysTo` is a difference.
* An item of the list widget is its text; an item that only carries a widget has the
  empty text.
* The text functions of Qt and the trigonometric distance that `onNetworkReply` calls
  are the fields of an argument (`Library`); `std::sort` is a stable sort.

The file has four parts: the embedding of the source, the notions the statements use,
the arithmetic of doubles, and the lemmas and theorems.
-/

/-! ## Qt value types -/

/-- The JSON image of a `QVariant` (equally, a `QJsonValue`). -/
inductive QVariant where
  | null : QVariant
  | bool (b : Bool) : QVariant
  | num (q : Rat) : QVariant
  | str (s : String) : QVariant
  | list (xs : List QVariant) : QVariant
  | map (kvs : List (String × QVariant)) : QVariant

/-- A `QMap<K, V>`: an association list, one entry per key. -/
abbrev QMap (K V : Type) := List (K × V)

/-- The strict order `operator<` a `QMap` keeps its keys in. -/
class KeyOrder (K : Type) where
  lt : K → K → Bool

/-- Lexicographic comparison of two strings, character by character. -/
def lexLt : List Char → List Char → Bool
  | _, [] => false
  | [], _ :: _ => true
  | a :: as, b :: bs =>
    if a.toNat < b.toNat then true
    else if a.toNat = b.toNat then lexLt as bs
    else false

instance : KeyOrder String := ⟨fun a b => lexLt a.data b.data⟩

instance : KeyOrder Int := ⟨fun a b => decide (a < b)⟩

namespace QMap

variable {K V : Type}

/-- The entry stored under a key, if any (`QMap::find`). -/
def find [DecidableEq K] : QMap K V → K → Option V
  | [], _ => none
  | (k', v) :: m, k => if k = k' then some v else find m k

/-- The value under a key, or a default (`QMap::value`, and `operator[]` when reading). -/
def value [DecidableEq K] (m : QMap K V) (k : K) (dflt : V) : V :=
  (find m k).getD dflt

/-- Whether a key is present (`QMap::contains`). -/
def contains [DecidableEq K] (m : QMap K V) (k : K) : Bool :=
  (find m k).isSome

/-- Assignment through `operator[]` (`QMap::insert`): replaces the value of a key that is
present, otherwise adds the key at its place in ascending order. -/
def insert [DecidableEq K] [KeyOrder K] : QMap K V → K → V → QMap K V
  | [], k, v => [(k, v)]
  | (k', v') :: m, k, v =>
    if k = k' then (k, v) :: m
    else if KeyOrder.lt k k' then (k, v) :: (k', v') :: m
    else (k', v') :: insert m k v

/-- The keys in stored order (`QMap::keys`). -/
def keys (m : QMap K V) : List K := m.map Prod.fst

end QMap

/-- A `QSet<int>`, as the list of its members. -/
abbrev QSet (α : Type) := List α

/-- The Qt function `QSet::contains`. -/
def QSet.contains {α : Type} [DecidableEq α] (s : QSet α) (a : α) : Bool := decide (a ∈ s)

/-- The Qt function `QSet::insert`. -/
def QSet.insert {α : Type} [DecidableEq α] (s : QSet α) (a : α) : QSet α :=
  if a ∈ s then s else a :: s

abbrev QVariantList := List QVariant

abbrev QVariantMap := QMap String QVariant

namespace QVariant

/-- The Qt function `QVariant::isValid`: false for the default-constructed variant only. -/
def isValid : QVariant → Bool
  | null => false
  | _ => true

/-- The Qt function `QJsonValue::isNull`. -/
def isNull : QVariant → Bool
  | null => true
  | _ => false

/-- The Qt function `QVariant::toList`: the list held, the empty list for any other value. -/
def toList : QVariant → QVariantList
  | list xs => xs
  | _ => []

/-- The Qt function `QVariant::toMap`: the map held, the empty map for any other value. -/
def toMap : QVariant → QVariantMap
  | map kvs => kvs
  | _ => []

/-- The Qt function `QVariant::toString` on a string; other values give the empty string (the program
reads with `toString` only keys under which it stores strings). -/
def toString : QVariant → String
  | str s => s
  | _ => ""

/-- The Qt function `QVariant::toDouble`: the number held, `0.0` for a value that is not a number. -/
def toDouble : QVariant → Rat
  | num q => q
  | _ => 0

/-- The Qt function `QVariant::toInt`: the number held, rounded half away from zero (computed on the
numerator and the denominator of the number); `0` for a value that is not a number. -/
def toInt : QVariant → Int
  | num q =>
    if 0 ≤ q.num then (2 * q.num + q.den) / (2 * q.den)
    else -((2 * (-q.num) + q.den) / (2 * q.den))
  | _ => 0

end QVariant

/-- Reading `m[key]` from a `QVariantMap`: an absent key reads as the invalid variant. -/
def QVariantMap.get (m : QVariantMap) (key : String) : QVariant :=
  QMap.value m key QVariant.null

/-- Assigning `m[key] = v` in a `QVariantMap`. -/
def QVariantMap.set (m : QVariantMap) (key : String) (v : QVariant) : QVariantMap :=
  QMap.insert m key v

/-- What `QJsonDocument::fromJson` makes of a file: the null document for bytes that are
not JSON, else an array or an object. -/
inductive QJsonDocument where
  | null : QJsonDocument
  | array (a : QVariantList) : QJsonDocument
  | object (o : QVariantMap) : QJsonDocument

namespace QJsonDocument

def isNull : QJsonDocument → Bool
  | null => true
  | _ => false

def isObject : QJsonDocument → Bool
  | object _ => true
  | _ => false

/-- The call `QJsonDocument::object().toVariantMap()`: empty unless the document is an object. -/
def toVariantMap : QJsonDocument → QVariantMap
  | object o => o
  | _ => []

end QJsonDocument

/-- The contents of the history directory: file name to file, `none` for no such file. -/
abbrev QDir := String → Option QJsonDocument

namespace QDir

/-- A directory with no file in it. -/
def empty : QDir := fun _ => none

/-- The call `QFile::open(WriteOnly)` followed by `write`: creates or replaces the file. -/
def writeFile (d : QDir) (name : String) (doc : QJsonDocument) : QDir :=
  fun n => if n = name then some doc else d n

/-- The Qt function `QDir::remove`: the file is gone afterwards (nothing happens when it is not there). -/
def remove (d : QDir) (name : String) : QDir :=
  fun n => if n = name then none else d n

end QDir

/-! ## HistoryManager -/

/-- The state a `HistoryManager` works on: the directory `m_historyDir`. -/
structure HistoryManager where
  m_historyDir : QDir

namespace HistoryManager

/-- The member `m_indexFilePath`, relative to the history directory. -/
def m_indexFilePath : String := "history_index.json"

def MAX_SESSIONS : Nat := 100

/-- The file name `QString("session_%1.json").arg(sessionId)`. -/
def sessionFile (sessionId : String) : String :=
  "session_" ++ sessionId ++ ".json"

/-- The function `HistoryManager::updateIndexFile`. -/
def updateIndexFile (hm : HistoryManager) (session : QVariantMap) : HistoryManager :=
  let sessions : QVariantList :=
    match hm.m_historyDir m_indexFilePath with
    | some doc =>
      if !doc.isNull && doc.isObject then (doc.toVariantMap.get "sessions").toList else []
    | none => []
  let sessions := QVariant.map session :: sessions
  let indexObj (l : QVariantList) : QJsonDocument :=
    QJsonDocument.object (QVariantMap.set [] "sessions" (QVariant.list l))
  if sessions.length > MAX_SESSIONS then
    let oldSession := (sessions.getLast?.getD QVariant.null).toMap
    let oldFile := (oldSession.get "file").toString
    ⟨(hm.m_historyDir.remove oldFile).writeFile m_indexFilePath (indexObj sessions.dropLast)⟩
  else
    ⟨hm.m_historyDir.writeFile m_indexFilePath (indexObj sessions)⟩

/-- The session record `addSession` writes. -/
def sessionData (sessionId location : String) (radius latitude longitude : Rat)
    (stations : QVariantList) (timestamp : String) : QVariantMap :=
  let d : QVariantMap := []
  let d := d.set "session_id" (QVariant.str sessionId)
  let d := d.set "timestamp" (QVariant.str timestamp)
  let loc : QVariantMap := []
  let loc := loc.set "input" (QVariant.str location)
  let loc := loc.set "latitude" (QVariant.num latitude)
  let loc := loc.set "longitude" (QVariant.num longitude)
  let d := d.set "location" (QVariant.map loc)
  let d := d.set "radius" (QVariant.num radius)
  let d := d.set "stations" (QVariant.list stations)
  d.set "sensors" (QVariant.list [])

/-- The index entry `addSession` passes to `updateIndexFile`. -/
def indexEntry (sessionId location : String) (radius : Rat) (timestamp : String) :
    QVariantMap :=
  let e : QVariantMap := []
  let e := e.set "session_id" (QVariant.str sessionId)
  let e := e.set "timestamp" (QVariant.str timestamp)
  let e := e.set "location" (QVariant.str location)
  let e := e.set "radius" (QVariant.num radius)
  e.set "file" (QVariant.str (sessionFile sessionId))

/-- The function `HistoryManager::addSession`; `timestamp` is the clock reading taken on entry. -/
def addSession (hm : HistoryManager) (sessionId location : String)
    (radius latitude longitude : Rat) (stations : QVariantList) (timestamp : String) :
    HistoryManager :=
  let written : HistoryManager :=
    ⟨hm.m_historyDir.writeFile (sessionFile sessionId)
      (QJsonDocument.object
        (sessionData sessionId location radius latitude longitude stations timestamp))⟩
  written.updateIndexFile (indexEntry sessionId location radius timestamp)

/-- The arguments of one `addSession` call, with the clock reading taken in it. -/
structure SessionArgs where
  sessionId : String
  location : String
  radius : Rat
  latitude : Rat
  longitude : Rat
  stations : QVariantList
  timestamp : String

/-- One `addSession` call, its arguments bundled. -/
def createSession (hm : HistoryManager) (c : SessionArgs) : HistoryManager :=
  hm.addSession c.sessionId c.location c.radius c.latitude c.longitude c.stations c.timestamp

/-- A sequence of `addSession` calls, first call first. -/
def createSessions (hm : HistoryManager) (calls : List SessionArgs) : HistoryManager :=
  calls.foldl createSession hm

/-- The manager of a history directory that holds no file yet. -/
def empty : HistoryManager := ⟨QDir.empty⟩

/-- The function `HistoryManager::loadSessions`. -/
def loadSessions (hm : HistoryManager) : QVariantList :=
  match hm.m_historyDir m_indexFilePath with
  | none => []
  | some doc =>
    if doc.isNull || !doc.isObject then [] else (doc.toVariantMap.get "sessions").toList

/-- The function `HistoryManager::loadSessionDetails`. -/
def loadSessionDetails (hm : HistoryManager) (sessionId : String) : QVariantMap :=
  match hm.m_historyDir (sessionFile sessionId) with
  | none => []
  | some doc => doc.toVariantMap

/-- The id of a stored sensor, `sensor["id"].toInt()`. -/
def sensorId (sensorVariant : QVariant) : Int :=
  (sensorVariant.toMap.get "id").toInt

/-- The set of ids `addSessionSensors` collects from the stored sensors. -/
def existingSensorIds (existingSensors : QVariantList) : QSet Int :=
  existingSensors.foldl (fun ids sensorVariant => ids.insert (sensorId sensorVariant)) []

/-- The `sensorEntry` that `addSessionSensors` makes of an input sensor: the sensor with
an empty list under `measurements`. -/
def sensorEntry (sensor : QVariantMap) : QVariant :=
  QVariant.map (sensor.set "measurements" (QVariant.list []))

/-- One turn of the loop of `addSessionSensors` over the input sensors; the state is
`(existingSensorIds, newSensors)`. -/
def addSensorStep (st : QSet Int × QVariantList) (sensor : QVariantMap) :
    QSet Int × QVariantList :=
  let sensorId := (sensor.get "id").toInt
  if !st.1.contains sensorId then
    (st.1.insert sensorId, st.2 ++ [sensorEntry sensor])
  else st

/-- The function `HistoryManager::addSessionSensors`. -/
def addSessionSensors (hm : HistoryManager) (sessionId : String)
    (sensors : List QVariantMap) : HistoryManager :=
  match hm.m_historyDir (sessionFile sessionId) with
  | none => hm
  | some doc =>
    if doc.isNull || !doc.isObject then hm
    else
      let sessionData := doc.toVariantMap
      let existingSensors := (sessionData.get "sensors").toList
      let newSensors :=
        (sensors.foldl addSensorStep (existingSensorIds existingSensors, existingSensors)).2
      let sessionData := sessionData.set "sensors" (QVariant.list newSensors)
      ⟨hm.m_historyDir.writeFile (sessionFile sessionId) (QJsonDocument.object sessionData)⟩

/-- The `measurementEntry` that `addSessionMeasurements` makes of an input measurement:
its `date` and its `value`. -/
def measurementEntry (measurement : QVariantMap) : QVariant :=
  let measurementEntry : QVariantMap := []
  let measurementEntry := measurementEntry.set "date" (measurement.get "date")
  let measurementEntry := measurementEntry.set "value" (measurement.get "value")
  QVariant.map measurementEntry

/-- One turn of the loop of `addSessionMeasurements` that organises the input by
`sensorId`. -/
def groupStep (measurementsBySensor : QMap Int QVariantList) (measurement : QVariantMap) :
    QMap Int QVariantList :=
  let sensorId := (measurement.get "sensorId").toInt
  QMap.insert measurementsBySensor sensorId
    (QMap.value measurementsBySensor sensorId [] ++ [measurementEntry measurement])

/-- The body of the loop of `addSessionMeasurements` over the stored sensors: the sensor
as it is afterwards. -/
def updateSensor (measurementsBySensor : QMap Int QVariantList) (sensorVariant : QVariant) :
    QVariant :=
  let sensor := sensorVariant.toMap
  if QMap.contains measurementsBySensor (sensorId sensorVariant) then
    let existingMeasurements := (sensor.get "measurements").toList
    let existingMeasurements :=
      existingMeasurements ++ QMap.value measurementsBySensor (sensorId sensorVariant) []
    QVariant.map (sensor.set "measurements" (QVariant.list existingMeasurements))
  else sensorVariant

/-- The function `HistoryManager::addSessionMeasurements`. -/
def addSessionMeasurements (hm : HistoryManager) (sessionId : String)
    (measurements : List QVariantMap) : HistoryManager :=
  match hm.m_historyDir (sessionFile sessionId) with
  | none => hm
  | some doc =>
    if doc.isNull || !doc.isObject then hm
    else
      let sessionData := doc.toVariantMap
      let sensors := (sessionData.get "sensors").toList
      let measurementsBySensor := measurements.foldl groupStep []
      let updated := sensors.any
        (fun sensorVariant => QMap.contains measurementsBySensor (sensorId sensorVariant))
      let sensors := sensors.map (updateSensor measurementsBySensor)
      if updated then
        let sessionData := sessionData.set "sensors" (QVariant.list sensors)
        ⟨hm.m_historyDir.writeFile (sessionFile sessionId) (QJsonDocument.object sessionData)⟩
      else hm

/-- The function `HistoryManager::addSessionAirQuality`. -/
def addSessionAirQuality (hm : HistoryManager) (sessionId : String)
    (airQualityData : QVariantMap) : HistoryManager :=
  match hm.m_historyDir (sessionFile sessionId) with
  | none => hm
  | some doc =>
    if doc.isNull || !doc.isObject then hm
    else
      let sessionData := doc.toVariantMap
      let sessionData := sessionData.set "airQuality" (QVariant.map airQualityData)
      ⟨hm.m_historyDir.writeFile (sessionFile sessionId) (QJsonDocument.object sessionData)⟩

end HistoryManager

/-! ## Dates and times -/

/-- A valid `QDate`, as its Julian day number. -/
abbrev QDate := Int

/-- The Qt function `QDate::daysTo`. -/
def QDate.daysTo (d other : QDate) : Int := other - d

/-- A valid `QDateTime`: the date and the time of day. -/
structure QDateTime where
  date : QDate
  hour : Int
  minute : Int
  second : Int

namespace QDateTime

/-- The value of a run of decimal digits, `none` when a character is no digit. -/
def digits (cs : List Char) : Option Nat :=
  cs.foldl
    (fun acc c =>
      acc.bind (fun n => if c.isDigit then some (n * 10 + (c.toNat - 48)) else none))
    (some 0)

def isLeapYear (year : Nat) : Bool :=
  (year % 4 == 0 && year % 100 != 0) || year % 400 == 0

def daysInMonth (year month : Nat) : Nat :=
  if month == 2 then (if isLeapYear year then 29 else 28)
  else if month == 4 || month == 6 || month == 9 || month == 11 then 30
  else 31

/-- The Julian day number of a date of the Gregorian calendar. -/
def julianDay (year month day : Nat) : Int :=
  let a : Int := if month < 3 then 1 else 0
  let y : Int := (year : Int) + 4800 - a
  let m : Int := (month : Int) + 12 * a - 3
  (day : Int) + (153 * m + 2) / 5 - 32045 + 365 * y + y / 4 - y / 100 + y / 400

/-- The call `QDateTime::fromString(text, "yyyy-MM-dd HH:mm:ss")`: `none` stands for an invalid
`QDateTime`.  The text must have the nineteen characters of the format, with the
separators in place, and name a date and a time of day that exist. -/
def fromString (text : String) : Option QDateTime :=
  match text.data with
  | [y1, y2, y3, y4, c1, m1, m2, c2, d1, d2, c3, h1, h2, c4, n1, n2, c5, s1, s2] =>
    if c1 = '-' ∧ c2 = '-' ∧ c3 = ' ' ∧ c4 = ':' ∧ c5 = ':' then
      match digits [y1, y2, y3, y4], digits [m1, m2], digits [d1, d2], digits [h1, h2],
          digits [n1, n2], digits [s1, s2] with
      | some year, some month, some day, some hour, some minute, some second =>
        if 1 ≤ year ∧ 1 ≤ month ∧ month ≤ 12 ∧ 1 ≤ day ∧ day ≤ daysInMonth year month ∧
            hour < 24 ∧ minute < 60 ∧ second < 60 then
          some ⟨julianDay year month day, hour, minute, second⟩
        else none
      | _, _, _, _, _, _ => none
    else none
  | _ => none

end QDateTime

/-! ## The data window -/

/-- The aggregation grid `QMap<QDate, QMap<QString, QMap<int, double>>>`. -/
abbrev Grid := QMap QDate (QMap String (QMap Int Rat))

namespace Grid

/-- The statement `grid[date][sensorName][hour] += value`; `operator[]` makes the entries
that are missing, a missing number being `0.0`.  The sum is exact; `Rounded.add` is the
statement with the sum rounded as the addition of doubles rounds it. -/
def add (g : Grid) (date : QDate) (sensorName : String) (hour : Int) (value : Rat) : Grid :=
  let byName := QMap.value g date []
  let byHour := QMap.value byName sensorName []
  let old := QMap.value byHour hour 0
  QMap.insert g date (QMap.insert byName sensorName (QMap.insert byHour hour (old + value)))

/-- The number in the cell `(date, sensorName, hour)`, `none` when the grid has no such
cell. -/
def cell (g : Grid) (date : QDate) (sensorName : String) (hour : Int) : Option Rat :=
  ((QMap.find g date).bind (fun byName => QMap.find byName sensorName)).bind
    (fun byHour => QMap.find byHour hour)

end Grid

/-- A sensor check box: its `sensorId` property and whether it is checked. -/
structure QCheckBox where
  sensorId : Int
  isChecked : Bool

/-- The struct `SensorChartData`; a `QPointF` is the pair of its coordinates. -/
structure SensorChartData where
  sensorName : String
  minValue : Rat
  maxValue : Rat
  average : Rat
  trend : String
  points : List (Rat × Rat)
  deriving DecidableEq

/-- The members of `window_2_data_vis` the aggregation reads and writes; `wykr_kolowy` is
the state of the chart-type check box and `listWidget` the texts shown in the list. -/
structure window_2_data_vis where
  m_stationId : Int
  m_selectedDates : List QDate
  m_sensorCheckBoxes : List QCheckBox
  m_sensorIdToName : QMap Int String
  m_measurementData : QMap Int QVariantList
  m_historyManager : HistoryManager
  m_sessionId : String
  m_aggregatedData : Grid
  wykr_kolowy : Bool
  listWidget : List String

namespace window_2_data_vis

/-- The set `selectedSensorIds` that `aggregateData` builds from the check boxes. -/
def selectedSensorIds (w : window_2_data_vis) : QSet Int :=
  w.m_sensorCheckBoxes.foldl
    (fun ids checkBox => if checkBox.isChecked then ids.insert checkBox.sensorId else ids) []

/-- The body of the loop of `aggregateData` over the persisted measurements of a sensor. -/
def historyMeasurementStep (selectedDates : List QDate) (sensorName : String)
    (aggregatedData : Grid) (measurementVariant : QVariant) : Grid :=
  let measurement := measurementVariant.toMap
  let dateTimeStr := (measurement.get "date").toString
  match QDateTime.fromString dateTimeStr with
  | none => aggregatedData
  | some dateTime =>
    let date := dateTime.date
    if !selectedDates.contains date then aggregatedData
    else
      let hour := dateTime.hour
      let value : Rat :=
        if (measurement.get "value").isValid then (measurement.get "value").toDouble else 0
      if value ≠ 0 then aggregatedData.add date sensorName hour value else aggregatedData

/-- The body of the loop of `aggregateData` over the sensors of the session. -/
def historySensorStep (w : window_2_data_vis) (selected : QSet Int) (aggregatedData : Grid)
    (sensorVariant : QVariant) : Grid :=
  let sensor := sensorVariant.toMap
  let sensorId := (sensor.get "id").toInt
  if !selected.contains sensorId || (sensor.get "stationId").toInt != w.m_stationId then
    aggregatedData
  else
    let sensorName := ((sensor.get "param").toMap.get "paramName").toString
    let measurements := (sensor.get "measurements").toList
    measurements.foldl (historyMeasurementStep w.m_selectedDates sensorName) aggregatedData

/-- The body of the loop of `aggregateData` over the freshly fetched measurements of a
sensor. -/
def onlineMeasurementStep (selectedDates : List QDate) (sensorName : String)
    (aggregatedData : Grid) (value : QVariant) : Grid :=
  let obj := value.toMap
  let dateTimeStr := (obj.get "date").toString
  match QDateTime.fromString dateTimeStr with
  | none => aggregatedData
  | some dateTime =>
    let date := dateTime.date
    if !selectedDates.contains date then aggregatedData
    else
      let hour := dateTime.hour
      let measurementValue : Rat :=
        if (obj.get "value").isNull then 0 else (obj.get "value").toDouble
      if measurementValue ≠ 0 then aggregatedData.add date sensorName hour measurementValue
      else aggregatedData

/-- The body of the loop of `aggregateData` over the keys of `m_measurementData`. -/
def onlineSensorStep (w : window_2_data_vis) (selected : QSet Int) (aggregatedData : Grid)
    (sensorId : Int) : Grid :=
  if !selected.contains sensorId then aggregatedData
  else
    let sensorName := QMap.value w.m_sensorIdToName sensorId ""
    let values := QMap.value w.m_measurementData sensorId []
    values.foldl (onlineMeasurementStep w.m_selectedDates sensorName) aggregatedData

/-- The function `window_2_data_vis::aggregateData`: the grid it returns. -/
def aggregateData (w : window_2_data_vis) : Grid :=
  let aggregatedData : Grid := []
  let sessionData := w.m_historyManager.loadSessionDetails w.m_sessionId
  if sessionData.isEmpty then aggregatedData
  else
    let sensors := (sessionData.get "sensors").toList
    let selected := selectedSensorIds w
    let aggregatedData := sensors.foldl (historySensorStep w selected) aggregatedData
    (QMap.keys w.m_measurementData).foldl (onlineSensorStep w selected) aggregatedData

/-- The array the offline branch of `fetchMeasurementData` builds from the persisted
measurements of a sensor.  The conditional expression
`isValid() ? toDouble() : QJsonValue::Null` has the type `double`, so a missing value is
stored as the number 0. -/
def measurementsArray (measurements : QVariantList) : QVariantList :=
  measurements.map (fun measurementVariant =>
    let measurement := measurementVariant.toMap
    let measurementObj : QVariantMap := []
    let measurementObj :=
      measurementObj.set "date" (QVariant.str (measurement.get "date").toString)
    let measurementObj := measurementObj.set "value"
      (QVariant.num
        (if (measurement.get "value").isValid then (measurement.get "value").toDouble
        else 0))
    QVariant.map measurementObj)

/-- The loop of the offline branch of `fetchMeasurementData` over the sensors of the
session: the array made of the measurements of the first sensor with the id (the loop
breaks there), the empty array when no sensor has it. -/
def historyArray (sensors : QVariantList) (sensorId : Int) : QVariantList :=
  match sensors.find? (fun sensorVariant => (sensorVariant.toMap.get "id").toInt == sensorId) with
  | some sensorVariant => measurementsArray (sensorVariant.toMap.get "measurements").toList
  | none => []

/-- The function `window_2_data_vis::fetchMeasurementData`; `connected` is what
`checkInternetConnection` answers.  With a connection the function only sends a request,
without one it fills `m_measurementData` from the session history. -/
def fetchMeasurementData (w : window_2_data_vis) (connected : Bool) (sensorId : Int) :
    window_2_data_vis :=
  if connected then w
  else
    let sessionData := w.m_historyManager.loadSessionDetails w.m_sessionId
    if sessionData.isEmpty then w
    else
      let sensors := (sessionData.get "sensors").toList
      { w with
        m_measurementData :=
          QMap.insert w.m_measurementData sensorId (historyArray sensors sensorId) }

/-- The constant `std::numeric_limits<double>::max()`. -/
def DBL_MAX : Rat := 2 ^ 1024 - 2 ^ 971

/-- The running values of the statistics loop of `displayCharts`. -/
structure Stats where
  minValue : Rat
  maxValue : Rat
  sum : Rat
  count : Nat
  points : List (Rat × Rat)

/-- The values the statistics loop starts from. -/
def Stats.init : Stats := ⟨DBL_MAX, -DBL_MAX, 0, 0, []⟩

/-- The part of the loop body both paths share: one value enters the statistics as the
point `(x, value)`.  The sum is exact; `Rounded.includePoint` has it rounded. -/
def Stats.include (st : Stats) (x value : Rat) : Stats :=
  { minValue := if value < st.minValue then value else st.minValue
    maxValue := if value > st.maxValue then value else st.maxValue
    sum := st.sum + value
    count := st.count + 1
    points := st.points ++ [(x, value)] }

/-- The body of the loop over the hours when a single date is selected. -/
def singleDayStep (hourlyData : QMap Int Rat) (st : Stats) (hour : Nat) : Stats :=
  let value := QMap.value hourlyData (hour : Int) 0
  if value ≠ 0 then st.include (hour : Rat) value else st

/-- The body of the loop over the hours of one date when several dates are selected. -/
def multiDayStep (hourlyData : QMap Int Rat) (xBase : Rat) (st : Stats) (hour : Nat) : Stats :=
  let value := QMap.value hourlyData (hour : Int) 0
  st.include (xBase + (hour : Rat)) value

/-- The row `grid[date][sensorName]`, empty when the grid has none. -/
def hourlyData (g : Grid) (date : QDate) (sensorName : String) : QMap Int Rat :=
  QMap.value (QMap.value g date []) sensorName []

/-- The statistics loop of `displayCharts` for one sensor. -/
def collect (g : Grid) (singleDay : Bool) (sortedDates : List QDate) (earliestDate : QDate)
    (sensorName : String) : Stats :=
  if singleDay then
    (List.range 24).foldl (singleDayStep (hourlyData g earliestDate sensorName)) Stats.init
  else
    sortedDates.foldl
      (fun st date =>
        let daysSinceEarliest := QDate.daysTo earliestDate date
        let xBase : Rat := (daysSinceEarliest : Rat) * 24
        (List.range 24).foldl (multiDayStep (hourlyData g date sensorName) xBase) st)
      Stats.init

/-- The trend `displayCharts` derives from the points.  A zero denominator is handled as
the floating-point division does: `0/0` is NaN, which fails both comparisons, and a
non-zero numerator gives an infinity of its sign.  The sums, the quotient and the
comparison with one hundredth are exact; `Rounded.trendOf` has them rounded. -/
def trendOf (points : List (Rat × Rat)) : String :=
  if points.length ≥ 2 then
    let n : Rat := (points.length : Rat)
    let sumX := (points.map (fun p => p.1)).sum
    let sumY := (points.map (fun p => p.2)).sum
    let sumXY := (points.map (fun p => p.1 * p.2)).sum
    let sumXX := (points.map (fun p => p.1 * p.1)).sum
    let numerator := n * sumXY - sumX * sumY
    let denominator := n * sumXX - sumX * sumX
    if denominator = 0 then
      (if numerator > 0 then "rosnący" else "malejący")
    else
      let m := numerator / denominator
      if |m| < 1 / 100 then "stabilny"
      else if m > 0 then "rosnący"
      else "malejący"
  else "brak danych do analizy trendu"

/-- The record `displayCharts` computes for one sensor name.  The average is the exact
quotient of the exact sum; `Rounded.chartData` has both rounded. -/
def chartData (g : Grid) (singleDay : Bool) (sortedDates : List QDate) (earliestDate : QDate)
    (sensorName : String) : SensorChartData :=
  let st := collect g singleDay sortedDates earliestDate sensorName
  let average : Rat := if st.count > 0 then st.sum / (st.count : Rat) else 0
  let trend := trendOf st.points
  if st.count = 0 then
    ⟨sensorName, 0, 0, average, "brak danych", st.points⟩
  else
    ⟨sensorName, st.minValue, st.maxValue, average, trend, st.points⟩

/-- The function `window_2_data_vis::displayCharts`: the statistics records it computes, one for each
sensor name, in the order they are shown.  With an empty grid it only shows a message. -/
def displayCharts (w : window_2_data_vis) : List SensorChartData :=
  if w.m_aggregatedData.isEmpty then []
  else
    let singleDay := w.m_selectedDates.length == 1
    let sortedDates := w.m_selectedDates.insertionSort (fun a b => a ≤ b)
    match sortedDates with
    | [] => []
    | earliestDate :: _ =>
      (QMap.keys (QMap.value w.m_aggregatedData earliestDate [])).map
        (chartData w.m_aggregatedData singleDay sortedDates earliestDate)

end window_2_data_vis

/-! ## Notions the statements and their proofs use -/

namespace HistoryManager

/-- The index entry of a call, as an element of the index. -/
def entryOf (c : SessionArgs) : QVariant :=
  QVariant.map (indexEntry c.sessionId c.location c.radius c.timestamp)

/-- What the store holds when the sessions `kept` (newest first) are the retained ones:
the index lists them, and a session file exists exactly for them. -/
structure Holds (hm : HistoryManager) (kept : List SessionArgs) : Prop where
  index : hm.loadSessions = kept.map entryOf
  files : ∀ id : String,
    (hm.m_historyDir (sessionFile id)).isSome = true ↔ id ∈ kept.map SessionArgs.sessionId
  nodup : (kept.map SessionArgs.sessionId).Nodup
  bound : kept.length ≤ MAX_SESSIONS

/-- A run of 101 calls: call `i` has the id made of `i` letters `a`. -/
def manyCalls : List SessionArgs :=
  (List.range 101).map
    (fun i => ⟨String.mk (List.replicate i 'a'), "Lublin", 10, 51, 22, [], "2024-05-01T08:00:00"⟩)

/-- The sensors a session record holds, `sessionData["sensors"].toList()`. -/
def sensorsOf (sessionData : QVariantMap) : QVariantList :=
  (sessionData.get "sensors").toList

/-- The measurements a stored sensor holds, `sensor["measurements"].toList()`. -/
def measurementsOf (sensorVariant : QVariant) : QVariantList :=
  (sensorVariant.toMap.get "measurements").toList

/-- The id of an input sensor, `sensor["id"].toInt()`. -/
def inputId (sensor : QVariantMap) : Int := (sensor.get "id").toInt

/-- The input sensors whose id is neither stored already nor met earlier in the input,
in input order; `earlier` holds the ids of the inputs passed so far. -/
def firstNew (stored : List Int) : List Int → List QVariantMap → List QVariantMap
  | _, [] => []
  | earlier, s :: rest =>
    if inputId s ∈ stored ∨ inputId s ∈ earlier then
      firstNew stored (earlier ++ [inputId s]) rest
    else s :: firstNew stored (earlier ++ [inputId s]) rest

/-- The entries of the input measurements whose `sensorId` is `id`, in input order. -/
def entriesFor (measurements : List QVariantMap) (id : Int) : QVariantList :=
  (measurements.filter (fun m => (m.get "sensorId").toInt = id)).map measurementEntry

end HistoryManager

/-- One addition into the grid: the value and the cell it goes to. -/
structure Contribution where
  date : QDate
  sensorName : String
  hour : Int
  value : Rat

/-- Whether a contribution goes to the cell `(date, sensorName, hour)`. -/
def Contribution.hits (c : Contribution) (date : QDate) (sensorName : String) (hour : Int) :
    Bool :=
  c.date == date && c.sensorName == sensorName && c.hour == hour

namespace Grid

/-- A run of `+=` statements on the grid, in order. -/
def addAll (g : Grid) (cs : List Contribution) : Grid :=
  cs.foldl (fun g c => g.add c.date c.sensorName c.hour c.value) g

/-- The values a run of contributions adds to one cell, in order. -/
def valuesAt (cs : List Contribution) (date : QDate) (sensorName : String) (hour : Int) :
    List Rat :=
  (cs.filter (fun c => c.hits date sensorName hour)).map Contribution.value

end Grid

namespace window_2_data_vis

/-- Whether some check box with this sensor id is checked. -/
def isSelected (w : window_2_data_vis) (sensorId : Int) : Bool :=
  w.m_sensorCheckBoxes.any (fun checkBox => checkBox.isChecked && checkBox.sensorId == sensorId)

/-- The session record `aggregateData` loads. -/
def session (w : window_2_data_vis) : QVariantMap :=
  w.m_historyManager.loadSessionDetails w.m_sessionId

/-- The station a stored sensor belongs to, `sensor["stationId"].toInt()`. -/
def stationIdOf (sensorVariant : QVariant) : Int :=
  (sensorVariant.toMap.get "stationId").toInt

/-- The display name of a stored sensor, `sensor["param"].toMap()["paramName"].toString()`. -/
def paramNameOf (sensorVariant : QVariant) : String :=
  ((sensorVariant.toMap.get "param").toMap.get "paramName").toString

/-- The timestamp text of a measurement, `measurement["date"].toString()`. -/
def dateTextOf (measurementVariant : QVariant) : String :=
  (measurementVariant.toMap.get "date").toString

/-- The number a persisted measurement stands for: its `value`, `0.0` when there is none. -/
def historyValueOf (measurementVariant : QVariant) : Rat :=
  if (measurementVariant.toMap.get "value").isValid then
    (measurementVariant.toMap.get "value").toDouble
  else 0

/-- The number a freshly fetched measurement stands for: its `value`, `0.0` for null. -/
def onlineValueOf (value : QVariant) : Rat :=
  if (value.toMap.get "value").isNull then 0 else (value.toMap.get "value").toDouble

/-- Whether a timestamp text parses to the given date and hour. -/
def parsesTo (text : String) (date : QDate) (hour : Int) : Bool :=
  match QDateTime.fromString text with
  | some dateTime => dateTime.date == date && dateTime.hour == hour
  | none => false

/-- The non-zero values of the persisted measurements that belong to the cell
`(date, sensorName, hour)`: those of the session sensors with a selected id, of the
station under view and named `sensorName`, whose timestamp parses to the selected date
`date` and to `hour`. -/
def historyValues (w : window_2_data_vis) (date : QDate) (sensorName : String) (hour : Int) :
    List Rat :=
  ((HistoryManager.sensorsOf w.session).filter (fun sensorVariant =>
      w.isSelected (HistoryManager.sensorId sensorVariant) &&
      stationIdOf sensorVariant == w.m_stationId &&
      paramNameOf sensorVariant == sensorName)).flatMap
    (fun sensorVariant =>
      ((HistoryManager.measurementsOf sensorVariant).filter (fun measurementVariant =>
        parsesTo (dateTextOf measurementVariant) date hour &&
        w.m_selectedDates.contains date &&
        decide (historyValueOf measurementVariant ≠ 0))).map historyValueOf)

/-- What one measurement adds to the grid: nothing when its timestamp does not parse,
its date is not selected or its value is zero. -/
def contributionOf (selectedDates : List QDate) (sensorName : String) (text : String)
    (value : Rat) : List Contribution :=
  match QDateTime.fromString text with
  | none => []
  | some dateTime =>
    if selectedDates.contains dateTime.date && decide (value ≠ 0) then
      [⟨dateTime.date, sensorName, dateTime.hour, value⟩]
    else []

/-- What the persisted measurements of one session sensor add to the grid. -/
def historyContributions (w : window_2_data_vis) (sensorVariant : QVariant) :
    List Contribution :=
  if w.isSelected (HistoryManager.sensorId sensorVariant) &&
      stationIdOf sensorVariant == w.m_stationId then
    (HistoryManager.measurementsOf sensorVariant).flatMap (fun measurementVariant =>
      contributionOf w.m_selectedDates (paramNameOf sensorVariant)
        (dateTextOf measurementVariant) (historyValueOf measurementVariant))
  else []

/-- What the freshly fetched measurements under one key of `m_measurementData` add to the
grid. -/
def onlineContributions (w : window_2_data_vis) (sensorId : Int) : List Contribution :=
  if w.isSelected sensorId then
    (QMap.value w.m_measurementData sensorId []).flatMap (fun value =>
      contributionOf w.m_selectedDates (QMap.value w.m_sensorIdToName sensorId "")
        (dateTextOf value) (onlineValueOf value))
  else []

/-- The ids of the checked sensor boxes, the list `selectedSensorIds` of
`onDisplayButtonClicked`. -/
def checkedSensorIds (w : window_2_data_vis) : List Int :=
  (w.m_sensorCheckBoxes.filter (fun checkBox => checkBox.isChecked)).map
    (fun checkBox => checkBox.sensorId)

/-- The window with `m_measurementData` replaced. -/
def withCache (w : window_2_data_vis) (cache : QMap Int QVariantList) : window_2_data_vis :=
  { w with m_measurementData := cache }

/-- The cache after a run of offline `fetchMeasurementData` calls for the ids `ids`,
started with the cache `init`. -/
def fetchedCache (sensors : QVariantList) (ids : List Int) (init : QMap Int QVariantList) :
    QMap Int QVariantList :=
  ids.foldl (fun m k => QMap.insert m k (historyArray sensors k)) init

/-- The fetch part of `onDisplayButtonClicked`: `m_measurementData.clear()` on entry and
one `fetchMeasurementData` call for each checked sensor. -/
def fetchSelected (w : window_2_data_vis) (connected : Bool) : window_2_data_vis :=
  (checkedSensorIds w).foldl (fun w sensorId => fetchMeasurementData w connected sensorId)
    (w.withCache [])

end window_2_data_vis

namespace window_2_data_vis

/-- The fresh cache without the measurements whose value is zero or null. -/
def withoutZeros (cache : QMap Int QVariantList) : QMap Int QVariantList :=
  cache.map (fun entry =>
    (entry.1, entry.2.filter (fun value => decide (onlineValueOf value ≠ 0))))

/-- A stored sensor of station 10 with id 1, named PM10, with five persisted
measurements: on 2024-05-01 the values 7 and 3 in hour 8, a zero in hour 9 and 4 in hour
10, and one with a malformed timestamp. -/
def exampleSensor : QVariant :=
  QVariant.map
    [("id", QVariant.num 1),
      ("measurements", QVariant.list
        [QVariant.map [("date", QVariant.str "2024-05-01 08:00:00"), ("value", QVariant.num 7)],
          QVariant.map [("date", QVariant.str "2024-05-01 08:30:00"), ("value", QVariant.num 3)],
          QVariant.map [("date", QVariant.str "2024-05-01 09:00:00"), ("value", QVariant.num 0)],
          QVariant.map [("date", QVariant.str "2024-05-01 10:15:00"), ("value", QVariant.num 4)],
          QVariant.map [("date", QVariant.str "yesterday"), ("value", QVariant.num 5)]]),
      ("param", QVariant.map [("paramName", QVariant.str "PM10")]),
      ("stationId", QVariant.num 10)]

/-- A store whose only session, `s1`, holds `exampleSensor`. -/
def exampleStore : HistoryManager :=
  ⟨QDir.writeFile QDir.empty (HistoryManager.sessionFile "s1")
    (QJsonDocument.object [("sensors", QVariant.list [exampleSensor])])⟩

/-- The window of station 10 on `exampleStore`: sensor 1 checked, 2024-05-01 (Julian day
2460432) selected, nothing fetched yet. -/
def exampleWindow : window_2_data_vis :=
  { m_stationId := 10
    m_selectedDates := [2460432]
    m_sensorCheckBoxes := [⟨1, true⟩]
    m_sensorIdToName := [(1, "PM10")]
    m_measurementData := []
    m_historyManager := exampleStore
    m_sessionId := "s1"
    m_aggregatedData := []
    wykr_kolowy := true
    listWidget := [] }

/-- The window `exampleWindow` with a fresh cache for sensor 1 that holds a zero for hour 11 and a
null for hour 12. -/
def zeroCacheWindow : window_2_data_vis :=
  { exampleWindow with
    m_measurementData :=
      [(1, [QVariant.map [("date", QVariant.str "2024-05-01 11:00:00"),
              ("value", QVariant.num 0)],
            QVariant.map [("date", QVariant.str "2024-05-01 12:00:00"),
              ("value", QVariant.null)]])] }

end window_2_data_vis

namespace window_2_data_vis

/-- The number `displayCharts` reads for an hour of a row of the grid,
`hourlyData.value(hour, 0.0)`. -/
def bucket (g : Grid) (date : QDate) (sensorName : String) (hour : Nat) : Rat :=
  QMap.value (hourlyData g date sensorName) (hour : Int) 0

/-- The hours 0 to 23 whose bucket is not zero, ascending. -/
def includedHours (g : Grid) (date : QDate) (sensorName : String) : List Nat :=
  (List.range 24).filter (fun hour => decide (bucket g date sensorName hour ≠ 0))

/-- A window with one selected date and the hourly values 10, 0 and 20 for the hours 8,
9 and 10 of the sensor PM10 in its grid. -/
def statsWindow : window_2_data_vis :=
  { exampleWindow with
    m_aggregatedData := [(2460432, [("PM10", [(8, 10), (9, 0), (10, 20)])])] }

/-- The running values of the statistics loop agree with the points collected so far. -/
def Stats.Agrees (st : Stats) : Prop :=
  st.count = st.points.length ∧
  st.sum = (st.points.map Prod.snd).sum ∧
  st.minValue = (st.points.map Prod.snd).foldl min DBL_MAX ∧
  st.maxValue = (st.points.map Prod.snd).foldl max (-DBL_MAX)

/-- The points the specification names for several selected dates: for each date in the
given order and each hour 0 to 23 ascending, the point
`(daysBetween(earliest, date) * 24 + hour, bucket)`. -/
def multiPoints (g : Grid) (dates : List QDate) (earliest : QDate) (sensorName : String) :
    List (Rat × Rat) :=
  dates.flatMap (fun date =>
    (List.range 24).map (fun hour : Nat =>
      (((QDate.daysTo earliest date : Int) : Rat) * 24 + (hour : Rat),
        bucket g date sensorName hour)))

/-- The numerator `n * Sum(x*y) - Sum(x) * Sum(y)` of the least-squares slope. -/
def slopeNumerator (points : List (Rat × Rat)) : Rat :=
  (points.length : Rat) * (points.map (fun p => p.1 * p.2)).sum -
    (points.map (fun p => p.1)).sum * (points.map (fun p => p.2)).sum

/-- The denominator `n * Sum(x*x) - Sum(x)^2` of the least-squares slope. -/
def slopeDenominator (points : List (Rat × Rat)) : Rat :=
  (points.length : Rat) * (points.map (fun p => p.1 * p.1)).sum -
    (points.map (fun p => p.1)).sum ^ 2

/-- The ordinary least-squares slope of the second coordinate against the first. -/
def slope (points : List (Rat × Rat)) : Rat :=
  slopeNumerator points / slopeDenominator points

/-- A window with one selected date and a grid row for PM10 whose only bucket is zero. -/
def zeroRowWindow : window_2_data_vis :=
  { exampleWindow with
    m_aggregatedData := [(2460432, [("PM10", [(8, 0)])])] }

/-- A window with one selected date and a grid row for PM10 whose only bucket holds 7 at
hour 8. -/
def onePointWindow : window_2_data_vis :=
  { exampleWindow with
    m_aggregatedData := [(2460432, [("PM10", [(8, 7)])])] }

/-- The window `exampleWindow` with a fresh cache that holds the value 5 for hour 11 of
sensor 1. -/
def freshWindow : window_2_data_vis :=
  { exampleWindow with
    m_measurementData :=
      [(1, [QVariant.map [("date", QVariant.str "2024-05-01 11:00:00"),
              ("value", QVariant.num 5)]])] }

/-- The window `freshWindow` opened on the session `s2`, which has no file in the store. -/
def missingSessionWindow : window_2_data_vis :=
  { freshWindow with m_sessionId := "s2" }

end window_2_data_vis

namespace HistoryManager

/-- One call on the store. -/
inductive StoreCall where
  | createSession (c : SessionArgs) : StoreCall
  | addSensors (sessionId : String) (sensors : List QVariantMap) : StoreCall
  | addMeasurements (sessionId : String) (measurements : List QVariantMap) : StoreCall
  | setAirQuality (sessionId : String) (airQualityData : QVariantMap) : StoreCall

/-- The store after one call. -/
def runCall (hm : HistoryManager) : StoreCall → HistoryManager
  | StoreCall.createSession c => hm.createSession c
  | StoreCall.addSensors sessionId sensors => hm.addSessionSensors sessionId sensors
  | StoreCall.addMeasurements sessionId measurements =>
    hm.addSessionMeasurements sessionId measurements
  | StoreCall.setAirQuality sessionId airQualityData =>
    hm.addSessionAirQuality sessionId airQualityData

/-- The store after a sequence of calls, first call first. -/
def runCalls (hm : HistoryManager) (calls : List StoreCall) : HistoryManager :=
  calls.foldl runCall hm

/-- The sessions a sequence of calls creates, in creation order. -/
def created : List StoreCall → List SessionArgs
  | [] => []
  | StoreCall.createSession c :: rest => c :: created rest
  | _ :: rest => created rest

/-- Three calls with the ids a, b and c, in this order. -/
def threeCalls : List SessionArgs :=
  [⟨"a", "Lublin", 10, 51, 22, [], "2024-05-01T08:00:00"⟩,
    ⟨"b", "Radom", 5, 51, 21, [], "2024-05-01T09:00:00"⟩,
    ⟨"c", "Gdynia", 15, 54, 18, [], "2024-05-01T10:00:00"⟩]

/-- A run that creates the sessions a and b and updates session a in between. -/
def mixedCalls : List StoreCall :=
  [StoreCall.createSession ⟨"a", "Lublin", 10, 51, 22, [], "2024-05-01T08:00:00"⟩,
    StoreCall.addSensors "a" [[("id", QVariant.num 1)]],
    StoreCall.createSession ⟨"b", "Radom", 5, 51, 21, [], "2024-05-01T09:00:00"⟩,
    StoreCall.setAirQuality "a" [("indexLevelName", QVariant.str "Dobry")]]

/-- The store of one session, `s1`, that holds sensor 1 with the measurement `m`, a
radius and an air-quality snapshot. -/
def oneSensorStore : HistoryManager :=
  ⟨QDir.writeFile QDir.empty (sessionFile "s1")
    (QJsonDocument.object
      [("airQuality", QVariant.map [("indexLevelName", QVariant.str "Dobry")]),
        ("radius", QVariant.num 5),
        ("sensors", QVariant.list
          [QVariant.map [("id", QVariant.num 1),
            ("measurements", QVariant.list [QVariant.str "m"]),
            ("stationId", QVariant.num 10)]])])⟩

end HistoryManager

/-! ## The display button and the calendar of the data window -/

namespace QMap

variable {K V : Type}

/-- The expression `m[key]` on a map that is not const, taken for what it does to the
map: a key that is missing is added with the default value. -/
def touch [DecidableEq K] [KeyOrder K] (m : QMap K V) (k : K) (dflt : V) : QMap K V :=
  if contains m k then m else insert m k dflt

end QMap

namespace Grid

/-- The expression `grid[date][sensorName]` on a grid that is not const, taken for what
it does to the grid: the date and the row are added, empty, when they are missing. -/
def touch (g : Grid) (date : QDate) (sensorName : String) : Grid :=
  let g := QMap.touch g date []
  QMap.insert g date (QMap.touch (QMap.value g date []) sensorName [])

end Grid

namespace window_2_data_vis

/-- The window with the items of `listWidget` replaced. -/
def withItems (w : window_2_data_vis) (items : List String) : window_2_data_vis :=
  { w with listWidget := items }

/-- The window with `m_aggregatedData` replaced. -/
def withGrid (w : window_2_data_vis) (g : Grid) : window_2_data_vis :=
  { w with m_aggregatedData := g }

/-- The call `ui->listWidget->addItem(text)`; an item is its text, the empty text for an
item that only carries a widget. -/
def addItem (w : window_2_data_vis) (text : String) : window_2_data_vis :=
  w.withItems (w.listWidget ++ [text])

/-- The function `window_2_data_vis::displayAirQuality`, as far as the list goes: it puts
an item that carries the air-quality widget, and no text, in row 0. -/
def displayAirQuality (w : window_2_data_vis) : window_2_data_vis :=
  w.withItems ("" :: w.listWidget)

/-- The function `window_2_data_vis::displayCharts`, as far as the members go: with an
empty grid one message; otherwise two items (the statistics and the chart) for each
sensor name of the earliest date, and the rows that reading `m_aggregatedData[..][..]`
through `operator[]` adds to the grid. -/
def displayChartsMembers (w : window_2_data_vis) : window_2_data_vis :=
  if w.m_aggregatedData.isEmpty then
    w.addItem "Brak danych do wyświetlenia dla wybranych dat i sensorów."
  else
    let singleDay := w.m_selectedDates.length == 1
    let sortedDates := w.m_selectedDates.insertionSort (fun a b => a ≤ b)
    match sortedDates with
    | [] => w
    | earliestDate :: _ =>
      let w := w.withGrid (QMap.touch w.m_aggregatedData earliestDate [])
      (QMap.keys (QMap.value w.m_aggregatedData earliestDate [])).foldl
        (fun w sensorName =>
          let rows := if singleDay then [earliestDate] else sortedDates
          let w := w.withGrid
            (rows.foldl (fun g date => Grid.touch g date sensorName) w.m_aggregatedData)
          (w.addItem "").addItem "")
        w

/-- The function `window_2_data_vis::onDisplayButtonClicked`. -/
def onDisplayButtonClicked (w : window_2_data_vis) (connected : Bool) : window_2_data_vis :=
  let w := w.withItems []
  let w := displayAirQuality w
  let w := w.withCache []
  let selectedSensorIds := checkedSensorIds w
  if selectedSensorIds.isEmpty then w.addItem "Proszę wybrać co najmniej jeden sensor."
  else if w.m_selectedDates.isEmpty then w.addItem "Proszę wybrać co najmniej jeden dzień."
  else
    let isLineChart := w.wykr_kolowy
    if !isLineChart then w.addItem "Proszę wybrać typ wykresu."
    else
      let w := selectedSensorIds.foldl
        (fun w sensorId => fetchMeasurementData w connected sensorId) w
      let w := w.addItem "Agregowanie danych..."
      let w := w.withGrid (aggregateData w)
      let w := w.withItems (w.listWidget.erase "Agregowanie danych...")
      displayChartsMembers w

end window_2_data_vis

/-! ## The station reply of the main window -/

/-- The functions `onNetworkReply` calls whose values the model does not compute:
`QString::toDouble`, `QString::toLower`, `QString::trimmed`, and
`MainWindow::calculateDistance`, which is made of `std::sin`, `std::cos`, `std::atan2`
and `std::sqrt`. -/
structure Library where
  toDouble : String → Rat
  toLower : String → String
  trimmed : String → String
  calculateDistance : Rat → Rat → Rat → Rat → Rat

/-- A `QNetworkReply`, as `onNetworkReply` reads it: whether its URL contains the address
of the station endpoint, the error text (`none` for `NoError`), and the document
`QJsonDocument::fromJson` makes of the bytes read (`none` when no byte was read). -/
structure QNetworkReply where
  urlContainsFindAll : Bool
  errorString : Option String
  responseData : Option QJsonDocument

namespace QJsonDocument

def isArray : QJsonDocument → Bool
  | array _ => true
  | _ => false

/-- The call `QJsonDocument::array()`: empty unless the document is an array. -/
def toArray : QJsonDocument → QVariantList
  | array a => a
  | _ => []

end QJsonDocument

/-- The members of `MainWindow` the station reply reads and writes. -/
structure MainWindow where
  m_stations : QVariantList
  m_allStations : QVariantList
  m_status : String
  m_inputLocation : String
  m_locationLat : Rat
  m_locationLon : Rat
  m_searchRadius : Rat
  m_currentSessionId : String
  m_historyManager : HistoryManager

namespace MainWindow

/-- The window with `m_status` replaced. -/
def withStatus (mw : MainWindow) (status : String) : MainWindow :=
  { mw with m_status := status }

/-- The window with `m_stations` replaced. -/
def withStations (mw : MainWindow) (stations : QVariantList) : MainWindow :=
  { mw with m_stations := stations }

/-- The window with `m_allStations` replaced. -/
def withAllStations (mw : MainWindow) (stations : QVariantList) : MainWindow :=
  { mw with m_allStations := stations }

/-- The window with `m_historyManager` replaced. -/
def withStore (mw : MainWindow) (hm : HistoryManager) : MainWindow :=
  { mw with m_historyManager := hm }

/-- The catch block of `onNetworkReply` for a `std::runtime_error` with the text `what`. -/
def failed (mw : MainWindow) (what : String) : MainWindow :=
  mw.withStatus ("Błąd pobierania danych: " ++ what)

/-- The text `city` that `onNetworkReply` takes from `m_inputLocation`. -/
def cityOf (lib : Library) (inputLocation : String) : String :=
  if inputLocation.data.contains ',' then
    let inputParts := (inputLocation.splitOn ",").filter (fun part => part != "")
    if inputParts.length ≥ 2 then lib.trimmed (inputParts.getD 1 "") else ""
  else lib.trimmed inputLocation

/-- The record `stationData` that the first loop of `onNetworkReply` makes of one element
of the reply. -/
def stationData (lib : Library) (mw : MainWindow) (value : QVariant) : QVariantMap :=
  let station := value.toMap
  let cityObj := (station.get "city").toMap
  let cityName := (cityObj.get "name").toString
  let stationData : QVariantMap := []
  let stationData := stationData.set "stationId" (QVariant.num ((station.get "id").toInt : Rat))
  let stationData := stationData.set "stationName" (QVariant.str (station.get "stationName").toString)
  let stationData := stationData.set "lat" (QVariant.str (station.get "gegrLat").toString)
  let stationData := stationData.set "lon" (QVariant.str (station.get "gegrLon").toString)
  let stationData := stationData.set "address" (QVariant.str (station.get "addressStreet").toString)
  let stationData := stationData.set "cityName" (QVariant.str cityName)
  let stationData := stationData.set "sessionId" (QVariant.str mw.m_currentSessionId)
  if mw.m_locationLat ≠ 0 ∧ mw.m_locationLon ≠ 0 then
    let lat := lib.toDouble (stationData.get "lat").toString
    let lon := lib.toDouble (stationData.get "lon").toString
    let distance := lib.calculateDistance mw.m_locationLat mw.m_locationLon lat lon
    stationData.set "distance" (QVariant.num distance)
  else stationData.set "distance" (QVariant.num (-1))

/-- The body of the first loop of `onNetworkReply`; the state is the window and the flag
`found`. -/
def stationStep (lib : Library) (city : String) (st : MainWindow × Bool) (value : QVariant) :
    MainWindow × Bool :=
  let mw := st.1
  let data := stationData lib mw value
  let cityName := (data.get "cityName").toString
  let mw := mw.withAllStations (mw.m_allStations ++ [QVariant.map data])
  if lib.toLower cityName = lib.toLower city then
    (mw.withStations (mw.m_stations ++ [QVariant.map data]), true)
  else (mw, st.2)

/-- The three steps both branches of `onNetworkReply` sort a station list with: pair every
station with its `distance`, `std::sort` the pairs by the first component, take the
stations out again.  The sort is the stable one; `std::sort` leaves the order of pairs
with equal distances open. -/
def sortByDistance (stations : QVariantList) : QVariantList :=
  let stationsWithDistance : List (Rat × QVariantMap) :=
    stations.map (fun station =>
      let stationData := station.toMap
      ((stationData.get "distance").toDouble, stationData))
  let sorted := stationsWithDistance.insertionSort (fun a b => a.1 ≤ b.1)
  sorted.map (fun pair => QVariant.map pair.2)

/-- The body of the loop of `onNetworkReply` over `m_allStations` when no station of the
city was found; the state is `nearbyStations` and `nearbyCities`. -/
def nearbyStep (searchRadius : Rat) (st : QVariantList × List String) (station : QVariant) :
    QVariantList × List String :=
  let stationData := station.toMap
  let distance := (stationData.get "distance").toDouble
  if searchRadius > 0 then
    if distance ≤ searchRadius then
      let cityName := (stationData.get "cityName").toString
      (st.1 ++ [QVariant.map stationData],
        if st.2.contains cityName then st.2 else st.2 ++ [cityName])
    else st
  else
    if st.1.isEmpty ∨
        distance < (((st.1.headD QVariant.null).toMap).get "distance").toDouble then
      ([QVariant.map stationData], [(stationData.get "cityName").toString])
    else st

/-- The part of `onNetworkReply` between the first loop and the `addSession` call: the
status text and the station list for the city found or not found. -/
def chooseStations (mw : MainWindow) (city : String) (found : Bool) : MainWindow :=
  if found then
    let mw := mw.withStatus ("Znaleziono stacje w: " ++ city)
    if mw.m_locationLat ≠ 0 ∧ mw.m_locationLon ≠ 0 then
      mw.withStations (sortByDistance mw.m_stations)
    else mw
  else
    let mw := mw.withStatus ("Nie znaleziono stacji w: " ++ city)
    if mw.m_locationLat ≠ 0 ∧ mw.m_locationLon ≠ 0 then
      let nearby := mw.m_allStations.foldl (nearbyStep mw.m_searchRadius) ([], [])
      if !nearby.1.isEmpty then
        (mw.withStations (sortByDistance nearby.1)).withStatus
          (mw.m_status ++ "\nZnaleziono stacje w pobliżu: " ++ String.intercalate ", " nearby.2)
      else mw.withStatus (mw.m_status ++ "\nBrak stacji w zadanym promieniu.")
    else mw

/-- The function `MainWindow::onNetworkReply`; `timestamp` is the clock reading
`addSession` takes. -/
def onNetworkReply (lib : Library) (mw : MainWindow) (reply : QNetworkReply)
    (timestamp : String) : MainWindow :=
  if !reply.urlContainsFindAll then mw
  else
    match reply.errorString with
    | some text => mw.failed ("Network error: " ++ text)
    | none =>
      match reply.responseData with
      | none => mw.failed "Empty response from server"
      | some doc =>
        if doc.isNull then mw.failed "Failed to parse stations response as JSON"
        else if !doc.isArray then mw.failed "Stations response is not a JSON array"
        else
          let stationsArray := doc.toArray
          let mw := (mw.withStations []).withAllStations []
          let city := cityOf lib mw.m_inputLocation
          if city.isEmpty then mw.failed "Invalid location format"
          else
            let st := stationsArray.foldl (stationStep lib city) (mw, false)
            let mw := chooseStations st.1 city st.2
            mw.withStore
              (mw.m_historyManager.addSession mw.m_currentSessionId mw.m_inputLocation
                mw.m_searchRadius mw.m_locationLat mw.m_locationLon mw.m_stations timestamp)

end MainWindow

/-! ## Further notions the statements use -/

namespace Grid

/-- Every key of the grid is as `D`, `N` and `H` say: the dates satisfy `D`, the sensor
names under any date `N`, the hours under any date and name `H`. -/
def Within (D : QDate → Prop) (N : String → Prop) (H : Int → Prop) (g : Grid) : Prop :=
  ∀ date ∈ QMap.keys g, D date ∧
    ∀ sensorName ∈ QMap.keys (QMap.value g date []), N sensorName ∧
      ∀ hour ∈ QMap.keys (QMap.value (QMap.value g date []) sensorName []), H hour

/-- What a run of `+=` statements from the empty grid keeps: under every date the sensor
names ascend strictly, and every row has a bucket. -/
def Grown (g : Grid) : Prop :=
  ∀ date : QDate,
    (QMap.keys (QMap.value g date [])).Pairwise (fun a b => KeyOrder.lt a b = true) ∧
    ∀ sensorName ∈ QMap.keys (QMap.value g date []),
      QMap.value (QMap.value g date []) sensorName [] ≠ []

end Grid

namespace window_2_data_vis

/-- The sensor names `aggregateData` can write under: the `paramName` of a session sensor
of the station under view whose id is selected, and the name `m_sensorIdToName` holds
for a selected key of the fresh cache. -/
def DisplayName (w : window_2_data_vis) (sensorName : String) : Prop :=
  (∃ sensorVariant ∈ HistoryManager.sensorsOf w.session,
    w.isSelected (HistoryManager.sensorId sensorVariant) = true ∧
    stationIdOf sensorVariant = w.m_stationId ∧ paramNameOf sensorVariant = sensorName) ∨
  (∃ sensorId ∈ QMap.keys w.m_measurementData,
    w.isSelected sensorId = true ∧ QMap.value w.m_sensorIdToName sensorId "" = sensorName)

/-- Whether the timestamp of a measurement parses in the format `yyyy-MM-dd HH:mm:ss`. -/
def wellFormed (measurementVariant : QVariant) : Bool :=
  (QDateTime.fromString (dateTextOf measurementVariant)).isSome

/-- A stored sensor without the measurements whose timestamp does not parse. -/
def cleanSensor (sensorVariant : QVariant) : QVariant :=
  QVariant.map (sensorVariant.toMap.set "measurements"
    (QVariant.list ((HistoryManager.measurementsOf sensorVariant).filter wellFormed)))

/-- A session record without the measurements whose timestamp does not parse. -/
def cleanSession (sessionData : QVariantMap) : QVariantMap :=
  sessionData.set "sensors"
    (QVariant.list ((HistoryManager.sensorsOf sessionData).map cleanSensor))

/-- The fresh cache without the measurements whose timestamp does not parse. -/
def cleanCache (cache : QMap Int QVariantList) : QMap Int QVariantList :=
  cache.map (fun entry => (entry.1, entry.2.filter wellFormed))

/-- The store of the window with the session file of the window rewritten without the
measurements whose timestamp does not parse; a session that reads as the empty record is
left as it is. -/
def cleanStore (w : window_2_data_vis) : HistoryManager :=
  if w.session.isEmpty then w.m_historyManager
  else
    ⟨w.m_historyManager.m_historyDir.writeFile (HistoryManager.sessionFile w.m_sessionId)
      (QJsonDocument.object (cleanSession w.session))⟩

/-- The window with `m_historyManager` replaced. -/
def withStore (w : window_2_data_vis) (hm : HistoryManager) : window_2_data_vis :=
  { w with m_historyManager := hm }

/-- The window after every measurement whose timestamp does not parse is removed from the
persisted history of its session and from its fresh cache. -/
def withoutMalformed (w : window_2_data_vis) : window_2_data_vis :=
  (w.withStore (cleanStore w)).withCache (cleanCache w.m_measurementData)

/-- The window `exampleWindow` with a fresh cache for sensor 1 that holds a measurement
with a malformed timestamp followed by the value 5 for hour 11. -/
def malformedWindow : window_2_data_vis :=
  { exampleWindow with
    m_measurementData :=
      [(1, [QVariant.map [("date", QVariant.str "2024-05-01T11:00:00"),
              ("value", QVariant.num 9)],
            QVariant.map [("date", QVariant.str "2024-05-01 11:00:00"),
              ("value", QVariant.num 5)]])] }

/-- A window of `exampleStore` with sensor 1 checked and sensor 2 not, the date
2024-05-01 selected, and a fresh cache that holds for sensor 1 a value on the selected
date and one on the day after, and for sensor 2 a value on the selected date. -/
def restrictedWindow : window_2_data_vis :=
  { exampleWindow with
    m_sensorCheckBoxes := [⟨1, true⟩, ⟨2, false⟩]
    m_sensorIdToName := [(1, "PM10"), (2, "NO2")]
    m_measurementData :=
      [(1, [QVariant.map [("date", QVariant.str "2024-05-01 11:00:00"),
              ("value", QVariant.num 5)],
            QVariant.map [("date", QVariant.str "2024-05-02 11:00:00"),
              ("value", QVariant.num 6)]]),
        (2, [QVariant.map [("date", QVariant.str "2024-05-01 11:00:00"),
              ("value", QVariant.num 8)]])] }

/-- A window with the two selected dates 2024-05-01 and 2024-05-02 whose grid holds PM10
on both dates and NO2 on the later date only. -/
def laterOnlyWindow : window_2_data_vis :=
  { exampleWindow with
    m_selectedDates := [2460432, 2460433]
    m_aggregatedData :=
      [(2460432, [("PM10", [(8, 10)])]),
        (2460433, [("NO2", [(9, 4)]), ("PM10", [(0, 30)])])] }

/-- The window `exampleWindow` with no date selected. -/
def noDateWindow : window_2_data_vis :=
  { exampleWindow with m_selectedDates := [] }

/-- The window `exampleWindow` with no sensor checked and no date selected. -/
def noSensorWindow : window_2_data_vis :=
  { exampleWindow with m_sensorCheckBoxes := [⟨1, false⟩], m_selectedDates := [] }

/-- The window `exampleWindow` with the chart-type box not checked. -/
def noChartTypeWindow : window_2_data_vis :=
  { exampleWindow with wykr_kolowy := false }

end window_2_data_vis

namespace HistoryManager

/-- A run of 101 calls in which the id of the first call, the empty text, comes back in
the last one: the first 100 calls of `manyCalls` and then the first of them again, with
another location. -/
def reusedIdCalls : List SessionArgs :=
  manyCalls.take 100 ++ [⟨"", "Radom", 5, 51, 21, [], "2024-05-02T08:00:00"⟩]

end HistoryManager

namespace MainWindow

/-- The distance a saved station carries, `stationData["distance"].toDouble()`. -/
def distanceOf (station : QVariant) : Rat :=
  (station.toMap.get "distance").toDouble

/-- What the first loop of `onNetworkReply` keeps: the members the station record is made
of and the ones `addSession` is called with, every station listed is the record of an
element of the reply, and no station of the city is listed while none was found. -/
structure LoopKeeps (lib : Library) (mw : MainWindow) (stationsArray : QVariantList)
    (st : MainWindow × Bool) : Prop where
  lat : st.1.m_locationLat = mw.m_locationLat
  lon : st.1.m_locationLon = mw.m_locationLon
  radius : st.1.m_searchRadius = mw.m_searchRadius
  input : st.1.m_inputLocation = mw.m_inputLocation
  session : st.1.m_currentSessionId = mw.m_currentSessionId
  store : st.1.m_historyManager = mw.m_historyManager
  all : ∀ s ∈ st.1.m_allStations, ∃ value ∈ stationsArray,
    s = QVariant.map (stationData lib mw value)
  matched : ∀ s ∈ st.1.m_stations, ∃ value ∈ stationsArray,
    s = QVariant.map (stationData lib mw value)
  none_found : st.2 = false → st.1.m_stations = []

/-- A stand-in for the library, for the examples: texts of decimal digits are read as
numbers, letters are lowered and blanks trimmed character by character, and the distance
is the sum of the differences of the coordinates. -/
def exampleLibrary : Library :=
  { toDouble := fun text => (((QDateTime.digits text.data).getD 0 : Nat) : Rat)
    toLower := fun text => String.mk (text.data.map Char.toLower)
    trimmed := fun text =>
      String.mk (((text.data.dropWhile Char.isWhitespace).reverse.dropWhile
        Char.isWhitespace).reverse)
    calculateDistance := fun lat1 lon1 lat2 lon2 => |lat2 - lat1| + |lon2 - lon1| }

/-- A main window that searched for Lublin at the coordinates (51, 22). -/
def exampleMainWindow : MainWindow :=
  { m_stations := []
    m_allStations := []
    m_status := ""
    m_inputLocation := "Lublin"
    m_locationLat := 51
    m_locationLon := 22
    m_searchRadius := 10
    m_currentSessionId := "s1"
    m_historyManager := HistoryManager.empty }

/-- A station of the reply. -/
def exampleStation (id : Rat) (city lat lon : String) : QVariant :=
  QVariant.map
    [("city", QVariant.map [("name", QVariant.str city)]),
      ("gegrLat", QVariant.str lat), ("gegrLon", QVariant.str lon),
      ("id", QVariant.num id)]

/-- A reply with three stations of Lublin, at the distances 3, 1 and 2, and one of
Radom. -/
def exampleReply : QNetworkReply :=
  { urlContainsFindAll := true
    errorString := none
    responseData := some (QJsonDocument.array
      [exampleStation 1 "Lublin" "54" "22", exampleStation 2 "Lublin" "51" "23",
        exampleStation 3 "Radom" "51" "21", exampleStation 4 "Lublin" "52" "23"]) }

end MainWindow

/-! ## The arithmetic of doubles

The embedding above reads a double as the rational it stands for and computes with it
exactly.  Here the loops whose results depend on the rounding of doubles, the `+=` of
`aggregateData` and the statistics of `displayCharts`, are embedded once more, with
every operation on doubles followed by a rounding `fl`.  With `roundDouble` for `fl` this
is the arithmetic of IEEE 754 binary64 in the default rounding mode; with the identity
it is the embedding above.  A conversion of an `int` or of a day count to `double` is
exact and written without `fl`; no two operations are fused into one. -/

/-- The power `2 ^ e` of an integer exponent. -/
def pow2 (e : Int) : Rat :=
  if 0 ≤ e then ((2 ^ e.toNat : Nat) : Rat) else 1 / ((2 ^ (-e).toNat : Nat) : Rat)

/-- The natural number nearest to the quotient `n / d` of two natural numbers; of two
that are equally near, the even one. -/
def roundQuotient (n d : Nat) : Nat :=
  let f := n / d
  let r := n % d
  if 2 * r < d then f
  else if d < 2 * r then f + 1
  else if f % 2 = 0 then f
  else f + 1

/-- The natural number nearest to a rational that is not negative; of two that are
equally near, the even one. -/
def roundNat (m : Rat) : Nat :=
  roundQuotient m.num.natAbs m.den

/-- The search of `floorLog2`: the number of halvings that take `n` below 2, at most
`fuel` of them. -/
def log2Aux : Nat → Nat → Nat
  | 0, _ => 0
  | fuel + 1, n => if 2 ≤ n then log2Aux fuel (n / 2) + 1 else 0

/-- The position of the leading binary digit of `n`, the floor of its logarithm to the
base 2; 0 for 0. -/
def floorLog2 (n : Nat) : Nat := log2Aux n n

/-- The binary exponent of a positive rational `a`: the `e` with `2 ^ e ≤ a < 2 ^ (e + 1)`. -/
def exponentOf (a : Rat) : Int :=
  let p : Int := (floorLog2 a.num.natAbs : Int) - (floorLog2 a.den : Int)
  if pow2 p ≤ a then p else p - 1

/-- The double nearest to a positive rational, ties to even: 53 significant bits, the
exponent not below -1022, so that the numbers below `2 ^ (-1022)` are rounded to a
multiple of `2 ^ (-1074)` (the subnormal numbers). -/
def roundPositive (a : Rat) : Rat :=
  let e := max (exponentOf a) (-1022)
  let ulp := pow2 (e - 52)
  (roundNat (a / ulp) : Rat) * ulp

/-- The double nearest to a rational, ties to even (IEEE 754 binary64, round to nearest).
A result beyond `DBL_MAX` stands for an infinity and is outside the model. -/
def roundDouble (q : Rat) : Rat :=
  if q = 0 then 0
  else if q < 0 then -roundPositive |q|
  else roundPositive |q|

namespace window_2_data_vis

namespace Rounded

/-- The statement `grid[date][sensorName][hour] += value` on doubles. -/
def add (fl : Rat → Rat) (g : Grid) (date : QDate) (sensorName : String) (hour : Int)
    (value : Rat) : Grid :=
  let byName := QMap.value g date []
  let byHour := QMap.value byName sensorName []
  let old := QMap.value byHour hour 0
  QMap.insert g date
    (QMap.insert byName sensorName (QMap.insert byHour hour (fl (old + value))))

/-- The body of the loop of `aggregateData` over the persisted measurements of a sensor,
on doubles. -/
def historyMeasurementStep (fl : Rat → Rat) (selectedDates : List QDate)
    (sensorName : String) (aggregatedData : Grid) (measurementVariant : QVariant) : Grid :=
  let measurement := measurementVariant.toMap
  let dateTimeStr := (measurement.get "date").toString
  match QDateTime.fromString dateTimeStr with
  | none => aggregatedData
  | some dateTime =>
    let date := dateTime.date
    if !selectedDates.contains date then aggregatedData
    else
      let hour := dateTime.hour
      let value : Rat :=
        if (measurement.get "value").isValid then (measurement.get "value").toDouble else 0
      if value ≠ 0 then add fl aggregatedData date sensorName hour value else aggregatedData

/-- The body of the loop of `aggregateData` over the sensors of the session, on doubles. -/
def historySensorStep (fl : Rat → Rat) (w : window_2_data_vis) (selected : QSet Int)
    (aggregatedData : Grid) (sensorVariant : QVariant) : Grid :=
  let sensor := sensorVariant.toMap
  let sensorId := (sensor.get "id").toInt
  if !selected.contains sensorId || (sensor.get "stationId").toInt != w.m_stationId then
    aggregatedData
  else
    let sensorName := ((sensor.get "param").toMap.get "paramName").toString
    let measurements := (sensor.get "measurements").toList
    measurements.foldl (historyMeasurementStep fl w.m_selectedDates sensorName) aggregatedData

/-- The body of the loop of `aggregateData` over the freshly fetched measurements of a
sensor, on doubles. -/
def onlineMeasurementStep (fl : Rat → Rat) (selectedDates : List QDate) (sensorName : String)
    (aggregatedData : Grid) (value : QVariant) : Grid :=
  let obj := value.toMap
  let dateTimeStr := (obj.get "date").toString
  match QDateTime.fromString dateTimeStr with
  | none => aggregatedData
  | some dateTime =>
    let date := dateTime.date
    if !selectedDates.contains date then aggregatedData
    else
      let hour := dateTime.hour
      let measurementValue : Rat :=
        if (obj.get "value").isNull then 0 else (obj.get "value").toDouble
      if measurementValue ≠ 0 then add fl aggregatedData date sensorName hour measurementValue
      else aggregatedData

/-- The body of the loop of `aggregateData` over the keys of `m_measurementData`, on
doubles. -/
def onlineSensorStep (fl : Rat → Rat) (w : window_2_data_vis) (selected : QSet Int)
    (aggregatedData : Grid) (sensorId : Int) : Grid :=
  if !selected.contains sensorId then aggregatedData
  else
    let sensorName := QMap.value w.m_sensorIdToName sensorId ""
    let values := QMap.value w.m_measurementData sensorId []
    values.foldl (onlineMeasurementStep fl w.m_selectedDates sensorName) aggregatedData

/-- The function `window_2_data_vis::aggregateData` on doubles: the grid it returns. -/
def aggregateData (fl : Rat → Rat) (w : window_2_data_vis) : Grid :=
  let aggregatedData : Grid := []
  let sessionData := w.m_historyManager.loadSessionDetails w.m_sessionId
  if sessionData.isEmpty then aggregatedData
  else
    let sensors := (sessionData.get "sensors").toList
    let selected := selectedSensorIds w
    let aggregatedData := sensors.foldl (historySensorStep fl w selected) aggregatedData
    (QMap.keys w.m_measurementData).foldl (onlineSensorStep fl w selected) aggregatedData

/-- The part of the body of the statistics loop both paths share, on doubles: the
comparisons are exact, the sum is rounded. -/
def includePoint (fl : Rat → Rat) (st : Stats) (x value : Rat) : Stats :=
  { minValue := if value < st.minValue then value else st.minValue
    maxValue := if value > st.maxValue then value else st.maxValue
    sum := fl (st.sum + value)
    count := st.count + 1
    points := st.points ++ [(x, value)] }

/-- The body of the loop over the hours when a single date is selected, on doubles. -/
def singleDayStep (fl : Rat → Rat) (hourlyData : QMap Int Rat) (st : Stats) (hour : Nat) :
    Stats :=
  let value := QMap.value hourlyData (hour : Int) 0
  if value ≠ 0 then includePoint fl st (hour : Rat) value else st

/-- The body of the loop over the hours of one date when several dates are selected, on
doubles. -/
def multiDayStep (fl : Rat → Rat) (hourlyData : QMap Int Rat) (xBase : Rat) (st : Stats)
    (hour : Nat) : Stats :=
  let value := QMap.value hourlyData (hour : Int) 0
  let x := fl (xBase + (hour : Rat))
  includePoint fl st x value

/-- The statistics loop of `displayCharts` for one sensor, on doubles. -/
def collect (fl : Rat → Rat) (g : Grid) (singleDay : Bool) (sortedDates : List QDate)
    (earliestDate : QDate) (sensorName : String) : Stats :=
  if singleDay then
    (List.range 24).foldl (singleDayStep fl (hourlyData g earliestDate sensorName)) Stats.init
  else
    sortedDates.foldl
      (fun st date =>
        let daysSinceEarliest := QDate.daysTo earliestDate date
        let xBase : Rat := fl ((daysSinceEarliest : Rat) * 24)
        (List.range 24).foldl (multiDayStep fl (hourlyData g date sensorName) xBase) st)
      Stats.init

/-- The four sums the trend loop of `displayCharts` accumulates, on doubles. -/
def sumX (fl : Rat → Rat) (points : List (Rat × Rat)) : Rat :=
  points.foldl (fun s p => fl (s + p.1)) 0

def sumY (fl : Rat → Rat) (points : List (Rat × Rat)) : Rat :=
  points.foldl (fun s p => fl (s + p.2)) 0

def sumXY (fl : Rat → Rat) (points : List (Rat × Rat)) : Rat :=
  points.foldl (fun s p => fl (s + fl (p.1 * p.2))) 0

def sumXX (fl : Rat → Rat) (points : List (Rat × Rat)) : Rat :=
  points.foldl (fun s p => fl (s + fl (p.1 * p.1))) 0

/-- The expression `n * sumXY - sumX * sumY` on doubles. -/
def slopeNumerator (fl : Rat → Rat) (points : List (Rat × Rat)) : Rat :=
  fl (fl ((points.length : Rat) * sumXY fl points) - fl (sumX fl points * sumY fl points))

/-- The expression `n * sumXX - sumX * sumX` on doubles. -/
def slopeDenominator (fl : Rat → Rat) (points : List (Rat × Rat)) : Rat :=
  fl (fl ((points.length : Rat) * sumXX fl points) - fl (sumX fl points * sumX fl points))

/-- The slope `m` as `displayCharts` computes it on doubles. -/
def slope (fl : Rat → Rat) (points : List (Rat × Rat)) : Rat :=
  fl (slopeNumerator fl points / slopeDenominator fl points)

/-- The trend `displayCharts` derives from the points, on doubles; the literal `0.01` is
the double nearest to one hundredth.  A zero denominator is handled as in `trendOf`. -/
def trendOf (fl : Rat → Rat) (points : List (Rat × Rat)) : String :=
  if points.length ≥ 2 then
    if slopeDenominator fl points = 0 then
      (if slopeNumerator fl points > 0 then "rosnący" else "malejący")
    else
      let m := slope fl points
      if |m| < fl (1 / 100) then "stabilny"
      else if m > 0 then "rosnący"
      else "malejący"
  else "brak danych do analizy trendu"

/-- The record `displayCharts` computes for one sensor name, on doubles. -/
def chartData (fl : Rat → Rat) (g : Grid) (singleDay : Bool) (sortedDates : List QDate)
    (earliestDate : QDate) (sensorName : String) : SensorChartData :=
  let st := collect fl g singleDay sortedDates earliestDate sensorName
  let average : Rat := if st.count > 0 then fl (st.sum / (st.count : Rat)) else 0
  let trend := trendOf fl st.points
  if st.count = 0 then
    ⟨sensorName, 0, 0, average, "brak danych", st.points⟩
  else
    ⟨sensorName, st.minValue, st.maxValue, average, trend, st.points⟩

/-- The function `window_2_data_vis::displayCharts` on doubles: the statistics records it
computes. -/
def displayCharts (fl : Rat → Rat) (w : window_2_data_vis) : List SensorChartData :=
  if w.m_aggregatedData.isEmpty then []
  else
    let singleDay := w.m_selectedDates.length == 1
    let sortedDates := w.m_selectedDates.insertionSort (fun a b => a ≤ b)
    match sortedDates with
    | [] => []
    | earliestDate :: _ =>
      (QMap.keys (QMap.value w.m_aggregatedData earliestDate [])).map
        (chartData fl w.m_aggregatedData singleDay sortedDates earliestDate)

/-- A run of `+=` statements on the grid, on doubles. -/
def addAll (fl : Rat → Rat) (g : Grid) (cs : List Contribution) : Grid :=
  cs.foldl (fun g c => add fl g c.date c.sensorName c.hour c.value) g

/-- The sum a loop `s += v` accumulates over the values, from `start`, on doubles. -/
def accumulate (fl : Rat → Rat) (start : Rat) (values : List Rat) : Rat :=
  values.foldl (fun s v => fl (s + v)) start

/-- The running values of the statistics loop on doubles agree with the points collected
so far. -/
def Agrees (fl : Rat → Rat) (st : Stats) : Prop :=
  st.count = st.points.length ∧
  st.sum = accumulate fl 0 (st.points.map Prod.snd) ∧
  st.minValue = (st.points.map Prod.snd).foldl min DBL_MAX ∧
  st.maxValue = (st.points.map Prod.snd).foldl max (-DBL_MAX)

end Rounded

/-- A stored sensor of station 10 with id 1, named PM10, with the double nearest to 0.1
measured three times in hour 8 of 2024-05-01. -/
def tenthsSensor : QVariant :=
  QVariant.map
    [("id", QVariant.num 1),
      ("measurements", QVariant.list
        [QVariant.map [("date", QVariant.str "2024-05-01 08:00:00"),
            ("value", QVariant.num (roundDouble (1 / 10)))],
          QVariant.map [("date", QVariant.str "2024-05-01 08:20:00"),
            ("value", QVariant.num (roundDouble (1 / 10)))],
          QVariant.map [("date", QVariant.str "2024-05-01 08:40:00"),
            ("value", QVariant.num (roundDouble (1 / 10)))]]),
      ("param", QVariant.map [("paramName", QVariant.str "PM10")]),
      ("stationId", QVariant.num 10)]

/-- A store whose only session, `s1`, holds `tenthsSensor`. -/
def tenthsStore : HistoryManager :=
  ⟨QDir.writeFile QDir.empty (HistoryManager.sessionFile "s1")
    (QJsonDocument.object [("sensors", QVariant.list [tenthsSensor])])⟩

/-- The window `exampleWindow` on `tenthsStore`. -/
def tenthsWindow : window_2_data_vis :=
  { exampleWindow with m_historyManager := tenthsStore }

/-- A window with one selected date whose grid holds for PM10 the value 20 in hour 0 and
the double nearest to 20.01 in hour 1. -/
def thresholdWindow : window_2_data_vis :=
  { exampleWindow with
    m_aggregatedData := [(2460432, [("PM10", [(0, 20), (1, roundDouble (2001 / 100))])])] }

/-- A window with one selected date whose grid holds for PM10 the double nearest to 12.7
in the hours 8, 9 and 10. -/
def sameValueWindow : window_2_data_vis :=
  { exampleWindow with
    m_aggregatedData :=
      [(2460432, [("PM10", [(8, roundDouble (127 / 10)), (9, roundDouble (127 / 10)),
        (10, roundDouble (127 / 10))])])] }

/-- A window with one selected date whose grid holds for PM10 the double nearest to 0.1
in the hours 8, 9 and 10. -/
def tenthsGridWindow : window_2_data_vis :=
  { exampleWindow with
    m_aggregatedData :=
      [(2460432, [("PM10", [(8, roundDouble (1 / 10)), (9, roundDouble (1 / 10)),
        (10, roundDouble (1 / 10))])])] }

end window_2_data_vis

/-! ## Lemmas on `QMap` -/

namespace QMap

variable {K V : Type} [DecidableEq K] [KeyOrder K]

theorem find_insert (m : QMap K V) (k : K) (v : V) (j : K) :
    find (insert m k v) j = if j = k then some v else find m j := by
  induction m with
  | nil => simp [insert, find]
  | cons hd tl ih =>
    obtain ⟨k', v'⟩ := hd
    by_cases h1 : k = k'
    · subst h1
      by_cases hj : j = k <;> simp [insert, find, hj]
    · by_cases h2 : KeyOrder.lt k k' = true
      · by_cases hj : j = k <;> simp [insert, find, h1, h2, hj]
      · by_cases hj : j = k
        · subst hj
          simp [insert, find, h1, h2, ih]
        · simp [insert, find, h1, h2, ih, hj]

theorem value_insert (m : QMap K V) (k : K) (v : V) (j : K) (d : V) :
    value (insert m k v) j d = if j = k then v else value m j d := by
  unfold value
  rw [find_insert]
  split <;> rfl

end QMap

theorem QVariant.toMap_map (m : QVariantMap) : (QVariant.map m).toMap = m := rfl

theorem QVariantMap.get_set (m : QVariantMap) (k : String) (v : QVariant) (j : String) :
    (m.set k v).get j = if j = k then v else m.get j := by
  unfold QVariantMap.get QVariantMap.set
  exact QMap.value_insert m k v j QVariant.null

theorem mem_QSet_insert {s : QSet Int} {a x : Int} : x ∈ s.insert a ↔ x = a ∨ x ∈ s := by
  unfold QSet.insert
  split
  · constructor
    · exact Or.inr
    · rintro (rfl | h)
      · assumption
      · exact h
  · simp

namespace HistoryManager

theorem sessionFile_injective {a b : String} (h : sessionFile a = sessionFile b) : a = b := by
  unfold sessionFile at h
  have h2 := congrArg String.data h
  simp only [String.data_append, List.append_assoc] at h2
  have h3 := List.append_cancel_left h2
  have h4 := List.append_cancel_right h3
  exact String.ext h4

theorem sessionFile_ne_index (a : String) : sessionFile a ≠ m_indexFilePath := by
  intro h
  have h2 := congrArg String.data h
  simp [sessionFile, m_indexFilePath, String.data_append] at h2

end HistoryManager

namespace HistoryManager

theorem entryOf_file (c : SessionArgs) :
    ((entryOf c).toMap.get "file").toString = sessionFile c.sessionId := rfl

theorem entryOf_session_id (c : SessionArgs) :
    (entryOf c).toMap.get "session_id" = QVariant.str c.sessionId := rfl

theorem loadSessions_writeFile_index (d : QDir) (l : QVariantList) :
    loadSessions ⟨d.writeFile m_indexFilePath
      (QJsonDocument.object (QVariantMap.set [] "sessions" (QVariant.list l)))⟩ = l := by
  simp [loadSessions, QDir.writeFile, QJsonDocument.isNull, QJsonDocument.isObject,
    QJsonDocument.toVariantMap, QVariantMap.get_set, QVariant.toList]

theorem loadSessions_writeFile_session (hm : HistoryManager) (id : String) (doc : QJsonDocument) :
    loadSessions ⟨hm.m_historyDir.writeFile (sessionFile id) doc⟩ = loadSessions hm := by
  have h : m_indexFilePath ≠ sessionFile id := fun h => sessionFile_ne_index id h.symm
  simp [loadSessions, QDir.writeFile, h]

/-- The function `updateIndexFile` in terms of `loadSessions`. -/
theorem updateIndexFile_eq (hm : HistoryManager) (session : QVariantMap) :
    hm.updateIndexFile session =
      if (QVariant.map session :: hm.loadSessions).length > MAX_SESSIONS then
        ⟨(hm.m_historyDir.remove
            ((((QVariant.map session :: hm.loadSessions).getLast?.getD QVariant.null).toMap.get
              "file").toString)).writeFile m_indexFilePath
          (QJsonDocument.object (QVariantMap.set [] "sessions"
            (QVariant.list (QVariant.map session :: hm.loadSessions).dropLast)))⟩
      else
        ⟨hm.m_historyDir.writeFile m_indexFilePath
          (QJsonDocument.object (QVariantMap.set [] "sessions"
            (QVariant.list (QVariant.map session :: hm.loadSessions))))⟩ := by
  unfold updateIndexFile loadSessions
  cases hm.m_historyDir m_indexFilePath with
  | none => rfl
  | some doc => cases doc <;> rfl

theorem holds_empty : Holds empty [] :=
  ⟨rfl, by intro id; simp [empty, QDir.empty], List.nodup_nil, Nat.zero_le _⟩

theorem holds_createSession {hm : HistoryManager} {kept : List SessionArgs}
    (h : Holds hm kept) (c : SessionArgs)
    (hc : c.sessionId ∉ kept.map SessionArgs.sessionId) :
    Holds (hm.createSession c) ((c :: kept).take MAX_SESSIONS) := by
  have hidx : ∀ id, sessionFile id ≠ m_indexFilePath := sessionFile_ne_index
  unfold createSession addSession
  rw [updateIndexFile_eq, loadSessions_writeFile_session, h.index]
  by_cases hlen : kept.length < MAX_SESSIONS
  · have h1 : ¬ (QVariant.map (indexEntry c.sessionId c.location c.radius c.timestamp) ::
        List.map entryOf kept).length > MAX_SESSIONS := by
      simp; omega
    rw [if_neg h1]
    have h2 : (c :: kept).take MAX_SESSIONS = c :: kept := by
      apply List.take_of_length_le; simp; omega
    rw [h2]
    refine ⟨?_, ?_, ?_, ?_⟩
    · rw [loadSessions_writeFile_index]; rfl
    · intro id
      have := h.files id
      by_cases hid : id = c.sessionId
      · subst hid
        simp [QDir.writeFile, hidx]
      · have hne : sessionFile id ≠ sessionFile c.sessionId :=
          fun e => hid (sessionFile_injective e)
        simp [QDir.writeFile, hidx, hne, hid, this]
    · simpa using ⟨by simpa using hc, h.nodup⟩
    · simp; omega
  · have hl : kept.length = MAX_SESSIONS := le_antisymm h.bound (not_lt.mp hlen)
    have hne : kept ≠ [] := by
      intro e; rw [e] at hl; simp [MAX_SESSIONS] at hl
    obtain ⟨init, last, rfl⟩ : ∃ init last, kept = init ++ [last] :=
      ⟨kept.dropLast, kept.getLast hne, (List.dropLast_append_getLast hne).symm⟩
    have hinit : init.length + 1 = MAX_SESSIONS := by simpa using hl
    have h1 : (QVariant.map (indexEntry c.sessionId c.location c.radius c.timestamp) ::
        List.map entryOf (init ++ [last])).length > MAX_SESSIONS := by
      simp; omega
    rw [if_pos h1]
    have h2 : (c :: (init ++ [last])).take MAX_SESSIONS = c :: init := by
      rw [← hinit]; simp
    have h3 : (QVariant.map (indexEntry c.sessionId c.location c.radius c.timestamp) ::
        List.map entryOf (init ++ [last])) = (entryOf c :: init.map entryOf) ++ [entryOf last] := by
      simp [entryOf]
    rw [h2, h3, List.dropLast_concat, List.getLast?_concat]
    simp only [Option.getD_some, entryOf_file]
    have hnd := h.nodup
    simp only [List.map_append, List.map_cons, List.map_nil] at hnd hc
    have hlast : last.sessionId ∉ init.map SessionArgs.sessionId := by
      intro hmem
      have := List.nodup_append.1 hnd
      exact this.2.2 hmem (by simp)
    have hcl : c.sessionId ≠ last.sessionId := by
      intro e; apply hc; simp [e]
    refine ⟨?_, ?_, ?_, ?_⟩
    · rw [loadSessions_writeFile_index]; rfl
    · intro id
      have := h.files id
      simp only [List.map_append, List.map_cons, List.map_nil, List.mem_append,
        List.mem_singleton] at this
      by_cases hid : id = c.sessionId
      · subst hid
        have hne2 : sessionFile c.sessionId ≠ sessionFile last.sessionId :=
          fun e => hcl (sessionFile_injective e)
        simp [QDir.writeFile, QDir.remove, hidx, hne2]
      · have hne1 : sessionFile id ≠ sessionFile c.sessionId :=
          fun e => hid (sessionFile_injective e)
        by_cases hil : id = last.sessionId
        · subst hil
          simp [QDir.writeFile, QDir.remove, hidx, hid, hlast]
        · have hne2 : sessionFile id ≠ sessionFile last.sessionId :=
            fun e => hil (sessionFile_injective e)
          simp [QDir.writeFile, QDir.remove, hidx, hne1, hne2, hid, this, hil]
    · have := (List.nodup_append.1 hnd).1
      simp only [List.map_cons, List.nodup_cons]
      refine ⟨?_, this⟩
      intro hmem; apply hc; simp [hmem]
    · simp; omega

theorem take_append_take {α : Type} (n : Nat) (a b : List α) :
    (a ++ b.take n).take n = (a ++ b).take n := by
  rw [List.take_append_eq_append_take, List.take_append_eq_append_take, List.take_take,
    min_eq_left (Nat.sub_le _ _)]

theorem holds_createSessions (calls : List SessionArgs) :
    ∀ (hm : HistoryManager) (kept : List SessionArgs), Holds hm kept →
      ((calls.map SessionArgs.sessionId) ++ (kept.map SessionArgs.sessionId)).Nodup →
      Holds (hm.createSessions calls) ((calls.reverse ++ kept).take MAX_SESSIONS) := by
  induction calls with
  | nil =>
    intro hm kept h _
    simpa [createSessions, List.take_of_length_le h.bound] using h
  | cons c cs ih =>
    intro hm kept h hnd
    simp only [List.map_cons, List.cons_append, List.nodup_cons, List.mem_append, not_or] at hnd
    have hstep := holds_createSession h c hnd.1.2
    have hnd2 : ((cs.map SessionArgs.sessionId) ++
        (((c :: kept).take MAX_SESSIONS).map SessionArgs.sessionId)).Nodup := by
      have hnd3 := List.nodup_append.1 hnd.2
      refine List.nodup_append.2 ⟨hnd3.1, hstep.nodup, ?_⟩
      intro a ha hb
      have hb2 : a ∈ (c :: kept).map SessionArgs.sessionId :=
        List.Sublist.subset (List.Sublist.map _ (List.take_sublist _ _)) hb
      simp only [List.map_cons, List.mem_cons] at hb2
      rcases hb2 with e | e
      · exact hnd.1.1 (e ▸ ha)
      · exact hnd3.2.2 ha e
    have := ih (hm.createSession c) _ hstep hnd2
    have e : (c :: cs).reverse ++ kept = cs.reverse ++ (c :: kept) := by simp
    rw [e, ← take_append_take]
    exact this

end HistoryManager

/-! ## The read-modify-write operations of the store -/

namespace HistoryManager

/-! ### The three read-modify-write operations, case by case -/

theorem loadSessionDetails_writeFile_same (d : QDir) (id : String) (o : QVariantMap) :
    loadSessionDetails ⟨d.writeFile (sessionFile id) (QJsonDocument.object o)⟩ id = o := by
  simp [loadSessionDetails, QDir.writeFile, QJsonDocument.toVariantMap]

theorem loadSessionDetails_writeFile_other (d : QDir) (id id' : String) (doc : QJsonDocument)
    (h : id' ≠ id) :
    loadSessionDetails ⟨d.writeFile (sessionFile id) doc⟩ id' = loadSessionDetails ⟨d⟩ id' := by
  have hne : sessionFile id' ≠ sessionFile id := fun e => h (sessionFile_injective e)
  simp [loadSessionDetails, QDir.writeFile, hne]

theorem loadSessionDetails_of_object {hm : HistoryManager} {id : String} {o : QVariantMap}
    (h : hm.m_historyDir (sessionFile id) = some (QJsonDocument.object o)) :
    hm.loadSessionDetails id = o := by
  simp [loadSessionDetails, h, QJsonDocument.toVariantMap]

theorem addSessionSensors_of_object {hm : HistoryManager} {id : String} {o : QVariantMap}
    (h : hm.m_historyDir (sessionFile id) = some (QJsonDocument.object o))
    (sensors : List QVariantMap) :
    hm.addSessionSensors id sensors =
      ⟨hm.m_historyDir.writeFile (sessionFile id) (QJsonDocument.object
        (o.set "sensors" (QVariant.list
          (sensors.foldl addSensorStep (existingSensorIds (sensorsOf o), sensorsOf o)).2)))⟩ := by
  simp [addSessionSensors, h, QJsonDocument.isNull, QJsonDocument.isObject,
    QJsonDocument.toVariantMap, sensorsOf]

theorem addSessionMeasurements_of_object {hm : HistoryManager} {id : String} {o : QVariantMap}
    (h : hm.m_historyDir (sessionFile id) = some (QJsonDocument.object o))
    (measurements : List QVariantMap) :
    hm.addSessionMeasurements id measurements =
      if (sensorsOf o).any (fun sensorVariant =>
          QMap.contains (measurements.foldl groupStep []) (sensorId sensorVariant)) then
        ⟨hm.m_historyDir.writeFile (sessionFile id) (QJsonDocument.object
          (o.set "sensors" (QVariant.list
            ((sensorsOf o).map (updateSensor (measurements.foldl groupStep []))))))⟩
      else hm := by
  simp [addSessionMeasurements, h, QJsonDocument.isNull, QJsonDocument.isObject,
    QJsonDocument.toVariantMap, sensorsOf]

theorem addSessionAirQuality_of_object {hm : HistoryManager} {id : String} {o : QVariantMap}
    (h : hm.m_historyDir (sessionFile id) = some (QJsonDocument.object o))
    (airQualityData : QVariantMap) :
    hm.addSessionAirQuality id airQualityData =
      ⟨hm.m_historyDir.writeFile (sessionFile id) (QJsonDocument.object
        (o.set "airQuality" (QVariant.map airQualityData)))⟩ := by
  simp [addSessionAirQuality, h, QJsonDocument.isNull, QJsonDocument.isObject,
    QJsonDocument.toVariantMap]

/-- A session file that is missing or holds no JSON object. -/
theorem not_object_cases (hm : HistoryManager) (id : String) :
    (∃ o, hm.m_historyDir (sessionFile id) = some (QJsonDocument.object o)) ∨
    (hm.addSessionSensors id = fun _ => hm) ∧ (hm.addSessionMeasurements id = fun _ => hm) ∧
      (hm.addSessionAirQuality id = fun _ => hm) := by
  cases h : hm.m_historyDir (sessionFile id) with
  | none =>
    right
    refine ⟨?_, ?_, ?_⟩ <;> funext x <;>
      simp [addSessionSensors, addSessionMeasurements, addSessionAirQuality, h]
  | some doc =>
    cases doc with
    | object o => exact Or.inl ⟨o, rfl⟩
    | null =>
      right
      refine ⟨?_, ?_, ?_⟩ <;> funext x <;>
        simp [addSessionSensors, addSessionMeasurements, addSessionAirQuality, h,
          QJsonDocument.isNull]
    | array a =>
      right
      refine ⟨?_, ?_, ?_⟩ <;> funext x <;>
        simp [addSessionSensors, addSessionMeasurements, addSessionAirQuality, h,
          QJsonDocument.isNull, QJsonDocument.isObject]

/-! ### The sensor loop of `addSessionSensors` -/

theorem mem_existingSensorIds (l : QVariantList) (x : Int) :
    x ∈ existingSensorIds l ↔ x ∈ l.map sensorId := by
  unfold existingSensorIds
  have key : ∀ (l : QVariantList) (init : QSet Int),
      x ∈ l.foldl (fun ids sensorVariant => ids.insert (sensorId sensorVariant)) init ↔
        x ∈ init ∨ x ∈ l.map sensorId := by
    intro l
    induction l with
    | nil => intro init; simp
    | cons a t ih =>
      intro init
      rw [List.foldl_cons, ih, mem_QSet_insert]
      simp only [List.map_cons, List.mem_cons]
      tauto
  simpa using key l []

theorem sensorId_sensorEntry (s : QVariantMap) : sensorId (sensorEntry s) = inputId s := by
  simp [sensorId, sensorEntry, inputId, QVariant.toMap, QVariantMap.get_set]

theorem measurementsOf_sensorEntry (s : QVariantMap) : measurementsOf (sensorEntry s) = [] := by
  simp [measurementsOf, sensorEntry, QVariant.toMap, QVariantMap.get_set, QVariant.toList]

/-- The loop appends exactly the inputs that `firstNew` keeps. -/
theorem foldl_addSensorStep (stored : List Int) (sensors : List QVariantMap) :
    ∀ (ids : QSet Int) (acc : QVariantList) (earlier : List Int),
      (∀ x, x ∈ ids ↔ x ∈ stored ∨ x ∈ earlier) →
      (sensors.foldl addSensorStep (ids, acc)).2 =
        acc ++ (firstNew stored earlier sensors).map sensorEntry := by
  induction sensors with
  | nil => intro ids acc earlier _; simp [firstNew]
  | cons s rest ih =>
    intro ids acc earlier hids
    rw [List.foldl_cons]
    by_cases hmem : inputId s ∈ ids
    · have hstep : addSensorStep (ids, acc) s = (ids, acc) := by
        simp [addSensorStep, QSet.contains, inputId] at hmem ⊢
        exact hmem
      have hcond : inputId s ∈ stored ∨ inputId s ∈ earlier := (hids _).1 hmem
      rw [hstep, firstNew, if_pos hcond]
      apply ih
      intro x
      rw [hids x, List.mem_append, List.mem_singleton]
      constructor
      · rintro (h | h)
        · exact Or.inl h
        · exact Or.inr (Or.inl h)
      · rintro (h | h | h)
        · exact Or.inl h
        · exact Or.inr h
        · subst h; exact hcond
    · have hstep : addSensorStep (ids, acc) s =
          (ids.insert (inputId s), acc ++ [sensorEntry s]) := by
        simp [addSensorStep, QSet.contains, inputId] at hmem ⊢
        intro h; exact absurd h hmem
      have hcond : ¬ (inputId s ∈ stored ∨ inputId s ∈ earlier) :=
        fun h => hmem ((hids _).2 h)
      rw [hstep, firstNew, if_neg hcond, List.map_cons,
        ih (ids.insert (inputId s)) (acc ++ [sensorEntry s]) (earlier ++ [inputId s])]
      · simp
      · intro x
        rw [mem_QSet_insert, hids x, List.mem_append, List.mem_singleton]
        tauto

/-- Ids stay pairwise distinct along the sensor loop. -/
theorem firstNew_nodup (stored : List Int) (sensors : List QVariantMap) :
    ∀ earlier : List Int,
      ((firstNew stored earlier sensors).map inputId).Nodup ∧
      ∀ x ∈ (firstNew stored earlier sensors).map inputId, x ∉ stored ∧ x ∉ earlier := by
  induction sensors with
  | nil => intro earlier; simp [firstNew]
  | cons s rest ih =>
    intro earlier
    have h := ih (earlier ++ [inputId s])
    rw [firstNew]
    split
    · refine ⟨h.1, ?_⟩
      intro x hx
      have := h.2 x hx
      simp only [List.mem_append, List.mem_singleton, not_or] at this
      exact ⟨this.1, this.2.1⟩
    · rename_i hcond
      simp only [not_or] at hcond
      refine ⟨?_, ?_⟩
      · rw [List.map_cons, List.nodup_cons]
        refine ⟨?_, h.1⟩
        intro hmem
        have := (h.2 _ hmem).2
        simp at this
      · intro x hx
        rw [List.map_cons, List.mem_cons] at hx
        rcases hx with rfl | hx
        · exact hcond
        · have := h.2 x hx
          simp only [List.mem_append, List.mem_singleton, not_or] at this
          exact ⟨this.1, this.2.1⟩

/-- The sensors of a session after `addSessionSensors`, for a session file that holds an
object. -/
theorem sensorsOf_addSessionSensors {hm : HistoryManager} {id : String} {o : QVariantMap}
    (h : hm.m_historyDir (sessionFile id) = some (QJsonDocument.object o))
    (sensors : List QVariantMap) :
    sensorsOf ((hm.addSessionSensors id sensors).loadSessionDetails id) =
      sensorsOf o ++
        (firstNew ((sensorsOf o).map sensorId) [] sensors).map sensorEntry := by
  rw [addSessionSensors_of_object h, loadSessionDetails_writeFile_same]
  rw [foldl_addSensorStep ((sensorsOf o).map sensorId) sensors _ _ []]
  · simp [sensorsOf, QVariantMap.get_set, QVariant.toList]
  · intro x
    simp [mem_existingSensorIds]

/-! ### The loops of `addSessionMeasurements` -/

theorem find_groupStep (measurements : List QVariantMap) (k : Int) :
    ∀ init : QMap Int QVariantList,
      QMap.find (measurements.foldl groupStep init) k =
        if (entriesFor measurements k).isEmpty then QMap.find init k
        else some (QMap.value init k [] ++ entriesFor measurements k) := by
  induction measurements with
  | nil => intro init; simp [entriesFor]
  | cons m rest ih =>
    intro init
    rw [List.foldl_cons, ih]
    by_cases hk : (m.get "sensorId").toInt = k
    · have e1 : entriesFor (m :: rest) k = measurementEntry m :: entriesFor rest k := by
        simp [entriesFor, hk]
      have e2 : QMap.find (groupStep init m) k =
          some (QMap.value init k [] ++ [measurementEntry m]) := by
        simp [groupStep, QMap.find_insert, hk]
      have e3 : QMap.value (groupStep init m) k [] =
          QMap.value init k [] ++ [measurementEntry m] := by
        simp [QMap.value, e2]
      rw [e1, e2, e3]
      cases hr : entriesFor rest k <;> simp
    · have e1 : entriesFor (m :: rest) k = entriesFor rest k := by
        simp [entriesFor, hk]
      have e2 : QMap.find (groupStep init m) k = QMap.find init k := by
        simp [groupStep, QMap.find_insert, Ne.symm hk]
      have e3 : QMap.value (groupStep init m) k [] = QMap.value init k [] := by
        simp [QMap.value, e2]
      rw [e1, e2, e3]

theorem sensorId_updateSensor (by_ : QMap Int QVariantList) (s : QVariant) :
    sensorId (updateSensor by_ s) = sensorId s := by
  unfold updateSensor
  split
  · simp [sensorId, QVariant.toMap, QVariantMap.get_set]
  · rfl

/-- Whether the grouped input has an entry for a key. -/
theorem contains_groupStep (measurements : List QVariantMap) (k : Int) :
    QMap.contains (measurements.foldl groupStep []) k =
      !(entriesFor measurements k).isEmpty := by
  unfold QMap.contains
  rw [find_groupStep]
  cases entriesFor measurements k <;> simp [QMap.find]

theorem value_groupStep (measurements : List QVariantMap) (k : Int) :
    QMap.value (measurements.foldl groupStep []) k [] = entriesFor measurements k := by
  unfold QMap.value
  rw [find_groupStep]
  cases entriesFor measurements k <;> simp [QMap.find, QMap.value]

theorem measurementsOf_updateSensor (measurements : List QVariantMap) (s : QVariant) :
    measurementsOf (updateSensor (measurements.foldl groupStep []) s) =
      measurementsOf s ++ entriesFor measurements (sensorId s) := by
  unfold updateSensor
  simp only [contains_groupStep, value_groupStep]
  cases he : entriesFor measurements (sensorId s) with
  | nil => simp
  | cons a t =>
    simp [measurementsOf, QVariant.toMap, QVariantMap.get_set, QVariant.toList]

/-- A sensor that no input measurement names is left as it is. -/
theorem updateSensor_of_no_entry (measurements : List QVariantMap) (s : QVariant)
    (he : QMap.contains (measurements.foldl groupStep []) (sensorId s) = false) :
    updateSensor (measurements.foldl groupStep []) s = s := by
  unfold updateSensor
  simp [he]

/-- The sensors of a session after `addSessionMeasurements`, whether or not the file was
rewritten. -/
theorem sensorsOf_addSessionMeasurements {hm : HistoryManager} {id : String} {o : QVariantMap}
    (h : hm.m_historyDir (sessionFile id) = some (QJsonDocument.object o))
    (measurements : List QVariantMap) :
    sensorsOf ((hm.addSessionMeasurements id measurements).loadSessionDetails id) =
      (sensorsOf o).map (updateSensor (measurements.foldl groupStep [])) := by
  rw [addSessionMeasurements_of_object h]
  split
  · rw [loadSessionDetails_writeFile_same]
    simp [sensorsOf, QVariantMap.get_set, QVariant.toList]
  · rename_i hany
    rw [loadSessionDetails_of_object h]
    symm
    simp only [List.any_eq_true, not_exists, not_and, Bool.not_eq_true] at hany
    conv_rhs => rw [← List.map_id (sensorsOf o)]
    apply List.map_congr_left
    intro s hs
    exact updateSensor_of_no_entry measurements s (hany s hs)

end HistoryManager

namespace QMap

variable {K V : Type} [DecidableEq K] [KeyOrder K]

theorem insert_insert (m : QMap K V) (k : K) (a b : V) :
    insert (insert m k a) k b = insert m k b := by
  induction m with
  | nil => simp [insert]
  | cons hd tl ih =>
    obtain ⟨k', v'⟩ := hd
    by_cases h1 : k = k'
    · simp [insert, h1]
    · by_cases h2 : KeyOrder.lt k k' = true
      · simp [insert, h1, h2]
      · simp [insert, h1, h2, ih]

end QMap

namespace QDir

theorem writeFile_writeFile (d : QDir) (name : String) (a b : QJsonDocument) :
    (d.writeFile name a).writeFile name b = d.writeFile name b := by
  funext n
  by_cases h : n = name <;> simp [writeFile, h]

end QDir

namespace HistoryManager

end HistoryManager

/-! ## C1: the index cap -/

namespace HistoryManager

/-- C1. Index cap: from the empty store, `n` `addSession` calls with pairwise distinct
ids leave `min n 100` index entries; once more than 100 sessions were created (so after
101 calls) the first-created id is absent from the index and its file is gone. -/
theorem index_cap (calls : List SessionArgs)
    (hids : (calls.map SessionArgs.sessionId).Nodup) :
    (empty.createSessions calls).loadSessions.length = min calls.length 100 ∧
    ∀ (first : SessionArgs) (rest : List SessionArgs), calls = first :: rest →
      100 ≤ rest.length →
      (∀ e ∈ (empty.createSessions calls).loadSessions,
        e.toMap.get "session_id" ≠ QVariant.str first.sessionId) ∧
      (empty.createSessions calls).m_historyDir (sessionFile first.sessionId) = none := by
  have h := holds_createSessions calls empty [] holds_empty (by simpa using hids)
  simp only [List.append_nil] at h
  refine ⟨?_, ?_⟩
  · rw [h.index]
    simp [MAX_SESSIONS, Nat.min_comm]
  · intro first rest hcalls hrest
    subst hcalls
    have htake : (first :: rest).reverse.take MAX_SESSIONS = rest.reverse.take MAX_SESSIONS := by
      rw [List.reverse_cons, List.take_append_of_le_length]
      simpa [MAX_SESSIONS] using hrest
    have hnot : first.sessionId ∉
        ((first :: rest).reverse.take MAX_SESSIONS).map SessionArgs.sessionId := by
      rw [htake]
      intro hmem
      have hsub : first.sessionId ∈ rest.reverse.map SessionArgs.sessionId :=
        List.Sublist.subset (List.Sublist.map _ (List.take_sublist _ _)) hmem
      simp only [List.map_cons, List.nodup_cons] at hids
      apply hids.1
      simpa using hsub
    refine ⟨?_, ?_⟩
    · intro e he hfield
      rw [h.index, List.mem_map] at he
      obtain ⟨c, hc, rfl⟩ := he
      rw [entryOf_session_id] at hfield
      injection hfield with hfield
      exact hnot (List.mem_map.2 ⟨c, hc, hfield⟩)
    · have := (h.files first.sessionId).not.2 hnot
      simpa using this

theorem manyCalls_nodup : (manyCalls.map SessionArgs.sessionId).Nodup := by
  unfold manyCalls
  rw [List.map_map]
  refine (List.nodup_range 101).map ?_
  intro i j hij
  have := congrArg String.length hij
  simpa using this

/-- C1, at 101 calls: 100 entries are listed and the file of the first session, whose id
is the empty string, no longer exists. -/
theorem index_cap_witness :
    (manyCalls.map SessionArgs.sessionId).Nodup ∧
    (empty.createSessions manyCalls).loadSessions.length = 100 ∧
    (empty.createSessions manyCalls).m_historyDir (sessionFile "") = none := by
  have h := index_cap manyCalls manyCalls_nodup
  refine ⟨manyCalls_nodup, ?_, ?_⟩
  · rw [h.1]; simp [manyCalls]
  · have hsplit : manyCalls = ⟨"", "Lublin", 10, 51, 22, [], "2024-05-01T08:00:00"⟩ ::
        (List.range 100).map (fun i =>
          ⟨String.mk (List.replicate (i + 1) 'a'), "Lublin", 10, 51, 22, [],
            "2024-05-01T08:00:00"⟩) := by
      unfold manyCalls
      rw [List.range_succ_eq_map]
      simp [List.map_map, Function.comp_def]
    have hlen : 100 ≤ ((List.range 100).map (fun i =>
        (⟨String.mk (List.replicate (i + 1) 'a'), "Lublin", 10, 51, 22, [],
          "2024-05-01T08:00:00"⟩ : SessionArgs))).length := by simp
    have h2 := (h.2 _ _ hsplit hlen).2
    simpa using h2

end HistoryManager

/-! ## C2: the round trip of a session -/

namespace HistoryManager

theorem getLast?_cons_mem {α : Type} (a : α) (l : List α) (h : l ≠ []) (d : α) :
    ((a :: l).getLast?.getD d) ∈ l := by
  obtain ⟨init, last, rfl⟩ : ∃ init last, l = init ++ [last] :=
    ⟨l.dropLast, l.getLast h, (List.dropLast_append_getLast h).symm⟩
  rw [← List.cons_append, List.getLast?_concat]
  simp

/-- The session file written by `addSession` is still there after the index update, when
no index entry refers to it. -/
theorem addSession_file (hm : HistoryManager) (sessionId location : String)
    (radius latitude longitude : Rat) (stations : QVariantList) (timestamp : String)
    (hfresh : ∀ e ∈ hm.loadSessions, (e.toMap.get "file").toString ≠ sessionFile sessionId) :
    (hm.addSession sessionId location radius latitude longitude stations
        timestamp).m_historyDir (sessionFile sessionId) =
      some (QJsonDocument.object
        (sessionData sessionId location radius latitude longitude stations timestamp)) := by
  have hidx := sessionFile_ne_index sessionId
  unfold addSession
  rw [updateIndexFile_eq, loadSessions_writeFile_session]
  split
  · rename_i hlen
    have hne : hm.loadSessions ≠ [] := by
      intro e
      rw [e] at hlen
      simp [MAX_SESSIONS] at hlen
    have hmem := getLast?_cons_mem
      (QVariant.map (indexEntry sessionId location radius timestamp)) hm.loadSessions hne
      QVariant.null
    have hfile := hfresh _ hmem
    simp [QDir.writeFile, QDir.remove, hidx, Ne.symm hfile]
  · simp [QDir.writeFile, hidx]

/-- C2. Round trip: `addSession` followed by `loadSessionDetails` of the same id gives
back the stations, the location text, latitude and longitude and the radius, an empty
sensor list and no `airQuality` key, for every store in which the id is fresh (no index
entry refers to its file). -/
theorem round_trip (hm : HistoryManager) (sessionId location : String)
    (radius latitude longitude : Rat) (stations : QVariantList) (timestamp : String)
    (hfresh : ∀ e ∈ hm.loadSessions, (e.toMap.get "file").toString ≠ sessionFile sessionId) :
    let session := (hm.addSession sessionId location radius latitude longitude stations
      timestamp).loadSessionDetails sessionId
    session.get "stations" = QVariant.list stations ∧
    (session.get "location").toMap.get "input" = QVariant.str location ∧
    (session.get "location").toMap.get "latitude" = QVariant.num latitude ∧
    (session.get "location").toMap.get "longitude" = QVariant.num longitude ∧
    session.get "radius" = QVariant.num radius ∧
    session.get "sensors" = QVariant.list [] ∧
    QMap.contains session "airQuality" = false := by
  intro session
  have hs : session =
      sessionData sessionId location radius latitude longitude stations timestamp := by
    show loadSessionDetails _ _ = _
    unfold loadSessionDetails
    rw [addSession_file hm sessionId location radius latitude longitude stations timestamp
      hfresh]
    rfl
  rw [hs]
  exact ⟨rfl, rfl, rfl, rfl, rfl, rfl, rfl⟩

/-- C2 on the empty store: the session just created is read back as given. -/
theorem round_trip_witness :
    (∀ e ∈ empty.loadSessions, (e.toMap.get "file").toString ≠ sessionFile "s1") ∧
    ((empty.addSession "s1" "Lublin" 10 51 22 [QVariant.str "st"]
        "2024-05-01T08:00:00").loadSessionDetails "s1").get "stations" =
      QVariant.list [QVariant.str "st"] ∧
    ((empty.addSession "s1" "Lublin" 10 51 22 [QVariant.str "st"]
        "2024-05-01T08:00:00").loadSessionDetails "s1").get "radius" = QVariant.num 10 ∧
    QMap.contains ((empty.addSession "s1" "Lublin" 10 51 22 [QVariant.str "st"]
        "2024-05-01T08:00:00").loadSessionDetails "s1") "airQuality" = false := by
  have hfresh : ∀ e ∈ empty.loadSessions,
      (e.toMap.get "file").toString ≠ sessionFile "s1" := by
    intro e he
    simp [loadSessions, empty, QDir.empty] at he
  have h := round_trip empty "s1" "Lublin" 10 51 22 [QVariant.str "st"]
    "2024-05-01T08:00:00" hfresh
  exact ⟨hfresh, h.1, h.2.2.2.2.1, h.2.2.2.2.2.2⟩

end HistoryManager

/-! ## C3: sensor ids stay distinct -/

namespace HistoryManager

/-- C3. Sensor-id uniqueness is an invariant of the store: whatever session `other` of the
store has sensors with pairwise distinct ids keeps that after `addSessionSensors`,
`addSessionMeasurements` and `addSessionAirQuality` on any session `id`, for every input
(also one that repeats an id). -/
theorem sensor_ids_stay_distinct (hm : HistoryManager) (id other : String)
    (sensors measurements : List QVariantMap) (airQualityData : QVariantMap)
    (hnd : ((sensorsOf (hm.loadSessionDetails other)).map sensorId).Nodup) :
    ((sensorsOf ((hm.addSessionSensors id sensors).loadSessionDetails other)).map
      sensorId).Nodup ∧
    ((sensorsOf ((hm.addSessionMeasurements id measurements).loadSessionDetails other)).map
      sensorId).Nodup ∧
    ((sensorsOf ((hm.addSessionAirQuality id airQualityData).loadSessionDetails other)).map
      sensorId).Nodup := by
  rcases not_object_cases hm id with ⟨o, ho⟩ | ⟨h1, h2, h3⟩
  · by_cases hid : other = id
    · subst hid
      rw [loadSessionDetails_of_object ho] at hnd
      refine ⟨?_, ?_, ?_⟩
      · rw [sensorsOf_addSessionSensors ho, List.map_append, List.map_map]
        have hfn := firstNew_nodup ((sensorsOf o).map sensorId) sensors []
        have hfun : sensorId ∘ sensorEntry = inputId := funext sensorId_sensorEntry
        rw [hfun]
        refine List.nodup_append.2 ⟨hnd, hfn.1, ?_⟩
        intro a ha hb
        exact (hfn.2 a hb).1 ha
      · rw [sensorsOf_addSessionMeasurements ho, List.map_map]
        have hfun : sensorId ∘ updateSensor (measurements.foldl groupStep []) = sensorId :=
          funext (sensorId_updateSensor _)
        rw [hfun]
        exact hnd
      · rw [addSessionAirQuality_of_object ho, loadSessionDetails_writeFile_same]
        have : sensorsOf (o.set "airQuality" (QVariant.map airQualityData)) = sensorsOf o := by
          simp [sensorsOf, QVariantMap.get_set]
        rw [this]
        exact hnd
    · refine ⟨?_, ?_, ?_⟩
      · rw [addSessionSensors_of_object ho, loadSessionDetails_writeFile_other _ _ _ _ hid]
        exact hnd
      · rw [addSessionMeasurements_of_object ho]
        split
        · rw [loadSessionDetails_writeFile_other _ _ _ _ hid]
          exact hnd
        · exact hnd
      · rw [addSessionAirQuality_of_object ho, loadSessionDetails_writeFile_other _ _ _ _ hid]
        exact hnd
  · rw [h1, h2, h3]
    exact ⟨hnd, hnd, hnd⟩

/-- A session record with one sensor, id 1, that holds one measurement. -/
theorem sensor_ids_stay_distinct_witness :
    ((sensorsOf ((HistoryManager.mk (QDir.writeFile QDir.empty (sessionFile "s1")
        (QJsonDocument.object [("sensors", QVariant.list
          [QVariant.map [("id", QVariant.num 1)]])]))).loadSessionDetails "s1")).map
      sensorId).Nodup ∧
    ((sensorsOf (((HistoryManager.mk (QDir.writeFile QDir.empty (sessionFile "s1")
        (QJsonDocument.object [("sensors", QVariant.list
          [QVariant.map [("id", QVariant.num 1)]])]))).addSessionSensors "s1"
        [[("id", QVariant.num 2)], [("id", QVariant.num 1)],
          [("id", QVariant.num 2)]]).loadSessionDetails "s1")).map sensorId).Nodup := by
  have hnd : ((sensorsOf ((HistoryManager.mk (QDir.writeFile QDir.empty (sessionFile "s1")
      (QJsonDocument.object [("sensors", QVariant.list
        [QVariant.map [("id", QVariant.num 1)]])]))).loadSessionDetails "s1")).map
      sensorId).Nodup := by decide
  exact ⟨hnd, (sensor_ids_stay_distinct _ "s1" "s1"
    [[("id", QVariant.num 2)], [("id", QVariant.num 1)], [("id", QVariant.num 2)]] [] []
    hnd).1⟩

end HistoryManager

/-! ## C4: the merge of `addSessionSensors` -/

namespace HistoryManager

/-- C4. Merge result of `addSessionSensors` on an existing session: the stored sensors,
unchanged, followed by the input sensors whose id is not stored yet, the first of each
id only, in input order; each added sensor has an empty `measurements` list and keeps its
other fields. -/
theorem addSensors_merge (hm : HistoryManager) (id : String) (o : QVariantMap)
    (h : hm.m_historyDir (sessionFile id) = some (QJsonDocument.object o))
    (sensors : List QVariantMap) :
    sensorsOf ((hm.addSessionSensors id sensors).loadSessionDetails id) =
      sensorsOf (hm.loadSessionDetails id) ++
        (firstNew ((sensorsOf (hm.loadSessionDetails id)).map sensorId) [] sensors).map
          sensorEntry ∧
    ∀ s : QVariantMap, measurementsOf (sensorEntry s) = [] ∧
      ∀ key : String, key ≠ "measurements" → (sensorEntry s).toMap.get key = s.get key := by
  refine ⟨?_, ?_⟩
  · rw [sensorsOf_addSessionSensors h, loadSessionDetails_of_object h]
  · intro s
    refine ⟨measurementsOf_sensorEntry s, ?_⟩
    intro key hkey
    simp [sensorEntry, QVariant.toMap, QVariantMap.get_set, hkey]

/-- C4 on a session that stores sensor 1 with one measurement: of the inputs with ids
2, 1, 2 only the first one is appended, and sensor 1 keeps its measurement. -/
theorem addSensors_merge_witness :
    (HistoryManager.mk (QDir.writeFile QDir.empty (sessionFile "s1")
        (QJsonDocument.object [("sensors", QVariant.list
          [QVariant.map [("id", QVariant.num 1),
            ("measurements", QVariant.list [QVariant.str "m"])]])]))).m_historyDir
        (sessionFile "s1") =
      some (QJsonDocument.object [("sensors", QVariant.list
          [QVariant.map [("id", QVariant.num 1),
            ("measurements", QVariant.list [QVariant.str "m"])]])]) ∧
    sensorsOf (((HistoryManager.mk (QDir.writeFile QDir.empty (sessionFile "s1")
        (QJsonDocument.object [("sensors", QVariant.list
          [QVariant.map [("id", QVariant.num 1),
            ("measurements", QVariant.list [QVariant.str "m"])]])]))).addSessionSensors "s1"
        [[("id", QVariant.num 2), ("tag", QVariant.str "first")], [("id", QVariant.num 1)],
          [("id", QVariant.num 2), ("tag", QVariant.str "second")]]).loadSessionDetails "s1") =
      [QVariant.map [("id", QVariant.num 1),
          ("measurements", QVariant.list [QVariant.str "m"])],
        QVariant.map [("id", QVariant.num 2), ("measurements", QVariant.list []),
          ("tag", QVariant.str "first")]] := by
  refine ⟨rfl, ?_⟩
  rw [(addSensors_merge _ "s1" _ rfl _).1]
  rfl

end HistoryManager

/-! ## C5 and C6: appended measurements, overwritten air quality -/

namespace HistoryManager

/-- After `addSessionMeasurements` the session file still holds an object, with the
sensors updated one by one. -/
theorem addSessionMeasurements_file {hm : HistoryManager} {id : String} {o : QVariantMap}
    (h : hm.m_historyDir (sessionFile id) = some (QJsonDocument.object o))
    (measurements : List QVariantMap) :
    ∃ o1, (hm.addSessionMeasurements id measurements).m_historyDir (sessionFile id) =
        some (QJsonDocument.object o1) ∧
      sensorsOf o1 = (sensorsOf o).map (updateSensor (measurements.foldl groupStep [])) := by
  have hs := sensorsOf_addSessionMeasurements h measurements
  rw [addSessionMeasurements_of_object h] at hs ⊢
  split
  · rename_i hany
    rw [if_pos hany, loadSessionDetails_writeFile_same] at hs
    exact ⟨_, by simp [QDir.writeFile], hs⟩
  · rename_i hany
    rw [if_neg hany, loadSessionDetails_of_object h] at hs
    exact ⟨o, h, hs⟩

theorem entriesFor_singleton (m1 : QVariantMap) (k : Int) :
    entriesFor [m1] k =
      if k = (m1.get "sensorId").toInt then [measurementEntry m1] else [] := by
  unfold entriesFor
  by_cases hk : (m1.get "sensorId").toInt = k
  · simp [hk]
  · simp [hk, Ne.symm hk]

/-- C5. `addSessionMeasurements` on an existing session appends by concatenation: the
stored sensors keep their ids and order, and each has its previous measurements followed
by the entries of the input measurements whose `sensorId` is its id, in input order.
Nothing is de-duplicated: the same measurement passed in two calls is stored twice. -/
theorem addMeasurements_append (hm : HistoryManager) (id : String) (o : QVariantMap)
    (h : hm.m_historyDir (sessionFile id) = some (QJsonDocument.object o))
    (measurements : List QVariantMap) :
    (sensorsOf ((hm.addSessionMeasurements id measurements).loadSessionDetails id)).map
        sensorId = (sensorsOf o).map sensorId ∧
    (sensorsOf ((hm.addSessionMeasurements id measurements).loadSessionDetails id)).map
        measurementsOf =
      (sensorsOf o).map (fun s => measurementsOf s ++ entriesFor measurements (sensorId s)) ∧
    ∀ m1 : QVariantMap,
      (sensorsOf (((hm.addSessionMeasurements id [m1]).addSessionMeasurements id
          [m1]).loadSessionDetails id)).map measurementsOf =
        (sensorsOf o).map (fun s =>
          if sensorId s = (m1.get "sensorId").toInt then
            measurementsOf s ++ [measurementEntry m1, measurementEntry m1]
          else measurementsOf s) := by
  refine ⟨?_, ?_, ?_⟩
  · rw [sensorsOf_addSessionMeasurements h, List.map_map]
    exact congrArg (fun f => List.map f (sensorsOf o)) (funext (sensorId_updateSensor _))
  · rw [sensorsOf_addSessionMeasurements h, List.map_map]
    exact congrArg (fun f => List.map f (sensorsOf o))
      (funext (measurementsOf_updateSensor measurements))
  · intro m1
    obtain ⟨o1, ho1, hs1⟩ := addSessionMeasurements_file h [m1]
    rw [sensorsOf_addSessionMeasurements ho1, hs1, List.map_map, List.map_map]
    apply List.map_congr_left
    intro s _
    simp only [Function.comp_apply, measurementsOf_updateSensor, sensorId_updateSensor,
      entriesFor_singleton]
    split <;> simp

/-- C5 on a session that stores sensor 1 without measurements: the same measurement
added twice is stored twice. -/
theorem addMeasurements_append_witness :
    (HistoryManager.mk (QDir.writeFile QDir.empty (sessionFile "s1")
        (QJsonDocument.object [("sensors", QVariant.list
          [QVariant.map [("id", QVariant.num 1)]])]))).m_historyDir (sessionFile "s1") =
      some (QJsonDocument.object [("sensors", QVariant.list
          [QVariant.map [("id", QVariant.num 1)]])]) ∧
    (sensorsOf ((((HistoryManager.mk (QDir.writeFile QDir.empty (sessionFile "s1")
        (QJsonDocument.object [("sensors", QVariant.list
          [QVariant.map [("id", QVariant.num 1)]])]))).addSessionMeasurements "s1"
        [[("date", QVariant.str "2024-05-01 08:00:00"), ("sensorId", QVariant.num 1),
          ("value", QVariant.num 7)]]).addSessionMeasurements "s1"
        [[("date", QVariant.str "2024-05-01 08:00:00"), ("sensorId", QVariant.num 1),
          ("value", QVariant.num 7)]]).loadSessionDetails "s1")).map measurementsOf =
      [[QVariant.map [("date", QVariant.str "2024-05-01 08:00:00"),
          ("value", QVariant.num 7)],
        QVariant.map [("date", QVariant.str "2024-05-01 08:00:00"),
          ("value", QVariant.num 7)]]] := by
  refine ⟨rfl, ?_⟩
  rw [(addMeasurements_append _ "s1" _ rfl []).2.2]
  rfl

/-- C6. Air-quality overwrite on an existing session: `addSessionAirQuality` with `A`
and then with `B` leaves the store as `addSessionAirQuality` with `B` alone does; the
`airQuality` field is exactly `B` and every other field of the session is as before. -/
theorem airQuality_overwrite (hm : HistoryManager) (id : String) (o : QVariantMap)
    (h : hm.m_historyDir (sessionFile id) = some (QJsonDocument.object o))
    (A B : QVariantMap) :
    (hm.addSessionAirQuality id A).addSessionAirQuality id B =
      hm.addSessionAirQuality id B ∧
    (((hm.addSessionAirQuality id A).addSessionAirQuality id B).loadSessionDetails id).get
      "airQuality" = QVariant.map B ∧
    ∀ key : String, key ≠ "airQuality" →
      (((hm.addSessionAirQuality id A).addSessionAirQuality id B).loadSessionDetails id).get
        key = (hm.loadSessionDetails id).get key := by
  have hA := addSessionAirQuality_of_object h A
  have hfileA : (hm.addSessionAirQuality id A).m_historyDir (sessionFile id) =
      some (QJsonDocument.object (o.set "airQuality" (QVariant.map A))) := by
    rw [hA]; simp [QDir.writeFile]
  have hAB : (hm.addSessionAirQuality id A).addSessionAirQuality id B =
      hm.addSessionAirQuality id B := by
    rw [addSessionAirQuality_of_object hfileA, addSessionAirQuality_of_object h B, hA]
    simp only [QDir.writeFile_writeFile, QVariantMap.set, QMap.insert_insert]
  refine ⟨hAB, ?_, ?_⟩
  · rw [hAB, addSessionAirQuality_of_object h, loadSessionDetails_writeFile_same]
    simp [QVariantMap.get_set]
  · intro key hkey
    rw [hAB, addSessionAirQuality_of_object h, loadSessionDetails_writeFile_same,
      loadSessionDetails_of_object h]
    simp [QVariantMap.get_set, hkey]

/-- C6 on a session with a radius: after two snapshots only the second is stored, and
the radius is untouched. -/
theorem airQuality_overwrite_witness :
    (HistoryManager.mk (QDir.writeFile QDir.empty (sessionFile "s1")
        (QJsonDocument.object [("radius", QVariant.num 5)]))).m_historyDir
        (sessionFile "s1") = some (QJsonDocument.object [("radius", QVariant.num 5)]) ∧
    (((HistoryManager.mk (QDir.writeFile QDir.empty (sessionFile "s1")
        (QJsonDocument.object [("radius", QVariant.num 5)]))).addSessionAirQuality "s1"
        [("indexLevelName", QVariant.str "Dobry"),
          ("stCalcDate", QVariant.str "2024-05-01 08:00:00")]).addSessionAirQuality "s1"
        [("indexLevelName", QVariant.str "Zły")]).loadSessionDetails "s1" =
      [("airQuality", QVariant.map [("indexLevelName", QVariant.str "Zły")]),
        ("radius", QVariant.num 5)] := by
  refine ⟨rfl, ?_⟩
  rw [(airQuality_overwrite _ "s1" _ rfl _ _).1]
  rfl

end HistoryManager

/-! ## Lemmas on the grid -/

namespace Grid

theorem addAll_append (g : Grid) (a b : List Contribution) :
    addAll g (a ++ b) = addAll (addAll g a) b := by
  simp [addAll, List.foldl_append]

theorem addAll_nil (g : Grid) : addAll g [] = g := rfl

theorem valuesAt_append (a b : List Contribution) (d : QDate) (n : String) (h : Int) :
    valuesAt (a ++ b) d n h = valuesAt a d n h ++ valuesAt b d n h := by
  simp [valuesAt]

end Grid

/-! ## `aggregateData` as a run of additions -/

theorem flatMap_ite_singleton {α β : Type} (l : List α) (p : α → Bool) (f : α → β) :
    l.flatMap (fun x => if p x = true then [f x] else []) = (l.filter p).map f := by
  induction l with
  | nil => rfl
  | cons a t ih =>
    rw [List.flatMap_cons, ih]
    by_cases h : p a = true <;> simp [h]

theorem flatMap_ite_nil {α β : Type} (l : List α) (p : α → Bool) (f : α → List β) :
    l.flatMap (fun x => if p x = true then f x else []) = (l.filter p).flatMap f := by
  induction l with
  | nil => rfl
  | cons a t ih =>
    rw [List.flatMap_cons, ih]
    by_cases h : p a = true <;> simp [h]

theorem flatMap_filter_of_nil {α β : Type} (l : List α) (p : α → Bool) (f : α → List β)
    (hf : ∀ x, p x = false → f x = []) :
    (l.filter p).flatMap f = l.flatMap f := by
  induction l with
  | nil => rfl
  | cons a t ih =>
    by_cases h : p a = true
    · simp [List.filter_cons, h, ih]
    · simp only [Bool.not_eq_true] at h
      simp [List.filter_cons, h, ih, hf a h]

namespace Grid

theorem valuesAt_flatMap {α : Type} (l : List α) (f : α → List Contribution)
    (d : QDate) (n : String) (h : Int) :
    valuesAt (l.flatMap f) d n h = l.flatMap (fun x => valuesAt (f x) d n h) := by
  induction l with
  | nil => rfl
  | cons a t ih => simp [List.flatMap_cons, valuesAt_append, ih]

theorem foldl_addAll {α : Type} (l : List α) (f : α → List Contribution) :
    ∀ g : Grid, l.foldl (fun g x => addAll g (f x)) g = addAll g (l.flatMap f) := by
  induction l with
  | nil => intro g; rfl
  | cons a t ih =>
    intro g
    rw [List.foldl_cons, ih, List.flatMap_cons, addAll_append]

end Grid

namespace window_2_data_vis

theorem contains_selectedSensorIds (w : window_2_data_vis) (x : Int) :
    QSet.contains (selectedSensorIds w) x = w.isSelected x := by
  unfold selectedSensorIds isSelected
  have key : ∀ (l : List QCheckBox) (init : QSet Int),
      x ∈ l.foldl (fun ids checkBox =>
          if checkBox.isChecked then ids.insert checkBox.sensorId else ids) init ↔
        x ∈ init ∨ ∃ cb ∈ l, cb.isChecked = true ∧ cb.sensorId = x := by
    intro l
    induction l with
    | nil => intro init; simp
    | cons a t ih =>
      intro init
      rw [List.foldl_cons, ih]
      by_cases ha : a.isChecked = true
      · simp only [ha, if_true, mem_QSet_insert, List.mem_cons, exists_eq_or_imp,
          true_and]
        constructor
        · rintro ((h | h) | h)
          · exact Or.inr (Or.inl h.symm)
          · exact Or.inl h
          · exact Or.inr (Or.inr h)
        · rintro (h | h | h)
          · exact Or.inl (Or.inr h)
          · exact Or.inl (Or.inl h.symm)
          · exact Or.inr h
      · simp [ha]
  have h := key w.m_sensorCheckBoxes []
  simp only [List.not_mem_nil, false_or] at h
  unfold QSet.contains
  rw [Bool.eq_iff_iff]
  simp only [decide_eq_true_eq, List.any_eq_true, Bool.and_eq_true, beq_iff_eq]
  rw [h]

theorem historyMeasurementStep_eq (selectedDates : List QDate) (sensorName : String)
    (g : Grid) (mv : QVariant) :
    historyMeasurementStep selectedDates sensorName g mv =
      g.addAll (contributionOf selectedDates sensorName (dateTextOf mv) (historyValueOf mv)) := by
  unfold historyMeasurementStep contributionOf dateTextOf historyValueOf
  dsimp only
  cases hp : QDateTime.fromString ((mv.toMap.get "date").toString) with
  | none => rfl
  | some dt =>
    by_cases hsel : dt.date ∈ selectedDates
    · by_cases hv : (if (mv.toMap.get "value").isValid = true then
          (mv.toMap.get "value").toDouble else 0) = 0
      · simp [hsel, hv, Grid.addAll]
      · simp [hsel, hv, Grid.addAll]
    · simp [hsel, Grid.addAll]

theorem onlineMeasurementStep_eq (selectedDates : List QDate) (sensorName : String)
    (g : Grid) (value : QVariant) :
    onlineMeasurementStep selectedDates sensorName g value =
      g.addAll (contributionOf selectedDates sensorName (dateTextOf value)
        (onlineValueOf value)) := by
  unfold onlineMeasurementStep contributionOf dateTextOf onlineValueOf
  dsimp only
  cases hp : QDateTime.fromString ((value.toMap.get "date").toString) with
  | none => rfl
  | some dt =>
    by_cases hsel : dt.date ∈ selectedDates
    · by_cases hv : (if (value.toMap.get "value").isNull = true then 0
          else (value.toMap.get "value").toDouble) = 0
      · simp [hsel, hv, Grid.addAll]
      · simp [hsel, hv, Grid.addAll]
    · simp [hsel, Grid.addAll]

theorem historySensorStep_eq (w : window_2_data_vis) (g : Grid) (sv : QVariant) :
    historySensorStep w (selectedSensorIds w) g sv = g.addAll (historyContributions w sv) := by
  unfold historySensorStep historyContributions
  simp only [contains_selectedSensorIds]
  have hfun : historyMeasurementStep w.m_selectedDates
      (((sv.toMap.get "param").toMap.get "paramName").toString) =
      fun g mv => Grid.addAll g (contributionOf w.m_selectedDates (paramNameOf sv)
        (dateTextOf mv) (historyValueOf mv)) := by
    funext g mv
    exact historyMeasurementStep_eq _ _ g mv
  rw [hfun, Grid.foldl_addAll]
  by_cases hs : w.isSelected ((sv.toMap.get "id").toInt) = true
  · by_cases hst : (sv.toMap.get "stationId").toInt = w.m_stationId
    · simp [hs, hst, HistoryManager.sensorId, stationIdOf, HistoryManager.measurementsOf]
    · simp [hs, hst, HistoryManager.sensorId, stationIdOf, Grid.addAll]
  · simp [hs, HistoryManager.sensorId, Grid.addAll]

theorem onlineSensorStep_eq (w : window_2_data_vis) (g : Grid) (k : Int) :
    onlineSensorStep w (selectedSensorIds w) g k = g.addAll (onlineContributions w k) := by
  unfold onlineSensorStep onlineContributions
  simp only [contains_selectedSensorIds]
  have hfun : onlineMeasurementStep w.m_selectedDates (QMap.value w.m_sensorIdToName k "") =
      fun g value => Grid.addAll g (contributionOf w.m_selectedDates
        (QMap.value w.m_sensorIdToName k "") (dateTextOf value) (onlineValueOf value)) := by
    funext g value
    exact onlineMeasurementStep_eq _ _ g value
  rw [hfun, Grid.foldl_addAll]
  by_cases hs : w.isSelected k = true
  · simp [hs]
  · simp [hs, Grid.addAll]

/-- The function `aggregateData` is the run of the history additions followed by the fresh ones. -/
theorem aggregateData_eq (w : window_2_data_vis) :
    aggregateData w =
      if w.session.isEmpty then []
      else Grid.addAll []
        ((HistoryManager.sensorsOf w.session).flatMap (historyContributions w) ++
          (QMap.keys w.m_measurementData).flatMap (onlineContributions w)) := by
  unfold aggregateData
  have h1 : historySensorStep w (selectedSensorIds w) =
      fun g sv => Grid.addAll g (historyContributions w sv) := by
    funext g sv; exact historySensorStep_eq w g sv
  have h2 : onlineSensorStep w (selectedSensorIds w) =
      fun g k => Grid.addAll g (onlineContributions w k) := by
    funext g k; exact onlineSensorStep_eq w g k
  simp only [h1, h2, Grid.foldl_addAll, Grid.addAll_append, session, HistoryManager.sensorsOf]

theorem valuesAt_contributionOf (selectedDates : List QDate) (sensorName text : String)
    (value : Rat) (d : QDate) (n : String) (h : Int) :
    Grid.valuesAt (contributionOf selectedDates sensorName text value) d n h =
      if (sensorName == n && parsesTo text d h && selectedDates.contains d &&
          decide (value ≠ 0)) = true then [value] else [] := by
  unfold contributionOf parsesTo
  cases QDateTime.fromString text with
  | none => simp [Grid.valuesAt]
  | some dt =>
    by_cases hd : dt.date = d
    · subst hd
      by_cases hsel : dt.date ∈ selectedDates
      · by_cases hv : value = 0
        · simp [hsel, hv, Grid.valuesAt]
        · by_cases hn : sensorName = n
          · by_cases hh : dt.hour = h
            · simp [hsel, hv, hn, hh, Grid.valuesAt, Contribution.hits]
            · simp [hsel, hv, hn, hh, Grid.valuesAt, Contribution.hits]
          · simp [hsel, hv, hn, Grid.valuesAt, Contribution.hits]
      · simp [hsel, Grid.valuesAt]
    · by_cases hsel : dt.date ∈ selectedDates
      · by_cases hv : value = 0
        · simp [hsel, hv, Grid.valuesAt]
        · simp [hsel, hv, hd, Grid.valuesAt, Contribution.hits]
      · simp [hsel, hd, Grid.valuesAt]

end window_2_data_vis

/-! ## C7: the history merge -/

namespace window_2_data_vis

/-- What the persisted measurements of one sensor add to one cell. -/
theorem valuesAt_historyContributions (w : window_2_data_vis) (sv : QVariant)
    (d : QDate) (n : String) (h : Int) :
    Grid.valuesAt (historyContributions w sv) d n h =
      if (w.isSelected (HistoryManager.sensorId sv) && stationIdOf sv == w.m_stationId &&
          paramNameOf sv == n) = true then
        ((HistoryManager.measurementsOf sv).filter (fun mv =>
          parsesTo (dateTextOf mv) d h && w.m_selectedDates.contains d &&
            decide (historyValueOf mv ≠ 0))).map historyValueOf
      else [] := by
  unfold historyContributions
  by_cases hsel : (w.isSelected (HistoryManager.sensorId sv) &&
      stationIdOf sv == w.m_stationId) = true
  · rw [if_pos hsel, Grid.valuesAt_flatMap]
    simp only [valuesAt_contributionOf]
    rw [flatMap_ite_singleton]
    by_cases hn : paramNameOf sv = n
    · simp [hsel, hn]
    · have : (w.isSelected (HistoryManager.sensorId sv) && stationIdOf sv == w.m_stationId &&
          paramNameOf sv == n) = false := by simp [hn]
      simp [this, hn]
  · have : (w.isSelected (HistoryManager.sensorId sv) && stationIdOf sv == w.m_stationId &&
        paramNameOf sv == n) = false := by
      simp only [Bool.not_eq_true] at hsel
      simp [hsel]
    rw [if_neg hsel]
    simp [this, Grid.valuesAt]

/-- What the whole persisted history adds to one cell. -/
theorem valuesAt_history (w : window_2_data_vis) (d : QDate) (n : String) (h : Int) :
    Grid.valuesAt ((HistoryManager.sensorsOf w.session).flatMap (historyContributions w)) d n h =
      historyValues w d n h := by
  rw [Grid.valuesAt_flatMap]
  simp only [valuesAt_historyContributions]
  rw [flatMap_ite_nil]
  rfl

end window_2_data_vis

namespace window_2_data_vis

end window_2_data_vis

/-! ## C8: zeros of the fresh cache -/

namespace QMap

theorem find_map_snd {K V W : Type} [DecidableEq K] (m : QMap K V) (F : V → W) (k : K) :
    find (m.map (fun entry => (entry.1, F entry.2))) k = (find m k).map F := by
  induction m with
  | nil => rfl
  | cons hd tl ih =>
    obtain ⟨k', v'⟩ := hd
    by_cases h : k = k' <;> simp [find, h, ih]

end QMap

namespace window_2_data_vis

theorem contributionOf_zero (selectedDates : List QDate) (sensorName text : String) :
    contributionOf selectedDates sensorName text 0 = [] := by
  unfold contributionOf
  cases QDateTime.fromString text <;> simp

theorem onlineContributions_withoutZeros (w : window_2_data_vis) (k : Int) :
    onlineContributions (w.withCache (withoutZeros w.m_measurementData)) k =
      onlineContributions w k := by
  unfold onlineContributions isSelected withCache
  dsimp only
  have hv : QMap.value (withoutZeros w.m_measurementData) k [] =
      (QMap.value w.m_measurementData k []).filter
        (fun value => decide (onlineValueOf value ≠ 0)) := by
    unfold QMap.value withoutZeros
    rw [QMap.find_map_snd]
    cases QMap.find w.m_measurementData k <;> simp
  simp only [hv]
  split
  · apply flatMap_filter_of_nil
    intro x hx
    have hx0 : onlineValueOf x = 0 := by simpa using hx
    rw [hx0, contributionOf_zero]
  · rfl

/-- C8, as the code has it. A freshly fetched measurement whose value is zero or null is
skipped, exactly like a zero of the persisted history: `aggregateData` returns the grid it
returns when all such measurements are taken out of the fresh cache, so a zero creates no
cell and changes none. -/
theorem fresh_zeros_are_skipped (w : window_2_data_vis) :
    aggregateData w =
      aggregateData (w.withCache (withoutZeros w.m_measurementData)) := by
  rw [aggregateData_eq, aggregateData_eq]
  have hkeys : QMap.keys (withoutZeros w.m_measurementData) = QMap.keys w.m_measurementData := by
    simp [QMap.keys, withoutZeros, Function.comp_def]
  have hfun : onlineContributions (w.withCache (withoutZeros w.m_measurementData)) =
      onlineContributions w := funext (onlineContributions_withoutZeros w)
  have hhist : historyContributions (w.withCache (withoutZeros w.m_measurementData)) =
      historyContributions w := rfl
  have hsess : session (w.withCache (withoutZeros w.m_measurementData)) =
      session w := rfl
  have hcache : (w.withCache (withoutZeros w.m_measurementData)).m_measurementData =
      withoutZeros w.m_measurementData := rfl
  simp only [hcache, hkeys, hfun, hhist, hsess]

/-- C8 fails as stated: in `zeroCacheWindow` the fresh cache of the selected sensor 1
holds a zero with a timestamp in hour 11 and a null with one in hour 12 of the selected
date, and the grid has neither the cell of hour 11 nor that of hour 12. -/
theorem fresh_zero_makes_no_cell :
    zeroCacheWindow.isSelected 1 = true ∧
    (QMap.value zeroCacheWindow.m_measurementData 1 []).map
        (fun value => (parsesTo (dateTextOf value) 2460432 11,
          parsesTo (dateTextOf value) 2460432 12, onlineValueOf value)) =
      [(true, false, 0), (false, true, 0)] ∧
    zeroCacheWindow.m_selectedDates.contains 2460432 = true ∧
    QMap.value zeroCacheWindow.m_sensorIdToName 1 "" = "PM10" ∧
    Grid.cell (aggregateData zeroCacheWindow) 2460432 "PM10" 11 = none ∧
    Grid.cell (aggregateData zeroCacheWindow) 2460432 "PM10" 12 = none ∧
    (QMap.find (aggregateData zeroCacheWindow) 2460432).map
        (fun byName => QMap.keys (QMap.value byName "PM10" [])) = some [8, 10] := by
  refine ⟨by decide, by decide, by decide, by decide, by decide, by decide, by decide⟩

end window_2_data_vis

/-! ## The fresh cache the offline fetch builds -/

namespace QMap

variable {K V : Type} [DecidableEq K] [KeyOrder K]

theorem mem_keys_insert (m : QMap K V) (k : K) (v : V) (x : K) :
    x ∈ keys (insert m k v) ↔ x = k ∨ x ∈ keys m := by
  induction m with
  | nil => simp [insert, keys]
  | cons hd tl ih =>
    obtain ⟨k', v'⟩ := hd
    by_cases h1 : k = k'
    · subst h1
      simp [insert, keys]
    · by_cases h2 : KeyOrder.lt k k' = true
      · simp [insert, keys, h1, h2]
      · have ih' : x ∈ List.map Prod.fst (insert tl k v) ↔ x = k ∨ x ∈ List.map Prod.fst tl := ih
        simp only [insert, h1, h2, keys, if_false, List.map_cons, List.mem_cons, ih',
          Bool.false_eq_true]
        tauto

theorem keys_insert_sorted {V : Type} (m : QMap Int V) (k : Int) (v : V)
    (h : (keys m).Sorted (fun a b => a < b)) :
    (keys (insert m k v)).Sorted (fun a b => a < b) := by
  induction m with
  | nil => simp [insert, keys]
  | cons hd tl ih =>
    obtain ⟨k', v'⟩ := hd
    have hs : ∀ b ∈ keys tl, k' < b := by
      intro b hb
      exact List.rel_of_sorted_cons h b hb
    have ht : (keys tl).Sorted (fun a b => a < b) := List.Sorted.of_cons h
    by_cases h1 : k = k'
    · subst h1
      simpa [insert, keys] using h
    · by_cases h2 : k < k'
      · have h2' : KeyOrder.lt k k' = true := by simpa [KeyOrder.lt] using h2
        simp only [insert, h1, h2', if_false, if_true, keys, List.map_cons]
        refine List.sorted_cons.2 ⟨?_, h⟩
        intro b hb
        have hb' : b = k' ∨ b ∈ keys tl := by simpa [keys] using hb
        rcases hb' with rfl | hb'
        · exact h2
        · exact lt_trans h2 (hs b hb')
      · have h2' : ¬ KeyOrder.lt k k' = true := by simpa [KeyOrder.lt] using h2
        have hlt : k' < k := lt_of_le_of_ne (not_lt.mp h2) (Ne.symm h1)
        simp only [insert, h1, h2', if_false, keys, List.map_cons]
        refine List.sorted_cons.2 ⟨?_, ih ht⟩
        intro b hb
        rcases (mem_keys_insert tl k v b).1 hb with rfl | hb'
        · exact hlt
        · exact hs b hb'

end QMap

/-- Looking up each key of `K` in a list with pairwise distinct keys visits, up to order,
the elements of the list whose key is in `K`. -/
theorem flatMap_find_perm {α β : Type} (key : α → Int) (G : α → List β) :
    ∀ (L : List α) (K : List Int), K.Nodup → (L.map key).Nodup →
      List.Perm
        (K.flatMap (fun k => ((L.find? (fun x => key x == k)).map G).getD []))
        ((L.filter (fun x => decide (key x ∈ K))).flatMap G) := by
  intro L
  induction L with
  | nil =>
    intro K _ _
    simp
  | cons x L' ih =>
    intro K hK hL
    rw [List.map_cons, List.nodup_cons] at hL
    by_cases hx : key x ∈ K
    · have hperm : List.Perm K (key x :: K.erase (key x)) := List.perm_cons_erase hx
      have hK' : (K.erase (key x)).Nodup := hK.erase _
      have hnot : key x ∉ K.erase (key x) := fun h => (hK.mem_erase_iff.1 h).1 rfl
      refine (List.Perm.flatMap_right _ hperm).trans ?_
      rw [List.flatMap_cons]
      have hfilter : (x :: L').filter (fun y => decide (key y ∈ K)) =
          x :: L'.filter (fun y => decide (key y ∈ K.erase (key x))) := by
        rw [List.filter_cons]
        simp only [hx, decide_True, if_true]
        congr 1
        apply List.filter_congr
        intro y hy
        have hne : key y ≠ key x := by
          intro e
          exact hL.1 (e ▸ List.mem_map_of_mem key hy)
        simp [hK.mem_erase_iff, hne]
      rw [hfilter, List.flatMap_cons]
      have hhead : ((List.find? (fun y => key y == key x) (x :: L')).map G).getD [] = G x := by
        simp [List.find?_cons]
      rw [hhead]
      refine List.Perm.append_left _ ?_
      have hcongr : (K.erase (key x)).flatMap
            (fun k => ((List.find? (fun y => key y == k) (x :: L')).map G).getD []) =
          (K.erase (key x)).flatMap
            (fun k => ((List.find? (fun y => key y == k) L').map G).getD []) := by
        apply List.flatMap_congr
        intro k hk
        have hne : ¬ key x = k := fun e => hnot (e ▸ hk)
        simp [List.find?_cons, hne]
      rw [hcongr]
      exact ih _ hK' hL.2
    · have hfilter : (x :: L').filter (fun y => decide (key y ∈ K)) =
          L'.filter (fun y => decide (key y ∈ K)) := by
        rw [List.filter_cons]
        simp [hx]
      have hcongr : K.flatMap
            (fun k => ((List.find? (fun y => key y == k) (x :: L')).map G).getD []) =
          K.flatMap (fun k => ((List.find? (fun y => key y == k) L').map G).getD []) := by
        apply List.flatMap_congr
        intro k hk
        have hne : ¬ key x = k := fun e => hx (e ▸ hk)
        simp [List.find?_cons, hne]
      rw [hfilter, hcongr]
      exact ih K hK hL.2

namespace window_2_data_vis

theorem historyArray_eq (sensors : QVariantList) (k : Int) :
    historyArray sensors k =
      ((sensors.find? (fun sv => HistoryManager.sensorId sv == k)).map
        (fun sv => measurementsArray (HistoryManager.measurementsOf sv))).getD [] := by
  unfold historyArray
  have hfun : (fun sensorVariant : QVariant => (sensorVariant.toMap.get "id").toInt == k) =
      fun sv => HistoryManager.sensorId sv == k := rfl
  rw [hfun]
  cases List.find? (fun sv => HistoryManager.sensorId sv == k) sensors <;> rfl

theorem foldl_fetchMeasurementData (ids : List Int) :
    ∀ w : window_2_data_vis, w.session.isEmpty = false →
      ids.foldl (fun w k => fetchMeasurementData w false k) w =
        w.withCache
          (fetchedCache (HistoryManager.sensorsOf w.session) ids w.m_measurementData) := by
  induction ids with
  | nil => intro w _; rfl
  | cons k rest ih =>
    intro w hw
    have hstep : fetchMeasurementData w false k =
        w.withCache (QMap.insert w.m_measurementData k
          (historyArray (HistoryManager.sensorsOf w.session) k)) := by
      unfold fetchMeasurementData
      have hw' : (w.m_historyManager.loadSessionDetails w.m_sessionId).isEmpty = false := hw
      simp [hw', HistoryManager.sensorsOf, session, withCache]
    rw [List.foldl_cons, hstep]
    exact ih (w.withCache (QMap.insert w.m_measurementData k
      (historyArray (HistoryManager.sensorsOf w.session) k))) hw

theorem find_fetchedCache (sensors : QVariantList) (ids : List Int) (k : Int) :
    ∀ init : QMap Int QVariantList,
      QMap.find (fetchedCache sensors ids init) k =
        if k ∈ ids then some (historyArray sensors k) else QMap.find init k := by
  induction ids with
  | nil => intro init; simp [fetchedCache]
  | cons a rest ih =>
    intro init
    have hstep : fetchedCache sensors (a :: rest) init =
        fetchedCache sensors rest (QMap.insert init a (historyArray sensors a)) := rfl
    rw [hstep, ih, QMap.find_insert]
    by_cases h1 : k ∈ rest
    · simp [h1]
    · by_cases h2 : k = a
      · simp [h1, h2]
      · simp [h1, h2]

theorem keys_fetchedCache_sorted (sensors : QVariantList) (ids : List Int) :
    ∀ init : QMap Int QVariantList, (QMap.keys init).Sorted (fun a b => a < b) →
      (QMap.keys (fetchedCache sensors ids init)).Sorted (fun a b => a < b) := by
  induction ids with
  | nil => intro init h; exact h
  | cons a rest ih =>
    intro init h
    exact ih _ (QMap.keys_insert_sorted init a _ h)

theorem mem_keys_fetchedCache (sensors : QVariantList) (ids : List Int) (k : Int) :
    ∀ init : QMap Int QVariantList,
      k ∈ QMap.keys (fetchedCache sensors ids init) ↔ k ∈ ids ∨ k ∈ QMap.keys init := by
  induction ids with
  | nil => intro init; simp [fetchedCache]
  | cons a rest ih =>
    intro init
    have hstep : fetchedCache sensors (a :: rest) init =
        fetchedCache sensors rest (QMap.insert init a (historyArray sensors a)) := rfl
    rw [hstep, ih, QMap.mem_keys_insert]
    simp only [List.mem_cons]
    tauto

theorem mem_checkedSensorIds (w : window_2_data_vis) (k : Int) :
    k ∈ checkedSensorIds w ↔ w.isSelected k = true := by
  simp [checkedSensorIds, isSelected, and_assoc]

/-- The array of the offline fetch adds what the persisted measurements add. -/
theorem flatMap_measurementsArray (selectedDates : List QDate) (name : String)
    (measurements : QVariantList) :
    (measurementsArray measurements).flatMap (fun value =>
        contributionOf selectedDates name (dateTextOf value) (onlineValueOf value)) =
      measurements.flatMap (fun mv =>
        contributionOf selectedDates name (dateTextOf mv) (historyValueOf mv)) := by
  unfold measurementsArray
  rw [List.flatMap_map]
  apply List.flatMap_congr
  intro mv _
  dsimp only
  have hd : ∀ v : QVariant, dateTextOf (QVariant.map
      (QVariantMap.set (QVariantMap.set [] "date" (QVariant.str (mv.toMap.get "date").toString))
        "value" v)) = dateTextOf mv := by
    intro v
    simp [dateTextOf, QVariant.toMap_map, QVariantMap.get_set, QVariant.toString]
  have hv : ∀ q : Rat, onlineValueOf (QVariant.map
      (QVariantMap.set (QVariantMap.set [] "date" (QVariant.str (mv.toMap.get "date").toString))
        "value" (QVariant.num q))) = q := by
    intro q
    simp [onlineValueOf, QVariant.toMap_map, QVariantMap.get_set, QVariant.isNull,
      QVariant.toDouble]
  rw [hd, hv]
  rfl

end window_2_data_vis

/-! ## The cache of the offline fetch and the history -/

namespace window_2_data_vis

/-- Under a key of the offline cache the fresh measurements add what the persisted
measurements of the sensor with that id add. -/
theorem onlineContributions_fetched (w : window_2_data_vis) (k : Int)
    (hk : k ∈ checkedSensorIds w)
    (hown : ∀ sv ∈ HistoryManager.sensorsOf w.session,
      w.isSelected (HistoryManager.sensorId sv) = true →
        stationIdOf sv = w.m_stationId ∧
        QMap.value w.m_sensorIdToName (HistoryManager.sensorId sv) "" = paramNameOf sv) :
    onlineContributions
        (w.withCache (fetchedCache (HistoryManager.sensorsOf w.session) (checkedSensorIds w) [])) k =
      (((HistoryManager.sensorsOf w.session).find?
        (fun sv => HistoryManager.sensorId sv == k)).map (historyContributions w)).getD [] := by
  have hsel : w.isSelected k = true := (mem_checkedSensorIds w k).1 hk
  have hval : QMap.value (fetchedCache (HistoryManager.sensorsOf w.session)
      (checkedSensorIds w) []) k [] = historyArray (HistoryManager.sensorsOf w.session) k := by
    unfold QMap.value
    rw [find_fetchedCache, if_pos hk]
    rfl
  have hunfold : onlineContributions
      (w.withCache (fetchedCache (HistoryManager.sensorsOf w.session) (checkedSensorIds w) [])) k =
      if w.isSelected k = true then
        (QMap.value (fetchedCache (HistoryManager.sensorsOf w.session)
          (checkedSensorIds w) []) k []).flatMap (fun value =>
            contributionOf w.m_selectedDates (QMap.value w.m_sensorIdToName k "")
              (dateTextOf value) (onlineValueOf value))
      else [] := rfl
  rw [hunfold, if_pos hsel, hval, historyArray_eq]
  cases hfind : (HistoryManager.sensorsOf w.session).find?
      (fun sv => HistoryManager.sensorId sv == k) with
  | none => rfl
  | some sv =>
    have hmem : sv ∈ HistoryManager.sensorsOf w.session := List.mem_of_find?_eq_some hfind
    have hid : HistoryManager.sensorId sv = k := by
      have := List.find?_some hfind
      simpa using this
    have hsv := hown sv hmem (hid ▸ hsel)
    simp only [Option.map_some', Option.getD_some]
    rw [flatMap_measurementsArray]
    unfold historyContributions
    rw [hid, hsel, hsv.1]
    rw [← hid, hsv.2]
    simp

end window_2_data_vis

/-! ## The statistics loop of `displayCharts` -/

namespace window_2_data_vis

/-- The running minimum and maximum: the comparisons of the code are `min` and `max`. -/
theorem include_minValue (st : Stats) (x value : Rat) :
    (st.include x value).minValue = min st.minValue value := by
  unfold Stats.include
  by_cases h : value < st.minValue
  · simp [h, min_eq_right (le_of_lt h)]
  · simp [h, min_eq_left (not_lt.mp h)]

theorem include_maxValue (st : Stats) (x value : Rat) :
    (st.include x value).maxValue = max st.maxValue value := by
  unfold Stats.include
  by_cases h : value > st.maxValue
  · simp [h, max_eq_right (le_of_lt h)]
  · simp [h, max_eq_left (not_lt.mp h)]

/-- The state after the single-date loop over some hours of a row. -/
theorem foldl_singleDayStep (row : QMap Int Rat) (hours : List Nat) :
    ∀ st : Stats,
      (hours.foldl (singleDayStep row) st).points =
          st.points ++ (hours.filter (fun hr : Nat => decide (QMap.value row (hr : Int) 0 ≠ 0))).map
            (fun hr : Nat => ((hr : Rat), QMap.value row (hr : Int) 0)) ∧
      (hours.foldl (singleDayStep row) st).count =
          st.count + (hours.filter (fun hr : Nat => decide (QMap.value row (hr : Int) 0 ≠ 0))).length ∧
      (hours.foldl (singleDayStep row) st).sum =
          st.sum + ((hours.filter (fun hr : Nat => decide (QMap.value row (hr : Int) 0 ≠ 0))).map
            (fun hr : Nat => QMap.value row (hr : Int) 0)).sum ∧
      (hours.foldl (singleDayStep row) st).minValue =
          ((hours.filter (fun hr : Nat => decide (QMap.value row (hr : Int) 0 ≠ 0))).map
            (fun hr : Nat => QMap.value row (hr : Int) 0)).foldl min st.minValue ∧
      (hours.foldl (singleDayStep row) st).maxValue =
          ((hours.filter (fun hr : Nat => decide (QMap.value row (hr : Int) 0 ≠ 0))).map
            (fun hr : Nat => QMap.value row (hr : Int) 0)).foldl max st.maxValue := by
  induction hours with
  | nil => intro st; simp
  | cons hr rest ih =>
    intro st
    rw [List.foldl_cons]
    by_cases hv : QMap.value row (hr : Int) 0 = 0
    · have hstep : singleDayStep row st hr = st := by simp [singleDayStep, hv]
      rw [hstep]
      have hf : (hr :: rest).filter (fun hr : Nat => decide (QMap.value row (hr : Int) 0 ≠ 0)) =
          rest.filter (fun hr : Nat => decide (QMap.value row (hr : Int) 0 ≠ 0)) := by
        simp [List.filter_cons, hv]
      rw [hf]
      exact ih st
    · have hstep : singleDayStep row st hr =
          st.include (hr : Rat) (QMap.value row (hr : Int) 0) := by
        simp [singleDayStep, hv]
      rw [hstep]
      have hf : (hr :: rest).filter (fun hr : Nat => decide (QMap.value row (hr : Int) 0 ≠ 0)) =
          hr :: rest.filter (fun hr : Nat => decide (QMap.value row (hr : Int) 0 ≠ 0)) := by
        simp [List.filter_cons, hv]
      rw [hf]
      obtain ⟨h1, h2, h3, h4, h5⟩ := ih (st.include (hr : Rat) (QMap.value row (hr : Int) 0))
      refine ⟨?_, ?_, ?_, ?_, ?_⟩
      · rw [h1]; simp [Stats.include]
      · rw [h2]; simp [Stats.include]; omega
      · rw [h3]; simp [Stats.include, add_assoc]
      · rw [h4, include_minValue]; simp
      · rw [h5, include_maxValue]; simp

/-- The least of a bound and the values of a list is below all of them and is one of
them. -/
theorem foldl_min_spec (vs : List Rat) :
    ∀ init : Rat, vs.foldl min init ≤ init ∧ (∀ v ∈ vs, vs.foldl min init ≤ v) ∧
      (vs.foldl min init = init ∨ vs.foldl min init ∈ vs) := by
  induction vs with
  | nil => intro init; simp
  | cons a t ih =>
    intro init
    obtain ⟨h1, h2, h3⟩ := ih (min init a)
    rw [List.foldl_cons]
    refine ⟨le_trans h1 (min_le_left _ _), ?_, ?_⟩
    · intro v hv
      rcases List.mem_cons.1 hv with rfl | hv
      · exact le_trans h1 (min_le_right _ _)
      · exact h2 v hv
    · rcases h3 with h3 | h3
      · rcases min_choice init a with hm | hm
        · exact Or.inl (h3.trans hm)
        · exact Or.inr (by rw [h3, hm]; exact List.mem_cons_self _ _)
      · exact Or.inr (List.mem_cons_of_mem _ h3)

theorem foldl_max_spec (vs : List Rat) :
    ∀ init : Rat, init ≤ vs.foldl max init ∧ (∀ v ∈ vs, v ≤ vs.foldl max init) ∧
      (vs.foldl max init = init ∨ vs.foldl max init ∈ vs) := by
  induction vs with
  | nil => intro init; simp
  | cons a t ih =>
    intro init
    obtain ⟨h1, h2, h3⟩ := ih (max init a)
    rw [List.foldl_cons]
    refine ⟨le_trans (le_max_left _ _) h1, ?_, ?_⟩
    · intro v hv
      rcases List.mem_cons.1 hv with rfl | hv
      · exact le_trans (le_max_right _ _) h1
      · exact h2 v hv
    · rcases h3 with h3 | h3
      · rcases max_choice init a with hm | hm
        · exact Or.inl (h3.trans hm)
        · exact Or.inr (by rw [h3, hm]; exact List.mem_cons_self _ _)
      · exact Or.inr (List.mem_cons_of_mem _ h3)

/-- Started from `DBL_MAX`, the running minimum over a non-empty list of doubles is the
least value of the list. -/
theorem foldl_min_DBL_MAX (vs : List Rat) (hne : vs ≠ []) (hr : ∀ v ∈ vs, |v| ≤ DBL_MAX) :
    vs.foldl min DBL_MAX ∈ vs ∧ ∀ v ∈ vs, vs.foldl min DBL_MAX ≤ v := by
  obtain ⟨_, h2, h3⟩ := foldl_min_spec vs DBL_MAX
  refine ⟨?_, h2⟩
  rcases h3 with h3 | h3
  · obtain ⟨v, hv⟩ := List.exists_mem_of_ne_nil vs hne
    have hle : v ≤ DBL_MAX := le_trans (le_abs_self v) (hr v hv)
    have hge : DBL_MAX ≤ v := h3 ▸ h2 v hv
    have : v = DBL_MAX := le_antisymm hle hge
    rw [h3, ← this]
    exact hv
  · exact h3

theorem foldl_max_DBL_MAX (vs : List Rat) (hne : vs ≠ []) (hr : ∀ v ∈ vs, |v| ≤ DBL_MAX) :
    vs.foldl max (-DBL_MAX) ∈ vs ∧ ∀ v ∈ vs, v ≤ vs.foldl max (-DBL_MAX) := by
  obtain ⟨_, h2, h3⟩ := foldl_max_spec vs (-DBL_MAX)
  refine ⟨?_, h2⟩
  rcases h3 with h3 | h3
  · obtain ⟨v, hv⟩ := List.exists_mem_of_ne_nil vs hne
    have hge : -DBL_MAX ≤ v := le_trans (neg_le_neg (hr v hv)) (neg_abs_le v)
    have hle : v ≤ -DBL_MAX := h3 ▸ h2 v hv
    have : v = -DBL_MAX := le_antisymm hle hge
    rw [h3, ← this]
    exact hv
  · exact h3

end window_2_data_vis

/-! ## C10: single-date statistics -/

namespace window_2_data_vis

end window_2_data_vis

/-! ## What the three update operations leave alone -/

namespace HistoryManager

/-- A write to a session file keeps every file in place and touches no other file. -/
theorem frame_writeFile (hm : HistoryManager) (id : String) (doc : QJsonDocument)
    (f : String) :
    (f ≠ sessionFile id → (hm.m_historyDir.writeFile (sessionFile id) doc) f =
        hm.m_historyDir f) ∧
    ((hm.m_historyDir f).isSome = true →
      ((hm.m_historyDir.writeFile (sessionFile id) doc) f).isSome = true) := by
  by_cases hf : f = sessionFile id
  · subst hf
    simp [QDir.writeFile]
  · simp [QDir.writeFile, hf]

theorem addSessionSensors_frame (hm : HistoryManager) (id : String)
    (sensors : List QVariantMap) (f : String) :
    (f ≠ sessionFile id → (hm.addSessionSensors id sensors).m_historyDir f =
        hm.m_historyDir f) ∧
    ((hm.m_historyDir f).isSome = true →
      ((hm.addSessionSensors id sensors).m_historyDir f).isSome = true) := by
  rcases not_object_cases hm id with ⟨o, ho⟩ | ⟨h1, _, _⟩
  · rw [addSessionSensors_of_object ho]
    exact frame_writeFile hm id _ f
  · rw [h1]
    exact ⟨fun _ => rfl, fun hf => hf⟩

theorem addSessionMeasurements_frame (hm : HistoryManager) (id : String)
    (measurements : List QVariantMap) (f : String) :
    (f ≠ sessionFile id → (hm.addSessionMeasurements id measurements).m_historyDir f =
        hm.m_historyDir f) ∧
    ((hm.m_historyDir f).isSome = true →
      ((hm.addSessionMeasurements id measurements).m_historyDir f).isSome = true) := by
  rcases not_object_cases hm id with ⟨o, ho⟩ | ⟨_, h2, _⟩
  · rw [addSessionMeasurements_of_object ho]
    split
    · exact frame_writeFile hm id _ f
    · exact ⟨fun _ => rfl, fun hf => hf⟩
  · rw [h2]
    exact ⟨fun _ => rfl, fun hf => hf⟩

theorem addSessionAirQuality_frame (hm : HistoryManager) (id : String)
    (airQualityData : QVariantMap) (f : String) :
    (f ≠ sessionFile id → (hm.addSessionAirQuality id airQualityData).m_historyDir f =
        hm.m_historyDir f) ∧
    ((hm.m_historyDir f).isSome = true →
      ((hm.addSessionAirQuality id airQualityData).m_historyDir f).isSome = true) := by
  rcases not_object_cases hm id with ⟨o, ho⟩ | ⟨_, _, h3⟩
  · rw [addSessionAirQuality_of_object ho]
    exact frame_writeFile hm id _ f
  · rw [h3]
    exact ⟨fun _ => rfl, fun hf => hf⟩

/-- On a session file that is missing or holds no JSON object the three update
operations do nothing. -/
theorem noop_of_not_object (hm : HistoryManager) (id : String)
    (h : ∀ o, hm.m_historyDir (sessionFile id) ≠ some (QJsonDocument.object o)) :
    (∀ sensors, hm.addSessionSensors id sensors = hm) ∧
    (∀ measurements, hm.addSessionMeasurements id measurements = hm) ∧
    (∀ airQualityData, hm.addSessionAirQuality id airQualityData = hm) := by
  rcases not_object_cases hm id with ⟨o, ho⟩ | ⟨h1, h2, h3⟩
  · exact absurd ho (h o)
  · exact ⟨fun x => congrFun h1 x, fun x => congrFun h2 x, fun x => congrFun h3 x⟩

/-- The index read by `loadSessions` depends on the index file only. -/
theorem loadSessions_congr {hm hm' : HistoryManager}
    (h : hm'.m_historyDir m_indexFilePath = hm.m_historyDir m_indexFilePath) :
    hm'.loadSessions = hm.loadSessions := by
  unfold loadSessions
  rw [h]

/-- The three update operations do not create a session file either. -/
theorem isSome_of_update {hm hm' : HistoryManager} {id : String}
    (hother : ∀ f, f ≠ sessionFile id → hm'.m_historyDir f = hm.m_historyDir f)
    (hnew : (∀ o, hm.m_historyDir (sessionFile id) ≠ some (QJsonDocument.object o)) →
      hm' = hm)
    (f : String) :
    (hm'.m_historyDir f).isSome = true → (hm.m_historyDir f).isSome = true := by
  intro hf
  by_cases hfile : f = sessionFile id
  · subst hfile
    cases hd : hm.m_historyDir (sessionFile id) with
    | some doc => rfl
    | none =>
      have : hm' = hm := hnew (fun o => by rw [hd]; exact fun e => Option.noConfusion e)
      rw [this, hd] at hf
      exact hf
  · rw [hother f hfile] at hf
    exact hf

end HistoryManager

/-! ## C14 and C15: the order of the index and the eviction step -/

namespace HistoryManager

/-- C14. Newest-first order: from the empty store, after `addSession` calls with pairwise
distinct ids, `loadSessions` lists the retained sessions, the newest 100 of them, in the
reverse of their creation order; the session created last is the first entry. -/
theorem newest_first (calls : List SessionArgs)
    (hids : (calls.map SessionArgs.sessionId).Nodup) :
    (empty.createSessions calls).loadSessions = (calls.reverse.take 100).map entryOf ∧
    (empty.createSessions calls).loadSessions.map (fun e => e.toMap.get "session_id") =
      (calls.reverse.take 100).map (fun c => QVariant.str c.sessionId) ∧
    ∀ c : SessionArgs, calls.getLast? = some c →
      (empty.createSessions calls).loadSessions.head? = some (entryOf c) := by
  have h := holds_createSessions calls empty [] holds_empty (by simpa using hids)
  simp only [List.append_nil] at h
  have hidx : (empty.createSessions calls).loadSessions =
      (calls.reverse.take 100).map entryOf := h.index
  refine ⟨hidx, ?_, ?_⟩
  · rw [hidx, List.map_map]
    rfl
  · intro c hc
    rw [hidx]
    obtain ⟨init, rfl⟩ : ∃ init, calls = init ++ [c] := by
      rcases List.eq_nil_or_concat calls with hnil | ⟨init, last, hl⟩
      · rw [hnil] at hc; simp at hc
      · rw [List.concat_eq_append] at hl
        rw [hl, List.getLast?_concat] at hc
        injection hc with hc
        exact ⟨init, by rw [hl, hc]⟩
    simp

/-- C14 on three calls with the ids a, b and c: the index lists c, b, a. -/
theorem newest_first_witness :
    (threeCalls.map SessionArgs.sessionId).Nodup ∧
    (empty.createSessions threeCalls).loadSessions.map
        (fun e => (e.toMap.get "session_id").toString) = ["c", "b", "a"] := by
  have h := (newest_first threeCalls (by decide)).1
  refine ⟨by decide, ?_⟩
  rw [h]
  rfl

/-- C15. Eviction step, for every store. One `addSession` call turns the index `old` into
`entry :: old` when that has at most 100 entries, and then every file that was there is
still there; otherwise into `entry :: old` without its last element, which is the tail
of `old`, and then every file that was there is still there except the one the tail
entry names under `file`, which is gone unless it is the index file itself. -/
theorem eviction_step (hm : HistoryManager) (sessionId location : String)
    (radius latitude longitude : Rat) (stations : QVariantList) (timestamp : String) :
    (hm.loadSessions.length + 1 ≤ 100 →
      (hm.addSession sessionId location radius latitude longitude stations
          timestamp).loadSessions =
        QVariant.map (indexEntry sessionId location radius timestamp) :: hm.loadSessions ∧
      ∀ f : String, (hm.m_historyDir f).isSome = true →
        ((hm.addSession sessionId location radius latitude longitude stations
          timestamp).m_historyDir f).isSome = true) ∧
    (100 < hm.loadSessions.length + 1 →
      ∃ tail : QVariant, hm.loadSessions.getLast? = some tail ∧
        (hm.addSession sessionId location radius latitude longitude stations
            timestamp).loadSessions =
          QVariant.map (indexEntry sessionId location radius timestamp) ::
            hm.loadSessions.dropLast ∧
        (∀ f : String, f ≠ (tail.toMap.get "file").toString →
          (hm.m_historyDir f).isSome = true →
          ((hm.addSession sessionId location radius latitude longitude stations
            timestamp).m_historyDir f).isSome = true) ∧
        ((tail.toMap.get "file").toString ≠ m_indexFilePath →
          (hm.addSession sessionId location radius latitude longitude stations
            timestamp).m_historyDir ((tail.toMap.get "file").toString) = none)) := by
  unfold addSession
  rw [updateIndexFile_eq, loadSessions_writeFile_session]
  refine ⟨?_, ?_⟩
  · intro hlen
    have hn : ¬ (QVariant.map (indexEntry sessionId location radius timestamp) ::
        hm.loadSessions).length > MAX_SESSIONS := by
      simp only [List.length_cons, MAX_SESSIONS]; omega
    rw [if_neg hn]
    refine ⟨loadSessions_writeFile_index _ _, ?_⟩
    intro f hf
    by_cases h1 : f = m_indexFilePath
    · simp [QDir.writeFile, h1]
    · by_cases h2 : f = sessionFile sessionId
      · subst h2
        simp only [QDir.writeFile]
        split <;> rfl
      · simpa [QDir.writeFile, h1, h2] using hf
  · intro hlen
    have hp : (QVariant.map (indexEntry sessionId location radius timestamp) ::
        hm.loadSessions).length > MAX_SESSIONS := by
      simp only [List.length_cons, MAX_SESSIONS]; omega
    rw [if_pos hp]
    have hne : hm.loadSessions ≠ [] := by
      intro e; rw [e] at hlen; simp at hlen
    obtain ⟨init, last, hl⟩ : ∃ init last, hm.loadSessions = init ++ [last] :=
      ⟨hm.loadSessions.dropLast, hm.loadSessions.getLast hne,
        (List.dropLast_append_getLast hne).symm⟩
    refine ⟨last, by rw [hl, List.getLast?_concat], ?_, ?_, ?_⟩
    · rw [loadSessions_writeFile_index, hl, ← List.cons_append, List.dropLast_concat,
        List.dropLast_concat]
    · intro f hf1 hf
      have hlast : ((QVariant.map (indexEntry sessionId location radius timestamp) ::
          hm.loadSessions).getLast?.getD QVariant.null) = last := by
        rw [hl, ← List.cons_append, List.getLast?_concat]; rfl
      rw [hlast]
      by_cases h1 : f = m_indexFilePath
      · simp [QDir.writeFile, h1]
      · by_cases h2 : f = sessionFile sessionId
        · subst h2
          simp only [QDir.writeFile, QDir.remove]
          rw [if_neg h1, if_neg hf1]
          simp
        · simpa [QDir.writeFile, QDir.remove, h1, h2, hf1] using hf
    · intro hidx
      have hlast : ((QVariant.map (indexEntry sessionId location radius timestamp) ::
          hm.loadSessions).getLast?.getD QVariant.null) = last := by
        rw [hl, ← List.cons_append, List.getLast?_concat]; rfl
      rw [hlast]
      simp [QDir.writeFile, QDir.remove, hidx]

end HistoryManager

/-! ## C16: the index and the session files stay consistent -/

namespace HistoryManager

/-- An operation that leaves the index file alone and neither creates nor removes a
session file keeps what the store holds. -/
theorem holds_of_frame {hm hm' : HistoryManager} {kept : List SessionArgs} (id : String)
    (h : Holds hm kept)
    (hother : ∀ f, f ≠ sessionFile id → hm'.m_historyDir f = hm.m_historyDir f)
    (hkeep : ∀ f, (hm.m_historyDir f).isSome = true → (hm'.m_historyDir f).isSome = true)
    (hnew : (∀ o, hm.m_historyDir (sessionFile id) ≠ some (QJsonDocument.object o)) →
      hm' = hm) :
    Holds hm' kept := by
  refine ⟨?_, ?_, h.nodup, h.bound⟩
  · rw [loadSessions_congr (hother _ (fun e => sessionFile_ne_index id e.symm))]
    exact h.index
  · intro x
    rw [← h.files x]
    constructor
    · exact isSome_of_update hother hnew _
    · exact hkeep _

theorem holds_runCall_update {hm : HistoryManager} {kept : List SessionArgs}
    (h : Holds hm kept) (id : String) (sensors measurements : List QVariantMap)
    (airQualityData : QVariantMap) :
    Holds (hm.addSessionSensors id sensors) kept ∧
    Holds (hm.addSessionMeasurements id measurements) kept ∧
    Holds (hm.addSessionAirQuality id airQualityData) kept := by
  refine ⟨?_, ?_, ?_⟩
  · exact holds_of_frame id h (fun f hf => (addSessionSensors_frame hm id sensors f).1 hf)
      (fun f hf => (addSessionSensors_frame hm id sensors f).2 hf)
      (fun hno => (noop_of_not_object hm id hno).1 sensors)
  · exact holds_of_frame id h
      (fun f hf => (addSessionMeasurements_frame hm id measurements f).1 hf)
      (fun f hf => (addSessionMeasurements_frame hm id measurements f).2 hf)
      (fun hno => (noop_of_not_object hm id hno).2.1 measurements)
  · exact holds_of_frame id h
      (fun f hf => (addSessionAirQuality_frame hm id airQualityData f).1 hf)
      (fun f hf => (addSessionAirQuality_frame hm id airQualityData f).2 hf)
      (fun hno => (noop_of_not_object hm id hno).2.2 airQualityData)

/-- What the store holds after a run of calls that create pairwise distinct ids. -/
theorem holds_runCalls (calls : List StoreCall) :
    ∀ (hm : HistoryManager) (kept : List SessionArgs), Holds hm kept →
      (((created calls).map SessionArgs.sessionId) ++
        (kept.map SessionArgs.sessionId)).Nodup →
      Holds (hm.runCalls calls) (((created calls).reverse ++ kept).take MAX_SESSIONS) := by
  induction calls with
  | nil =>
    intro hm kept h _
    simpa [runCalls, created, List.take_of_length_le h.bound] using h
  | cons call rest ih =>
    intro hm kept h hnd
    cases call with
    | createSession c =>
      simp only [created, List.map_cons, List.cons_append, List.nodup_cons, List.mem_append,
        not_or] at hnd
      have hstep := holds_createSession h c hnd.1.2
      have hnd2 : (((created rest).map SessionArgs.sessionId) ++
          (((c :: kept).take MAX_SESSIONS).map SessionArgs.sessionId)).Nodup := by
        have hnd3 := List.nodup_append.1 hnd.2
        refine List.nodup_append.2 ⟨hnd3.1, hstep.nodup, ?_⟩
        intro a ha hb
        have hb2 : a ∈ (c :: kept).map SessionArgs.sessionId :=
          List.Sublist.subset (List.Sublist.map _ (List.take_sublist _ _)) hb
        simp only [List.map_cons, List.mem_cons] at hb2
        rcases hb2 with e | e
        · exact hnd.1.1 (e ▸ ha)
        · exact hnd3.2.2 ha e
      have := ih (hm.createSession c) _ hstep hnd2
      have e : (created (StoreCall.createSession c :: rest)).reverse ++ kept =
          (created rest).reverse ++ (c :: kept) := by simp [created]
      rw [e, ← take_append_take]
      exact this
    | addSensors id sensors =>
      exact ih _ kept (holds_runCall_update h id sensors [] []).1 hnd
    | addMeasurements id measurements =>
      exact ih _ kept (holds_runCall_update h id [] measurements []).2.1 hnd
    | setAirQuality id airQualityData =>
      exact ih _ kept (holds_runCall_update h id [] [] airQualityData).2.2 hnd

/-- C16. Index/file consistency is an invariant of the reachable states: after any run
of calls from the empty store in which the `addSession` calls have pairwise distinct ids,
interleaved at will with `addSessionSensors`, `addSessionMeasurements` and
`addSessionAirQuality` calls, every index entry names under `file` a session file that
exists in the store. -/
theorem index_files_exist (calls : List StoreCall)
    (hids : ((created calls).map SessionArgs.sessionId).Nodup) :
    ∀ e ∈ (empty.runCalls calls).loadSessions,
      ((empty.runCalls calls).m_historyDir ((e.toMap.get "file").toString)).isSome = true := by
  have h := holds_runCalls calls empty [] holds_empty (by simpa using hids)
  intro e he
  rw [h.index, List.mem_map] at he
  obtain ⟨c, hc, rfl⟩ := he
  rw [entryOf_file]
  exact (h.files c.sessionId).2 (List.mem_map_of_mem _ hc)

/-- C16 on `mixedCalls`, a run that creates a and b and updates a in between: both index
entries name a file that exists. -/
theorem index_files_exist_witness :
    ((created mixedCalls).map SessionArgs.sessionId).Nodup ∧
    (empty.runCalls mixedCalls).loadSessions.map (fun e => (e.toMap.get "file").toString) =
      ["session_b.json", "session_a.json"] ∧
    ∀ e ∈ (empty.runCalls mixedCalls).loadSessions,
      ((empty.runCalls mixedCalls).m_historyDir ((e.toMap.get "file").toString)).isSome =
        true :=
  ⟨by decide, by decide, index_files_exist mixedCalls (by decide)⟩

end HistoryManager

/-! ## C17 and C18: update of a missing session, the frame of `addSessionMeasurements` -/

namespace HistoryManager

/-- C17. An unknown or unreadable session is a no-op: when the session file of the id is
missing or holds no JSON object, `addSessionSensors`, `addSessionMeasurements` and
`addSessionAirQuality` return the store as it was, index and all files included. -/
theorem missing_session_noop (hm : HistoryManager) (id : String)
    (sensors measurements : List QVariantMap) (airQualityData : QVariantMap)
    (h : hm.m_historyDir (sessionFile id) = none ∨
      ∃ doc, hm.m_historyDir (sessionFile id) = some doc ∧ doc.isObject = false) :
    hm.addSessionSensors id sensors = hm ∧
    hm.addSessionMeasurements id measurements = hm ∧
    hm.addSessionAirQuality id airQualityData = hm := by
  have hno : ∀ o, hm.m_historyDir (sessionFile id) ≠ some (QJsonDocument.object o) := by
    intro o ho
    rcases h with h | ⟨doc, hdoc, hobj⟩
    · rw [h] at ho; exact Option.noConfusion ho
    · rw [hdoc] at ho
      injection ho with ho
      rw [ho] at hobj
      simp [QJsonDocument.isObject] at hobj
  obtain ⟨h1, h2, h3⟩ := noop_of_not_object hm id hno
  exact ⟨h1 sensors, h2 measurements, h3 airQualityData⟩

/-- C17 on a store whose file of session `s1` holds a JSON array, and on the session
`s2` that has no file. -/
theorem missing_session_noop_witness :
    (∃ doc, (HistoryManager.mk (QDir.writeFile QDir.empty (sessionFile "s1")
        (QJsonDocument.array []))).m_historyDir (sessionFile "s1") = some doc ∧
      doc.isObject = false) ∧
    (HistoryManager.mk (QDir.writeFile QDir.empty (sessionFile "s1")
        (QJsonDocument.array []))).addSessionSensors "s1" [[("id", QVariant.num 1)]] =
      HistoryManager.mk (QDir.writeFile QDir.empty (sessionFile "s1")
        (QJsonDocument.array [])) ∧
    (HistoryManager.mk (QDir.writeFile QDir.empty (sessionFile "s1")
        (QJsonDocument.array []))).m_historyDir (sessionFile "s2") = none ∧
    (HistoryManager.mk (QDir.writeFile QDir.empty (sessionFile "s1")
        (QJsonDocument.array []))).addSessionAirQuality "s2" [] =
      HistoryManager.mk (QDir.writeFile QDir.empty (sessionFile "s1")
        (QJsonDocument.array [])) :=
  ⟨⟨QJsonDocument.array [], rfl, rfl⟩,
    (missing_session_noop _ "s1" [[("id", QVariant.num 1)]] [] []
      (Or.inr ⟨QJsonDocument.array [], rfl, rfl⟩)).1,
    rfl,
    (missing_session_noop _ "s2" [] [] [] (Or.inl rfl)).2.2⟩

theorem get_updateSensor (by_ : QMap Int QVariantList) (s : QVariant) (key : String)
    (hkey : key ≠ "measurements") :
    (updateSensor by_ s).toMap.get key = s.toMap.get key := by
  unfold updateSensor
  split
  · simp [QVariant.toMap_map, QVariantMap.get_set, hkey]
  · rfl

/-- No input measurement names the sensor: the grouped input has no entry for it. -/
theorem contains_groupStep_false (measurements : List QVariantMap) (k : Int)
    (h : ∀ m ∈ measurements, (m.get "sensorId").toInt ≠ k) :
    QMap.contains (measurements.foldl groupStep []) k = false := by
  rw [contains_groupStep]
  have : entriesFor measurements k = [] := by
    unfold entriesFor
    rw [List.map_eq_nil_iff, List.filter_eq_nil_iff]
    intro m hm
    simpa using h m hm
  simp [this]

theorem mem_zip_map {α β : Type} {f : α → β} :
    ∀ {l : List α} {p : α × β}, p ∈ l.zip (l.map f) → p.2 = f p.1 := by
  intro l
  induction l with
  | nil => intro p hp; simp at hp
  | cons a t ih =>
    intro p hp
    simp only [List.map_cons, List.zip_cons_cons, List.mem_cons] at hp
    rcases hp with rfl | hp
    · rfl
    · exact ih hp

/-- C18. Frame of `addSessionMeasurements` on an existing session: the stored sensors
keep their number and order and every field but `measurements`; a sensor whose id is the
`sensorId` of no input measurement is left as it is; every field of the session but
`sensors` (stations, location, radius, airQuality) reads as before; and when no stored
sensor id occurs in the input the store is left exactly as it was. -/
theorem addMeasurements_frame (hm : HistoryManager) (id : String) (o : QVariantMap)
    (h : hm.m_historyDir (sessionFile id) = some (QJsonDocument.object o))
    (measurements : List QVariantMap) :
    (sensorsOf ((hm.addSessionMeasurements id measurements).loadSessionDetails id)).length =
      (sensorsOf o).length ∧
    (∀ key : String, key ≠ "measurements" →
      (sensorsOf ((hm.addSessionMeasurements id measurements).loadSessionDetails id)).map
          (fun s => s.toMap.get key) =
        (sensorsOf o).map (fun s => s.toMap.get key)) ∧
    (∀ p ∈ (sensorsOf o).zip
        (sensorsOf ((hm.addSessionMeasurements id measurements).loadSessionDetails id)),
      (∀ m ∈ measurements, (m.get "sensorId").toInt ≠ sensorId p.1) → p.2 = p.1) ∧
    (∀ key : String, key ≠ "sensors" →
      ((hm.addSessionMeasurements id measurements).loadSessionDetails id).get key =
        o.get key) ∧
    ((∀ s ∈ sensorsOf o, ∀ m ∈ measurements, (m.get "sensorId").toInt ≠ sensorId s) →
      hm.addSessionMeasurements id measurements = hm) := by
  have hs := sensorsOf_addSessionMeasurements h measurements
  refine ⟨?_, ?_, ?_, ?_, ?_⟩
  · rw [hs, List.length_map]
  · intro key hkey
    rw [hs, List.map_map]
    apply List.map_congr_left
    intro s _
    exact get_updateSensor _ s key hkey
  · intro p hp hno
    rw [hs] at hp
    rw [mem_zip_map hp]
    exact updateSensor_of_no_entry measurements p.1 (contains_groupStep_false _ _ hno)
  · intro key hkey
    rw [addSessionMeasurements_of_object h]
    split
    · rw [loadSessionDetails_writeFile_same]
      simp [QVariantMap.get_set, hkey]
    · rw [loadSessionDetails_of_object h]
  · intro hno
    rw [addSessionMeasurements_of_object h, if_neg]
    simp only [List.any_eq_true, not_exists, not_and, Bool.not_eq_true]
    intro s hsmem
    exact contains_groupStep_false _ _ (hno s hsmem)

/-- C18 on `oneSensorStore`: a measurement for the sensor 2, which is not stored, leaves
the store as it was; a measurement for the stored sensor 1 leaves radius, air quality and
the station of the sensor as they were. -/
theorem addMeasurements_frame_witness :
    oneSensorStore.m_historyDir (sessionFile "s1") =
      some (QJsonDocument.object
        [("airQuality", QVariant.map [("indexLevelName", QVariant.str "Dobry")]),
          ("radius", QVariant.num 5),
          ("sensors", QVariant.list
            [QVariant.map [("id", QVariant.num 1),
              ("measurements", QVariant.list [QVariant.str "m"]),
              ("stationId", QVariant.num 10)]])]) ∧
    oneSensorStore.addSessionMeasurements "s1"
        [[("date", QVariant.str "2024-05-01 08:00:00"), ("sensorId", QVariant.num 2),
          ("value", QVariant.num 7)]] = oneSensorStore ∧
    ((oneSensorStore.addSessionMeasurements "s1"
        [[("date", QVariant.str "2024-05-01 08:00:00"), ("sensorId", QVariant.num 1),
          ("value", QVariant.num 7)]]).loadSessionDetails "s1").get "radius" =
      QVariant.num 5 ∧
    (sensorsOf ((oneSensorStore.addSessionMeasurements "s1"
        [[("date", QVariant.str "2024-05-01 08:00:00"), ("sensorId", QVariant.num 1),
          ("value", QVariant.num 7)]]).loadSessionDetails "s1")).map
        (fun s => s.toMap.get "stationId") = [QVariant.num 10] := by
  have h2 := addMeasurements_frame oneSensorStore "s1" _ rfl
    [[("date", QVariant.str "2024-05-01 08:00:00"), ("sensorId", QVariant.num 2),
      ("value", QVariant.num 7)]]
  have h1 := addMeasurements_frame oneSensorStore "s1" _ rfl
    [[("date", QVariant.str "2024-05-01 08:00:00"), ("sensorId", QVariant.num 1),
      ("value", QVariant.num 7)]]
  refine ⟨rfl, h2.2.2.2.2 (by decide), ?_, ?_⟩
  · rw [h1.2.2.2.1 "radius" (by decide)]
    rfl
  · rw [h1.2.1 "stationId" (by decide)]
    rfl

end HistoryManager

/-! ## C19 and C20: repeated `addSessionSensors`, what only `addSession` does -/

namespace QDir

theorem writeFile_same (d : QDir) (name : String) (doc : QJsonDocument)
    (h : d name = some doc) : d.writeFile name doc = d := by
  funext n
  by_cases hn : n = name
  · subst hn
    simp [writeFile, h]
  · simp [writeFile, hn]

end QDir

namespace HistoryManager

/-- Inputs whose ids are all stored or met already add nothing. -/
theorem firstNew_eq_nil (stored : List Int) (sensors : List QVariantMap) :
    ∀ earlier : List Int, (∀ s ∈ sensors, inputId s ∈ stored ∨ inputId s ∈ earlier) →
      firstNew stored earlier sensors = [] := by
  induction sensors with
  | nil => intro _ _; rfl
  | cons s rest ih =>
    intro earlier h
    rw [firstNew, if_pos (h s (List.mem_cons_self _ _))]
    apply ih
    intro t ht
    rcases h t (List.mem_cons_of_mem _ ht) with h1 | h1
    · exact Or.inl h1
    · exact Or.inr (List.mem_append_left _ h1)

/-- Every input id is stored, met earlier, or kept by `firstNew`. -/
theorem firstNew_covers (stored : List Int) (sensors : List QVariantMap) :
    ∀ earlier : List Int, ∀ s ∈ sensors,
      inputId s ∈ stored ∨ inputId s ∈ earlier ∨
        inputId s ∈ (firstNew stored earlier sensors).map inputId := by
  induction sensors with
  | nil => intro _ s hs; simp at hs
  | cons a rest ih =>
    intro earlier s hs
    rw [firstNew]
    rcases List.mem_cons.1 hs with rfl | hs
    · split
      · rename_i hc
        rcases hc with hc | hc
        · exact Or.inl hc
        · exact Or.inr (Or.inl hc)
      · exact Or.inr (Or.inr (by simp))
    · have := ih (earlier ++ [inputId a]) s hs
      split
      · rename_i hc
        rcases this with h1 | h1 | h1
        · exact Or.inl h1
        · rcases List.mem_append.1 h1 with h2 | h2
          · exact Or.inr (Or.inl h2)
          · rw [List.mem_singleton] at h2
            rw [h2]
            rcases hc with hc | hc
            · exact Or.inl hc
            · exact Or.inr (Or.inl hc)
        · exact Or.inr (Or.inr h1)
      · rcases this with h1 | h1 | h1
        · exact Or.inl h1
        · rcases List.mem_append.1 h1 with h2 | h2
          · exact Or.inr (Or.inl h2)
          · rw [List.mem_singleton] at h2
            exact Or.inr (Or.inr (by simp [h2]))
        · exact Or.inr (Or.inr (by simp [h1]))

/-- After `addSessionSensors` the file holds the record with `sensors` set, and every
input id is stored. -/
theorem addSessionSensors_file {hm : HistoryManager} {id : String} {o : QVariantMap}
    (h : hm.m_historyDir (sessionFile id) = some (QJsonDocument.object o))
    (sensors : List QVariantMap) :
    ∃ stored : QVariantList,
      hm.addSessionSensors id sensors =
        ⟨hm.m_historyDir.writeFile (sessionFile id)
          (QJsonDocument.object (o.set "sensors" (QVariant.list stored)))⟩ ∧
      stored = sensorsOf o ++
        (firstNew ((sensorsOf o).map sensorId) [] sensors).map sensorEntry ∧
      ∀ s ∈ sensors, inputId s ∈ stored.map sensorId := by
  refine ⟨_, ?_, rfl, ?_⟩
  · rw [addSessionSensors_of_object h,
      foldl_addSensorStep ((sensorsOf o).map sensorId) sensors _ _ []]
    intro x
    simp [mem_existingSensorIds]
  · intro s hs
    rw [List.map_append, List.map_map]
    have hfun : sensorId ∘ sensorEntry = inputId := funext sensorId_sensorEntry
    rw [hfun, List.mem_append]
    rcases firstNew_covers ((sensorsOf o).map sensorId) sensors [] s hs with h1 | h1 | h1
    · exact Or.inl h1
    · simp at h1
    · exact Or.inr h1

/-- On a record whose `sensors` were set and hold every input id already,
`addSessionSensors` rewrites the file with what it held. -/
theorem addSessionSensors_fixed (d : QDir) (id : String) (o : QVariantMap)
    (stored : QVariantList) (sensors : List QVariantMap)
    (hcover : ∀ s ∈ sensors, inputId s ∈ stored.map sensorId) :
    addSessionSensors
        ⟨d.writeFile (sessionFile id)
          (QJsonDocument.object (o.set "sensors" (QVariant.list stored)))⟩ id sensors =
      ⟨d.writeFile (sessionFile id)
        (QJsonDocument.object (o.set "sensors" (QVariant.list stored)))⟩ := by
  have hfile : (HistoryManager.mk (d.writeFile (sessionFile id)
      (QJsonDocument.object (o.set "sensors" (QVariant.list stored))))).m_historyDir
        (sessionFile id) =
      some (QJsonDocument.object (o.set "sensors" (QVariant.list stored))) := by
    simp [QDir.writeFile]
  have hso : sensorsOf (o.set "sensors" (QVariant.list stored)) = stored := by
    simp [sensorsOf, QVariantMap.get_set, QVariant.toList]
  obtain ⟨stored2, heq, hst, _⟩ := addSessionSensors_file hfile sensors
  rw [heq, hst, hso, firstNew_eq_nil _ _ [] (fun s hs => Or.inl (hcover s hs))]
  simp only [List.map_nil, List.append_nil, QVariantMap.set, QMap.insert_insert,
    QDir.writeFile_writeFile]

/-- C19. Repeating `addSessionSensors` changes nothing and resets no measurement: for
every store, session id, sensor list `S` and measurement list `M`, the calls
`addSessionSensors S`, `addSessionMeasurements M`, `addSessionSensors S` leave the store
as the first two calls do; in particular the same call made twice leaves the store as
one call does, and then, for a session with pairwise distinct sensor ids, exactly one
stored sensor has the id of the input sensor. -/
theorem addSensors_idempotent (hm : HistoryManager) (id : String)
    (S M : List QVariantMap) :
    ((hm.addSessionSensors id S).addSessionMeasurements id M).addSessionSensors id S =
      (hm.addSessionSensors id S).addSessionMeasurements id M ∧
    (hm.addSessionSensors id S).addSessionSensors id S = hm.addSessionSensors id S ∧
    ∀ (o : QVariantMap) (s1 : QVariantMap),
      hm.m_historyDir (sessionFile id) = some (QJsonDocument.object o) →
      ((sensorsOf o).map sensorId).Nodup →
      ((sensorsOf (((hm.addSessionSensors id [s1]).addSessionSensors id
        [s1]).loadSessionDetails id)).map sensorId).count (inputId s1) = 1 := by
  have hmain : ∀ M' : List QVariantMap,
      ((hm.addSessionSensors id S).addSessionMeasurements id M').addSessionSensors id S =
        (hm.addSessionSensors id S).addSessionMeasurements id M' := by
    intro M'
    rcases not_object_cases hm id with ⟨o, ho⟩ | ⟨h1, h2, _⟩
    · obtain ⟨stored, heq, _, hcover⟩ := addSessionSensors_file ho S
      rw [heq]
      have hfile : (HistoryManager.mk (hm.m_historyDir.writeFile (sessionFile id)
          (QJsonDocument.object (o.set "sensors" (QVariant.list stored))))).m_historyDir
            (sessionFile id) =
          some (QJsonDocument.object (o.set "sensors" (QVariant.list stored))) := by
        simp [QDir.writeFile]
      have hso : sensorsOf (o.set "sensors" (QVariant.list stored)) = stored := by
        simp [sensorsOf, QVariantMap.get_set, QVariant.toList]
      rw [addSessionMeasurements_of_object hfile, hso]
      split
      · simp only [QVariantMap.set, QMap.insert_insert, QDir.writeFile_writeFile]
        apply addSessionSensors_fixed
        intro s hs
        rw [List.map_map]
        have hfun : sensorId ∘ updateSensor (M'.foldl groupStep []) = sensorId :=
          funext (sensorId_updateSensor _)
        rw [hfun]
        exact hcover s hs
      · exact addSessionSensors_fixed _ id o stored S hcover
    · rw [h1, h2, h1]
  refine ⟨hmain M, ?_, ?_⟩
  · have h0 := hmain []
    have hnil : ∀ hm' : HistoryManager, hm'.addSessionMeasurements id [] = hm' := by
      intro hm'
      rcases not_object_cases hm' id with ⟨o, ho⟩ | ⟨_, h2, _⟩
      · rw [addSessionMeasurements_of_object ho, if_neg]
        simp [QMap.contains, QMap.find]
      · rw [h2]
    rw [hnil] at h0
    exact h0
  · intro o s1 ho hnd
    obtain ⟨stored, heq, hst, hcover⟩ := addSessionSensors_file ho [s1]
    rw [heq, addSessionSensors_fixed _ id o stored [s1] hcover,
      loadSessionDetails_writeFile_same]
    have hso : sensorsOf (o.set "sensors" (QVariant.list stored)) = stored := by
      simp [sensorsOf, QVariantMap.get_set, QVariant.toList]
    rw [hso]
    apply List.count_eq_one_of_mem
    · rw [hst, List.map_append, List.map_map]
      have hfn := firstNew_nodup ((sensorsOf o).map sensorId) [s1] []
      have hfun : sensorId ∘ sensorEntry = inputId := funext sensorId_sensorEntry
      rw [hfun]
      refine List.nodup_append.2 ⟨hnd, hfn.1, ?_⟩
      intro a ha hb
      exact (hfn.2 a hb).1 ha
    · exact hcover s1 (List.mem_singleton_self _)

end HistoryManager

namespace HistoryManager

/-- C19 on `oneSensorStore`, which holds sensor 1: after adding a sensor with id 2
twice the session holds exactly one sensor with id 2, and after adding a sensor with
id 1 twice exactly one with id 1. -/
theorem addSensors_idempotent_witness :
    ((sensorsOf (((oneSensorStore.addSessionSensors "s1"
        [[("id", QVariant.num 2)]]).addSessionSensors "s1"
        [[("id", QVariant.num 2)]]).loadSessionDetails "s1")).map sensorId).count 2 = 1 ∧
    ((sensorsOf (((oneSensorStore.addSessionSensors "s1"
        [[("id", QVariant.num 1)]]).addSessionSensors "s1"
        [[("id", QVariant.num 1)]]).loadSessionDetails "s1")).map sensorId).count 1 = 1 :=
  ⟨(addSensors_idempotent oneSensorStore "s1" [] []).2.2 _ [("id", QVariant.num 2)] rfl
      (by decide),
    (addSensors_idempotent oneSensorStore "s1" [] []).2.2 _ [("id", QVariant.num 1)] rfl
      (by decide)⟩

/-- C20. Only `addSession` evicts. For every store, each of `addSessionSensors`,
`addSessionMeasurements` and `addSessionAirQuality` leaves the index read by
`loadSessions` and the index file as they were, keeps every file that exists, and
leaves every file other than the session file of the given id as it was; and a file
that exists before an `addSession` call and is missing after it is the file named by
the last index entry, the index having been full (more than 100 entries with the new
one). -/
theorem only_createSession_evicts (hm : HistoryManager) (id : String)
    (sensors measurements : List QVariantMap) (airQualityData : QVariantMap) :
    (∀ hm' ∈ [hm.addSessionSensors id sensors, hm.addSessionMeasurements id measurements,
        hm.addSessionAirQuality id airQualityData],
      hm'.loadSessions = hm.loadSessions ∧
      hm'.m_historyDir m_indexFilePath = hm.m_historyDir m_indexFilePath ∧
      (∀ f : String, (hm.m_historyDir f).isSome = true →
        (hm'.m_historyDir f).isSome = true) ∧
      (∀ f : String, f ≠ sessionFile id → hm'.m_historyDir f = hm.m_historyDir f)) ∧
    (∀ (c : SessionArgs) (f : String), (hm.m_historyDir f).isSome = true →
      (hm.createSession c).m_historyDir f = none →
      MAX_SESSIONS < hm.loadSessions.length + 1 ∧
      ∃ tail : QVariant, hm.loadSessions.getLast? = some tail ∧
        f = (tail.toMap.get "file").toString) := by
  have key : ∀ hm' : HistoryManager,
      (∀ f : String, (f ≠ sessionFile id → hm'.m_historyDir f = hm.m_historyDir f) ∧
        ((hm.m_historyDir f).isSome = true → (hm'.m_historyDir f).isSome = true)) →
      hm'.loadSessions = hm.loadSessions ∧
      hm'.m_historyDir m_indexFilePath = hm.m_historyDir m_indexFilePath ∧
      (∀ f : String, (hm.m_historyDir f).isSome = true →
        (hm'.m_historyDir f).isSome = true) ∧
      (∀ f : String, f ≠ sessionFile id → hm'.m_historyDir f = hm.m_historyDir f) := by
    intro hm' h
    have hidx := (h m_indexFilePath).1 (fun e => sessionFile_ne_index id e.symm)
    exact ⟨loadSessions_congr hidx, hidx, fun f => (h f).2, fun f => (h f).1⟩
  refine ⟨?_, ?_⟩
  · intro hm' hmem
    simp only [List.mem_cons, List.mem_singleton, List.not_mem_nil, or_false] at hmem
    rcases hmem with rfl | rfl | rfl
    · exact key _ (addSessionSensors_frame hm id sensors)
    · exact key _ (addSessionMeasurements_frame hm id measurements)
    · exact key _ (addSessionAirQuality_frame hm id airQualityData)
  · intro c f hf hnone
    unfold createSession addSession at hnone
    rw [updateIndexFile_eq, loadSessions_writeFile_session] at hnone
    by_cases hlen : (QVariant.map (indexEntry c.sessionId c.location c.radius c.timestamp) ::
        hm.loadSessions).length > MAX_SESSIONS
    · rw [if_pos hlen] at hnone
      have hlen2 : MAX_SESSIONS < hm.loadSessions.length + 1 := by
        simpa [List.length_cons] using hlen
      refine ⟨hlen2, ?_⟩
      have hne : hm.loadSessions ≠ [] := by
        intro e
        rw [e] at hlen2
        simp [MAX_SESSIONS] at hlen2
      obtain ⟨tail, htail⟩ : ∃ tail, hm.loadSessions.getLast? = some tail := by
        cases hl : hm.loadSessions.getLast? with
        | some t => exact ⟨t, rfl⟩
        | none => exact absurd (List.getLast?_eq_none_iff.1 hl) hne
      refine ⟨tail, htail, ?_⟩
      have hlast : (QVariant.map (indexEntry c.sessionId c.location c.radius c.timestamp) ::
          hm.loadSessions).getLast? = some tail := by
        cases hl : hm.loadSessions with
        | nil => exact absurd hl hne
        | cons a l =>
          rw [hl] at htail
          rw [List.getLast?_cons_cons]
          exact htail
      rw [hlast] at hnone
      simp only [Option.getD_some] at hnone
      by_contra hfne
      by_cases h1 : f = m_indexFilePath
      · simp [QDir.writeFile, h1] at hnone
      · by_cases h2 : f = sessionFile c.sessionId
        · subst h2
          simp only [QDir.writeFile, QDir.remove] at hnone
          rw [if_neg h1, if_neg hfne] at hnone
          exact Option.noConfusion hnone
        · simp [QDir.writeFile, QDir.remove, h1, hfne, h2] at hnone
          rw [hnone] at hf
          exact absurd hf (by simp)
    · rw [if_neg hlen] at hnone
      exfalso
      by_cases h1 : f = m_indexFilePath
      · simp [QDir.writeFile, h1] at hnone
      · by_cases h2 : f = sessionFile c.sessionId
        · subst h2
          simp only [QDir.writeFile] at hnone
          rw [if_neg h1] at hnone
          simp at hnone
        · simp [QDir.writeFile, h1, h2] at hnone
          rw [hnone] at hf
          exact absurd hf (by simp)

end HistoryManager

/-! ## The statistics loop in general -/

namespace window_2_data_vis

theorem foldl_min_append (vs : List Rat) (v init : Rat) :
    (vs ++ [v]).foldl min init = min (vs.foldl min init) v := by
  rw [List.foldl_append]
  rfl

theorem foldl_max_append (vs : List Rat) (v init : Rat) :
    (vs ++ [v]).foldl max init = max (vs.foldl max init) v := by
  rw [List.foldl_append]
  rfl

theorem agrees_init : Stats.init.Agrees := by
  unfold Stats.Agrees Stats.init
  simp

theorem agrees_include {st : Stats} (h : st.Agrees) (x value : Rat) :
    (st.include x value).Agrees := by
  obtain ⟨h1, h2, h3, h4⟩ := h
  refine ⟨?_, ?_, ?_, ?_⟩
  · simp [Stats.include, h1]
  · simp [Stats.include, h2]
  · rw [include_minValue, h3]
    simp only [Stats.include, List.map_append, List.map_cons, List.map_nil]
    rw [foldl_min_append]
  · rw [include_maxValue, h4]
    simp only [Stats.include, List.map_append, List.map_cons, List.map_nil]
    rw [foldl_max_append]

theorem agrees_foldl {α : Type} (step : Stats → α → Stats)
    (hstep : ∀ st a, st.Agrees → (step st a).Agrees) (l : List α) :
    ∀ st : Stats, st.Agrees → (l.foldl step st).Agrees := by
  induction l with
  | nil => intro st h; exact h
  | cons a t ih => intro st h; exact ih _ (hstep st a h)

theorem agrees_singleDayStep (row : QMap Int Rat) (st : Stats) (hour : Nat)
    (h : st.Agrees) : (singleDayStep row st hour).Agrees := by
  unfold singleDayStep
  dsimp only
  split
  · exact agrees_include h _ _
  · exact h

theorem agrees_multiDayStep (row : QMap Int Rat) (xBase : Rat) (st : Stats) (hour : Nat)
    (h : st.Agrees) : (multiDayStep row xBase st hour).Agrees :=
  agrees_include h _ _

/-- Whatever the path, the running values `collect` ends with agree with its points. -/
theorem agrees_collect (g : Grid) (singleDay : Bool) (sortedDates : List QDate)
    (earliestDate : QDate) (sensorName : String) :
    (collect g singleDay sortedDates earliestDate sensorName).Agrees := by
  unfold collect
  split
  · exact agrees_foldl _ (agrees_singleDayStep _) _ _ agrees_init
  · refine agrees_foldl _ ?_ _ _ agrees_init
    intro st date hst
    exact agrees_foldl _ (agrees_multiDayStep _ _) _ _ hst

/-- The points after the loop over some hours of one date when several are selected. -/
theorem foldl_multiDayStep (row : QMap Int Rat) (xBase : Rat) (hours : List Nat) :
    ∀ st : Stats,
      (hours.foldl (multiDayStep row xBase) st).points =
        st.points ++ hours.map
          (fun hour : Nat => (xBase + (hour : Rat), QMap.value row (hour : Int) 0)) := by
  induction hours with
  | nil => intro st; simp
  | cons hr rest ih =>
    intro st
    rw [List.foldl_cons, ih]
    simp [multiDayStep, Stats.include]

/-- The points after the loop over the dates when several are selected. -/
theorem foldl_dates (g : Grid) (earliestDate : QDate) (sensorName : String)
    (dates : List QDate) :
    ∀ st : Stats,
      (dates.foldl
        (fun st date =>
          let daysSinceEarliest := QDate.daysTo earliestDate date
          let xBase : Rat := (daysSinceEarliest : Rat) * 24
          (List.range 24).foldl (multiDayStep (hourlyData g date sensorName) xBase) st)
        st).points = st.points ++ multiPoints g dates earliestDate sensorName := by
  induction dates with
  | nil => intro st; simp [multiPoints]
  | cons d rest ih =>
    intro st
    rw [List.foldl_cons, ih]
    dsimp only
    rw [foldl_multiDayStep]
    simp only [multiPoints, List.flatMap_cons, List.append_assoc]
    rfl

theorem collect_multi_points (g : Grid) (sortedDates : List QDate) (earliestDate : QDate)
    (sensorName : String) :
    (collect g false sortedDates earliestDate sensorName).points =
      multiPoints g sortedDates earliestDate sensorName := by
  have h := foldl_dates g earliestDate sensorName sortedDates Stats.init
  simp only [Stats.init, List.nil_append] at h
  exact h

theorem length_multiPoints (g : Grid) (dates : List QDate) (earliest : QDate)
    (sensorName : String) :
    (multiPoints g dates earliest sensorName).length = 24 * dates.length := by
  induction dates with
  | nil => rfl
  | cons d rest ih =>
    have : multiPoints g (d :: rest) earliest sensorName =
        (List.range 24).map (fun hour : Nat =>
          (((QDate.daysTo earliest d : Int) : Rat) * 24 + (hour : Rat),
            bucket g d sensorName hour)) ++ multiPoints g rest earliest sensorName := by
      simp [multiPoints, List.flatMap_cons]
    rw [this, List.length_append, ih, List.length_map, List.length_range, List.length_cons]
    omega

/-- The record of `chartData` when the count is not zero. -/
theorem chartData_of_count (g : Grid) (singleDay : Bool) (sortedDates : List QDate)
    (earliestDate : QDate) (sensorName : String)
    (hcount : (collect g singleDay sortedDates earliestDate sensorName).count ≠ 0) :
    chartData g singleDay sortedDates earliestDate sensorName =
      ⟨sensorName, (collect g singleDay sortedDates earliestDate sensorName).minValue,
        (collect g singleDay sortedDates earliestDate sensorName).maxValue,
        (collect g singleDay sortedDates earliestDate sensorName).sum /
          ((collect g singleDay sortedDates earliestDate sensorName).count : Rat),
        trendOf (collect g singleDay sortedDates earliestDate sensorName).points,
        (collect g singleDay sortedDates earliestDate sensorName).points⟩ := by
  unfold chartData
  dsimp only
  rw [if_neg hcount, if_pos (Nat.pos_of_ne_zero hcount)]

/-- The record of `chartData` when the count is zero. -/
theorem chartData_of_no_count (g : Grid) (singleDay : Bool) (sortedDates : List QDate)
    (earliestDate : QDate) (sensorName : String)
    (hcount : (collect g singleDay sortedDates earliestDate sensorName).count = 0) :
    chartData g singleDay sortedDates earliestDate sensorName =
      ⟨sensorName, 0, 0, 0, "brak danych",
        (collect g singleDay sortedDates earliestDate sensorName).points⟩ := by
  unfold chartData
  dsimp only
  rw [if_pos hcount, hcount, if_neg (Nat.lt_irrefl 0)]

theorem chartData_points (g : Grid) (singleDay : Bool) (sortedDates : List QDate)
    (earliestDate : QDate) (sensorName : String) :
    (chartData g singleDay sortedDates earliestDate sensorName).points =
      (collect g singleDay sortedDates earliestDate sensorName).points := by
  unfold chartData
  dsimp only
  split <;> rfl

end window_2_data_vis

/-! ## The denominator of the slope -/

namespace window_2_data_vis

theorem sum_sq_diff (a : Rat) (t : List Rat) :
    (t.map (fun b => (a - b) ^ 2)).sum =
      (t.length : Rat) * a ^ 2 - 2 * a * t.sum + (t.map (fun b => b * b)).sum := by
  induction t with
  | nil => simp
  | cons b t ih =>
    simp only [List.map_cons, List.sum_cons, List.length_cons, Nat.cast_add, Nat.cast_one]
    rw [ih]
    ring

theorem sum_sq_diff_nonneg (a : Rat) (t : List Rat) :
    0 ≤ (t.map (fun b => (a - b) ^ 2)).sum := by
  apply List.sum_nonneg
  intro x hx
  obtain ⟨b, _, rfl⟩ := List.mem_map.1 hx
  exact sq_nonneg _

theorem sum_sq_diff_pos (a : Rat) (t : List Rat) (b : Rat) (hb : b ∈ t) (hab : a ≠ b) :
    0 < (t.map (fun b => (a - b) ^ 2)).sum := by
  induction t with
  | nil => simp at hb
  | cons c t ih =>
    simp only [List.map_cons, List.sum_cons]
    rcases List.mem_cons.1 hb with rfl | hb
    · have h1 : 0 < (a - b) ^ 2 := by
        have : a - b ≠ 0 := sub_ne_zero.2 hab
        positivity
      have h2 := sum_sq_diff_nonneg a t
      linarith
    · have h1 : 0 ≤ (a - c) ^ 2 := sq_nonneg _
      have h2 := ih hb
      linarith

theorem spread_cons (a : Rat) (t : List Rat) :
    (((a :: t).length : Nat) : Rat) * ((a :: t).map (fun x => x * x)).sum - (a :: t).sum ^ 2 =
      ((t.length : Rat) * (t.map (fun x => x * x)).sum - t.sum ^ 2) +
        (t.map (fun b => (a - b) ^ 2)).sum := by
  rw [sum_sq_diff]
  simp only [List.map_cons, List.sum_cons, List.length_cons, Nat.cast_add, Nat.cast_one]
  ring

theorem spread_nonneg (xs : List Rat) :
    0 ≤ (xs.length : Rat) * (xs.map (fun x => x * x)).sum - xs.sum ^ 2 := by
  induction xs with
  | nil => simp
  | cons a t ih =>
    rw [spread_cons]
    have := sum_sq_diff_nonneg a t
    linarith

/-- The denominator is positive as soon as two of the first coordinates differ. -/
theorem spread_pos (xs : List Rat) (a b : Rat) (ha : a ∈ xs) (hb : b ∈ xs) (hab : a ≠ b) :
    0 < (xs.length : Rat) * (xs.map (fun x => x * x)).sum - xs.sum ^ 2 := by
  induction xs with
  | nil => simp at ha
  | cons c t ih =>
    rw [spread_cons]
    have h1 := sum_sq_diff_nonneg c t
    have h2 := spread_nonneg t
    rcases List.mem_cons.1 ha with hac | hat
    · rcases List.mem_cons.1 hb with hbc | hbt
      · exact absurd (hac.trans hbc.symm) hab
      · have := sum_sq_diff_pos c t b hbt (hac ▸ hab)
        linarith
    · rcases List.mem_cons.1 hb with hbc | hbt
      · have := sum_sq_diff_pos c t a hat (hbc ▸ Ne.symm hab)
        linarith
      · have := ih hat hbt
        linarith

theorem slopeDenominator_eq (points : List (Rat × Rat)) :
    slopeDenominator points =
      ((points.map Prod.fst).length : Rat) *
        ((points.map Prod.fst).map (fun x => x * x)).sum - (points.map Prod.fst).sum ^ 2 := by
  unfold slopeDenominator
  rw [List.length_map, List.map_map]
  rfl

theorem slopeDenominator_pos (points : List (Rat × Rat)) (p q : Rat × Rat)
    (hp : p ∈ points) (hq : q ∈ points) (hpq : p.1 ≠ q.1) :
    0 < slopeDenominator points := by
  rw [slopeDenominator_eq]
  exact spread_pos _ p.1 q.1 (List.mem_map_of_mem _ hp) (List.mem_map_of_mem _ hq) hpq

/-- The points of the single-date path, by `foldl_singleDayStep`. -/
theorem collect_single_points (g : Grid) (sortedDates : List QDate) (earliestDate : QDate)
    (sensorName : String) :
    (collect g true sortedDates earliestDate sensorName).points =
      (includedHours g earliestDate sensorName).map
        (fun hour : Nat => ((hour : Rat), bucket g earliestDate sensorName hour)) := by
  obtain ⟨hp, _⟩ :=
    foldl_singleDayStep (hourlyData g earliestDate sensorName) (List.range 24) Stats.init
  simp only [Stats.init, List.nil_append] at hp
  exact hp

/-- Two or more points computed by `collect` never share all their first coordinates, so
the denominator of the slope is positive. -/
theorem slopeDenominator_collect_pos (g : Grid) (singleDay : Bool) (sortedDates : List QDate)
    (earliestDate : QDate) (sensorName : String)
    (hn : 2 ≤ (collect g singleDay sortedDates earliestDate sensorName).points.length) :
    0 < slopeDenominator (collect g singleDay sortedDates earliestDate sensorName).points := by
  cases singleDay with
  | true =>
    rw [collect_single_points] at hn ⊢
    have hnd : (includedHours g earliestDate sensorName).Nodup :=
      (List.nodup_range 24).filter _
    rw [List.length_map] at hn
    cases hl : includedHours g earliestDate sensorName with
    | nil => rw [hl] at hn; simp at hn
    | cons a t =>
      cases t with
      | nil => rw [hl] at hn; simp at hn
      | cons b t =>
        rw [hl] at hnd
        have hab : a ≠ b := by
          intro e
          rw [e] at hnd
          simp at hnd
        apply slopeDenominator_pos _ ((a : Rat), bucket g earliestDate sensorName a)
          ((b : Rat), bucket g earliestDate sensorName b)
        · simp
        · simp
        · simpa using hab
  | false =>
    rw [collect_multi_points] at hn ⊢
    cases sortedDates with
    | nil => simp [multiPoints] at hn
    | cons d rest =>
      apply slopeDenominator_pos _
        (((QDate.daysTo earliestDate d : Int) : Rat) * 24 + ((0 : Nat) : Rat),
          bucket g d sensorName 0)
        (((QDate.daysTo earliestDate d : Int) : Rat) * 24 + ((1 : Nat) : Rat),
          bucket g d sensorName 1)
      · simp only [multiPoints, List.flatMap_cons, List.mem_append, List.mem_map,
          List.mem_range]
        exact Or.inl ⟨0, by norm_num, rfl⟩
      · simp only [multiPoints, List.flatMap_cons, List.mem_append, List.mem_map,
          List.mem_range]
        exact Or.inl ⟨1, by norm_num, rfl⟩
      · simp

end window_2_data_vis

/-! ## C11: statistics over several dates -/

namespace window_2_data_vis

end window_2_data_vis

/-! ## The trend and the least-squares slope -/

namespace window_2_data_vis

/-- With two or more points and a non-zero denominator the trend is read off the
least-squares slope. -/
theorem trendOf_eq (points : List (Rat × Rat)) (hn : 2 ≤ points.length)
    (hden : slopeDenominator points ≠ 0) :
    trendOf points =
      if |slope points| < 1 / 100 then "stabilny"
      else if slope points > 0 then "rosnący"
      else "malejący" := by
  have hd : (points.length : Rat) * (points.map (fun p => p.1 * p.1)).sum -
      (points.map (fun p => p.1)).sum * (points.map (fun p => p.1)).sum =
      slopeDenominator points := by
    unfold slopeDenominator
    ring
  unfold trendOf
  rw [if_pos hn]
  dsimp only
  rw [hd, if_neg hden]
  rfl

theorem trendOf_cases (points : List (Rat × Rat)) (hn : 2 ≤ points.length)
    (hden : slopeDenominator points ≠ 0) :
    (trendOf points = "stabilny" ↔ |slope points| < 1 / 100) ∧
    (trendOf points = "rosnący" ↔ ¬ |slope points| < 1 / 100 ∧ 0 < slope points) ∧
    (trendOf points = "malejący" ↔ ¬ |slope points| < 1 / 100 ∧ slope points < 0) := by
  rw [trendOf_eq points hn hden]
  by_cases h1 : |slope points| < 1 / 100
  · rw [if_pos h1]
    refine ⟨⟨fun _ => h1, fun _ => rfl⟩, ⟨fun h => absurd h (by decide), fun h => absurd h1 h.1⟩,
      ⟨fun h => absurd h (by decide), fun h => absurd h1 h.1⟩⟩
  · rw [if_neg h1]
    by_cases h2 : slope points > 0
    · rw [if_pos h2]
      refine ⟨⟨fun h => absurd h (by decide), fun h => absurd h h1⟩,
        ⟨fun _ => ⟨h1, h2⟩, fun _ => rfl⟩,
        ⟨fun h => absurd h (by decide), fun h => absurd h2 (not_lt.2 (le_of_lt h.2))⟩⟩
    · rw [if_neg h2]
      have h3 : slope points < 0 := by
        rcases lt_or_eq_of_le (not_lt.1 h2) with h | h
        · exact h
        · exact absurd (by rw [h]; norm_num) h1
      refine ⟨⟨fun h => absurd h (by decide), fun h => absurd h h1⟩,
        ⟨fun h => absurd h (by decide), fun h => absurd h.2 h2⟩,
        ⟨fun _ => ⟨h1, h3⟩, fun _ => rfl⟩⟩

end window_2_data_vis

/-! ## C13: one point, no point -/

namespace window_2_data_vis

/-- Every record of `displayCharts` is the `chartData` of a sensor name, for the sorted
selected dates and the earliest of them. -/
theorem mem_displayCharts {w : window_2_data_vis} {r : SensorChartData}
    (hr : r ∈ displayCharts w) :
    ∃ (earliestDate : QDate) (rest : List QDate) (sensorName : String),
      w.m_selectedDates.insertionSort (fun a b => a ≤ b) = earliestDate :: rest ∧
      r = chartData w.m_aggregatedData (w.m_selectedDates.length == 1) (earliestDate :: rest)
        earliestDate sensorName := by
  unfold displayCharts at hr
  split at hr
  · simp at hr
  · dsimp only at hr
    split at hr
    · simp at hr
    · rename_i e rest hsorted
      obtain ⟨name, _, hname⟩ := List.mem_map.1 hr
      rw [hsorted] at hname
      exact ⟨e, rest, name, hsorted, hname.symm⟩

theorem chartData_sensorName (g : Grid) (singleDay : Bool) (sortedDates : List QDate)
    (earliestDate : QDate) (sensorName : String) :
    (chartData g singleDay sortedDates earliestDate sensorName).sensorName = sensorName := by
  unfold chartData
  dsimp only
  split <;> rfl

/-- The record of a sensor with exactly one point. -/
theorem chartData_one_point (g : Grid) (singleDay : Bool) (sortedDates : List QDate)
    (earliestDate : QDate) (sensorName : String) (x v : Rat)
    (hp : (chartData g singleDay sortedDates earliestDate sensorName).points = [(x, v)])
    (hv : |v| ≤ DBL_MAX) :
    chartData g singleDay sortedDates earliestDate sensorName =
      ⟨sensorName, v, v, v, "brak danych do analizy trendu", [(x, v)]⟩ := by
  rw [chartData_points] at hp
  obtain ⟨h1, h2, h3, h4⟩ := agrees_collect g singleDay sortedDates earliestDate sensorName
  rw [hp] at h1 h2 h3 h4
  have hle : v ≤ DBL_MAX := le_trans (le_abs_self v) hv
  have hge : -DBL_MAX ≤ v := le_trans (neg_le_neg hv) (neg_abs_le v)
  simp only [List.map_cons, List.map_nil, List.sum_cons, List.sum_nil, add_zero,
    List.foldl_cons, List.foldl_nil, List.length_singleton] at h1 h2 h3 h4
  rw [min_eq_right hle] at h3
  rw [max_eq_right hge] at h4
  have hcount : (collect g singleDay sortedDates earliestDate sensorName).count ≠ 0 := by
    rw [h1]; exact one_ne_zero
  rw [chartData_of_count g singleDay sortedDates earliestDate sensorName hcount, hp, h1, h2,
    h3, h4]
  simp [trendOf]

/-- The record of a sensor with no point. -/
theorem chartData_no_point (g : Grid) (singleDay : Bool) (sortedDates : List QDate)
    (earliestDate : QDate) (sensorName : String)
    (hp : (chartData g singleDay sortedDates earliestDate sensorName).points = []) :
    chartData g singleDay sortedDates earliestDate sensorName =
      ⟨sensorName, 0, 0, 0, "brak danych", []⟩ := by
  rw [chartData_points] at hp
  have hcount : (collect g singleDay sortedDates earliestDate sensorName).count = 0 := by
    rw [(agrees_collect g singleDay sortedDates earliestDate sensorName).1, hp]
    rfl
  rw [chartData_of_no_count g singleDay sortedDates earliestDate sensorName hcount, hp]

/-- No hour of a row is included exactly when its 24 buckets are all zero. -/
theorem includedHours_eq_nil (g : Grid) (date : QDate) (sensorName : String) :
    includedHours g date sensorName = [] ↔
      ∀ hour : Nat, hour < 24 → bucket g date sensorName hour = 0 := by
  unfold includedHours
  rw [List.filter_eq_nil_iff]
  constructor
  · intro h hour hh
    have := h hour (List.mem_range.2 hh)
    simpa using this
  · intro h hour hh
    simpa using h hour (List.mem_range.1 hh)

/-- C13. Degenerate statistics. For every record `displayCharts` computes: if it has
exactly one point `(x, v)`, `v` a double, then its trend is "brak danych do analizy
trendu" and `minValue = maxValue = average = v`; if it has no point then `minValue`,
`maxValue` and `average` are 0 and the trend is "brak danych", not the "brak danych do
analizy trendu" that `trendOf` gives for no points; and it has no point exactly when a
single date is selected and the 24 buckets of the sensor on that date are all zero. -/
theorem degenerate_statistics (w : window_2_data_vis) (r : SensorChartData)
    (hr : r ∈ displayCharts w) :
    (∀ x v : Rat, r.points = [(x, v)] → |v| ≤ DBL_MAX →
      r.trend = "brak danych do analizy trendu" ∧ r.minValue = v ∧ r.maxValue = v ∧
        r.average = v) ∧
    (r.points = [] →
      r.minValue = 0 ∧ r.maxValue = 0 ∧ r.average = 0 ∧ r.trend = "brak danych" ∧
        trendOf r.points = "brak danych do analizy trendu") ∧
    (r.points = [] ↔
      ∃ d : QDate, w.m_selectedDates = [d] ∧
        ∀ hour : Nat, hour < 24 → bucket w.m_aggregatedData d r.sensorName hour = 0) := by
  obtain ⟨e, rest, name, hsorted, rfl⟩ := mem_displayCharts hr
  refine ⟨?_, ?_, ?_⟩
  · intro x v hp hv
    rw [chartData_one_point _ _ _ _ _ x v hp hv]
    exact ⟨rfl, rfl, rfl, rfl⟩
  · intro hp
    rw [chartData_no_point _ _ _ _ _ hp]
    exact ⟨rfl, rfl, rfl, rfl, rfl⟩
  · rw [chartData_points, chartData_sensorName]
    cases hlen : (w.m_selectedDates.length == 1) with
    | true =>
      have hl : w.m_selectedDates.length = 1 := by simpa using hlen
      obtain ⟨d, hd⟩ := List.length_eq_one.1 hl
      have he : e = d := by
        rw [hd] at hsorted
        simp only [List.insertionSort, List.orderedInsert] at hsorted
        exact (List.cons.inj hsorted).1.symm
      subst he
      rw [collect_single_points, List.map_eq_nil_iff, includedHours_eq_nil]
      constructor
      · intro h
        exact ⟨e, hd, h⟩
      · rintro ⟨d, hd2, h⟩
        rw [hd] at hd2
        obtain rfl := (List.cons.inj hd2).1
        exact h
    | false =>
      have hl : w.m_selectedDates.length ≠ 1 := by simpa using hlen
      rw [collect_multi_points]
      constructor
      · intro h
        have := length_multiPoints w.m_aggregatedData (e :: rest) e name
        rw [h] at this
        simp at this
      · rintro ⟨d, hd, _⟩
        rw [hd] at hl
        exact absurd rfl hl

/-- C13 on `zeroRowWindow`, whose only bucket is zero, and on `onePointWindow`, whose
only bucket holds 7: the one record has no point, zeros and "brak danych"; the other has
one point, 7 three times and "brak danych do analizy trendu". -/
theorem degenerate_statistics_witness :
    displayCharts zeroRowWindow = [⟨"PM10", 0, 0, 0, "brak danych", []⟩] ∧
    displayCharts onePointWindow =
      [⟨"PM10", 7, 7, 7, "brak danych do analizy trendu", [(8, 7)]⟩] ∧
    ((⟨"PM10", 0, 0, 0, "brak danych", []⟩ : SensorChartData).points = [] ↔
      ∃ d : QDate, zeroRowWindow.m_selectedDates = [d] ∧
        ∀ hour : Nat, hour < 24 → bucket zeroRowWindow.m_aggregatedData d "PM10" hour = 0) := by
  have h0 : displayCharts zeroRowWindow = [⟨"PM10", 0, 0, 0, "brak danych", []⟩] := by
    decide!
  have h1 : displayCharts onePointWindow =
      [⟨"PM10", 7, 7, 7, "brak danych do analizy trendu", [(8, 7)]⟩] := by decide!
  exact ⟨h0, h1,
    (degenerate_statistics zeroRowWindow ⟨"PM10", 0, 0, 0, "brak danych", []⟩
      (by rw [h0]; exact List.mem_singleton_self _)).2.2⟩

end window_2_data_vis

/-! ## C21 and C28: reading a store that lacks the file -/

namespace HistoryManager

/-- C21. The read operations are total. `loadSessions` gives the empty list when the
index file is missing or holds no JSON object, and the list under `sessions` of the
object otherwise; `loadSessionDetails` gives the empty record when the session file is
missing or holds no JSON object, and the object otherwise. Both are functions of the
store that have a value for every store and give no store back. -/
theorem reads_are_total (hm : HistoryManager) (sessionId : String) :
    (hm.m_historyDir m_indexFilePath = none → hm.loadSessions = []) ∧
    (∀ doc, hm.m_historyDir m_indexFilePath = some doc → doc.isObject = false →
      hm.loadSessions = []) ∧
    (∀ o, hm.m_historyDir m_indexFilePath = some (QJsonDocument.object o) →
      hm.loadSessions = (o.get "sessions").toList) ∧
    (hm.m_historyDir (sessionFile sessionId) = none → hm.loadSessionDetails sessionId = []) ∧
    (∀ doc, hm.m_historyDir (sessionFile sessionId) = some doc → doc.isObject = false →
      hm.loadSessionDetails sessionId = []) ∧
    (∀ o, hm.m_historyDir (sessionFile sessionId) = some (QJsonDocument.object o) →
      hm.loadSessionDetails sessionId = o) := by
  refine ⟨?_, ?_, ?_, ?_, ?_, ?_⟩
  · intro h
    simp [loadSessions, h]
  · intro doc h hobj
    simp [loadSessions, h, hobj]
  · intro o h
    simp [loadSessions, h, QJsonDocument.isNull, QJsonDocument.isObject,
      QJsonDocument.toVariantMap]
  · intro h
    simp [loadSessionDetails, h]
  · intro doc h hobj
    cases doc with
    | object o => simp [QJsonDocument.isObject] at hobj
    | null => simp [loadSessionDetails, h, QJsonDocument.toVariantMap]
    | array a => simp [loadSessionDetails, h, QJsonDocument.toVariantMap]
  · intro o h
    simp [loadSessionDetails, h, QJsonDocument.toVariantMap]

/-- C21 on the empty store, and on a store whose index file and whose file of session
`s1` hold a JSON array. -/
theorem reads_are_total_witness :
    empty.loadSessions = [] ∧ empty.loadSessionDetails "s1" = [] ∧
    (HistoryManager.mk ((QDir.writeFile QDir.empty m_indexFilePath
      (QJsonDocument.array [QVariant.num 1])).writeFile (sessionFile "s1")
        QJsonDocument.null)).loadSessions = [] ∧
    (HistoryManager.mk ((QDir.writeFile QDir.empty m_indexFilePath
      (QJsonDocument.array [QVariant.num 1])).writeFile (sessionFile "s1")
        QJsonDocument.null)).loadSessionDetails "s1" = [] :=
  ⟨(reads_are_total empty "s1").1 rfl, (reads_are_total empty "s1").2.2.2.1 rfl,
    (reads_are_total _ "s1").2.1 (QJsonDocument.array [QVariant.num 1]) rfl rfl,
    (reads_are_total _ "s1").2.2.2.2.1 QJsonDocument.null rfl rfl⟩

end HistoryManager

namespace window_2_data_vis

/-- C28. A missing session suppresses fresh data: when `loadSessionDetails` gives the
empty record for the session id of the window, `aggregateData` returns the empty grid,
and so it does on every window with the same store and session id, whatever its fresh
cache, its checked sensors and its selected dates are. -/
theorem missing_session_gives_empty_grid (w : window_2_data_vis)
    (h : w.m_historyManager.loadSessionDetails w.m_sessionId = []) :
    aggregateData w = [] ∧
    ∀ w2 : window_2_data_vis, w2.m_historyManager = w.m_historyManager →
      w2.m_sessionId = w.m_sessionId → aggregateData w2 = [] := by
  refine ⟨?_, ?_⟩
  · unfold aggregateData
    rw [h]
    rfl
  · intro w2 h1 h2
    unfold aggregateData
    rw [h1, h2, h]
    rfl

/-- C28 on `missingSessionWindow`: the fresh value 5 for hour 11 makes a cell on the
session `s1`, which has a file, and none on the session `s2`, which has not. -/
theorem missing_session_gives_empty_grid_witness :
    missingSessionWindow.m_historyManager.loadSessionDetails
      missingSessionWindow.m_sessionId = [] ∧
    aggregateData missingSessionWindow = [] ∧
    Grid.cell (aggregateData freshWindow) 2460432 "PM10" 11 = some 5 := by
  have h : missingSessionWindow.m_historyManager.loadSessionDetails
      missingSessionWindow.m_sessionId = [] := rfl
  exact ⟨h, (missing_session_gives_empty_grid missingSessionWindow h).1, by decide!⟩

end window_2_data_vis

/-! ## C22: the keys of the grid -/

namespace QMap

variable {K V : Type} [DecidableEq K]

theorem find_eq_none_of_not_mem_keys (m : QMap K V) (k : K) (h : k ∉ keys m) :
    find m k = none := by
  induction m with
  | nil => rfl
  | cons hd tl ih =>
    obtain ⟨k', v'⟩ := hd
    simp only [keys, List.map_cons, List.mem_cons, not_or] at h
    simp only [find, if_neg h.1]
    exact ih h.2

theorem mem_keys_of_find {m : QMap K V} {k : K} {v : V} (h : find m k = some v) :
    k ∈ keys m := by
  by_contra hk
  rw [find_eq_none_of_not_mem_keys m k hk] at h
  exact Option.noConfusion h

theorem find_isSome_of_mem_keys (m : QMap K V) (k : K) (h : k ∈ keys m) :
    (find m k).isSome = true := by
  induction m with
  | nil => simp [keys] at h
  | cons hd tl ih =>
    obtain ⟨k', v'⟩ := hd
    by_cases hk : k = k'
    · simp [find, hk]
    · simp only [keys, List.map_cons, List.mem_cons] at h
      rcases h with h | h
      · exact absurd h hk
      · simp only [find, if_neg hk]
        exact ih h

theorem insert_ne_nil [KeyOrder K] (m : QMap K V) (k : K) (v : V) : insert m k v ≠ [] := by
  cases m with
  | nil => simp [insert]
  | cons hd tl =>
    obtain ⟨k', v'⟩ := hd
    unfold insert
    split
    · simp
    · split <;> simp

/-- A key of `value m k []` shows that `k` is a key of `m`. -/
theorem mem_keys_of_mem_keys_value {W : Type} (m : QMap K (QMap W V)) (k : K) (x : W)
    (h : x ∈ keys (value m k [])) : k ∈ keys m := by
  by_contra hk
  unfold value at h
  rw [find_eq_none_of_not_mem_keys m k hk] at h
  simp [keys] at h

end QMap

namespace Grid

theorem within_nil (D : QDate → Prop) (N : String → Prop) (H : Int → Prop) :
    Within D N H [] := by
  intro date hd
  simp [QMap.keys] at hd

theorem within_add {D : QDate → Prop} {N : String → Prop} {H : Int → Prop} {g : Grid}
    (hg : Within D N H g) (d : QDate) (n : String) (h : Int) (v : Rat)
    (hD : D d) (hN : N n) (hH : H h) : Within D N H (g.add d n h v) := by
  intro date hdate
  unfold add at hdate ⊢
  dsimp only at hdate ⊢
  rw [QMap.mem_keys_insert] at hdate
  have hrow : ∀ sensorName ∈ QMap.keys (QMap.value g d []), N sensorName ∧
      ∀ hour ∈ QMap.keys (QMap.value (QMap.value g d []) sensorName []), H hour := by
    intro sensorName hs
    exact (hg d (QMap.mem_keys_of_mem_keys_value g d sensorName hs)).2 sensorName hs
  by_cases hd : date = d
  · subst hd
    refine ⟨hD, ?_⟩
    rw [QMap.value_insert, if_pos rfl]
    intro sensorName hs
    rw [QMap.mem_keys_insert] at hs
    by_cases hn : sensorName = n
    · subst hn
      refine ⟨hN, ?_⟩
      rw [QMap.value_insert, if_pos rfl]
      intro hour hh
      rw [QMap.mem_keys_insert] at hh
      rcases hh with rfl | hh
      · exact hH
      · have hs2 : sensorName ∈ QMap.keys (QMap.value g date []) :=
          QMap.mem_keys_of_mem_keys_value _ sensorName hour hh
        exact (hrow sensorName hs2).2 hour hh
    · rcases hs with hs | hs
      · exact absurd hs hn
      · rw [QMap.value_insert, if_neg hn]
        exact hrow sensorName hs
  · rcases hdate with hdate | hdate
    · exact absurd hdate hd
    · rw [QMap.value_insert, if_neg hd]
      exact hg date hdate

theorem within_addAll {D : QDate → Prop} {N : String → Prop} {H : Int → Prop}
    (cs : List Contribution) (hcs : ∀ c ∈ cs, D c.date ∧ N c.sensorName ∧ H c.hour) :
    ∀ g : Grid, Within D N H g → Within D N H (addAll g cs) := by
  induction cs with
  | nil => intro g hg; exact hg
  | cons c rest ih =>
    intro g hg
    have hc := hcs c (List.mem_cons_self _ _)
    exact ih (fun x hx => hcs x (List.mem_cons_of_mem _ hx)) _
      (within_add hg c.date c.sensorName c.hour c.value hc.1 hc.2.1 hc.2.2)

end Grid

namespace QDateTime

/-- A timestamp that parses names an hour of the day. -/
theorem hour_of_fromString {text : String} {dateTime : QDateTime}
    (h : fromString text = some dateTime) : 0 ≤ dateTime.hour ∧ dateTime.hour ≤ 23 := by
  unfold fromString at h
  split at h
  · split at h
    · split at h
      · split at h
        · rename_i hcond
          injection h with h
          subst h
          dsimp only
          omega
        · exact Option.noConfusion h
      · exact Option.noConfusion h
    · exact Option.noConfusion h
  · exact Option.noConfusion h

end QDateTime

namespace window_2_data_vis

theorem mem_contributionOf {selectedDates : List QDate} {sensorName text : String}
    {value : Rat} {c : Contribution}
    (h : c ∈ contributionOf selectedDates sensorName text value) :
    c.date ∈ selectedDates ∧ c.sensorName = sensorName ∧ (0 ≤ c.hour ∧ c.hour ≤ 23) ∧
      c.value = value ∧ value ≠ 0 ∧
      ∃ dateTime, QDateTime.fromString text = some dateTime ∧ dateTime.date = c.date ∧
        dateTime.hour = c.hour := by
  unfold contributionOf at h
  cases hp : QDateTime.fromString text with
  | none => rw [hp] at h; simp at h
  | some dt =>
    rw [hp] at h
    dsimp only at h
    split at h
    · rename_i hcond
      simp only [Bool.and_eq_true, decide_eq_true_eq] at hcond
      have hmem : dt.date ∈ selectedDates := by simpa using hcond.1
      rw [List.mem_singleton] at h
      subst h
      exact ⟨hmem, rfl, QDateTime.hour_of_fromString hp, rfl, hcond.2, dt, rfl, rfl, rfl⟩
    · simp at h

end window_2_data_vis

/-! ## C22: the grid is restricted to the selection -/

namespace window_2_data_vis

theorem mem_historyContributions {w : window_2_data_vis} {sensorVariant : QVariant}
    {c : Contribution} (h : c ∈ historyContributions w sensorVariant) :
    w.isSelected (HistoryManager.sensorId sensorVariant) = true ∧
    stationIdOf sensorVariant = w.m_stationId ∧
    ∃ measurementVariant ∈ HistoryManager.measurementsOf sensorVariant,
      c ∈ contributionOf w.m_selectedDates (paramNameOf sensorVariant)
        (dateTextOf measurementVariant) (historyValueOf measurementVariant) := by
  unfold historyContributions at h
  split at h
  · rename_i hcond
    simp only [Bool.and_eq_true, beq_iff_eq] at hcond
    rw [List.mem_flatMap] at h
    exact ⟨hcond.1, hcond.2, h⟩
  · simp at h

theorem mem_onlineContributions {w : window_2_data_vis} {sensorId : Int}
    {c : Contribution} (h : c ∈ onlineContributions w sensorId) :
    w.isSelected sensorId = true ∧
    ∃ value ∈ QMap.value w.m_measurementData sensorId [],
      c ∈ contributionOf w.m_selectedDates (QMap.value w.m_sensorIdToName sensorId "")
        (dateTextOf value) (onlineValueOf value) := by
  unfold onlineContributions at h
  split at h
  · rename_i hcond
    rw [List.mem_flatMap] at h
    exact ⟨hcond, h⟩
  · simp at h

/-- Every contribution `aggregateData` makes goes to a selected date, a display name of a
selected sensor and an hour of the day. -/
theorem contributions_within (w : window_2_data_vis) :
    ∀ c ∈ (HistoryManager.sensorsOf w.session).flatMap (historyContributions w) ++
        (QMap.keys w.m_measurementData).flatMap (onlineContributions w),
      c.date ∈ w.m_selectedDates ∧ DisplayName w c.sensorName ∧ (0 ≤ c.hour ∧ c.hour ≤ 23) := by
  intro c hc
  rcases List.mem_append.1 hc with hc | hc
  · obtain ⟨sv, hsv, hc⟩ := List.mem_flatMap.1 hc
    obtain ⟨hsel, hst, mv, _, hc⟩ := mem_historyContributions hc
    obtain ⟨h1, h2, h3, _⟩ := mem_contributionOf hc
    exact ⟨h1, Or.inl ⟨sv, hsv, hsel, hst, h2.symm⟩, h3⟩
  · obtain ⟨k, hk, hc⟩ := List.mem_flatMap.1 hc
    obtain ⟨hsel, value, _, hc⟩ := mem_onlineContributions hc
    obtain ⟨h1, h2, h3, _⟩ := mem_contributionOf hc
    exact ⟨h1, Or.inr ⟨k, hk, hsel, h2.symm⟩, h3⟩

theorem within_aggregateData (w : window_2_data_vis) :
    Grid.Within (fun date => date ∈ w.m_selectedDates) (DisplayName w)
      (fun hour => 0 ≤ hour ∧ hour ≤ 23) (aggregateData w) := by
  rw [aggregateData_eq]
  split
  · exact Grid.within_nil _ _ _
  · exact Grid.within_addAll _ (contributions_within w) _ (Grid.within_nil _ _ _)

/-- A cell of a grid lies under keys of the grid. -/
theorem keys_of_cell {g : Grid} {date : QDate} {sensorName : String} {hour : Int} {v : Rat}
    (h : Grid.cell g date sensorName hour = some v) :
    date ∈ QMap.keys g ∧ sensorName ∈ QMap.keys (QMap.value g date []) ∧
      hour ∈ QMap.keys (QMap.value (QMap.value g date []) sensorName []) := by
  unfold Grid.cell at h
  cases h1 : QMap.find g date with
  | none => rw [h1] at h; simp at h
  | some byName =>
    rw [h1] at h
    simp only [Option.some_bind] at h
    cases h2 : QMap.find byName sensorName with
    | none => rw [h2] at h; simp at h
    | some byHour =>
      rw [h2] at h
      simp only [Option.some_bind] at h
      have e1 : QMap.value g date [] = byName := by simp [QMap.value, h1]
      have e2 : QMap.value byName sensorName [] = byHour := by simp [QMap.value, h2]
      rw [e1, e2]
      exact ⟨QMap.mem_keys_of_find h1, QMap.mem_keys_of_find h2, QMap.mem_keys_of_find h⟩

/-- C22. Grid restriction. For every window (session, fresh cache, check boxes, selected
dates), in the grid `aggregateData` returns every date key is a selected date, every
sensor-name key is the display name of a sensor whose id is selected, and every hour key
lies in 0..23; so does every cell. The loop bodies leave the grid as it is for a session
sensor or a cache key whose id is not selected and for a measurement, persisted or
fresh, whose timestamp parses to a date that is not selected. -/
theorem grid_restriction (w : window_2_data_vis) :
    Grid.Within (fun date => date ∈ w.m_selectedDates) (DisplayName w)
      (fun hour => 0 ≤ hour ∧ hour ≤ 23) (aggregateData w) ∧
    (∀ (date : QDate) (sensorName : String) (hour : Int) (v : Rat),
      Grid.cell (aggregateData w) date sensorName hour = some v →
      date ∈ w.m_selectedDates ∧ DisplayName w sensorName ∧ 0 ≤ hour ∧ hour ≤ 23) ∧
    (∀ (g : Grid) (sensorVariant : QVariant),
      w.isSelected (HistoryManager.sensorId sensorVariant) = false →
      historySensorStep w (selectedSensorIds w) g sensorVariant = g) ∧
    (∀ (g : Grid) (sensorId : Int), w.isSelected sensorId = false →
      onlineSensorStep w (selectedSensorIds w) g sensorId = g) ∧
    (∀ (g : Grid) (sensorName : String) (measurement : QVariant) (dateTime : QDateTime),
      QDateTime.fromString (dateTextOf measurement) = some dateTime →
      dateTime.date ∉ w.m_selectedDates →
      historyMeasurementStep w.m_selectedDates sensorName g measurement = g ∧
      onlineMeasurementStep w.m_selectedDates sensorName g measurement = g) := by
  refine ⟨within_aggregateData w, ?_, ?_, ?_, ?_⟩
  · intro date sensorName hour v hcell
    obtain ⟨k1, k2, k3⟩ := keys_of_cell hcell
    obtain ⟨h1, h2⟩ := within_aggregateData w date k1
    obtain ⟨h3, h4⟩ := h2 sensorName k2
    exact ⟨h1, h3, h4 hour k3⟩
  · intro g sv hsel
    rw [historySensorStep_eq]
    simp [historyContributions, hsel, Grid.addAll]
  · intro g k hsel
    rw [onlineSensorStep_eq]
    simp [onlineContributions, hsel, Grid.addAll]
  · intro g sensorName mv dt hp hd
    have hc : ∀ value : Rat,
        contributionOf w.m_selectedDates sensorName (dateTextOf mv) value = [] := by
      intro value
      unfold contributionOf
      rw [hp]
      simp [hd]
    rw [historyMeasurementStep_eq, onlineMeasurementStep_eq, hc, hc]
    exact ⟨rfl, rfl⟩

/-- C22 on `restrictedWindow`: sensor 2 is not checked and one fresh value of sensor 1 is
on a date that is not selected; the grid has the one date 2024-05-01 and the one name
PM10, with the hours 8, 10 and 11. -/
theorem grid_restriction_witness :
    aggregateData restrictedWindow = [(2460432, [("PM10", [(8, 10), (10, 4), (11, 5)])])] ∧
    ∀ date ∈ QMap.keys (aggregateData restrictedWindow),
      date ∈ restrictedWindow.m_selectedDates :=
  ⟨by decide!, fun date hd => ((grid_restriction restrictedWindow).1 date hd).1⟩

end window_2_data_vis

/-! ## C23: timestamps that do not parse -/

namespace window_2_data_vis

theorem contributionOf_malformed (selectedDates : List QDate) (sensorName : String)
    (measurement : QVariant) (value : Rat) (h : wellFormed measurement = false) :
    contributionOf selectedDates sensorName (dateTextOf measurement) value = [] := by
  unfold wellFormed at h
  unfold contributionOf
  cases hp : QDateTime.fromString (dateTextOf measurement) with
  | none => rfl
  | some dt => rw [hp] at h; simp at h

theorem session_withoutMalformed (w : window_2_data_vis) :
    (withoutMalformed w).session =
      if w.session.isEmpty then w.session else cleanSession w.session := by
  unfold withoutMalformed withCache withStore cleanStore session
  dsimp only
  split
  · rfl
  · exact HistoryManager.loadSessionDetails_writeFile_same _ _ _

theorem sensorsOf_cleanSession (sessionData : QVariantMap) :
    HistoryManager.sensorsOf (cleanSession sessionData) =
      (HistoryManager.sensorsOf sessionData).map cleanSensor := by
  unfold cleanSession
  simp [HistoryManager.sensorsOf, QVariantMap.get_set, QVariant.toList]

theorem historyContributions_cleanSensor (w : window_2_data_vis) (sensorVariant : QVariant) :
    historyContributions (withoutMalformed w) (cleanSensor sensorVariant) =
      historyContributions w sensorVariant := by
  have h1 : HistoryManager.sensorId (cleanSensor sensorVariant) =
      HistoryManager.sensorId sensorVariant := by
    simp [HistoryManager.sensorId, cleanSensor, QVariant.toMap_map, QVariantMap.get_set]
  have h2 : stationIdOf (cleanSensor sensorVariant) = stationIdOf sensorVariant := by
    simp [stationIdOf, cleanSensor, QVariant.toMap_map, QVariantMap.get_set]
  have h3 : paramNameOf (cleanSensor sensorVariant) = paramNameOf sensorVariant := by
    simp [paramNameOf, cleanSensor, QVariant.toMap_map, QVariantMap.get_set]
  have h4 : HistoryManager.measurementsOf (cleanSensor sensorVariant) =
      (HistoryManager.measurementsOf sensorVariant).filter wellFormed := by
    simp [HistoryManager.measurementsOf, cleanSensor, QVariant.toMap_map,
      QVariantMap.get_set, QVariant.toList]
  have h5 : (withoutMalformed w).isSelected = w.isSelected := rfl
  have h6 : (withoutMalformed w).m_stationId = w.m_stationId := rfl
  have h7 : (withoutMalformed w).m_selectedDates = w.m_selectedDates := rfl
  unfold historyContributions
  rw [h1, h2, h3, h4, h5, h6, h7]
  split
  · apply flatMap_filter_of_nil
    intro x hx
    exact contributionOf_malformed _ _ x _ hx
  · rfl

theorem onlineContributions_withoutMalformed (w : window_2_data_vis) (k : Int) :
    onlineContributions (withoutMalformed w) k = onlineContributions w k := by
  have hv : QMap.value (withoutMalformed w).m_measurementData k [] =
      (QMap.value w.m_measurementData k []).filter wellFormed := by
    show QMap.value (cleanCache w.m_measurementData) k [] = _
    unfold QMap.value cleanCache
    rw [QMap.find_map_snd]
    cases QMap.find w.m_measurementData k <;> simp
  have h5 : (withoutMalformed w).isSelected = w.isSelected := rfl
  have h6 : (withoutMalformed w).m_sensorIdToName = w.m_sensorIdToName := rfl
  have h7 : (withoutMalformed w).m_selectedDates = w.m_selectedDates := rfl
  unfold onlineContributions
  rw [hv, h5, h6, h7]
  split
  · apply flatMap_filter_of_nil
    intro x hx
    exact contributionOf_malformed _ _ x _ hx
  · rfl

theorem aggregateData_withoutMalformed (w : window_2_data_vis) :
    aggregateData (withoutMalformed w) = aggregateData w := by
  rw [aggregateData_eq, aggregateData_eq, session_withoutMalformed]
  have hkeys : QMap.keys (withoutMalformed w).m_measurementData =
      QMap.keys w.m_measurementData := by
    show QMap.keys (cleanCache w.m_measurementData) = _
    simp [QMap.keys, cleanCache, Function.comp_def]
  have hfun : onlineContributions (withoutMalformed w) = onlineContributions w :=
    funext (onlineContributions_withoutMalformed w)
  by_cases he : w.session.isEmpty = true
  · simp only [he, if_true]
  · have hne : (cleanSession w.session).isEmpty = false := by
      have := QMap.insert_ne_nil w.session "sensors"
        (QVariant.list ((HistoryManager.sensorsOf w.session).map cleanSensor))
      unfold cleanSession QVariantMap.set
      cases hc : QMap.insert w.session "sensors"
          (QVariant.list ((HistoryManager.sensorsOf w.session).map cleanSensor)) with
      | nil => exact absurd hc this
      | cons a t => rfl
    simp only [he, if_false, hne, Bool.false_eq_true]
    rw [sensorsOf_cleanSession, hkeys, hfun, List.flatMap_map]
    congr 2
    apply List.flatMap_congr
    intro sv _
    exact historyContributions_cleanSensor w sv

/-- C23. Timestamps that do not parse are skipped. `aggregateData` has a grid for every
window, and it is the grid it has after every measurement whose timestamp does not parse
in the format `yyyy-MM-dd HH:mm:ss` is removed from the persisted history of the session
and from the fresh cache. Both loop bodies leave the grid as it is on such a
measurement, so a run over measurements gives what the run without it gives: the
measurements after it are processed. -/
theorem malformed_timestamps_are_skipped (w : window_2_data_vis) :
    aggregateData (withoutMalformed w) = aggregateData w ∧
    (∀ (g : Grid) (sensorName : String) (measurement : QVariant),
      wellFormed measurement = false →
      historyMeasurementStep w.m_selectedDates sensorName g measurement = g ∧
      onlineMeasurementStep w.m_selectedDates sensorName g measurement = g) ∧
    (∀ (g : Grid) (sensorName : String) (before after : QVariantList)
      (measurement : QVariant), wellFormed measurement = false →
      (before ++ measurement :: after).foldl
          (historyMeasurementStep w.m_selectedDates sensorName) g =
        (before ++ after).foldl (historyMeasurementStep w.m_selectedDates sensorName) g ∧
      (before ++ measurement :: after).foldl
          (onlineMeasurementStep w.m_selectedDates sensorName) g =
        (before ++ after).foldl (onlineMeasurementStep w.m_selectedDates sensorName) g) := by
  have hstep : ∀ (g : Grid) (sensorName : String) (measurement : QVariant),
      wellFormed measurement = false →
      historyMeasurementStep w.m_selectedDates sensorName g measurement = g ∧
      onlineMeasurementStep w.m_selectedDates sensorName g measurement = g := by
    intro g sensorName mv hmv
    rw [historyMeasurementStep_eq, onlineMeasurementStep_eq,
      contributionOf_malformed _ _ mv _ hmv, contributionOf_malformed _ _ mv _ hmv]
    exact ⟨rfl, rfl⟩
  refine ⟨aggregateData_withoutMalformed w, hstep, ?_⟩
  intro g sensorName before after mv hmv
  simp only [List.foldl_append, List.foldl_cons]
  rw [(hstep _ sensorName mv hmv).1, (hstep _ sensorName mv hmv).2]
  exact ⟨rfl, rfl⟩

/-- C23 on `malformedWindow`: the persisted history holds a measurement dated
`yesterday` and the fresh cache one dated with a `T`; the grid has the hours 8, 10 and
11, the last from the fresh value 5 that comes after the malformed one. -/
theorem malformed_timestamps_are_skipped_witness :
    (QMap.value malformedWindow.m_measurementData 1 []).map wellFormed = [false, true] ∧
    (QMap.value (withoutMalformed malformedWindow).m_measurementData 1 []).length = 1 ∧
    aggregateData malformedWindow = [(2460432, [("PM10", [(8, 10), (10, 4), (11, 5)])])] ∧
    aggregateData (withoutMalformed malformedWindow) =
      [(2460432, [("PM10", [(8, 10), (10, 4), (11, 5)])])] := by
  have h : aggregateData malformedWindow =
      [(2460432, [("PM10", [(8, 10), (10, 4), (11, 5)])])] := by decide!
  refine ⟨by decide, by decide, h, ?_⟩
  rw [(malformed_timestamps_are_skipped malformedWindow).1, h]

end window_2_data_vis

/-! ## The order of the keys of a grid row -/

theorem lexLt_irrefl (a : List Char) : lexLt a a = false := by
  induction a with
  | nil => rfl
  | cons c cs ih => simp [lexLt, ih]

theorem lexLt_trans : ∀ a b c : List Char, lexLt a b = true → lexLt b c = true →
    lexLt a c = true := by
  intro a
  induction a with
  | nil =>
    intro b c hab hbc
    cases c with
    | nil => cases b <;> simp [lexLt] at hbc
    | cons z zs => rfl
  | cons x xs ih =>
    intro b c hab hbc
    cases b with
    | nil => simp [lexLt] at hab
    | cons y ys =>
      cases c with
      | nil => simp [lexLt] at hbc
      | cons z zs =>
        simp only [lexLt] at hab hbc ⊢
        by_cases h1 : x.toNat < y.toNat
        · by_cases h2 : y.toNat < z.toNat
          · have : x.toNat < z.toNat := lt_trans h1 h2
            simp [this]
          · simp only [h2, if_false] at hbc
            by_cases h3 : y.toNat = z.toNat
            · have : x.toNat < z.toNat := h3 ▸ h1
              simp [this]
            · simp [h3] at hbc
        · simp only [h1, if_false] at hab
          by_cases h4 : x.toNat = y.toNat
          · simp only [h4, if_true] at hab
            by_cases h2 : y.toNat < z.toNat
            · have : x.toNat < z.toNat := h4 ▸ h2
              simp [this]
            · simp only [h2, if_false] at hbc
              by_cases h3 : y.toNat = z.toNat
              · simp only [h3, if_true] at hbc
                have h5 : ¬ x.toNat < z.toNat := by omega
                have h6 : x.toNat = z.toNat := by omega
                rw [if_neg h5, if_pos h6]
                exact ih ys zs hab hbc
              · simp [h3] at hbc
          · simp [h4] at hab

theorem lexLt_total : ∀ a b : List Char, a ≠ b → lexLt a b = false → lexLt b a = true := by
  intro a
  induction a with
  | nil =>
    intro b hne hab
    cases b with
    | nil => exact absurd rfl hne
    | cons y ys => simp [lexLt] at hab
  | cons x xs ih =>
    intro b hne hab
    cases b with
    | nil => rfl
    | cons y ys =>
      simp only [lexLt] at hab ⊢
      by_cases h1 : x.toNat < y.toNat
      · simp [h1] at hab
      · simp only [h1, if_false] at hab
        by_cases h2 : x.toNat = y.toNat
        · simp only [h2, if_true] at hab
          have hxy : x = y := by
            rw [← Char.ofNat_toNat x, ← Char.ofNat_toNat y, h2]
          subst hxy
          have hne2 : xs ≠ ys := fun e => hne (by rw [e])
          simp only [lt_irrefl, if_false, if_true]
          exact ih ys hne2 hab
        · have h3 : y.toNat < x.toNat := by omega
          simp [h3]

namespace QMap

/-- With a strict total order on the keys, `insert` keeps the keys ascending. -/
theorem keys_insert_pairwise {K V : Type} [DecidableEq K] [KeyOrder K]
    (htrans : ∀ a b c : K, KeyOrder.lt a b = true → KeyOrder.lt b c = true →
      KeyOrder.lt a c = true)
    (htotal : ∀ a b : K, a ≠ b → KeyOrder.lt a b = false → KeyOrder.lt b a = true)
    (m : QMap K V) (k : K) (v : V)
    (h : (keys m).Pairwise (fun a b => KeyOrder.lt a b = true)) :
    (keys (insert m k v)).Pairwise (fun a b => KeyOrder.lt a b = true) := by
  induction m with
  | nil => simp [insert, keys]
  | cons hd tl ih =>
    obtain ⟨k', v'⟩ := hd
    simp only [keys, List.map_cons, List.pairwise_cons] at h
    unfold insert
    by_cases h1 : k = k'
    · subst h1
      simp only [if_true, keys, List.map_cons, List.pairwise_cons]
      exact h
    · rw [if_neg h1]
      by_cases h2 : KeyOrder.lt k k' = true
      · rw [if_pos h2]
        simp only [keys, List.map_cons, List.pairwise_cons, List.mem_cons]
        refine ⟨?_, h⟩
        intro b hb
        rcases hb with rfl | hb
        · exact h2
        · exact htrans _ _ _ h2 (h.1 b hb)
      · rw [if_neg h2]
        simp only [keys, List.map_cons, List.pairwise_cons]
        refine ⟨?_, ih h.2⟩
        intro b hb
        have hb2 : b ∈ keys (insert tl k v) := hb
        rw [mem_keys_insert] at hb2
        rcases hb2 with rfl | hb2
        · exact htotal _ _ h1 (by simpa using h2)
        · exact h.1 b hb2

theorem keys_insert_pairwise_string {V : Type} (m : QMap String V) (k : String) (v : V)
    (h : (keys m).Pairwise (fun a b => KeyOrder.lt a b = true)) :
    (keys (insert m k v)).Pairwise (fun a b => KeyOrder.lt a b = true) := by
  apply keys_insert_pairwise _ _ m k v h
  · intro a b c hab hbc
    exact lexLt_trans a.data b.data c.data hab hbc
  · intro a b hne hab
    exact lexLt_total a.data b.data (fun e => hne (String.ext e)) hab

theorem nodup_of_pairwise_string (l : List String)
    (h : l.Pairwise (fun a b => KeyOrder.lt a b = true)) : l.Nodup := by
  refine h.imp ?_
  intro a b hab e
  subst e
  have : lexLt a.data a.data = true := hab
  rw [lexLt_irrefl] at this
  exact Bool.noConfusion this

end QMap

namespace Grid

theorem grown_nil : Grown [] := by
  intro date
  simp [QMap.value, QMap.find, QMap.keys]

theorem grown_add {g : Grid} (hg : Grown g) (d : QDate) (n : String) (h : Int) (v : Rat) :
    Grown (g.add d n h v) := by
  intro date
  unfold add
  dsimp only
  rw [QMap.value_insert]
  by_cases hd : date = d
  · subst hd
    rw [if_pos rfl]
    refine ⟨QMap.keys_insert_pairwise_string _ _ _ (hg date).1, ?_⟩
    intro sensorName hs
    rw [QMap.value_insert]
    by_cases hn : sensorName = n
    · rw [if_pos hn]
      exact QMap.insert_ne_nil _ _ _
    · rw [if_neg hn]
      rw [QMap.mem_keys_insert] at hs
      rcases hs with hs | hs
      · exact absurd hs hn
      · exact (hg date).2 sensorName hs
  · rw [if_neg hd]
    exact hg date

theorem grown_addAll (cs : List Contribution) : ∀ g : Grid, Grown g → Grown (addAll g cs) := by
  induction cs with
  | nil => intro g hg; exact hg
  | cons c rest ih =>
    intro g hg
    exact ih _ (grown_add hg c.date c.sensorName c.hour c.value)

end Grid

namespace window_2_data_vis

/-- Every grid `aggregateData` returns is grown by `+=` statements from the empty grid. -/
theorem grown_aggregateData (w : window_2_data_vis) : Grid.Grown (aggregateData w) := by
  rw [aggregateData_eq]
  split
  · exact Grid.grown_nil
  · exact Grid.grown_addAll _ _ Grid.grown_nil

/-- In a grown grid a sensor name is a key under a date exactly when the date has a cell
of that name. -/
theorem mem_keys_iff_cell {g : Grid} (hg : Grid.Grown g) (date : QDate) (sensorName : String) :
    sensorName ∈ QMap.keys (QMap.value g date []) ↔
      ∃ (hour : Int) (v : Rat), Grid.cell g date sensorName hour = some v := by
  constructor
  · intro hs
    have hrow := (hg date).2 sensorName hs
    have hd : date ∈ QMap.keys g := QMap.mem_keys_of_mem_keys_value g date sensorName hs
    cases hrowv : QMap.value (QMap.value g date []) sensorName [] with
    | nil => exact absurd hrowv hrow
    | cons entry rest =>
      obtain ⟨hour, v⟩ := entry
      refine ⟨hour, v, ?_⟩
      have h1 := QMap.find_isSome_of_mem_keys g date hd
      have h2 := QMap.find_isSome_of_mem_keys _ sensorName hs
      unfold Grid.cell
      unfold QMap.value at hrowv h2
      cases hf1 : QMap.find g date with
      | none => rw [hf1] at h1; simp at h1
      | some byName =>
        rw [hf1] at hrowv h2
        simp only [Option.getD_some] at hrowv h2
        cases hf2 : QMap.find byName sensorName with
        | none => rw [hf2] at h2; simp at h2
        | some byHour =>
          rw [hf2] at hrowv
          simp only [Option.getD_some] at hrowv
          subst hrowv
          simp [QMap.find, hf2]
  · rintro ⟨hour, v, hcell⟩
    unfold Grid.cell at hcell
    cases hf1 : QMap.find g date with
    | none => rw [hf1] at hcell; simp at hcell
    | some byName =>
      rw [hf1] at hcell
      simp only [Option.some_bind] at hcell
      cases hf2 : QMap.find byName sensorName with
      | none => rw [hf2] at hcell; simp at hcell
      | some byHour =>
        have e1 : QMap.value g date [] = byName := by simp [QMap.value, hf1]
        rw [e1]
        exact QMap.mem_keys_of_find hf2

end window_2_data_vis

/-! ## C26: which sensors get statistics -/

namespace window_2_data_vis

theorem displayCharts_eq (w : window_2_data_vis) (earliestDate : QDate) (rest : List QDate)
    (hsorted : w.m_selectedDates.insertionSort (fun a b => a ≤ b) = earliestDate :: rest) :
    displayCharts w =
      if w.m_aggregatedData.isEmpty then []
      else (QMap.keys (QMap.value w.m_aggregatedData earliestDate [])).map
        (chartData w.m_aggregatedData (w.m_selectedDates.length == 1) (earliestDate :: rest)
          earliestDate) := by
  unfold displayCharts
  split
  · rfl
  · dsimp only
    rw [hsorted]

/-- The earliest of the selected dates, when there is one: the head of the sorted list. -/
theorem earliest_of_sorted (dates : List QDate) (hne : dates ≠ []) :
    ∃ (earliestDate : QDate) (rest : List QDate),
      dates.insertionSort (fun a b => a ≤ b) = earliestDate :: rest ∧
      earliestDate ∈ dates ∧ ∀ d ∈ dates, earliestDate ≤ d := by
  have hperm := List.perm_insertionSort (fun a b : QDate => a ≤ b) dates
  have hsort := List.sorted_insertionSort (fun a b : QDate => a ≤ b) dates
  cases hs : dates.insertionSort (fun a b => a ≤ b) with
  | nil =>
    rw [hs] at hperm
    exact absurd hperm.symm.eq_nil hne
  | cons e rest =>
    rw [hs] at hperm hsort
    refine ⟨e, rest, rfl, hperm.mem_iff.1 (List.mem_cons_self _ _), ?_⟩
    intro d hd
    have hd2 : d ∈ e :: rest := hperm.mem_iff.2 hd
    rcases List.mem_cons.1 hd2 with rfl | hd2
    · exact le_refl _
    · exact (List.sorted_cons.1 hsort).1 d hd2

/-- C26. Statistics are produced only for the sensors of the earliest selected date. Let
the grid of the window be grown by `+=` statements, as every grid `aggregateData`
returns is, and let a date be selected. Then the sensor names of the records
`displayCharts` computes are the sensor-name keys of the grid under the earliest
selected date, each once: a name has a record exactly when the grid has a cell of that
name on the earliest date. A sensor with no cell on that date has no record, whatever
the grid holds for it on later dates. -/
theorem statistics_only_for_earliest_date (w : window_2_data_vis)
    (hgrown : Grid.Grown w.m_aggregatedData) (hdates : w.m_selectedDates ≠ []) :
    (∀ w0 : window_2_data_vis, Grid.Grown (aggregateData w0)) ∧
    ∃ earliestDate : QDate,
      earliestDate ∈ w.m_selectedDates ∧ (∀ d ∈ w.m_selectedDates, earliestDate ≤ d) ∧
      (displayCharts w).map SensorChartData.sensorName =
        QMap.keys (QMap.value w.m_aggregatedData earliestDate []) ∧
      ((displayCharts w).map SensorChartData.sensorName).Nodup ∧
      (∀ sensorName : String,
        sensorName ∈ (displayCharts w).map SensorChartData.sensorName ↔
          ∃ (hour : Int) (v : Rat),
            Grid.cell w.m_aggregatedData earliestDate sensorName hour = some v) ∧
      (∀ sensorName : String,
        (∀ hour : Int, Grid.cell w.m_aggregatedData earliestDate sensorName hour = none) →
        ∀ r ∈ displayCharts w, r.sensorName ≠ sensorName) := by
  refine ⟨grown_aggregateData, ?_⟩
  obtain ⟨e, rest, hsorted, hmem, hmin⟩ := earliest_of_sorted w.m_selectedDates hdates
  have hnames : (displayCharts w).map SensorChartData.sensorName =
      QMap.keys (QMap.value w.m_aggregatedData e []) := by
    rw [displayCharts_eq w e rest hsorted]
    split
    · rename_i hempty
      have : w.m_aggregatedData = [] := List.isEmpty_iff.1 hempty
      rw [this]
      rfl
    · rw [List.map_map]
      have hfun : SensorChartData.sensorName ∘
          chartData w.m_aggregatedData (w.m_selectedDates.length == 1) (e :: rest) e = id := by
        funext name
        exact chartData_sensorName _ _ _ _ name
      rw [hfun, List.map_id]
  have hiff : ∀ sensorName : String,
      sensorName ∈ (displayCharts w).map SensorChartData.sensorName ↔
        ∃ (hour : Int) (v : Rat),
          Grid.cell w.m_aggregatedData e sensorName hour = some v := by
    intro sensorName
    rw [hnames]
    exact mem_keys_iff_cell hgrown e sensorName
  refine ⟨e, hmem, hmin, hnames, ?_, hiff, ?_⟩
  · rw [hnames]
    exact QMap.nodup_of_pairwise_string _ (hgrown e).1
  · intro sensorName hnone r hr hname
    have : sensorName ∈ (displayCharts w).map SensorChartData.sensorName :=
      List.mem_map.2 ⟨r, hr, hname⟩
    obtain ⟨hour, v, hcell⟩ := (hiff sensorName).1 this
    rw [hnone hour] at hcell
    exact Option.noConfusion hcell

theorem grown_laterOnlyWindow : Grid.Grown laterOnlyWindow.m_aggregatedData := by
  intro date
  by_cases h1 : date = 2460432
  · subst h1
    exact ⟨by decide, by decide⟩
  · by_cases h2 : date = 2460433
    · subst h2
      exact ⟨by decide, by decide⟩
    · have : QMap.value laterOnlyWindow.m_aggregatedData date [] = [] := by
        simp [laterOnlyWindow, QMap.value, QMap.find, h1, h2]
      rw [this]
      simp [QMap.keys]

/-- C26 on `laterOnlyWindow`: the grid holds the value 4 of NO2 for hour 9 of the later
date, and the only record is the one of PM10. -/
theorem statistics_only_for_earliest_date_witness :
    Grid.cell laterOnlyWindow.m_aggregatedData 2460433 "NO2" 9 = some 4 ∧
    (displayCharts laterOnlyWindow).map SensorChartData.sensorName = ["PM10"] ∧
    ∀ r ∈ displayCharts laterOnlyWindow, r.sensorName ≠ "NO2" := by
  obtain ⟨_, e, hmem, hmin, _, _, _, hno⟩ :=
    statistics_only_for_earliest_date laterOnlyWindow grown_laterOnlyWindow (by decide)
  have he : e = 2460432 := by
    have h1 : e = 2460432 ∨ e = 2460433 := by simpa [laterOnlyWindow] using hmem
    have h2 : e ≤ 2460432 := hmin 2460432 (by decide)
    rcases h1 with h1 | h1
    · exact h1
    · rw [h1] at h2
      exact absurd h2 (by decide)
  subst he
  refine ⟨by decide, by decide!, ?_⟩
  apply hno "NO2"
  intro hour
  simp [Grid.cell, QMap.find, laterOnlyWindow]

end window_2_data_vis

/-! ## C27: the division of the slope -/

namespace window_2_data_vis

end window_2_data_vis

/-! ## Sums between bounds -/

namespace window_2_data_vis

theorem length_mul_le_sum (vs : List Rat) (a : Rat) (h : ∀ v ∈ vs, a ≤ v) :
    (vs.length : Rat) * a ≤ vs.sum := by
  induction vs with
  | nil => simp
  | cons x t ih =>
    have h1 := h x (List.mem_cons_self _ _)
    have h2 := ih (fun v hv => h v (List.mem_cons_of_mem _ hv))
    simp only [List.length_cons, List.sum_cons, Nat.cast_add, Nat.cast_one]
    linarith

theorem sum_le_length_mul (vs : List Rat) (a : Rat) (h : ∀ v ∈ vs, v ≤ a) :
    vs.sum ≤ (vs.length : Rat) * a := by
  induction vs with
  | nil => simp
  | cons x t ih =>
    have h1 := h x (List.mem_cons_self _ _)
    have h2 := ih (fun v hv => h v (List.mem_cons_of_mem _ hv))
    simp only [List.length_cons, List.sum_cons, Nat.cast_add, Nat.cast_one]
    linarith

end window_2_data_vis

/-! ## C29: a session id that comes back -/

namespace HistoryManager

/-- One `addSession` call on a store whose index is full and whose last index entry
names the session file of the very id that is passed: the new entry is the head of the
index, and the session file it names is gone. -/
theorem createSession_on_full {hm : HistoryManager} {older : QVariantList}
    {last : SessionArgs} (c2 : SessionArgs)
    (hindex : hm.loadSessions = older ++ [entryOf last]) (hlen : older.length = 99)
    (hid : c2.sessionId = last.sessionId) :
    (hm.createSession c2).loadSessions = entryOf c2 :: older ∧
    (hm.createSession c2).m_historyDir (sessionFile c2.sessionId) = none := by
  unfold createSession addSession
  rw [updateIndexFile_eq, loadSessions_writeFile_session, hindex]
  have hbig : (QVariant.map (indexEntry c2.sessionId c2.location c2.radius c2.timestamp) ::
      (older ++ [entryOf last])).length > MAX_SESSIONS := by
    simp [MAX_SESSIONS, hlen]
  rw [if_pos hbig]
  have hlast : (QVariant.map (indexEntry c2.sessionId c2.location c2.radius c2.timestamp) ::
      (older ++ [entryOf last])).getLast? = some (entryOf last) := by
    rw [← List.cons_append, List.getLast?_append]
    simp
  have hdrop : (QVariant.map (indexEntry c2.sessionId c2.location c2.radius c2.timestamp) ::
      (older ++ [entryOf last])).dropLast =
      QVariant.map (indexEntry c2.sessionId c2.location c2.radius c2.timestamp) :: older := by
    rw [← List.cons_append, List.dropLast_concat]
  rw [hlast, hdrop, Option.getD_some, entryOf_file, ← hid]
  refine ⟨loadSessions_writeFile_index _ _, ?_⟩
  have hne : sessionFile c2.sessionId ≠ m_indexFilePath := sessionFile_ne_index _
  simp [QDir.writeFile, QDir.remove, hne]

/-- C29. Reusing a session id can break the consistency of index and files. After 100
`addSession` calls with pairwise distinct ids from the empty store, a call that passes
the id of the first of them again leaves an index of 100 entries whose newest entry names
the session file of that id, and that file, which existed before the call and was
written again in it, is gone: the eviction of the same call removed it. -/
theorem reused_id_breaks_consistency (first : SessionArgs) (others : List SessionArgs)
    (again : SessionArgs) (hlen : others.length = 99)
    (hids : ((first :: others).map SessionArgs.sessionId).Nodup)
    (hid : again.sessionId = first.sessionId) :
    (empty.createSessions (first :: others ++ [again])).loadSessions.head? =
      some (entryOf again) ∧
    ((entryOf again).toMap.get "file").toString = sessionFile first.sessionId ∧
    (empty.createSessions (first :: others ++ [again])).loadSessions.length = 100 ∧
    ((empty.createSessions (first :: others)).m_historyDir
      (sessionFile first.sessionId)).isSome = true ∧
    (empty.createSessions (first :: others ++ [again])).m_historyDir
      (sessionFile first.sessionId) = none := by
  have h := holds_createSessions (first :: others) empty [] holds_empty (by simpa using hids)
  have htake : ((first :: others).reverse ++ []).take MAX_SESSIONS =
      others.reverse ++ [first] := by
    rw [List.append_nil, List.reverse_cons, List.take_of_length_le]
    simp [MAX_SESSIONS, hlen]
  rw [htake] at h
  have hindex : (empty.createSessions (first :: others)).loadSessions =
      others.reverse.map entryOf ++ [entryOf first] := by
    rw [h.index]
    simp
  have hstep : empty.createSessions (first :: others ++ [again]) =
      (empty.createSessions (first :: others)).createSession again := by
    simp only [createSessions, List.foldl_cons, List.foldl_append, List.foldl_nil]
  obtain ⟨h1, h2⟩ := createSession_on_full again hindex (by simp [hlen]) hid
  rw [hstep, h1]
  refine ⟨rfl, ?_, by simp [hlen], ?_, ?_⟩
  · rw [entryOf_file, hid]
  · exact (h.files first.sessionId).2 (by simp)
  · rw [← hid]
    exact h2

/-- C29 on `reusedIdCalls`: 100 calls with distinct ids, the first with the empty text
as id, and then a call with the empty text again. -/
theorem reused_id_breaks_consistency_witness :
    reusedIdCalls.length = 101 ∧
    (empty.createSessions reusedIdCalls).loadSessions.head? =
      some (entryOf ⟨"", "Radom", 5, 51, 21, [], "2024-05-02T08:00:00"⟩) ∧
    ((entryOf ⟨"", "Radom", 5, 51, 21, [], "2024-05-02T08:00:00"⟩).toMap.get "file").toString =
      sessionFile "" ∧
    (empty.createSessions reusedIdCalls).m_historyDir (sessionFile "") = none := by
  have hsplit : manyCalls.take 100 =
      ⟨"", "Lublin", 10, 51, 22, [], "2024-05-01T08:00:00"⟩ ::
        (List.range 99).map (fun i =>
          ⟨String.mk (List.replicate (i + 1) 'a'), "Lublin", 10, 51, 22, [],
            "2024-05-01T08:00:00"⟩) := by
    unfold manyCalls
    rw [← List.map_take, List.take_range]
    show List.map _ (List.range (99 + 1)) = _
    rw [List.range_succ_eq_map, List.map_cons, List.map_map]
    rfl
  have hnd : ((manyCalls.take 100).map SessionArgs.sessionId).Nodup :=
    manyCalls_nodup.sublist ((List.take_sublist 100 manyCalls).map _)
  rw [hsplit] at hnd
  have h := reused_id_breaks_consistency
    ⟨"", "Lublin", 10, 51, 22, [], "2024-05-01T08:00:00"⟩
    ((List.range 99).map (fun i =>
      ⟨String.mk (List.replicate (i + 1) 'a'), "Lublin", 10, 51, 22, [],
        "2024-05-01T08:00:00"⟩))
    ⟨"", "Radom", 5, 51, 21, [], "2024-05-02T08:00:00"⟩ (by simp) hnd rfl
  have hcalls : reusedIdCalls =
      ⟨"", "Lublin", 10, 51, 22, [], "2024-05-01T08:00:00"⟩ ::
        (List.range 99).map (fun i =>
          ⟨String.mk (List.replicate (i + 1) 'a'), "Lublin", 10, 51, 22, [],
            "2024-05-01T08:00:00"⟩) ++
        [⟨"", "Radom", 5, 51, 21, [], "2024-05-02T08:00:00"⟩] := by
    unfold reusedIdCalls
    rw [hsplit]
  have hl : reusedIdCalls.length = 101 := by
    simp [reusedIdCalls, manyCalls]
  have h1 := h.1
  have h5 := h.2.2.2.2
  dsimp only at h5
  refine ⟨hl, ?_, h.2.1, ?_⟩
  · rw [hcalls]
    exact h1
  · rw [hcalls]
    exact h5

end HistoryManager

/-! ## C24: the display button -/

namespace window_2_data_vis

theorem fetchMeasurementData_withItems (w : window_2_data_vis) (connected : Bool)
    (sensorId : Int) (items : List String) :
    fetchMeasurementData (w.withItems items) connected sensorId =
      (fetchMeasurementData w connected sensorId).withItems items := by
  unfold fetchMeasurementData
  cases connected with
  | true => rfl
  | false =>
    simp only [Bool.false_eq_true, if_false]
    by_cases he : (w.m_historyManager.loadSessionDetails w.m_sessionId).isEmpty = true
    · have he2 : ((w.withItems items).m_historyManager.loadSessionDetails
          (w.withItems items).m_sessionId).isEmpty = true := he
      rw [if_pos he, if_pos he2]
    · have he2 : ¬ ((w.withItems items).m_historyManager.loadSessionDetails
          (w.withItems items).m_sessionId).isEmpty = true := he
      rw [if_neg he, if_neg he2]
      rfl

theorem foldl_fetch_withItems (connected : Bool) (items : List String) (ids : List Int) :
    ∀ w : window_2_data_vis,
      ids.foldl (fun w sensorId => fetchMeasurementData w connected sensorId)
          (w.withItems items) =
        (ids.foldl (fun w sensorId => fetchMeasurementData w connected sensorId) w).withItems
          items := by
  induction ids with
  | nil => intro w; rfl
  | cons a t ih =>
    intro w
    rw [List.foldl_cons, List.foldl_cons, fetchMeasurementData_withItems, ih]

/-- The window the display button has made when it comes to `displayCharts`: the grid
aggregated from the fetched cache, and the air-quality item alone in the list. -/
theorem aggregated_window (wf : window_2_data_vis) (g : Grid) :
    (((wf.withItems [""]).addItem "Agregowanie danych...").withGrid g).listWidget.erase
      "Agregowanie danych..." = [""] := by
  show (([""] ++ ["Agregowanie danych..."] : List String).erase "Agregowanie danych...") = [""]
  decide

/-- The items `displayCharts` adds carry no text, or are its one message. -/
theorem items_displayChartsMembers (w : window_2_data_vis) :
    ∀ item ∈ (displayChartsMembers w).listWidget,
      item ∈ w.listWidget ∨ item = "" ∨
        item = "Brak danych do wyświetlenia dla wybranych dat i sensorów." := by
  have hfold : ∀ (names : List String) (step : window_2_data_vis → String → Grid)
      (w0 : window_2_data_vis),
      ∀ item ∈ (names.foldl (fun w sensorName =>
          (((w.withGrid (step w sensorName)).addItem "").addItem "")) w0).listWidget,
        item ∈ w0.listWidget ∨ item = "" := by
    intro names step
    induction names with
    | nil => intro w0 item hi; exact Or.inl hi
    | cons n t ih =>
      intro w0 item hi
      rw [List.foldl_cons] at hi
      rcases ih _ item hi with h | h
      · have h2 : item ∈ (w0.listWidget ++ [""]) ++ [""] := h
        simp only [List.mem_append, List.mem_singleton] at h2
        rcases h2 with (h2 | h2) | h2
        · exact Or.inl h2
        · exact Or.inr h2
        · exact Or.inr h2
      · exact Or.inr h
  intro item hi
  unfold displayChartsMembers at hi
  split at hi
  · have h2 : item ∈ w.listWidget ++
        ["Brak danych do wyświetlenia dla wybranych dat i sensorów."] := hi
    rw [List.mem_append, List.mem_singleton] at h2
    rcases h2 with h2 | h2
    · exact Or.inl h2
    · exact Or.inr (Or.inr h2)
  · dsimp only at hi
    split at hi
    · exact Or.inl hi
    · rcases hfold _ _ _ item hi with h | h
      · exact Or.inl h
      · exact Or.inr (Or.inl h)

/-- C24. Aggregation preconditions. When a sensor is checked, a date is selected and
the chart-type box is checked, `onDisplayButtonClicked` fetches, assigns to
`m_aggregatedData` what `aggregateData` returns and goes on to `displayCharts`, and the
list shows none of the three reasons. Otherwise `m_aggregatedData` is left as it was
and the list shows, after the air-quality item, exactly one reason: the one for no
sensor when none is checked, else the one for no date when none is selected, else the
one for no chart type; the three reasons are different texts. -/
theorem aggregation_preconditions (w : window_2_data_vis) (connected : Bool) :
    (checkedSensorIds w ≠ [] → w.m_selectedDates ≠ [] → w.wykr_kolowy = true →
      onDisplayButtonClicked w connected =
        displayChartsMembers
          (((fetchSelected w connected).withGrid
            (aggregateData (fetchSelected w connected))).withItems [""]) ∧
      ∀ reason ∈ ["Proszę wybrać co najmniej jeden sensor.",
          "Proszę wybrać co najmniej jeden dzień.", "Proszę wybrać typ wykresu."],
        reason ∉ (onDisplayButtonClicked w connected).listWidget) ∧
    (checkedSensorIds w = [] →
      (onDisplayButtonClicked w connected).m_aggregatedData = w.m_aggregatedData ∧
      (onDisplayButtonClicked w connected).listWidget =
        ["", "Proszę wybrać co najmniej jeden sensor."]) ∧
    (checkedSensorIds w ≠ [] → w.m_selectedDates = [] →
      (onDisplayButtonClicked w connected).m_aggregatedData = w.m_aggregatedData ∧
      (onDisplayButtonClicked w connected).listWidget =
        ["", "Proszę wybrać co najmniej jeden dzień."]) ∧
    (checkedSensorIds w ≠ [] → w.m_selectedDates ≠ [] → w.wykr_kolowy = false →
      (onDisplayButtonClicked w connected).m_aggregatedData = w.m_aggregatedData ∧
      (onDisplayButtonClicked w connected).listWidget = ["", "Proszę wybrać typ wykresu."]) ∧
    "Proszę wybrać co najmniej jeden sensor." ≠ "Proszę wybrać co najmniej jeden dzień." ∧
    "Proszę wybrać co najmniej jeden sensor." ≠ "Proszę wybrać typ wykresu." ∧
    "Proszę wybrać co najmniej jeden dzień." ≠ "Proszę wybrać typ wykresu." := by
  have hids : checkedSensorIds ((displayAirQuality (w.withItems [])).withCache []) =
      checkedSensorIds w := rfl
  have hdates : ((displayAirQuality (w.withItems [])).withCache []).m_selectedDates =
      w.m_selectedDates := rfl
  have hbox : ((displayAirQuality (w.withItems [])).withCache []).wykr_kolowy =
      w.wykr_kolowy := rfl
  refine ⟨?_, ?_, ?_, ?_, by decide, by decide, by decide⟩
  · intro h1 h2 h3
    have hrun : onDisplayButtonClicked w connected =
        displayChartsMembers
          (((fetchSelected w connected).withGrid
            (aggregateData (fetchSelected w connected))).withItems [""]) := by
      unfold onDisplayButtonClicked
      dsimp only
      rw [hids, hdates, hbox]
      have e1 : (checkedSensorIds w).isEmpty = false := by
        cases hc : checkedSensorIds w with
        | nil => exact absurd hc h1
        | cons a t => rfl
      have e2 : w.m_selectedDates.isEmpty = false := by
        cases hc : w.m_selectedDates with
        | nil => exact absurd hc h2
        | cons a t => rfl
      simp only [e1, e2, h3, Bool.false_eq_true, if_false, Bool.not_true]
      have h0 : (displayAirQuality (w.withItems [])).withCache [] =
          (w.withCache []).withItems [""] := rfl
      rw [h0, foldl_fetch_withItems]
      have h4 : (checkedSensorIds w).foldl
          (fun w sensorId => fetchMeasurementData w connected sensorId) (w.withCache []) =
          fetchSelected w connected := rfl
      rw [h4, aggregated_window]
      rfl
    refine ⟨hrun, ?_⟩
    intro reason hreason hin
    rw [hrun] at hin
    rcases items_displayChartsMembers _ reason hin with h | h | h
    · have h4 : reason ∈ [""] := h
      rw [List.mem_singleton] at h4
      subst h4
      revert hreason
      decide
    · subst h
      revert hreason
      decide
    · subst h
      revert hreason
      decide
  · intro h1
    unfold onDisplayButtonClicked
    dsimp only
    rw [hids, h1]
    exact ⟨rfl, rfl⟩
  · intro h1 h2
    have e1 : (checkedSensorIds w).isEmpty = false := by
      cases hc : checkedSensorIds w with
      | nil => exact absurd hc h1
      | cons a t => rfl
    unfold onDisplayButtonClicked
    dsimp only
    rw [hids, hdates, h2]
    simp only [e1, Bool.false_eq_true, if_false, List.isEmpty_nil, if_true]
    exact ⟨rfl, rfl⟩
  · intro h1 h2 h3
    have e1 : (checkedSensorIds w).isEmpty = false := by
      cases hc : checkedSensorIds w with
      | nil => exact absurd hc h1
      | cons a t => rfl
    have e2 : w.m_selectedDates.isEmpty = false := by
      cases hc : w.m_selectedDates with
      | nil => exact absurd hc h2
      | cons a t => rfl
    unfold onDisplayButtonClicked
    dsimp only
    rw [hids, hdates, hbox]
    simp only [e1, e2, h3, Bool.false_eq_true, if_false, Bool.not_false, if_true]
    exact ⟨rfl, rfl⟩

/-- C24 on four windows: no sensor checked (and no date either), no date selected, the
chart-type box not checked, and `exampleWindow`, on which the grid is assigned. -/
theorem aggregation_preconditions_witness :
    (onDisplayButtonClicked noSensorWindow false).listWidget =
      ["", "Proszę wybrać co najmniej jeden sensor."] ∧
    (onDisplayButtonClicked noDateWindow false).listWidget =
      ["", "Proszę wybrać co najmniej jeden dzień."] ∧
    (onDisplayButtonClicked noChartTypeWindow false).listWidget =
      ["", "Proszę wybrać typ wykresu."] ∧
    (onDisplayButtonClicked exampleWindow false).m_aggregatedData =
      [(2460432, [("PM10", [(8, 20), (10, 8)])])] ∧
    (onDisplayButtonClicked exampleWindow false).listWidget = ["", "", ""] := by
  refine ⟨((aggregation_preconditions noSensorWindow false).2.1 (by decide)).2,
    ((aggregation_preconditions noDateWindow false).2.2.1 (by decide) (by decide)).2,
    ((aggregation_preconditions noChartTypeWindow false).2.2.2.1 (by decide) (by decide)
      (by decide)).2, ?_, ?_⟩
  · rw [((aggregation_preconditions exampleWindow false).1 (by decide) (by decide)
      (by decide)).1]
    decide!
  · rw [((aggregation_preconditions exampleWindow false).1 (by decide) (by decide)
      (by decide)).1]
    decide!

end window_2_data_vis

/-! ## C25: the order of the saved stations -/

namespace MainWindow

/-- The list `sortByDistance` gives, by the pairs it sorts. -/
theorem sortByDistance_eq (stations : QVariantList) :
    sortByDistance stations =
      ((stations.map (fun station : QVariant =>
          ((station.toMap.get "distance").toDouble, station.toMap))).insertionSort
        (fun a b => a.1 ≤ b.1)).map (fun pair => QVariant.map pair.2) := rfl

theorem mem_sortByDistance {stations : QVariantList} {s : QVariant}
    (h : s ∈ sortByDistance stations) : ∃ t ∈ stations, s = QVariant.map t.toMap := by
  rw [sortByDistance_eq] at h
  obtain ⟨p, hp, rfl⟩ := List.mem_map.1 h
  have hp2 := (List.perm_insertionSort _ _).mem_iff.1 hp
  obtain ⟨t, ht, rfl⟩ := List.mem_map.1 hp2
  exact ⟨t, ht, rfl⟩

/-- The stations `sortByDistance` gives are in the order of their distances. -/
theorem sorted_sortByDistance (stations : QVariantList) :
    ((sortByDistance stations).map distanceOf).Sorted (fun a b => a ≤ b) := by
  rw [sortByDistance_eq, List.map_map]
  have htotal : IsTotal (Rat × QVariantMap) (fun a b => a.1 ≤ b.1) :=
    ⟨fun a b => le_total a.1 b.1⟩
  have htrans : IsTrans (Rat × QVariantMap) (fun a b => a.1 ≤ b.1) :=
    ⟨fun a b c hab hbc => le_trans hab hbc⟩
  have hsorted := List.sorted_insertionSort (fun a b : Rat × QVariantMap => a.1 ≤ b.1)
    (stations.map (fun station : QVariant =>
      ((station.toMap.get "distance").toDouble, station.toMap)))
  have hperm := List.perm_insertionSort (fun a b : Rat × QVariantMap => a.1 ≤ b.1)
    (stations.map (fun station : QVariant =>
      ((station.toMap.get "distance").toDouble, station.toMap)))
  have hfst : ∀ p ∈ (stations.map (fun station : QVariant =>
      ((station.toMap.get "distance").toDouble, station.toMap))).insertionSort
        (fun a b => a.1 ≤ b.1),
      (distanceOf ∘ fun pair : Rat × QVariantMap => QVariant.map pair.2) p = p.1 := by
    intro p hp
    obtain ⟨t, _, rfl⟩ := List.mem_map.1 (hperm.mem_iff.1 hp)
    rfl
  rw [List.map_congr_left hfst]
  unfold List.Sorted
  rw [List.pairwise_map]
  exact hsorted

theorem stationData_congr (lib : Library) (mw mw2 : MainWindow) (value : QVariant)
    (h1 : mw2.m_currentSessionId = mw.m_currentSessionId)
    (h2 : mw2.m_locationLat = mw.m_locationLat) (h3 : mw2.m_locationLon = mw.m_locationLon) :
    stationData lib mw2 value = stationData lib mw value := by
  unfold stationData
  rw [h1, h2, h3]

/-- With coordinates, the distance a station record carries is the one
`calculateDistance` gives from the location to the coordinates of the station. -/
theorem distanceOf_stationData (lib : Library) (mw : MainWindow) (value : QVariant)
    (hlat : mw.m_locationLat ≠ 0) (hlon : mw.m_locationLon ≠ 0) :
    distanceOf (QVariant.map (stationData lib mw value)) =
      lib.calculateDistance mw.m_locationLat mw.m_locationLon
        (lib.toDouble (value.toMap.get "gegrLat").toString)
        (lib.toDouble (value.toMap.get "gegrLon").toString) := by
  unfold distanceOf stationData
  dsimp only
  rw [if_pos ⟨hlat, hlon⟩]
  simp [QVariant.toMap_map, QVariantMap.get_set, QVariant.toDouble, QVariant.toString]

theorem loopKeeps_init (lib : Library) (mw : MainWindow) (stationsArray : QVariantList) :
    LoopKeeps lib mw stationsArray ((mw.withStations []).withAllStations [], false) :=
  ⟨rfl, rfl, rfl, rfl, rfl, rfl, fun s hs => by simp [withAllStations] at hs,
    fun s hs => by simp [withAllStations, withStations] at hs, fun _ => rfl⟩

theorem loopKeeps_step {lib : Library} {mw : MainWindow} {stationsArray : QVariantList}
    {st : MainWindow × Bool} (h : LoopKeeps lib mw stationsArray st) (city : String)
    (value : QVariant) (hv : value ∈ stationsArray) :
    LoopKeeps lib mw stationsArray (stationStep lib city st value) := by
  have hdata : stationData lib st.1 value = stationData lib mw value :=
    stationData_congr lib mw st.1 value h.session h.lat h.lon
  unfold stationStep
  dsimp only
  rw [hdata]
  split
  · refine ⟨h.lat, h.lon, h.radius, h.input, h.session, h.store, ?_, ?_, ?_⟩
    · intro s hs
      have hs2 : s ∈ st.1.m_allStations ++ [QVariant.map (stationData lib mw value)] := hs
      rcases List.mem_append.1 hs2 with hs3 | hs3
      · exact h.all s hs3
      · exact ⟨value, hv, List.mem_singleton.1 hs3⟩
    · intro s hs
      have hs2 : s ∈ st.1.m_stations ++ [QVariant.map (stationData lib mw value)] := hs
      rcases List.mem_append.1 hs2 with hs3 | hs3
      · exact h.matched s hs3
      · exact ⟨value, hv, List.mem_singleton.1 hs3⟩
    · intro hf
      exact Bool.noConfusion hf
  · refine ⟨h.lat, h.lon, h.radius, h.input, h.session, h.store, ?_, h.matched, h.none_found⟩
    intro s hs
    have hs2 : s ∈ st.1.m_allStations ++ [QVariant.map (stationData lib mw value)] := hs
    rcases List.mem_append.1 hs2 with hs3 | hs3
    · exact h.all s hs3
    · exact ⟨value, hv, List.mem_singleton.1 hs3⟩

theorem loopKeeps_foldl {lib : Library} {mw : MainWindow} {stationsArray : QVariantList}
    (city : String) (values : List QVariant) (hvs : ∀ v ∈ values, v ∈ stationsArray) :
    ∀ st : MainWindow × Bool, LoopKeeps lib mw stationsArray st →
      LoopKeeps lib mw stationsArray (values.foldl (stationStep lib city) st) := by
  induction values with
  | nil => intro st h; exact h
  | cons v rest ih =>
    intro st h
    exact ih (fun x hx => hvs x (List.mem_cons_of_mem _ hx)) _
      (loopKeeps_step h city v (hvs v (List.mem_cons_self _ _)))

/-- The stations the loop for the near stations lists are taken from the list it runs
over. -/
theorem mem_nearby (searchRadius : Rat) (stations : QVariantList) :
    ∀ (st : QVariantList × List String),
      ∀ s ∈ (stations.foldl (nearbyStep searchRadius) st).1,
        s ∈ st.1 ∨ ∃ t ∈ stations, s = QVariant.map t.toMap := by
  induction stations with
  | nil => intro st s hs; exact Or.inl hs
  | cons a rest ih =>
    intro st s hs
    rw [List.foldl_cons] at hs
    rcases ih _ s hs with h | ⟨t, ht, hst⟩
    · have hstep : s ∈ st.1 ∨ s = QVariant.map a.toMap := by
        unfold nearbyStep at h
        dsimp only at h
        split at h
        · split at h
          · rcases List.mem_append.1 h with h2 | h2
            · exact Or.inl h2
            · exact Or.inr (List.mem_singleton.1 h2)
          · exact Or.inl h
        · split at h
          · exact Or.inr (List.mem_singleton.1 h)
          · exact Or.inl h
      rcases hstep with h2 | h2
      · exact Or.inl h2
      · exact Or.inr ⟨a, List.mem_cons_self _ _, h2⟩
    · exact Or.inr ⟨t, List.mem_cons_of_mem _ ht, hst⟩

/-- With coordinates, the stations `chooseStations` leaves in `m_stations` are in the
order of their distances and are records of elements of the reply. -/
theorem chooseStations_sorted {lib : Library} {mw : MainWindow} {stationsArray : QVariantList}
    {st : MainWindow × Bool} (h : LoopKeeps lib mw stationsArray st) (city : String)
    (hlat : mw.m_locationLat ≠ 0) (hlon : mw.m_locationLon ≠ 0) :
    (((chooseStations st.1 city st.2).m_stations.map distanceOf).Sorted (fun a b => a ≤ b) ∧
      ∀ s ∈ (chooseStations st.1 city st.2).m_stations, ∃ value ∈ stationsArray,
        s = QVariant.map (stationData lib mw value)) ∧
    (chooseStations st.1 city st.2).m_historyManager = mw.m_historyManager ∧
    (chooseStations st.1 city st.2).m_currentSessionId = mw.m_currentSessionId ∧
    (chooseStations st.1 city st.2).m_inputLocation = mw.m_inputLocation ∧
    (chooseStations st.1 city st.2).m_searchRadius = mw.m_searchRadius ∧
    (chooseStations st.1 city st.2).m_locationLat = mw.m_locationLat ∧
    (chooseStations st.1 city st.2).m_locationLon = mw.m_locationLon := by
  have hcoord : st.1.m_locationLat ≠ 0 ∧ st.1.m_locationLon ≠ 0 := by
    rw [h.lat, h.lon]
    exact ⟨hlat, hlon⟩
  have hgood : ∀ (l : QVariantList),
      (∀ s ∈ l, ∃ value ∈ stationsArray, s = QVariant.map (stationData lib mw value)) →
      ∀ s ∈ sortByDistance l, ∃ value ∈ stationsArray,
        s = QVariant.map (stationData lib mw value) := by
    intro l hl s hs
    obtain ⟨t, ht, rfl⟩ := mem_sortByDistance hs
    obtain ⟨value, hv, rfl⟩ := hl t ht
    exact ⟨value, hv, rfl⟩
  unfold chooseStations
  cases hfound : st.2 with
  | true =>
    simp only [if_true]
    have hc2 : (st.1.withStatus ("Znaleziono stacje w: " ++ city)).m_locationLat ≠ 0 ∧
        (st.1.withStatus ("Znaleziono stacje w: " ++ city)).m_locationLon ≠ 0 := hcoord
    rw [if_pos hc2]
    exact ⟨⟨sorted_sortByDistance _, hgood _ h.matched⟩, h.store, h.session, h.input,
      h.radius, h.lat, h.lon⟩
  | false =>
    simp only [Bool.false_eq_true, if_false]
    have hc2 : (st.1.withStatus ("Nie znaleziono stacji w: " ++ city)).m_locationLat ≠ 0 ∧
        (st.1.withStatus ("Nie znaleziono stacji w: " ++ city)).m_locationLon ≠ 0 := hcoord
    rw [if_pos hc2]
    split
    · refine ⟨⟨sorted_sortByDistance _, hgood _ ?_⟩, h.store, h.session, h.input,
        h.radius, h.lat, h.lon⟩
      intro s hs
      rcases mem_nearby _ _ _ s hs with h2 | ⟨t, ht, rfl⟩
      · simp at h2
      · obtain ⟨value, hv, rfl⟩ := h.all t ht
        exact ⟨value, hv, rfl⟩
    · have hnone : st.1.m_stations = [] := h.none_found hfound
      refine ⟨⟨?_, ?_⟩, h.store, h.session, h.input, h.radius, h.lat, h.lon⟩
      · show (st.1.m_stations.map distanceOf).Sorted (fun a b => a ≤ b)
        rw [hnone]
        exact List.sorted_nil
      · intro s hs
        have hs2 : s ∈ st.1.m_stations := hs
        rw [hnone] at hs2
        simp at hs2

/-- C25. Saved station order. When the reply of the station endpoint is a JSON array,
a city is read from the input and the location has coordinates (latitude and longitude
both non-zero), `onNetworkReply` calls `addSession` with the station list it leaves in
`m_stations`, and that list is in the order of non-decreasing distance, whether the
stations were matched by the city name, chosen by the radius, or the nearest one was
taken; every station of it is the record of an element of the reply, with the distance
`calculateDistance` gives from the location to its coordinates. -/
theorem saved_stations_are_sorted (lib : Library) (mw : MainWindow) (reply : QNetworkReply)
    (timestamp : String) (stationsArray : QVariantList)
    (hurl : reply.urlContainsFindAll = true) (herr : reply.errorString = none)
    (hdata : reply.responseData = some (QJsonDocument.array stationsArray))
    (hcity : (cityOf lib mw.m_inputLocation).isEmpty = false)
    (hlat : mw.m_locationLat ≠ 0) (hlon : mw.m_locationLon ≠ 0) :
    (onNetworkReply lib mw reply timestamp).m_historyManager =
      mw.m_historyManager.addSession mw.m_currentSessionId mw.m_inputLocation
        mw.m_searchRadius mw.m_locationLat mw.m_locationLon
        (onNetworkReply lib mw reply timestamp).m_stations timestamp ∧
    ((onNetworkReply lib mw reply timestamp).m_stations.map distanceOf).Sorted
      (fun a b => a ≤ b) ∧
    ∀ s ∈ (onNetworkReply lib mw reply timestamp).m_stations,
      ∃ value ∈ stationsArray, s = QVariant.map (stationData lib mw value) ∧
        distanceOf s = lib.calculateDistance mw.m_locationLat mw.m_locationLon
          (lib.toDouble (value.toMap.get "gegrLat").toString)
          (lib.toDouble (value.toMap.get "gegrLon").toString) := by
  have hkeeps := @loopKeeps_foldl lib mw stationsArray
    (cityOf lib mw.m_inputLocation) stationsArray (fun v hv => hv) _
    (loopKeeps_init lib mw stationsArray)
  obtain ⟨⟨h1, h2⟩, h3, h4, h5, h6, h7, h8⟩ :=
    chooseStations_sorted hkeeps (cityOf lib mw.m_inputLocation) hlat hlon
  have hrun : ∀ mw1 : MainWindow,
      mw1 = chooseStations
        (stationsArray.foldl (stationStep lib (cityOf lib mw.m_inputLocation))
          ((mw.withStations []).withAllStations [], false)).1
        (cityOf lib mw.m_inputLocation)
        (stationsArray.foldl (stationStep lib (cityOf lib mw.m_inputLocation))
          ((mw.withStations []).withAllStations [], false)).2 →
      onNetworkReply lib mw reply timestamp =
        mw1.withStore (mw1.m_historyManager.addSession mw1.m_currentSessionId
          mw1.m_inputLocation mw1.m_searchRadius mw1.m_locationLat mw1.m_locationLon
          mw1.m_stations timestamp) := by
    intro mw1 hmw1
    subst hmw1
    unfold onNetworkReply
    rw [hurl, herr, hdata]
    have hc : (cityOf lib ((mw.withStations []).withAllStations []).m_inputLocation).isEmpty =
        false := hcity
    simp only [Bool.not_true, Bool.false_eq_true, if_false, QJsonDocument.isNull,
      QJsonDocument.isArray, QJsonDocument.toArray, hc]
    rfl
  rw [hrun _ rfl]
  refine ⟨?_, h1, ?_⟩
  · show (MainWindow.withStore _ _).m_historyManager = _
    rw [h3, h4, h5, h6, h7, h8]
    rfl
  · intro s hs
    obtain ⟨value, hv, rfl⟩ := h2 s hs
    exact ⟨value, hv, rfl, distanceOf_stationData lib mw value hlat hlon⟩

/-- C25 on `exampleReply`: the three stations of Lublin come in the reply at the
distances 3, 1 and 2 and are saved at the distances 1, 2 and 3. -/
theorem saved_stations_are_sorted_witness :
    (cityOf exampleLibrary exampleMainWindow.m_inputLocation).isEmpty = false ∧
    exampleMainWindow.m_locationLat ≠ 0 ∧ exampleMainWindow.m_locationLon ≠ 0 ∧
    (onNetworkReply exampleLibrary exampleMainWindow exampleReply
      "2024-05-01T08:00:00").m_stations.map distanceOf = [1, 2, 3] ∧
    ((onNetworkReply exampleLibrary exampleMainWindow exampleReply
      "2024-05-01T08:00:00").m_stations.map distanceOf).Sorted (fun a b => a ≤ b) :=
  ⟨by decide, by decide!, by decide!, by decide!,
    (saved_stations_are_sorted exampleLibrary exampleMainWindow exampleReply
      "2024-05-01T08:00:00" _ rfl rfl rfl (by decide) (by decide!) (by decide!)).2.1⟩

end MainWindow

/-! ## The grid on doubles -/

/-- The function `floorLog2` is the binary logarithm `Nat.log2`. -/
theorem floorLog2_eq (n : Nat) : floorLog2 n = Nat.log2 n := by
  unfold floorLog2
  suffices h : ∀ fuel n, n ≤ fuel → log2Aux fuel n = Nat.log2 n from h n n le_rfl
  intro fuel
  induction fuel with
  | zero =>
    intro n hn
    have : n = 0 := by omega
    subst this
    rw [Nat.log2]
    simp [log2Aux]
  | succ k ih =>
    intro n hn
    rw [Nat.log2]
    simp only [log2Aux]
    by_cases h2 : 2 ≤ n
    · rw [if_pos h2, if_pos h2, ih]
      omega
    · rw [if_neg h2, if_neg h2]

namespace window_2_data_vis

namespace Rounded

theorem accumulate_append (fl : Rat → Rat) (start : Rat) (a b : List Rat) :
    accumulate fl start (a ++ b) = accumulate fl (accumulate fl start a) b := by
  simp [accumulate, List.foldl_append]

/-- Without rounding the loop `s += v` accumulates the sum. -/
theorem accumulate_id (start : Rat) (values : List Rat) :
    accumulate id start values = start + values.sum := by
  induction values generalizing start with
  | nil => simp [accumulate]
  | cons a t ih =>
    have h : accumulate id start (a :: t) = accumulate id (start + a) t := rfl
    rw [h, ih, List.sum_cons, add_assoc]

theorem cell_add_rounded (fl : Rat → Rat) (g : Grid) (d : QDate) (n : String) (h : Int)
    (v : Rat) (d' : QDate) (n' : String) (h' : Int) :
    Grid.cell (add fl g d n h v) d' n' h' =
      if d' = d ∧ n' = n ∧ h' = h then some (fl ((Grid.cell g d n h).getD 0 + v))
      else Grid.cell g d' n' h' := by
  unfold Grid.cell add
  simp only [QMap.value]
  by_cases hd : d' = d
  · subst hd
    by_cases hn : n' = n
    · subst hn
      by_cases hh : h' = h
      · subst hh
        cases hg : QMap.find g d' with
        | none => simp [QMap.find, QMap.find_insert]
        | some byName =>
          cases hb : QMap.find byName n' with
          | none => simp [QMap.find, QMap.find_insert, hb]
          | some byHour => simp [QMap.find_insert, hb]
      · cases hg : QMap.find g d' with
        | none => simp [QMap.find, QMap.find_insert, hh]
        | some byName =>
          cases hb : QMap.find byName n' with
          | none => simp [QMap.find, QMap.find_insert, hb, hh]
          | some byHour => simp [QMap.find_insert, hb, hh]
    · cases hg : QMap.find g d' with
      | none => simp [QMap.find, QMap.find_insert, hn]
      | some byName => simp [QMap.find_insert, hn]
  · simp [QMap.find_insert, hd]

theorem addAll_append_rounded (fl : Rat → Rat) (g : Grid) (a b : List Contribution) :
    addAll fl g (a ++ b) = addAll fl (addAll fl g a) b := by
  simp [addAll, List.foldl_append]

/-- The cell after a run of additions on doubles: untouched when no contribution goes to
it, else what the loop `s += v` accumulates over the values that go to it, from what the
cell held (or zero). -/
theorem cell_addAll_rounded (fl : Rat → Rat) (cs : List Contribution) (d : QDate)
    (n : String) (h : Int) :
    ∀ g : Grid, Grid.cell (addAll fl g cs) d n h =
      if (Grid.valuesAt cs d n h).isEmpty then Grid.cell g d n h
      else some (accumulate fl ((Grid.cell g d n h).getD 0) (Grid.valuesAt cs d n h)) := by
  induction cs with
  | nil => intro g; simp [addAll, Grid.valuesAt]
  | cons c rest ih =>
    intro g
    have hstep : addAll fl g (c :: rest) =
        addAll fl (add fl g c.date c.sensorName c.hour c.value) rest := rfl
    rw [hstep, ih, cell_add_rounded]
    by_cases hc : c.hits d n h = true
    · have hv : Grid.valuesAt (c :: rest) d n h = c.value :: Grid.valuesAt rest d n h := by
        simp [Grid.valuesAt, hc]
      have hkey : d = c.date ∧ n = c.sensorName ∧ h = c.hour := by
        simp [Contribution.hits] at hc
        exact ⟨hc.1.1.symm, hc.1.2.symm, hc.2.symm⟩
      rw [hv, if_pos hkey]
      obtain ⟨rfl, rfl, rfl⟩ := hkey
      cases hr : Grid.valuesAt rest c.date c.sensorName c.hour with
      | nil => simp [accumulate]
      | cons a t => simp [accumulate]
    · have hv : Grid.valuesAt (c :: rest) d n h = Grid.valuesAt rest d n h := by
        simp [Grid.valuesAt, hc]
      have hkey : ¬ (d = c.date ∧ n = c.sensorName ∧ h = c.hour) := by
        intro hk
        apply hc
        simp [Contribution.hits, hk.1, hk.2.1, hk.2.2]
      rw [hv, if_neg hkey]

theorem foldl_addAll_rounded {α : Type} (fl : Rat → Rat) (l : List α)
    (f : α → List Contribution) :
    ∀ g : Grid, l.foldl (fun g x => addAll fl g (f x)) g = addAll fl g (l.flatMap f) := by
  induction l with
  | nil => intro g; rfl
  | cons a t ih =>
    intro g
    rw [List.foldl_cons, ih, List.flatMap_cons, addAll_append_rounded]

theorem historyMeasurementStep_rounded (fl : Rat → Rat) (selectedDates : List QDate)
    (sensorName : String) (g : Grid) (mv : QVariant) :
    historyMeasurementStep fl selectedDates sensorName g mv =
      addAll fl g (contributionOf selectedDates sensorName (dateTextOf mv)
        (historyValueOf mv)) := by
  unfold historyMeasurementStep contributionOf dateTextOf historyValueOf
  dsimp only
  cases hp : QDateTime.fromString ((mv.toMap.get "date").toString) with
  | none => rfl
  | some dt =>
    by_cases hsel : dt.date ∈ selectedDates
    · by_cases hv : (if (mv.toMap.get "value").isValid = true then
          (mv.toMap.get "value").toDouble else 0) = 0
      · simp [hsel, hv, addAll]
      · simp [hsel, hv, addAll]
    · simp [hsel, addAll]

theorem onlineMeasurementStep_rounded (fl : Rat → Rat) (selectedDates : List QDate)
    (sensorName : String) (g : Grid) (value : QVariant) :
    onlineMeasurementStep fl selectedDates sensorName g value =
      addAll fl g (contributionOf selectedDates sensorName (dateTextOf value)
        (onlineValueOf value)) := by
  unfold onlineMeasurementStep contributionOf dateTextOf onlineValueOf
  dsimp only
  cases hp : QDateTime.fromString ((value.toMap.get "date").toString) with
  | none => rfl
  | some dt =>
    by_cases hsel : dt.date ∈ selectedDates
    · by_cases hv : (if (value.toMap.get "value").isNull = true then 0
          else (value.toMap.get "value").toDouble) = 0
      · simp [hsel, hv, addAll]
      · simp [hsel, hv, addAll]
    · simp [hsel, addAll]

theorem historySensorStep_rounded (fl : Rat → Rat) (w : window_2_data_vis) (g : Grid)
    (sv : QVariant) :
    historySensorStep fl w (selectedSensorIds w) g sv =
      addAll fl g (historyContributions w sv) := by
  unfold historySensorStep historyContributions
  simp only [contains_selectedSensorIds]
  have hfun : historyMeasurementStep fl w.m_selectedDates
      (((sv.toMap.get "param").toMap.get "paramName").toString) =
      fun g mv => addAll fl g (contributionOf w.m_selectedDates (paramNameOf sv)
        (dateTextOf mv) (historyValueOf mv)) := by
    funext g mv
    exact historyMeasurementStep_rounded fl _ _ g mv
  rw [hfun, foldl_addAll_rounded]
  by_cases hs : w.isSelected ((sv.toMap.get "id").toInt) = true
  · by_cases hst : (sv.toMap.get "stationId").toInt = w.m_stationId
    · simp [hs, hst, HistoryManager.sensorId, stationIdOf, HistoryManager.measurementsOf]
    · simp [hs, hst, HistoryManager.sensorId, stationIdOf, addAll]
  · simp [hs, HistoryManager.sensorId, addAll]

theorem onlineSensorStep_rounded (fl : Rat → Rat) (w : window_2_data_vis) (g : Grid)
    (k : Int) :
    onlineSensorStep fl w (selectedSensorIds w) g k =
      addAll fl g (onlineContributions w k) := by
  unfold onlineSensorStep onlineContributions
  simp only [contains_selectedSensorIds]
  have hfun : onlineMeasurementStep fl w.m_selectedDates
      (QMap.value w.m_sensorIdToName k "") =
      fun g value => addAll fl g (contributionOf w.m_selectedDates
        (QMap.value w.m_sensorIdToName k "") (dateTextOf value) (onlineValueOf value)) := by
    funext g value
    exact onlineMeasurementStep_rounded fl _ _ g value
  rw [hfun, foldl_addAll_rounded]
  by_cases hs : w.isSelected k = true
  · simp [hs]
  · simp [hs, addAll]

/-- On doubles too `aggregateData` is the run of the history additions followed by the
fresh ones. -/
theorem aggregateData_rounded (fl : Rat → Rat) (w : window_2_data_vis) :
    aggregateData fl w =
      if w.session.isEmpty then []
      else addAll fl []
        ((HistoryManager.sensorsOf w.session).flatMap (historyContributions w) ++
          (QMap.keys w.m_measurementData).flatMap (onlineContributions w)) := by
  unfold aggregateData
  have h1 : historySensorStep fl w (selectedSensorIds w) =
      fun g sv => addAll fl g (historyContributions w sv) := by
    funext g sv; exact historySensorStep_rounded fl w g sv
  have h2 : onlineSensorStep fl w (selectedSensorIds w) =
      fun g k => addAll fl g (onlineContributions w k) := by
    funext g k; exact onlineSensorStep_rounded fl w g k
  simp only [h1, h2, foldl_addAll_rounded, addAll_append_rounded, session,
    HistoryManager.sensorsOf]

/-- Without rounding the embedding on doubles is the exact one. -/
theorem aggregateData_exact (w : window_2_data_vis) :
    aggregateData id w = window_2_data_vis.aggregateData w := rfl

end Rounded

end window_2_data_vis

/-! ## The rounding to the nearest double -/

theorem log2Aux_spec : ∀ fuel n : Nat, 0 < n → n ≤ fuel →
    2 ^ log2Aux fuel n ≤ n ∧ n < 2 ^ (log2Aux fuel n + 1) := by
  intro fuel
  induction fuel with
  | zero => intro n h0 hn; omega
  | succ k ih =>
    intro n h0 hn
    simp only [log2Aux]
    by_cases h2 : 2 ≤ n
    · rw [if_pos h2]
      obtain ⟨h3, h4⟩ := ih (n / 2) (by omega) (by omega)
      rw [pow_succ] at h4
      rw [pow_succ, pow_succ, pow_succ]
      constructor <;> omega
    · rw [if_neg h2]
      constructor <;> simp <;> omega

/-- The number `floorLog2 n` is the position of the leading binary digit of `n`. -/
theorem floorLog2_spec (n : Nat) (h : 0 < n) :
    2 ^ floorLog2 n ≤ n ∧ n < 2 ^ (floorLog2 n + 1) :=
  log2Aux_spec n n h le_rfl

theorem pow2_eq (e : Int) : pow2 e = (2 : Rat) ^ e := by
  unfold pow2
  by_cases h : 0 ≤ e
  · rw [if_pos h]
    obtain ⟨k, rfl⟩ := Int.eq_ofNat_of_zero_le h
    simp
  · rw [if_neg h]
    have hk : e = -((-e).toNat : Int) := by
      rw [Int.toNat_of_nonneg (by omega)]
      omega
    rw [hk]
    simp only [neg_neg, Int.toNat_ofNat, zpow_neg, zpow_natCast]
    simp

theorem pow2_pos (e : Int) : 0 < pow2 e := by
  rw [pow2_eq]
  positivity

theorem pow2_add (a b : Int) : pow2 (a + b) = pow2 a * pow2 b := by
  rw [pow2_eq, pow2_eq, pow2_eq, zpow_add₀ (by norm_num)]

theorem pow2_le (a b : Int) (h : a ≤ b) : pow2 a ≤ pow2 b := by
  rw [pow2_eq, pow2_eq]
  exact zpow_le_zpow_right₀ (by norm_num) h

theorem pow2_lt_iff (a b : Int) : pow2 a < pow2 b ↔ a < b := by
  rw [pow2_eq, pow2_eq]
  exact zpow_lt_zpow_iff_right₀ (by norm_num)

theorem pow2_natCast (k : Nat) : pow2 (k : Int) = ((2 ^ k : Nat) : Rat) := by
  rw [pow2_eq]
  simp

/-- The nearest natural number does not decrease when the quotient does not. -/
theorem roundQuotient_mono (n d n' d' : Nat) (hd : 0 < d) (hd' : 0 < d')
    (h : n * d' ≤ n' * d) : roundQuotient n d ≤ roundQuotient n' d' := by
  have e1 : d * (n / d) + n % d = n := Nat.div_add_mod n d
  have e2 : d' * (n' / d') + n' % d' = n' := Nat.div_add_mod n' d'
  have r1 : n % d < d := Nat.mod_lt n hd
  have r2 : n' % d' < d' := Nat.mod_lt n' hd'
  have hf : n / d ≤ n' / d' := by
    rw [Nat.le_div_iff_mul_le hd']
    have h1 : n / d * d ≤ n := Nat.div_mul_le_self n d
    have h2 : n / d * d' * d ≤ n' * d := by
      calc n / d * d' * d = n / d * d * d' := by ring
        _ ≤ n * d' := Nat.mul_le_mul_right d' h1
        _ ≤ n' * d := h
    exact Nat.le_of_mul_le_mul_right h2 hd
  have hlo : ∀ a b : Nat, a / b ≤ roundQuotient a b := by
    intro a b
    unfold roundQuotient
    dsimp only
    split
    · exact le_rfl
    · split
      · omega
      · split <;> omega
  have hhi : ∀ a b : Nat, roundQuotient a b ≤ a / b + 1 := by
    intro a b
    unfold roundQuotient
    dsimp only
    split
    · omega
    · split
      · omega
      · split <;> omega
  rcases Nat.lt_or_ge (n / d) (n' / d') with hlt | hge
  · exact le_trans (hhi n d) (le_trans hlt (hlo n' d'))
  · have hfe : n / d = n' / d' := le_antisymm hf hge
    generalize hfdef : n / d = f at *
    generalize hrdef : n % d = r at *
    generalize hrdef' : n' % d' = r' at *
    have hr : r * d' ≤ r' * d := by
      have e3 : d' * f + r' = n' := by rw [hfe]; exact e2
      have h3 : (d * f + r) * d' ≤ (d' * f + r') * d := by
        rw [e1, e3]
        exact h
      nlinarith
    unfold roundQuotient
    dsimp only
    rw [hfdef, hrdef, ← hfe, hrdef']
    by_cases c1 : 2 * r < d
    · rw [if_pos c1]
      split
      · exact le_rfl
      · split
        · omega
        · split <;> omega
    · rw [if_neg c1]
      by_cases c2 : d < 2 * r
      · rw [if_pos c2]
        have c3 : d' < 2 * r' := by
          by_contra hc
          have : 2 * r' ≤ d' := by omega
          nlinarith
        have c4 : ¬ 2 * r' < d' := by omega
        rw [if_neg c4, if_pos c3]
      · rw [if_neg c2]
        have c5 : 2 * r = d := by omega
        have c6 : d' ≤ 2 * r' := by
          by_contra hc
          have : 2 * r' < d' := by omega
          nlinarith
        have c7 : ¬ 2 * r' < d' := by omega
        rw [if_neg c7]
        by_cases c8 : d' < 2 * r'
        · rw [if_pos c8]
          split <;> omega
        · rw [if_neg c8]

theorem roundNat_mono (m m' : Rat) (h0 : 0 ≤ m) (h : m ≤ m') : roundNat m ≤ roundNat m' := by
  unfold roundNat
  apply roundQuotient_mono _ _ _ _ m.den_pos m'.den_pos
  have h0' : 0 ≤ m' := le_trans h0 h
  have hn : (0 : Int) ≤ m.num := Rat.num_nonneg.2 h0
  have hn' : (0 : Int) ≤ m'.num := Rat.num_nonneg.2 h0'
  have hle := (Rat.le_def).1 h
  have e1 : (m.num.natAbs : Int) = m.num := Int.natAbs_of_nonneg hn
  have e2 : (m'.num.natAbs : Int) = m'.num := Int.natAbs_of_nonneg hn'
  have : ((m.num.natAbs * m'.den : Nat) : Int) ≤ ((m'.num.natAbs * m.den : Nat) : Int) := by
    push_cast
    rw [abs_of_nonneg hn, abs_of_nonneg hn']
    exact hle
  exact_mod_cast this

theorem roundNat_natCast (k : Nat) : roundNat (k : Rat) = k := by
  unfold roundNat roundQuotient
  simp [Nat.mod_one]

theorem roundNat_le_of_le (m : Rat) (k : Nat) (h0 : 0 ≤ m) (h : m ≤ (k : Rat)) :
    roundNat m ≤ k := by
  have := roundNat_mono m k h0 h
  rwa [roundNat_natCast] at this

theorem le_roundNat_of_le (m : Rat) (k : Nat) (h : (k : Rat) ≤ m) : k ≤ roundNat m := by
  have := roundNat_mono k m (by positivity) h
  rwa [roundNat_natCast] at this

theorem quotient_bracket (n d : Nat) (hnpos : 0 < n) (hdpos : 0 < d) :
    pow2 ((floorLog2 n : Int) - (floorLog2 d : Int) - 1) ≤ (n : Rat) / (d : Rat) ∧
    (n : Rat) / (d : Rat) < pow2 ((floorLog2 n : Int) - (floorLog2 d : Int) + 1) := by
  obtain ⟨l1, l2⟩ := floorLog2_spec n hnpos
  obtain ⟨l3, l4⟩ := floorLog2_spec d hdpos
  generalize floorLog2 n = ln at *
  generalize floorLog2 d = ld at *
  have hd0 : (0 : Rat) < (d : Rat) := by exact_mod_cast hdpos
  have L1 : pow2 (ln : Int) ≤ (n : Rat) := by
    rw [pow2_natCast]
    exact_mod_cast l1
  have L2 : (n : Rat) < pow2 ((ln : Int) + 1) := by
    have : ((ln : Int) + 1) = ((ln + 1 : Nat) : Int) := by push_cast; rfl
    rw [this, pow2_natCast]
    exact_mod_cast l2
  have L3 : pow2 (ld : Int) ≤ (d : Rat) := by
    rw [pow2_natCast]
    exact_mod_cast l3
  have L4 : (d : Rat) < pow2 ((ld : Int) + 1) := by
    have : ((ld : Int) + 1) = ((ld + 1 : Nat) : Int) := by push_cast; rfl
    rw [this, pow2_natCast]
    exact_mod_cast l4
  constructor
  · rw [le_div_iff₀ hd0]
    have e : pow2 (ln : Int) = pow2 ((ln : Int) - (ld : Int) - 1) * pow2 ((ld : Int) + 1) := by
      rw [← pow2_add]
      congr 1
      ring
    calc pow2 ((ln : Int) - (ld : Int) - 1) * (d : Rat)
        ≤ pow2 ((ln : Int) - (ld : Int) - 1) * pow2 ((ld : Int) + 1) :=
          mul_le_mul_of_nonneg_left (le_of_lt L4) (le_of_lt (pow2_pos _))
      _ = pow2 (ln : Int) := e.symm
      _ ≤ (n : Rat) := L1
  · rw [div_lt_iff₀ hd0]
    have e : pow2 ((ln : Int) + 1) = pow2 ((ln : Int) - (ld : Int) + 1) * pow2 (ld : Int) := by
      rw [← pow2_add]
      congr 1
      ring
    calc (n : Rat) < pow2 ((ln : Int) + 1) := L2
      _ = pow2 ((ln : Int) - (ld : Int) + 1) * pow2 (ld : Int) := e
      _ ≤ pow2 ((ln : Int) - (ld : Int) + 1) * (d : Rat) :=
        mul_le_mul_of_nonneg_left L3 (le_of_lt (pow2_pos _))

/-- The binary exponent brackets a positive rational. -/
theorem exponentOf_spec (a : Rat) (ha : 0 < a) :
    pow2 (exponentOf a) ≤ a ∧ a < pow2 (exponentOf a + 1) := by
  have hn : 0 < a.num := Rat.num_pos.2 ha
  have hnpos : 0 < a.num.natAbs := Int.natAbs_pos.2 (ne_of_gt hn)
  have ha_eq : (a.num.natAbs : Rat) / (a.den : Rat) = a := by
    rw [Nat.cast_natAbs, abs_of_pos hn]
    exact Rat.num_div_den a
  have hb := quotient_bracket a.num.natAbs a.den hnpos a.den_pos
  rw [ha_eq] at hb
  unfold exponentOf
  dsimp only
  split
  · rename_i h
    exact ⟨h, hb.2⟩
  · rename_i h
    refine ⟨hb.1, ?_⟩
    have e : (floorLog2 a.num.natAbs : Int) - (floorLog2 a.den : Int) - 1 + 1 =
        (floorLog2 a.num.natAbs : Int) - (floorLog2 a.den : Int) := by ring
    rw [e]
    exact not_le.1 h

theorem exponentOf_mono (a b : Rat) (ha : 0 < a) (h : a ≤ b) :
    exponentOf a ≤ exponentOf b := by
  have h1 := (exponentOf_spec a ha).1
  have h2 := (exponentOf_spec b (lt_of_lt_of_le ha h)).2
  have h3 : pow2 (exponentOf a) < pow2 (exponentOf b + 1) :=
    lt_of_le_of_lt (le_trans h1 h) h2
  rw [pow2_lt_iff] at h3
  omega

theorem roundPositive_nonneg (a : Rat) : 0 ≤ roundPositive a := by
  unfold roundPositive
  dsimp only
  exact mul_nonneg (by positivity) (le_of_lt (pow2_pos _))

/-- A rounded number does not leave its binade upwards. -/
theorem roundPositive_le (a : Rat) (ha : 0 < a) :
    roundPositive a ≤ pow2 (max (exponentOf a) (-1022) + 1) := by
  unfold roundPositive
  dsimp only
  generalize hE : max (exponentOf a) (-1022) = E
  have hEge : exponentOf a ≤ E := by rw [← hE]; exact le_max_left _ _
  have hu : 0 < pow2 (E - 52) := pow2_pos _
  have e53 : pow2 (E + 1) = ((2 ^ 53 : Nat) : Rat) * pow2 (E - 52) := by
    rw [← pow2_natCast, ← pow2_add]
    congr 1
    push_cast
    ring
  have hq : a / pow2 (E - 52) ≤ ((2 ^ 53 : Nat) : Rat) := by
    rw [div_le_iff₀ hu, ← e53]
    exact le_trans (le_of_lt (exponentOf_spec a ha).2) (pow2_le _ _ (by omega))
  have hr := roundNat_le_of_le _ (2 ^ 53) (le_of_lt (div_pos ha hu)) hq
  rw [e53]
  exact mul_le_mul_of_nonneg_right (by exact_mod_cast hr) (le_of_lt hu)

/-- A rounded normal number does not leave its binade downwards. -/
theorem le_roundPositive (a : Rat) (ha : 0 < a) (hnorm : -1022 ≤ exponentOf a) :
    pow2 (exponentOf a) ≤ roundPositive a := by
  unfold roundPositive
  dsimp only
  rw [max_eq_left hnorm]
  have hu : 0 < pow2 (exponentOf a - 52) := pow2_pos _
  have e52 : pow2 (exponentOf a) = ((2 ^ 52 : Nat) : Rat) * pow2 (exponentOf a - 52) := by
    rw [← pow2_natCast, ← pow2_add]
    congr 1
    push_cast
    ring
  have hq : ((2 ^ 52 : Nat) : Rat) ≤ a / pow2 (exponentOf a - 52) := by
    rw [le_div_iff₀ hu, ← e52]
    exact (exponentOf_spec a ha).1
  have hr := le_roundNat_of_le _ (2 ^ 52) hq
  rw [e52]
  exact mul_le_mul_of_nonneg_right (by exact_mod_cast hr) (le_of_lt hu)

theorem roundPositive_mono (a b : Rat) (ha : 0 < a) (h : a ≤ b) :
    roundPositive a ≤ roundPositive b := by
  have hb : 0 < b := lt_of_lt_of_le ha h
  have he := exponentOf_mono a b ha h
  rcases lt_or_eq_of_le (max_le_max he (le_refl (-1022 : Int))) with hlt | heq
  · have hnorm : -1022 ≤ exponentOf b := by
      by_contra hc
      have h1 : max (exponentOf b) (-1022) = -1022 := max_eq_right (by omega)
      have h2 : -1022 ≤ max (exponentOf a) (-1022) := le_max_right _ _
      omega
    have h3 : max (exponentOf a) (-1022) + 1 ≤ exponentOf b := by
      rw [max_eq_left hnorm] at hlt
      omega
    exact le_trans (roundPositive_le a ha)
      (le_trans (pow2_le _ _ h3) (le_roundPositive b hb hnorm))
  · unfold roundPositive
    dsimp only
    rw [heq]
    have hu : 0 < pow2 (max (exponentOf b) (-1022) - 52) := pow2_pos _
    have hq : a / pow2 (max (exponentOf b) (-1022) - 52) ≤
        b / pow2 (max (exponentOf b) (-1022) - 52) :=
      div_le_div_of_nonneg_right h (le_of_lt hu)
    have hr := roundNat_mono _ _ (le_of_lt (div_pos ha hu)) hq
    exact mul_le_mul_of_nonneg_right (by exact_mod_cast hr) (le_of_lt hu)

/-- The rounding to the nearest double is monotone. -/
theorem roundDouble_mono (a b : Rat) (h : a ≤ b) : roundDouble a ≤ roundDouble b := by
  unfold roundDouble
  by_cases ha0 : a = 0
  · rw [if_pos ha0]
    by_cases hb0 : b = 0
    · rw [if_pos hb0]
    · rw [if_neg hb0]
      have hb : ¬ b < 0 := by
        rw [ha0] at h
        exact not_lt.2 h
      rw [if_neg hb]
      exact roundPositive_nonneg _
  · rw [if_neg ha0]
    by_cases ha : a < 0
    · rw [if_pos ha]
      by_cases hb0 : b = 0
      · rw [if_pos hb0]
        exact neg_nonpos.2 (roundPositive_nonneg _)
      · rw [if_neg hb0]
        by_cases hb : b < 0
        · rw [if_pos hb, abs_of_neg ha, abs_of_neg hb]
          exact neg_le_neg (roundPositive_mono (-b) (-a) (neg_pos.2 hb) (neg_le_neg h))
        · rw [if_neg hb]
          exact le_trans (neg_nonpos.2 (roundPositive_nonneg _)) (roundPositive_nonneg _)
    · rw [if_neg ha]
      have hapos : 0 < a := lt_of_le_of_ne (not_lt.1 ha) (Ne.symm ha0)
      have hbpos : 0 < b := lt_of_lt_of_le hapos h
      rw [if_neg (ne_of_gt hbpos), if_neg (not_lt.2 (le_of_lt hbpos)),
        abs_of_pos hapos, abs_of_pos hbpos]
      exact roundPositive_mono a b hapos h

theorem exponentOf_unique (a : Rat) (ha : 0 < a) (x : Int) (h1 : pow2 x ≤ a)
    (h2 : a < pow2 (x + 1)) : exponentOf a = x := by
  obtain ⟨s1, s2⟩ := exponentOf_spec a ha
  have h3 : pow2 x < pow2 (exponentOf a + 1) := lt_of_le_of_lt h1 s2
  have h4 : pow2 (exponentOf a) < pow2 (x + 1) := lt_of_le_of_lt s1 h2
  rw [pow2_lt_iff] at h3 h4
  omega

theorem pow2_succ (x : Int) : pow2 (x + 1) = 2 * pow2 x := by
  rw [pow2_add]
  have : pow2 1 = 2 := by
    rw [pow2_eq]
    norm_num
  rw [this, mul_comm]

theorem exponentOf_two_mul (a : Rat) (ha : 0 < a) :
    exponentOf (2 * a) = exponentOf a + 1 := by
  obtain ⟨s1, s2⟩ := exponentOf_spec a ha
  apply exponentOf_unique (2 * a) (by positivity)
  · rw [pow2_succ]
    linarith
  · rw [pow2_succ (exponentOf a + 1)]
    linarith

/-- Doubling a positive double is exact. -/
theorem roundPositive_two_mul (a : Rat) (ha : 0 < a) (h : roundPositive a = a) :
    roundPositive (2 * a) = 2 * a := by
  have hfix : (roundNat (a / pow2 (max (exponentOf a) (-1022) - 52)) : Rat) *
      pow2 (max (exponentOf a) (-1022) - 52) = a := h
  have hu : 0 < pow2 (max (exponentOf a) (-1022) - 52) := pow2_pos _
  have hk : a / pow2 (max (exponentOf a) (-1022) - 52) =
      (roundNat (a / pow2 (max (exponentOf a) (-1022) - 52)) : Rat) := by
    rw [div_eq_iff (ne_of_gt hu)]
    exact hfix.symm
  generalize roundNat (a / pow2 (max (exponentOf a) (-1022) - 52)) = k at hfix hk
  have hgoal : (roundNat (2 * a / pow2 (max (exponentOf (2 * a)) (-1022) - 52)) : Rat) *
      pow2 (max (exponentOf (2 * a)) (-1022) - 52) = 2 * a := by
    rw [exponentOf_two_mul a ha]
    by_cases hnorm : -1022 ≤ exponentOf a
    · rw [max_eq_left hnorm] at hk hfix hu
      rw [max_eq_left (by omega : (-1022 : Int) ≤ exponentOf a + 1)]
      have e : exponentOf a + 1 - 52 = (exponentOf a - 52) + 1 := by ring
      rw [e, pow2_succ]
      have hq : 2 * a / (2 * pow2 (exponentOf a - 52)) = (k : Rat) := by
        rw [mul_div_mul_left _ _ (by norm_num : (2 : Rat) ≠ 0)]
        exact hk
      rw [hq, roundNat_natCast]
      linear_combination 2 * hfix
    · have hlt : exponentOf a < -1022 := by omega
      rw [max_eq_right (le_of_lt hlt)] at hk hfix hu
      rw [max_eq_right (by omega : exponentOf a + 1 ≤ (-1022 : Int))]
      have hq : 2 * a / pow2 (-1022 - 52) = ((2 * k : Nat) : Rat) := by
        rw [mul_div_assoc, hk]
        push_cast
        ring
      have e2 : ((2 * k : Nat) : Rat) = 2 * (k : Rat) := by push_cast; ring
      rw [hq, roundNat_natCast, e2]
      linear_combination 2 * hfix
  exact hgoal

/-- Doubling a double is exact. -/
theorem roundDouble_two_mul (v : Rat) (h : roundDouble v = v) :
    roundDouble (2 * v) = 2 * v := by
  unfold roundDouble at h ⊢
  by_cases h0 : v = 0
  · simp [h0]
  · have h20 : 2 * v ≠ 0 := by simpa using h0
    rw [if_neg h0] at h
    rw [if_neg h20]
    by_cases hneg : v < 0
    · have h2neg : 2 * v < 0 := by linarith
      rw [if_pos hneg, abs_of_neg hneg] at h
      rw [if_pos h2neg, abs_of_neg h2neg]
      have hp : roundPositive (-v) = -v := by linarith
      have e : -(2 * v) = 2 * (-v) := by ring
      rw [e, roundPositive_two_mul (-v) (neg_pos.2 hneg) hp]
      ring
    · have hpos : 0 < v := lt_of_le_of_ne (not_lt.1 hneg) (Ne.symm h0)
      have h2pos : 0 < 2 * v := by linarith
      rw [if_neg hneg, abs_of_pos hpos] at h
      rw [if_neg (not_lt.2 (le_of_lt h2pos)), abs_of_pos h2pos]
      exact roundPositive_two_mul v hpos h

/-- The number zero is a double. -/
theorem roundDouble_zero : roundDouble 0 = 0 := rfl

/-- A natural number below `2 ^ 53` is a double. -/
theorem roundDouble_natCast (n : Nat) (h : n < 2 ^ 53) : roundDouble (n : Rat) = (n : Rat) := by
  rcases Nat.eq_zero_or_pos n with h0 | hpos
  · subst h0
    simp [roundDouble]
  have hq : (0 : Rat) < (n : Rat) := by exact_mod_cast hpos
  unfold roundDouble
  rw [if_neg (ne_of_gt hq), if_neg (not_lt.2 (le_of_lt hq)), abs_of_pos hq]
  obtain ⟨l1, l2⟩ := floorLog2_spec n hpos
  have hL : floorLog2 n ≤ 52 := by
    by_contra hc
    have h53 : 53 ≤ floorLog2 n := by omega
    have : 2 ^ 53 ≤ 2 ^ floorLog2 n := Nat.pow_le_pow_right (by norm_num) h53
    omega
  have L1 : pow2 (floorLog2 n : Int) ≤ (n : Rat) := by
    rw [pow2_natCast]
    exact_mod_cast l1
  have L2 : (n : Rat) < pow2 ((floorLog2 n : Int) + 1) := by
    have : ((floorLog2 n : Int) + 1) = ((floorLog2 n + 1 : Nat) : Int) := by push_cast; rfl
    rw [this, pow2_natCast]
    exact_mod_cast l2
  have he : exponentOf (n : Rat) = (floorLog2 n : Int) := exponentOf_unique _ hq _ L1 L2
  unfold roundPositive
  dsimp only
  rw [he, max_eq_left (by omega : (-1022 : Int) ≤ (floorLog2 n : Int))]
  generalize floorLog2 n = L at *
  have hu : 0 < pow2 ((L : Int) - 52) := pow2_pos _
  have hinv : pow2 ((L : Int) - 52) * ((2 ^ (52 - L) : Nat) : Rat) = 1 := by
    rw [← pow2_natCast, ← pow2_add]
    have : (L : Int) - 52 + ((52 - L : Nat) : Int) = 0 := by omega
    rw [this]
    rfl
  have hdiv : (n : Rat) / pow2 ((L : Int) - 52) = ((n * 2 ^ (52 - L) : Nat) : Rat) := by
    rw [div_eq_iff (ne_of_gt hu)]
    push_cast
    rw [mul_assoc, mul_comm ((2 : Rat) ^ (52 - L)) _]
    have h2 : pow2 ((L : Int) - 52) * (2 : Rat) ^ (52 - L) = 1 := by
      rw [← hinv]
      push_cast
      rfl
    rw [h2, mul_one]
  rw [hdiv, roundNat_natCast]
  push_cast
  rw [mul_assoc, mul_comm ((2 : Rat) ^ (52 - L)) _]
  have h2 : pow2 ((L : Int) - 52) * (2 : Rat) ^ (52 - L) = 1 := by
    rw [← hinv]
    push_cast
    rfl
  rw [h2, mul_one]

/-- A running sum of natural numbers that stays below `2 ^ 53` accumulates without
rounding error. -/
theorem foldl_roundDouble_nat {α : Type} (f : α → Rat) (g : α → Nat) (l : List α)
    (hfg : ∀ p ∈ l, f p = (g p : Rat)) :
    ∀ s : Nat, s + (l.map g).sum < 2 ^ 53 →
      l.foldl (fun s p => roundDouble (s + f p)) (s : Rat) = ((s + (l.map g).sum : Nat) : Rat) := by
  induction l with
  | nil => intro s _; simp
  | cons a t ih =>
    intro s hs
    rw [List.map_cons, List.sum_cons] at hs
    rw [List.foldl_cons, hfg a (List.mem_cons_self _ _)]
    have e : (s : Rat) + (g a : Rat) = ((s + g a : Nat) : Rat) := by push_cast; rfl
    rw [e, roundDouble_natCast _ (by omega),
      ih (fun p hp => hfg p (List.mem_cons_of_mem _ hp)) (s + g a) (by omega)]
    rw [List.map_cons, List.sum_cons, add_assoc]

/-! ## C9: double counting on doubles -/

namespace window_2_data_vis

/-- After the offline fetch the fresh measurements add to a cell the values the history
adds to it, possibly in another order. -/
theorem valuesAt_fetched_perm (w : window_2_data_vis)
    (hids : ((HistoryManager.sensorsOf w.session).map HistoryManager.sensorId).Nodup)
    (hown : ∀ sv ∈ HistoryManager.sensorsOf w.session,
      w.isSelected (HistoryManager.sensorId sv) = true →
        stationIdOf sv = w.m_stationId ∧
        QMap.value w.m_sensorIdToName (HistoryManager.sensorId sv) "" = paramNameOf sv)
    (d : QDate) (n : String) (h : Int) :
    List.Perm
      (Grid.valuesAt
        ((QMap.keys (fetchedCache (HistoryManager.sensorsOf w.session)
            (checkedSensorIds w) [])).flatMap
          (onlineContributions (w.withCache (fetchedCache (HistoryManager.sensorsOf w.session)
            (checkedSensorIds w) [])))) d n h)
      (historyValues w d n h) := by
  rw [← valuesAt_history]
  set K := QMap.keys (fetchedCache (HistoryManager.sensorsOf w.session) (checkedSensorIds w) [])
    with hK
  have hKmem : ∀ k, k ∈ K ↔ k ∈ checkedSensorIds w := by
    intro k
    rw [hK, mem_keys_fetchedCache]
    simp [QMap.keys]
  have hKnodup : K.Nodup :=
    (keys_fetchedCache_sorted _ _ [] (by simp [QMap.keys])).nodup
  have honline : K.flatMap (onlineContributions (w.withCache (fetchedCache (HistoryManager.sensorsOf w.session) (checkedSensorIds w) []))) =
      K.flatMap (fun k => (((HistoryManager.sensorsOf w.session).find?
        (fun sv => HistoryManager.sensorId sv == k)).map (historyContributions w)).getD []) := by
    apply List.flatMap_congr
    intro k hk
    exact onlineContributions_fetched w k ((hKmem k).1 hk) hown
  have hhist : ((HistoryManager.sensorsOf w.session).filter
        (fun sv => decide (HistoryManager.sensorId sv ∈ K))).flatMap (historyContributions w) =
      (HistoryManager.sensorsOf w.session).flatMap (historyContributions w) := by
    apply flatMap_filter_of_nil
    intro sv hsv
    have hnot : ¬ HistoryManager.sensorId sv ∈ K := by simpa using hsv
    have hsel : w.isSelected (HistoryManager.sensorId sv) = false := by
      rw [← Bool.not_eq_true, ← mem_checkedSensorIds, ← hKmem]
      exact hnot
    simp [historyContributions, hsel]
  have hperm := flatMap_find_perm HistoryManager.sensorId (historyContributions w)
    (HistoryManager.sensorsOf w.session) K hKnodup hids
  rw [hhist, ← honline] at hperm
  exact (hperm.filter _).map _

/-- The cell of the history-only grid and the cell after the offline fetch, on doubles:
the loop `s += v` over the history values of the cell, and over these followed by what
the fetched cache adds, which are the same values, possibly in another order. -/
theorem cells_after_fetch (fl : Rat → Rat) (w : window_2_data_vis)
    (hload : w.session.isEmpty = false)
    (hids : ((HistoryManager.sensorsOf w.session).map HistoryManager.sensorId).Nodup)
    (hown : ∀ sv ∈ HistoryManager.sensorsOf w.session,
      w.isSelected (HistoryManager.sensorId sv) = true →
        stationIdOf sv = w.m_stationId ∧
        QMap.value w.m_sensorIdToName (HistoryManager.sensorId sv) "" = paramNameOf sv)
    (d : QDate) (n : String) (h : Int) :
    Grid.cell (Rounded.aggregateData fl (w.withCache [])) d n h =
      (if (historyValues w d n h).isEmpty then none
      else some (Rounded.accumulate fl 0 (historyValues w d n h))) ∧
    (∃ again : List Rat, List.Perm again (historyValues w d n h) ∧
      Grid.cell (Rounded.aggregateData fl (fetchSelected w false)) d n h =
        (if (historyValues w d n h).isEmpty then none
        else some (Rounded.accumulate fl 0 (historyValues w d n h ++ again)))) := by
  have hfetch : fetchSelected w false =
      (w.withCache (fetchedCache (HistoryManager.sensorsOf w.session) (checkedSensorIds w) [])) := by
    unfold fetchSelected
    exact foldl_fetchMeasurementData (checkedSensorIds w) (w.withCache []) hload
  have hperm := valuesAt_fetched_perm w hids hown d n h
  have hs1 : session (w.withCache (fetchedCache (HistoryManager.sensorsOf w.session) (checkedSensorIds w) [])) = session w :=
    rfl
  have hs2 : session (w.withCache []) = session w := rfl
  have hh1 : historyContributions (w.withCache (fetchedCache (HistoryManager.sensorsOf w.session) (checkedSensorIds w) [])) =
      historyContributions w := rfl
  have hh2 : historyContributions (w.withCache []) =
      historyContributions w := rfl
  have hcache : (w.withCache (fetchedCache (HistoryManager.sensorsOf w.session)
      (checkedSensorIds w) [])).m_measurementData =
      fetchedCache (HistoryManager.sensorsOf w.session) (checkedSensorIds w) [] := rfl
  have hnil : QMap.keys (w.withCache []).m_measurementData = [] := rfl
  have hcell : Grid.cell ([] : Grid) d n h = none := rfl
  refine ⟨?_, _, hperm, ?_⟩
  · rw [Rounded.aggregateData_rounded, hs2, hh2, hload, hnil]
    simp only [Bool.false_eq_true, if_false, List.flatMap_nil, List.append_nil]
    rw [Rounded.cell_addAll_rounded, valuesAt_history, hcell]
    rfl
  · rw [hfetch, Rounded.aggregateData_rounded, hs1, hh1, hload, hcache]
    simp only [Bool.false_eq_true, if_false]
    rw [Rounded.cell_addAll_rounded, Grid.valuesAt_append, valuesAt_history, hcell]
    generalize Grid.valuesAt
          ((QMap.keys (fetchedCache (HistoryManager.sensorsOf w.session)
              (checkedSensorIds w) [])).flatMap
            (onlineContributions (w.withCache (fetchedCache
              (HistoryManager.sensorsOf w.session) (checkedSensorIds w) [])))) d n h = vO
      at hperm
    cases hv : historyValues w d n h with
    | nil =>
      rw [hv] at hperm
      have : vO = [] := List.Perm.eq_nil hperm
      simp [this]
    | cons a t => simp

/-- A single value in both sources: the cell holds the value, rounded, added to
itself. -/
theorem cells_of_single_value (fl : Rat → Rat) (w : window_2_data_vis)
    (hload : w.session.isEmpty = false)
    (hids : ((HistoryManager.sensorsOf w.session).map HistoryManager.sensorId).Nodup)
    (hown : ∀ sv ∈ HistoryManager.sensorsOf w.session,
      w.isSelected (HistoryManager.sensorId sv) = true →
        stationIdOf sv = w.m_stationId ∧
        QMap.value w.m_sensorIdToName (HistoryManager.sensorId sv) "" = paramNameOf sv)
    (d : QDate) (n : String) (h : Int) (v : Rat) (hv : historyValues w d n h = [v])
    (hfix : fl v = v) (hdouble : fl (2 * v) = 2 * v) :
    Grid.cell (Rounded.aggregateData fl (w.withCache [])) d n h = some v ∧
    Grid.cell (Rounded.aggregateData fl (fetchSelected w false)) d n h = some (2 * v) := by
  obtain ⟨hbefore, again, hperm, hafter⟩ := cells_after_fetch fl w hload hids hown d n h
  rw [hbefore, hafter]
  rw [hv] at hperm ⊢
  have hvO : again = [v] := List.perm_singleton.1 hperm
  rw [hvO]
  simp only [List.isEmpty_cons, Bool.false_eq_true, if_false, Rounded.accumulate,
    List.singleton_append, List.foldl_cons, List.foldl_nil, zero_add, hfix]
  rw [← two_mul, hdouble]
  exact ⟨trivial, rfl⟩

/-- C9, as the code has it.
Double counting in the offline flow, the cell values being doubles and
`fl` the rounding of a double operation.  For a loadable session whose sensors have
pairwise distinct ids, when every selected sensor of the session belongs to the station
under view and is listed under its own parameter name: the history-only grid has the
cell `(d, n, h)` exactly when the history has values for it and the cell holds what the
loop `s += v` accumulates over these values from zero; after the offline fetch of the
selected sensors the grid has exactly the same cells and the cell holds what the loop
accumulates when the same values, possibly in another order, are added once more on
top.  A single measurement `v` present in both sources yields `2 * v`, in binary64
arithmetic for every double `v` (doubling a double is exact).  When no addition rounds,
every cell is exactly twice the history-only cell. -/
theorem double_counting_on_doubles (fl : Rat → Rat) (w : window_2_data_vis)
    (hload : w.session.isEmpty = false)
    (hids : ((HistoryManager.sensorsOf w.session).map HistoryManager.sensorId).Nodup)
    (hown : ∀ sv ∈ HistoryManager.sensorsOf w.session,
      w.isSelected (HistoryManager.sensorId sv) = true →
        stationIdOf sv = w.m_stationId ∧
        QMap.value w.m_sensorIdToName (HistoryManager.sensorId sv) "" = paramNameOf sv)
    (d : QDate) (n : String) (h : Int) :
    Grid.cell (Rounded.aggregateData fl (w.withCache [])) d n h =
      (if (historyValues w d n h).isEmpty then none
      else some (Rounded.accumulate fl 0 (historyValues w d n h))) ∧
    (∃ again : List Rat, List.Perm again (historyValues w d n h) ∧
      Grid.cell (Rounded.aggregateData fl (fetchSelected w false)) d n h =
        (if (historyValues w d n h).isEmpty then none
        else some (Rounded.accumulate fl 0 (historyValues w d n h ++ again)))) ∧
    (∀ v : Rat, historyValues w d n h = [v] → fl v = v → fl (2 * v) = 2 * v →
      Grid.cell (Rounded.aggregateData fl (w.withCache [])) d n h = some v ∧
      Grid.cell (Rounded.aggregateData fl (fetchSelected w false)) d n h = some (2 * v)) ∧
    (∀ v : Rat, historyValues w d n h = [v] → roundDouble v = v →
      Grid.cell (Rounded.aggregateData roundDouble (w.withCache [])) d n h = some v ∧
      Grid.cell (Rounded.aggregateData roundDouble (fetchSelected w false)) d n h =
        some (2 * v)) ∧
    ((∀ q : Rat, fl q = q) →
      Grid.cell (Rounded.aggregateData fl (fetchSelected w false)) d n h =
        (Grid.cell (Rounded.aggregateData fl (w.withCache [])) d n h).map
          (fun v => 2 * v)) := by
  obtain ⟨hbefore, again, hperm, hafter⟩ := cells_after_fetch fl w hload hids hown d n h
  refine ⟨hbefore, ⟨again, hperm, hafter⟩, ?_, ?_, ?_⟩
  · intro v hv hfix hdouble
    exact cells_of_single_value fl w hload hids hown d n h v hv hfix hdouble
  · intro v hv hfix
    exact cells_of_single_value roundDouble w hload hids hown d n h v hv hfix
      (roundDouble_two_mul v hfix)
  · intro hexact
    have hid : fl = id := funext hexact
    rw [hbefore, hafter, hid]
    have hsum : again.sum = (historyValues w d n h).sum := hperm.sum_eq
    cases hv : historyValues w d n h with
    | nil => rfl
    | cons a t =>
      rw [hv] at hsum
      simp only [List.isEmpty_cons, Bool.false_eq_true, if_false, Rounded.accumulate_id,
        List.sum_append, hsum, Option.map_some', Option.some.injEq]
      ring

end window_2_data_vis

namespace window_2_data_vis

/-- C9, as the code has it,
on doubles at two cells: the three measurements 0.1 of hour 8 in
`tenthsWindow` accumulate in the history-only grid and are added once more after the
offline fetch; the single measurement 4 of hour 10 in `exampleWindow` yields 8. -/
theorem double_counting_on_doubles_witness :
    tenthsWindow.session.isEmpty = false ∧
    ((HistoryManager.sensorsOf tenthsWindow.session).map HistoryManager.sensorId).Nodup ∧
    historyValues tenthsWindow 2460432 "PM10" 8 =
      [roundDouble (1 / 10), roundDouble (1 / 10), roundDouble (1 / 10)] ∧
    Grid.cell (Rounded.aggregateData roundDouble (tenthsWindow.withCache [])) 2460432 "PM10" 8 =
      some (Rounded.accumulate roundDouble 0
        [roundDouble (1 / 10), roundDouble (1 / 10), roundDouble (1 / 10)]) ∧
    (∃ again : List Rat,
      List.Perm again [roundDouble (1 / 10), roundDouble (1 / 10), roundDouble (1 / 10)] ∧
      Grid.cell (Rounded.aggregateData roundDouble (fetchSelected tenthsWindow false))
          2460432 "PM10" 8 =
        some (Rounded.accumulate roundDouble 0
          ([roundDouble (1 / 10), roundDouble (1 / 10), roundDouble (1 / 10)] ++ again))) ∧
    historyValues exampleWindow 2460432 "PM10" 10 = [4] ∧
    Grid.cell (Rounded.aggregateData roundDouble (exampleWindow.withCache [])) 2460432 "PM10"
      10 = some 4 ∧
    Grid.cell (Rounded.aggregateData roundDouble (fetchSelected exampleWindow false))
      2460432 "PM10" 10 = some (2 * 4) := by
  have hown : ∀ sv ∈ HistoryManager.sensorsOf tenthsWindow.session,
      tenthsWindow.isSelected (HistoryManager.sensorId sv) = true →
        stationIdOf sv = tenthsWindow.m_stationId ∧
        QMap.value tenthsWindow.m_sensorIdToName (HistoryManager.sensorId sv) "" =
          paramNameOf sv := by
    intro sv hsv _
    have hs : HistoryManager.sensorsOf tenthsWindow.session = [tenthsSensor] := rfl
    rw [hs, List.mem_singleton] at hsv
    subst hsv
    exact ⟨by decide, by decide⟩
  have hown2 : ∀ sv ∈ HistoryManager.sensorsOf exampleWindow.session,
      exampleWindow.isSelected (HistoryManager.sensorId sv) = true →
        stationIdOf sv = exampleWindow.m_stationId ∧
        QMap.value exampleWindow.m_sensorIdToName (HistoryManager.sensorId sv) "" =
          paramNameOf sv := by
    intro sv hsv _
    have hs : HistoryManager.sensorsOf exampleWindow.session = [exampleSensor] := rfl
    rw [hs, List.mem_singleton] at hsv
    subst hsv
    exact ⟨by decide, by decide⟩
  have hv : historyValues tenthsWindow 2460432 "PM10" 8 =
      [roundDouble (1 / 10), roundDouble (1 / 10), roundDouble (1 / 10)] := by decide!
  have hv2 : historyValues exampleWindow 2460432 "PM10" 10 = [4] := by decide!
  have h := double_counting_on_doubles roundDouble tenthsWindow rfl (by decide) hown
    2460432 "PM10" 8
  have h2 := double_counting_on_doubles roundDouble exampleWindow rfl (by decide) hown2
    2460432 "PM10" 10
  rw [hv] at h
  have h3 := h2.2.2.2.1 4 hv2 (by decide!)
  exact ⟨rfl, by decide, hv, h.1, h.2.1, hv2, h3.1, h3.2⟩

/-- C9 fails as stated, on doubles: in `tenthsWindow` the history holds the
double 0.1 three times for hour 8; the history-only cell holds 0.30000000000000004 and,
after the offline fetch has put the same three measurements into the fresh cache, the
cell holds 0.6, which is not twice the history-only value. -/
theorem tenths_are_not_doubled :
    tenthsWindow.session.isEmpty = false ∧
    ((HistoryManager.sensorsOf tenthsWindow.session).map HistoryManager.sensorId).Nodup ∧
    (∀ sv ∈ HistoryManager.sensorsOf tenthsWindow.session,
      tenthsWindow.isSelected (HistoryManager.sensorId sv) = true →
        stationIdOf sv = tenthsWindow.m_stationId ∧
        QMap.value tenthsWindow.m_sensorIdToName (HistoryManager.sensorId sv) "" =
          paramNameOf sv) ∧
    QMap.value (fetchSelected tenthsWindow false).m_measurementData 1 [] =
      measurementsArray (HistoryManager.measurementsOf tenthsSensor) ∧
    Grid.cell (Rounded.aggregateData roundDouble (tenthsWindow.withCache [])) 2460432 "PM10" 8 =
      some (1351079888211149 / 4503599627370496) ∧
    Grid.cell (Rounded.aggregateData roundDouble (fetchSelected tenthsWindow false))
      2460432 "PM10" 8 = some (5404319552844595 / 9007199254740992) ∧
    (5404319552844595 / 9007199254740992 : Rat) ≠
      2 * (1351079888211149 / 4503599627370496) ∧
    Grid.cell (Rounded.aggregateData roundDouble (fetchSelected tenthsWindow false))
        2460432 "PM10" 8 ≠
      (Grid.cell (Rounded.aggregateData roundDouble (tenthsWindow.withCache []))
        2460432 "PM10" 8).map (fun v => 2 * v) := by
  have hown : ∀ sv ∈ HistoryManager.sensorsOf tenthsWindow.session,
      tenthsWindow.isSelected (HistoryManager.sensorId sv) = true →
        stationIdOf sv = tenthsWindow.m_stationId ∧
        QMap.value tenthsWindow.m_sensorIdToName (HistoryManager.sensorId sv) "" =
          paramNameOf sv := by
    intro sv hsv _
    have hs : HistoryManager.sensorsOf tenthsWindow.session = [tenthsSensor] := rfl
    rw [hs, List.mem_singleton] at hsv
    subst hsv
    exact ⟨by decide, by decide⟩
  have hb : Grid.cell (Rounded.aggregateData roundDouble (tenthsWindow.withCache []))
      2460432 "PM10" 8 = some (1351079888211149 / 4503599627370496) := by decide!
  have ha : Grid.cell (Rounded.aggregateData roundDouble (fetchSelected tenthsWindow false))
      2460432 "PM10" 8 = some (5404319552844595 / 9007199254740992) := by decide!
  refine ⟨rfl, by decide, hown, rfl, hb, ha, by norm_num, ?_⟩
  rw [ha, hb]
  simp only [Option.map_some', ne_eq, Option.some.injEq]
  norm_num

end window_2_data_vis

/-! ## The statistics loop on doubles -/

namespace window_2_data_vis

namespace Rounded

theorem includePoint_minValue (fl : Rat → Rat) (st : Stats) (x value : Rat) :
    (includePoint fl st x value).minValue = min st.minValue value := by
  unfold includePoint
  by_cases h : value < st.minValue
  · simp [h, min_eq_right (le_of_lt h)]
  · simp [h, min_eq_left (not_lt.mp h)]

theorem includePoint_maxValue (fl : Rat → Rat) (st : Stats) (x value : Rat) :
    (includePoint fl st x value).maxValue = max st.maxValue value := by
  unfold includePoint
  by_cases h : value > st.maxValue
  · simp [h, max_eq_right (le_of_lt h)]
  · simp [h, max_eq_left (not_lt.mp h)]

theorem agrees_init_rounded (fl : Rat → Rat) : Agrees fl Stats.init := by
  unfold Agrees Stats.init accumulate
  simp

theorem agrees_includePoint (fl : Rat → Rat) {st : Stats} (h : Agrees fl st)
    (x value : Rat) : Agrees fl (includePoint fl st x value) := by
  obtain ⟨h1, h2, h3, h4⟩ := h
  refine ⟨?_, ?_, ?_, ?_⟩
  · simp [includePoint, h1]
  · simp [includePoint, h2, accumulate, List.foldl_append]
  · rw [includePoint_minValue, h3]
    simp only [includePoint, List.map_append, List.map_cons, List.map_nil]
    rw [foldl_min_append]
  · rw [includePoint_maxValue, h4]
    simp only [includePoint, List.map_append, List.map_cons, List.map_nil]
    rw [foldl_max_append]

theorem agrees_foldl_rounded {α : Type} (fl : Rat → Rat) (step : Stats → α → Stats)
    (hstep : ∀ st a, Agrees fl st → Agrees fl (step st a)) (l : List α) :
    ∀ st : Stats, Agrees fl st → Agrees fl (l.foldl step st) := by
  induction l with
  | nil => intro st h; exact h
  | cons a t ih => intro st h; exact ih _ (hstep st a h)

theorem agrees_singleDayStep_rounded (fl : Rat → Rat) (row : QMap Int Rat) (st : Stats)
    (hour : Nat) (h : Agrees fl st) : Agrees fl (singleDayStep fl row st hour) := by
  unfold singleDayStep
  dsimp only
  split
  · exact agrees_includePoint fl h _ _
  · exact h

theorem agrees_multiDayStep_rounded (fl : Rat → Rat) (row : QMap Int Rat) (xBase : Rat)
    (st : Stats) (hour : Nat) (h : Agrees fl st) :
    Agrees fl (multiDayStep fl row xBase st hour) :=
  agrees_includePoint fl h _ _

/-- Whatever the path, the running values `collect` ends with on doubles agree with its
points. -/
theorem agrees_collect_rounded (fl : Rat → Rat) (g : Grid) (singleDay : Bool)
    (sortedDates : List QDate) (earliestDate : QDate) (sensorName : String) :
    Agrees fl (collect fl g singleDay sortedDates earliestDate sensorName) := by
  unfold collect
  split
  · exact agrees_foldl_rounded fl _ (agrees_singleDayStep_rounded fl _) _ _
      (agrees_init_rounded fl)
  · refine agrees_foldl_rounded fl _ ?_ _ _ (agrees_init_rounded fl)
    intro st date hst
    exact agrees_foldl_rounded fl _ (agrees_multiDayStep_rounded fl _ _) _ _ hst

/-- The record of `chartData` on doubles when the count is not zero. -/
theorem chartData_of_count_rounded (fl : Rat → Rat) (g : Grid) (singleDay : Bool)
    (sortedDates : List QDate) (earliestDate : QDate) (sensorName : String)
    (hcount : (collect fl g singleDay sortedDates earliestDate sensorName).count ≠ 0) :
    chartData fl g singleDay sortedDates earliestDate sensorName =
      ⟨sensorName, (collect fl g singleDay sortedDates earliestDate sensorName).minValue,
        (collect fl g singleDay sortedDates earliestDate sensorName).maxValue,
        fl ((collect fl g singleDay sortedDates earliestDate sensorName).sum /
          ((collect fl g singleDay sortedDates earliestDate sensorName).count : Rat)),
        trendOf fl (collect fl g singleDay sortedDates earliestDate sensorName).points,
        (collect fl g singleDay sortedDates earliestDate sensorName).points⟩ := by
  unfold chartData
  dsimp only
  rw [if_neg hcount, if_pos (Nat.pos_of_ne_zero hcount)]

theorem chartData_points_rounded (fl : Rat → Rat) (g : Grid) (singleDay : Bool)
    (sortedDates : List QDate) (earliestDate : QDate) (sensorName : String) :
    (chartData fl g singleDay sortedDates earliestDate sensorName).points =
      (collect fl g singleDay sortedDates earliestDate sensorName).points := by
  unfold chartData
  dsimp only
  split <;> rfl

/-- A record of `displayCharts` on doubles is the record of a sensor name of the earliest
date. -/
theorem mem_displayCharts_rounded {fl : Rat → Rat} {w : window_2_data_vis}
    {r : SensorChartData} (hr : r ∈ displayCharts fl w) :
    ∃ (earliestDate : QDate) (rest : List QDate) (sensorName : String),
      w.m_selectedDates.insertionSort (fun a b => a ≤ b) = earliestDate :: rest ∧
      r = chartData fl w.m_aggregatedData (w.m_selectedDates.length == 1)
        (earliestDate :: rest) earliestDate sensorName := by
  unfold displayCharts at hr
  split at hr
  · simp at hr
  · dsimp only at hr
    split at hr
    · simp at hr
    · rename_i e rest hsorted
      obtain ⟨name, _, hname⟩ := List.mem_map.1 hr
      rw [hsorted] at hname
      exact ⟨e, rest, name, hsorted, hname.symm⟩

theorem foldl_add_eq_sum {α : Type} (f : α → Rat) (l : List α) :
    ∀ start : Rat, l.foldl (fun s p => id (s + f p)) start = start + (l.map f).sum := by
  induction l with
  | nil => intro start; simp
  | cons a t ih =>
    intro start
    rw [List.foldl_cons, ih]
    simp [add_assoc]

/-- Without rounding the numerator is that of the least-squares slope. -/
theorem slopeNumerator_exact (points : List (Rat × Rat)) :
    slopeNumerator id points = window_2_data_vis.slopeNumerator points := by
  unfold slopeNumerator window_2_data_vis.slopeNumerator sumXY sumX sumY
  have h1 := foldl_add_eq_sum (fun p : Rat × Rat => id (p.1 * p.2)) points 0
  have h2 := foldl_add_eq_sum (fun p : Rat × Rat => p.1) points 0
  have h3 := foldl_add_eq_sum (fun p : Rat × Rat => p.2) points 0
  rw [h1, h2, h3]
  simp

/-- Without rounding the denominator is that of the least-squares slope. -/
theorem slopeDenominator_exact (points : List (Rat × Rat)) :
    slopeDenominator id points = window_2_data_vis.slopeDenominator points := by
  unfold slopeDenominator window_2_data_vis.slopeDenominator sumXX sumX
  have h1 := foldl_add_eq_sum (fun p : Rat × Rat => id (p.1 * p.1)) points 0
  have h2 := foldl_add_eq_sum (fun p : Rat × Rat => p.1) points 0
  rw [h1, h2]
  simp [sq]

/-- Without rounding the slope is the least-squares slope. -/
theorem slope_exact (points : List (Rat × Rat)) :
    slope id points = window_2_data_vis.slope points := by
  unfold slope window_2_data_vis.slope
  rw [slopeNumerator_exact, slopeDenominator_exact]
  rfl

/-- On doubles, with two or more points and a non-zero denominator the trend is read off
the slope as computed. -/
theorem trendOf_rounded (fl : Rat → Rat) (points : List (Rat × Rat))
    (hn : 2 ≤ points.length) (hden : slopeDenominator fl points ≠ 0) :
    trendOf fl points =
      if |slope fl points| < fl (1 / 100) then "stabilny"
      else if slope fl points > 0 then "rosnący"
      else "malejący" := by
  unfold trendOf
  rw [if_pos hn, if_neg hden]

theorem trendOf_rounded_cases (fl : Rat → Rat) (points : List (Rat × Rat))
    (hn : 2 ≤ points.length) (hden : slopeDenominator fl points ≠ 0)
    (ht : 0 < fl (1 / 100)) :
    (trendOf fl points = "stabilny" ↔ |slope fl points| < fl (1 / 100)) ∧
    (trendOf fl points = "rosnący" ↔
      ¬ |slope fl points| < fl (1 / 100) ∧ 0 < slope fl points) ∧
    (trendOf fl points = "malejący" ↔
      ¬ |slope fl points| < fl (1 / 100) ∧ slope fl points < 0) := by
  rw [trendOf_rounded fl points hn hden]
  by_cases h1 : |slope fl points| < fl (1 / 100)
  · rw [if_pos h1]
    refine ⟨⟨fun _ => h1, fun _ => rfl⟩, ⟨fun h => absurd h (by decide), fun h => absurd h1 h.1⟩,
      ⟨fun h => absurd h (by decide), fun h => absurd h1 h.1⟩⟩
  · rw [if_neg h1]
    by_cases h2 : slope fl points > 0
    · rw [if_pos h2]
      refine ⟨⟨fun h => absurd h (by decide), fun h => absurd h h1⟩,
        ⟨fun _ => ⟨h1, h2⟩, fun _ => rfl⟩,
        ⟨fun h => absurd h (by decide), fun h => absurd h2 (not_lt.2 (le_of_lt h.2))⟩⟩
    · rw [if_neg h2]
      have h3 : slope fl points < 0 := by
        rcases lt_or_eq_of_le (not_lt.1 h2) with h | h
        · exact h
        · exact absurd (by rw [h, abs_zero]; exact ht) h1
      refine ⟨⟨fun h => absurd h (by decide), fun h => absurd h h1⟩,
        ⟨fun h => absurd h (by decide), fun h => absurd h.2 h2⟩,
        ⟨fun _ => ⟨h1, h3⟩, fun _ => rfl⟩⟩

end Rounded

end window_2_data_vis

/-! ## The denominator of the slope when a single date is selected -/

namespace window_2_data_vis

namespace Rounded

/-- The points of the single-date loop do not depend on the rounding. -/
theorem foldl_singleDayStep_points (fl : Rat → Rat) (row : QMap Int Rat) (hours : List Nat) :
    ∀ st st2 : Stats, st.points = st2.points →
      (hours.foldl (singleDayStep fl row) st).points =
        (hours.foldl (window_2_data_vis.singleDayStep row) st2).points := by
  induction hours with
  | nil => intro st st2 h; exact h
  | cons hr rest ih =>
    intro st st2 h
    rw [List.foldl_cons, List.foldl_cons]
    apply ih
    unfold singleDayStep window_2_data_vis.singleDayStep
    dsimp only
    split
    · simp [includePoint, Stats.include, h]
    · exact h

theorem collect_single_points_rounded (fl : Rat → Rat) (g : Grid) (sortedDates : List QDate)
    (earliestDate : QDate) (sensorName : String) :
    (collect fl g true sortedDates earliestDate sensorName).points =
      (includedHours g earliestDate sensorName).map
        (fun hour : Nat => ((hour : Rat), bucket g earliestDate sensorName hour)) := by
  rw [← collect_single_points g sortedDates earliestDate sensorName]
  exact foldl_singleDayStep_points fl _ _ _ _ rfl

theorem sum_hours_le (hours : List Nat) (hh : ∀ hr ∈ hours, hr < 24)
    (hlen : hours.length ≤ 24) :
    hours.sum ≤ 24 * 23 ∧ (hours.map (fun hr => hr * hr)).sum ≤ 24 * 529 := by
  constructor
  · have h1 := List.sum_le_card_nsmul hours 23 (fun x hx => by have := hh x hx; omega)
    simp only [smul_eq_mul] at h1
    calc hours.sum ≤ hours.length * 23 := h1
      _ ≤ 24 * 23 := Nat.mul_le_mul_right 23 hlen
  · have h1 := List.sum_le_card_nsmul (hours.map (fun hr => hr * hr)) 529 (by
      intro x hx
      obtain ⟨hr, hhr, rfl⟩ := List.mem_map.1 hx
      have := hh hr hhr
      have h23 : hr ≤ 23 := by omega
      calc hr * hr ≤ 23 * 23 := Nat.mul_le_mul h23 h23
        _ = 529 := by norm_num)
    simp only [smul_eq_mul, List.length_map] at h1
    calc (hours.map (fun hr => hr * hr)).sum ≤ hours.length * 529 := h1
      _ ≤ 24 * 529 := Nat.mul_le_mul_right 529 hlen

/-- In binary64 arithmetic the denominator of the slope of points whose first
coordinates are hours of one day is computed without rounding error. -/
theorem slopeDenominator_of_hours (hours : List Nat) (v : Nat → Rat)
    (hh : ∀ hr ∈ hours, hr < 24) (hlen : hours.length ≤ 24)
    (hpos : 0 < window_2_data_vis.slopeDenominator
      (hours.map (fun hr : Nat => ((hr : Rat), v hr)))) :
    slopeDenominator roundDouble (hours.map (fun hr : Nat => ((hr : Rat), v hr))) =
      window_2_data_vis.slopeDenominator (hours.map (fun hr : Nat => ((hr : Rat), v hr))) := by
  obtain ⟨b1, b2⟩ := sum_hours_le hours hh hlen
  have hsx : sumX roundDouble (hours.map (fun hr : Nat => ((hr : Rat), v hr))) =
      ((hours.sum : Nat) : Rat) := by
    unfold sumX
    rw [List.foldl_map]
    have h := foldl_roundDouble_nat (fun hr : Nat => (hr : Rat)) (fun hr : Nat => hr) hours
      (fun p _ => rfl) 0 (by simp only [List.map_id', zero_add]; omega)
    simp only [Nat.cast_zero, List.map_id', zero_add] at h
    exact h
  have hsxx : sumXX roundDouble (hours.map (fun hr : Nat => ((hr : Rat), v hr))) =
      (((hours.map (fun hr => hr * hr)).sum : Nat) : Rat) := by
    unfold sumXX
    rw [List.foldl_map]
    have h := foldl_roundDouble_nat (fun hr : Nat => roundDouble ((hr : Rat) * (hr : Rat)))
      (fun hr : Nat => hr * hr) hours
      (fun p hp => by
        have h24 := hh p hp
        have h23 : p ≤ 23 := by omega
        have hb : p * p ≤ 23 * 23 := Nat.mul_le_mul h23 h23
        have e : (p : Rat) * (p : Rat) = ((p * p : Nat) : Rat) := by push_cast; rfl
        show roundDouble ((p : Rat) * (p : Rat)) = ((p * p : Nat) : Rat)
        rw [e, roundDouble_natCast _ (by omega)])
      0 (by rw [zero_add]; omega)
    simp only [Nat.cast_zero, zero_add] at h
    exact h
  have hexact : window_2_data_vis.slopeDenominator
      (hours.map (fun hr : Nat => ((hr : Rat), v hr))) =
      ((hours.length * (hours.map (fun hr => hr * hr)).sum : Nat) : Rat) -
        ((hours.sum * hours.sum : Nat) : Rat) := by
    unfold window_2_data_vis.slopeDenominator
    rw [List.length_map, List.map_map, List.map_map]
    have e1 : ((fun p : Rat × Rat => p.1 * p.1) ∘ fun hr : Nat => ((hr : Rat), v hr)) =
        fun hr : Nat => (((hr * hr : Nat)) : Rat) := by
      funext hr
      simp
    have e2 : ((fun p : Rat × Rat => p.1) ∘ fun hr : Nat => ((hr : Rat), v hr)) =
        fun hr : Nat => (hr : Rat) := by
      funext hr
      rfl
    rw [e1, e2]
    have s1 : (hours.map (fun hr : Nat => (((hr * hr : Nat)) : Rat))).sum =
        (((hours.map (fun hr => hr * hr)).sum : Nat) : Rat) := by
      rw [Nat.cast_list_sum, List.map_map]
      rfl
    have s2 : (hours.map (fun hr : Nat => (hr : Rat))).sum = ((hours.sum : Nat) : Rat) := by
      rw [Nat.cast_list_sum]
    rw [s1, s2]
    push_cast
    ring
  rw [hexact] at hpos ⊢
  unfold slopeDenominator
  rw [hsx, hsxx, List.length_map]
  have hA : hours.length * (hours.map (fun hr => hr * hr)).sum ≤ 24 * (24 * 529) :=
    Nat.mul_le_mul hlen b2
  have hB : hours.sum * hours.sum ≤ (24 * 23) * (24 * 23) := Nat.mul_le_mul b1 b1
  have eA : ((hours.length : Nat) : Rat) * (((hours.map (fun hr => hr * hr)).sum : Nat) : Rat) =
      ((hours.length * (hours.map (fun hr => hr * hr)).sum : Nat) : Rat) := by
    push_cast
    rfl
  have eB : ((hours.sum : Nat) : Rat) * ((hours.sum : Nat) : Rat) =
      ((hours.sum * hours.sum : Nat) : Rat) := by
    push_cast
    rfl
  rw [eA, eB, roundDouble_natCast _ (by omega), roundDouble_natCast _ (by omega)]
  generalize hours.length * (hours.map (fun hr => hr * hr)).sum = A at *
  generalize hours.sum * hours.sum = B at *
  have hBA : B < A := by
    have : (B : Rat) < (A : Rat) := by linarith
    exact_mod_cast this
  have e : (A : Rat) - (B : Rat) = ((A - B : Nat) : Rat) := by
    rw [Nat.cast_sub (le_of_lt hBA)]
  rw [e, roundDouble_natCast _ (by omega)]

/-- In binary64 arithmetic, when a single date is selected the denominator of the slope
of two or more points is the exact one, a positive number. -/
theorem slopeDenominator_single_date (g : Grid) (sortedDates : List QDate)
    (earliestDate : QDate) (sensorName : String)
    (hn : 2 ≤ (collect roundDouble g true sortedDates earliestDate sensorName).points.length) :
    slopeDenominator roundDouble
        (collect roundDouble g true sortedDates earliestDate sensorName).points =
      window_2_data_vis.slopeDenominator
        (collect roundDouble g true sortedDates earliestDate sensorName).points ∧
    0 < window_2_data_vis.slopeDenominator
      (collect roundDouble g true sortedDates earliestDate sensorName).points := by
  have hp : (collect roundDouble g true sortedDates earliestDate sensorName).points =
      (window_2_data_vis.collect g true sortedDates earliestDate sensorName).points := by
    rw [collect_single_points_rounded, collect_single_points]
  have hpos : 0 < window_2_data_vis.slopeDenominator
      (collect roundDouble g true sortedDates earliestDate sensorName).points := by
    rw [hp] at hn ⊢
    exact slopeDenominator_collect_pos g true sortedDates earliestDate sensorName hn
  refine ⟨?_, hpos⟩
  rw [collect_single_points_rounded] at hpos ⊢
  apply slopeDenominator_of_hours _ _ _ _ hpos
  · intro hr hhr
    have := (List.mem_filter.1 hhr).1
    exact List.mem_range.1 this
  · have h1 : (includedHours g earliestDate sensorName).length ≤ (List.range 24).length :=
      List.length_filter_le _ _
    rw [List.length_range] at h1
    exact h1

end Rounded

end window_2_data_vis

/-! ## C12: the trend on doubles -/

namespace window_2_data_vis

/-- C12, as the code has it.
Trend classification in binary64 arithmetic, `roundDouble (1 / 100)`
being the literal `0.01`.  For every point sequence `displayCharts` computes for a sensor
that has `n ≥ 2` points, when a single date is selected or the denominator
`n * sumXX - sumX * sumX`, computed in doubles, is not zero: the denominator is not zero
and, with `m` the slope as the code computes it in doubles (every sum, product,
difference and the quotient rounded to the nearest double), the trend is "stabilny" iff
`|m| < 0.01`, "rosnący" iff not so and `m > 0`, "malejący" iff not so and `m < 0`.  When a
single date is selected the denominator is computed without rounding error and is
positive.  When nothing rounds, `m` is the least-squares slope.  The points
(0,1),(1,1),(2,1) give "stabilny", (0,1),(1,5),(2,9) give "rosnący" and (0,9),(1,5),(2,1)
give "malejący". -/
theorem trend_follows_computed_slope (g : Grid) (singleDay : Bool)
    (sortedDates : List QDate) (earliestDate : QDate) (sensorName : String)
    (hn : 2 ≤ (Rounded.chartData roundDouble g singleDay sortedDates earliestDate
      sensorName).points.length)
    (hden : singleDay = true ∨ Rounded.slopeDenominator roundDouble
      (Rounded.chartData roundDouble g singleDay sortedDates earliestDate
        sensorName).points ≠ 0) :
    Rounded.slopeDenominator roundDouble
      (Rounded.chartData roundDouble g singleDay sortedDates earliestDate
        sensorName).points ≠ 0 ∧
    ((Rounded.chartData roundDouble g singleDay sortedDates earliestDate sensorName).trend =
        "stabilny" ↔
      |Rounded.slope roundDouble
        (Rounded.chartData roundDouble g singleDay sortedDates earliestDate
          sensorName).points| < roundDouble (1 / 100)) ∧
    ((Rounded.chartData roundDouble g singleDay sortedDates earliestDate sensorName).trend =
        "rosnący" ↔
      ¬ |Rounded.slope roundDouble
        (Rounded.chartData roundDouble g singleDay sortedDates earliestDate
          sensorName).points| < roundDouble (1 / 100) ∧
      0 < Rounded.slope roundDouble
        (Rounded.chartData roundDouble g singleDay sortedDates earliestDate
          sensorName).points) ∧
    ((Rounded.chartData roundDouble g singleDay sortedDates earliestDate sensorName).trend =
        "malejący" ↔
      ¬ |Rounded.slope roundDouble
        (Rounded.chartData roundDouble g singleDay sortedDates earliestDate
          sensorName).points| < roundDouble (1 / 100) ∧
      Rounded.slope roundDouble
        (Rounded.chartData roundDouble g singleDay sortedDates earliestDate
          sensorName).points < 0) ∧
    (singleDay = true →
      Rounded.slopeDenominator roundDouble
          (Rounded.chartData roundDouble g singleDay sortedDates earliestDate
            sensorName).points =
        slopeDenominator
          (Rounded.chartData roundDouble g singleDay sortedDates earliestDate
            sensorName).points ∧
      0 < slopeDenominator
        (Rounded.chartData roundDouble g singleDay sortedDates earliestDate
          sensorName).points) ∧
    (∀ points : List (Rat × Rat), Rounded.slope id points = slope points) ∧
    Rounded.trendOf roundDouble [(0, 1), (1, 1), (2, 1)] = "stabilny" ∧
    Rounded.trendOf roundDouble [(0, 1), (1, 5), (2, 9)] = "rosnący" ∧
    Rounded.trendOf roundDouble [(0, 9), (1, 5), (2, 1)] = "malejący" := by
  rw [Rounded.chartData_points_rounded] at hn hden
  have hsingle : singleDay = true →
      Rounded.slopeDenominator roundDouble
          (Rounded.collect roundDouble g singleDay sortedDates earliestDate
            sensorName).points =
        slopeDenominator
          (Rounded.collect roundDouble g singleDay sortedDates earliestDate
            sensorName).points ∧
      0 < slopeDenominator
        (Rounded.collect roundDouble g singleDay sortedDates earliestDate
          sensorName).points := by
    intro hs
    subst hs
    exact Rounded.slopeDenominator_single_date g sortedDates earliestDate sensorName hn
  have hne : Rounded.slopeDenominator roundDouble
      (Rounded.collect roundDouble g singleDay sortedDates earliestDate
        sensorName).points ≠ 0 := by
    rcases hden with hs | hd
    · obtain ⟨h1, h2⟩ := hsingle hs
      rw [h1]
      exact ne_of_gt h2
    · exact hd
  have hcount : (Rounded.collect roundDouble g singleDay sortedDates earliestDate
      sensorName).count ≠ 0 := by
    rw [(Rounded.agrees_collect_rounded roundDouble g singleDay sortedDates earliestDate
      sensorName).1]
    omega
  have ht : (0 : Rat) < roundDouble (1 / 100) := by decide!
  have hcases := Rounded.trendOf_rounded_cases roundDouble _ hn hne ht
  rw [Rounded.chartData_of_count_rounded roundDouble g singleDay sortedDates earliestDate
    sensorName hcount]
  dsimp only
  refine ⟨hne, hcases.1, hcases.2.1, hcases.2.2, hsingle, Rounded.slope_exact, ?_, ?_, ?_⟩
  · decide!
  · decide!
  · decide!

/-- C12, as the code has it,
on the row of `statsWindow` in binary64 arithmetic: its points (8,10)
and (10,20) have the denominator 4, the computed slope 5 and the trend "rosnący". -/
theorem trend_follows_computed_slope_witness :
    (Rounded.chartData roundDouble statsWindow.m_aggregatedData true [2460432] 2460432
      "PM10").points = [(8, 10), (10, 20)] ∧
    Rounded.slopeDenominator roundDouble [(8, 10), (10, 20)] = 4 ∧
    slopeDenominator [(8, 10), (10, 20)] = 4 ∧
    Rounded.slope roundDouble [(8, 10), (10, 20)] = 5 ∧
    (Rounded.chartData roundDouble statsWindow.m_aggregatedData true [2460432] 2460432
      "PM10").trend = "rosnący" := by
  have hp : (Rounded.chartData roundDouble statsWindow.m_aggregatedData true [2460432]
      2460432 "PM10").points = [(8, 10), (10, 20)] := by decide!
  have hd : Rounded.slopeDenominator roundDouble [(8, 10), (10, 20)] = 4 := by decide!
  have hs : Rounded.slope roundDouble [(8, 10), (10, 20)] = 5 := by decide!
  have h := trend_follows_computed_slope statsWindow.m_aggregatedData true
    [2460432] 2460432 "PM10" (by rw [hp]; decide) (Or.inl rfl)
  have he := (h.2.2.2.2.1 rfl).1
  rw [hp, hd] at he
  refine ⟨hp, hd, he.symm, hs, h.2.2.1.2 ?_⟩
  rw [hp, hs]
  constructor
  · intro hlt
    have h5 : |(5 : Rat)| = 5 := abs_of_pos (by norm_num)
    rw [h5] at hlt
    exact absurd hlt (by decide!)
  · norm_num

/-- C12 fails as stated, on doubles: in `thresholdWindow` the points are (0, 20)
and (1, 20.01); their least-squares slope is not below 0.01 in absolute value (neither
below one hundredth nor below the double `0.01`) and is positive, so the claim calls for
"rosnący"; the slope the code computes in doubles is 0.00999999999999801 and the trend
is "stabilny". -/
theorem threshold_slope_is_called_stable :
    (Rounded.displayCharts roundDouble thresholdWindow).map (fun r => (r.points, r.trend)) =
      [([(0, 20), (1, roundDouble (2001 / 100))], "stabilny")] ∧
    roundDouble (2001 / 100) = 5632314283980227 / 281474976710656 ∧
    slope [(0, 20), (1, roundDouble (2001 / 100))] = 2814749767107 / 281474976710656 ∧
    ¬ |slope [(0, 20), (1, roundDouble (2001 / 100))]| < 1 / 100 ∧
    ¬ |slope [(0, 20), (1, roundDouble (2001 / 100))]| < roundDouble (1 / 100) ∧
    0 < slope [(0, 20), (1, roundDouble (2001 / 100))] ∧
    Rounded.slope roundDouble [(0, 20), (1, roundDouble (2001 / 100))] =
      1407374883553 / 140737488355328 ∧
    trendOf [(0, 20), (1, roundDouble (2001 / 100))] = "rosnący" := by
  refine ⟨by decide!, by decide!, by decide!, by decide!, by decide!, by decide!,
    by decide!, by decide!⟩

end window_2_data_vis

/-! ## C30: the order of the statistics on doubles -/

namespace window_2_data_vis

/-- With a monotone rounding that leaves the bounds as they are, the average of a sum
accumulated without rounding error lies between the bounds. -/
theorem average_of_exact_sum (fl : Rat → Rat) (hmono : ∀ a b : Rat, a ≤ b → fl a ≤ fl b)
    (vs : List Rat) (lo hi : Rat) (hne : vs ≠ []) (hlo : ∀ v ∈ vs, lo ≤ v)
    (hhi : ∀ v ∈ vs, v ≤ hi) (hflo : fl lo = lo) (hfhi : fl hi = hi)
    (hexact : Rounded.accumulate fl 0 vs = vs.sum) :
    lo ≤ fl (Rounded.accumulate fl 0 vs / (vs.length : Rat)) ∧
    fl (Rounded.accumulate fl 0 vs / (vs.length : Rat)) ≤ hi := by
  have hpos : (0 : Rat) < (vs.length : Rat) := by
    exact_mod_cast List.length_pos.2 hne
  have h1 := length_mul_le_sum vs lo hlo
  have h2 := sum_le_length_mul vs hi hhi
  rw [hexact]
  constructor
  · rw [← hflo]
    apply hmono
    rw [le_div_iff₀ hpos]
    linarith
  · rw [← hfhi]
    apply hmono
    rw [div_le_iff₀ hpos]
    linarith

/-- With a monotone rounding that leaves the values and their doubles as they are, the
average of one or two values lies between bounds that are among the values. -/
theorem average_of_two (fl : Rat → Rat) (hmono : ∀ a b : Rat, a ≤ b → fl a ≤ fl b)
    (vs : List Rat) (lo hi : Rat) (hne : vs ≠ []) (hlen : vs.length ≤ 2)
    (hlo : ∀ v ∈ vs, lo ≤ v) (hhi : ∀ v ∈ vs, v ≤ hi) (hlomem : lo ∈ vs) (hhimem : hi ∈ vs)
    (hfix : ∀ v ∈ vs, fl v = v) (hdouble : ∀ v ∈ vs, fl (2 * v) = 2 * v) :
    lo ≤ fl (Rounded.accumulate fl 0 vs / (vs.length : Rat)) ∧
    fl (Rounded.accumulate fl 0 vs / (vs.length : Rat)) ≤ hi := by
  have hflo := hfix lo hlomem
  have hfhi := hfix hi hhimem
  match vs, hne, hlen with
  | [a], _, _ =>
    have ha : fl a = a := hfix a (List.mem_singleton_self a)
    have hs : Rounded.accumulate fl 0 [a] = a := by
      simp [Rounded.accumulate, ha]
    rw [hs]
    simp only [List.length_singleton, Nat.cast_one, div_one, ha]
    exact ⟨hlo a (List.mem_singleton_self a), hhi a (List.mem_singleton_self a)⟩
  | [a, b], _, _ =>
    have ha : fl a = a := hfix a (List.mem_cons_self _ _)
    have hs : Rounded.accumulate fl 0 [a, b] = fl (a + b) := by
      simp [Rounded.accumulate, ha]
    have hla := hlo a (List.mem_cons_self _ _)
    have hlb := hlo b (List.mem_cons_of_mem _ (List.mem_singleton_self b))
    have hha := hhi a (List.mem_cons_self _ _)
    have hhb := hhi b (List.mem_cons_of_mem _ (List.mem_singleton_self b))
    have h1 : 2 * lo ≤ fl (a + b) := by
      rw [← hdouble lo hlomem]
      apply hmono
      linarith
    have h2 : fl (a + b) ≤ 2 * hi := by
      rw [← hdouble hi hhimem]
      apply hmono
      linarith
    rw [hs]
    have e : (([a, b] : List Rat).length : Rat) = 2 := by norm_num
    rw [e]
    constructor
    · rw [← hflo]
      apply hmono
      linarith
    · rw [← hfhi]
      apply hmono
      linarith

/-- C30, as the code has it.
The statistics in binary64 arithmetic.  For every record
`displayCharts` computes that has a point (its count is the number of its points, so the
count is positive), the values being within the range of doubles: the value of every
point lies between `minValue` and `maxValue`, both are values of points, so
`minValue ≤ maxValue`, and the average is the rounded quotient of the sum the loop
`sum += value` accumulates by the number of points.  When the values are doubles and
there are at most two points, or the accumulated sum carries no rounding error, then
`minValue ≤ average ≤ maxValue`. -/
theorem statistics_on_doubles (w : window_2_data_vis)
    (r : SensorChartData) (hr : r ∈ Rounded.displayCharts roundDouble w)
    (hne : r.points ≠ []) (hrange : ∀ p ∈ r.points, |p.2| ≤ DBL_MAX) :
    (∀ p ∈ r.points, r.minValue ≤ p.2 ∧ p.2 ≤ r.maxValue) ∧
    (∃ p ∈ r.points, p.2 = r.minValue) ∧ (∃ p ∈ r.points, p.2 = r.maxValue) ∧
    r.minValue ≤ r.maxValue ∧
    r.average =
      roundDouble
        (Rounded.accumulate roundDouble 0 (r.points.map Prod.snd) /
          (r.points.length : Rat)) ∧
    ((∀ p ∈ r.points, roundDouble p.2 = p.2) →
      (r.points.length ≤ 2 ∨
        Rounded.accumulate roundDouble 0 (r.points.map Prod.snd) =
          (r.points.map Prod.snd).sum) →
      r.minValue ≤ r.average ∧ r.average ≤ r.maxValue) := by
  obtain ⟨e, rest, name, hsorted, rfl⟩ := Rounded.mem_displayCharts_rounded hr
  rw [Rounded.chartData_points_rounded] at hne hrange
  obtain ⟨h1, h2, h3, h4⟩ := Rounded.agrees_collect_rounded roundDouble w.m_aggregatedData
    (w.m_selectedDates.length == 1) (e :: rest) e name
  have hlen : 0 < (Rounded.collect roundDouble w.m_aggregatedData
      (w.m_selectedDates.length == 1) (e :: rest) e name).points.length :=
    List.length_pos.2 hne
  have hcount : (Rounded.collect roundDouble w.m_aggregatedData
      (w.m_selectedDates.length == 1) (e :: rest) e name).count ≠ 0 := by
    rw [h1]
    omega
  have hvne : (Rounded.collect roundDouble w.m_aggregatedData
      (w.m_selectedDates.length == 1) (e :: rest) e name).points.map Prod.snd ≠ [] := by
    simpa using hne
  have hvr : ∀ v ∈ (Rounded.collect roundDouble w.m_aggregatedData
      (w.m_selectedDates.length == 1) (e :: rest) e name).points.map Prod.snd,
      |v| ≤ DBL_MAX := by
    intro v hv
    obtain ⟨p, hp, rfl⟩ := List.mem_map.1 hv
    exact hrange p hp
  have hmn := foldl_min_DBL_MAX _ hvne hvr
  have hmx := foldl_max_DBL_MAX _ hvne hvr
  rw [← h3] at hmn
  rw [← h4] at hmx
  rw [Rounded.chartData_of_count_rounded _ _ _ _ _ _ hcount]
  dsimp only
  refine ⟨?_, ?_, ?_, ?_, ?_, ?_⟩
  · intro p hp
    exact ⟨hmn.2 _ (List.mem_map_of_mem _ hp), hmx.2 _ (List.mem_map_of_mem _ hp)⟩
  · obtain ⟨p, hp, hpv⟩ := List.mem_map.1 hmn.1
    exact ⟨p, hp, hpv⟩
  · obtain ⟨p, hp, hpv⟩ := List.mem_map.1 hmx.1
    exact ⟨p, hp, hpv⟩
  · obtain ⟨p, hp, hpv⟩ := List.mem_map.1 hmn.1
    rw [← hpv]
    exact hmx.2 _ (List.mem_map_of_mem _ hp)
  · rw [h2, h1]
  · intro hdoubles hcase
    have hfix : ∀ v ∈ (Rounded.collect roundDouble w.m_aggregatedData
        (w.m_selectedDates.length == 1) (e :: rest) e name).points.map Prod.snd,
        roundDouble v = v := by
      intro v hv
      obtain ⟨p, hp, rfl⟩ := List.mem_map.1 hv
      exact hdoubles p hp
    rw [h2, h1, ← List.length_map
      (Rounded.collect roundDouble w.m_aggregatedData (w.m_selectedDates.length == 1)
        (e :: rest) e name).points Prod.snd]
    rcases hcase with htwo | hexact
    · rw [← List.length_map _ Prod.snd] at htwo
      exact average_of_two roundDouble roundDouble_mono _ _ _ hvne htwo hmn.2 hmx.2
        hmn.1 hmx.1 hfix (fun v hv => roundDouble_two_mul v (hfix v hv))
    · exact average_of_exact_sum roundDouble roundDouble_mono _ _ _ hvne hmn.2 hmx.2
        (hfix _ hmn.1) (hfix _ hmx.1) hexact

/-- C30, as the code has it,
on the record of `statsWindow` in binary64 arithmetic: the minimum 10
and the maximum 20 of the two points (8,10) and (10,20), and the average 15 between
them. -/
theorem statistics_on_doubles_witness :
    Rounded.displayCharts roundDouble statsWindow =
      [⟨"PM10", 10, 20, 15, "rosnący", [(8, 10), (10, 20)]⟩] ∧
    roundDouble 10 = 10 ∧ roundDouble 20 = 20 ∧
    Rounded.accumulate roundDouble 0 [10, 20] = 30 ∧
    roundDouble (30 / 2) = 15 ∧
    (10 : Rat) ≤ 15 ∧ (15 : Rat) ≤ 20 := by
  have hd : Rounded.displayCharts roundDouble statsWindow =
      [⟨"PM10", 10, 20, 15, "rosnący", [(8, 10), (10, 20)]⟩] := by decide!
  have h := statistics_on_doubles statsWindow
    ⟨"PM10", 10, 20, 15, "rosnący", [(8, 10), (10, 20)]⟩
    (by rw [hd]; exact List.mem_singleton_self _) (by decide)
    (by
      intro p hp
      simp only [List.mem_cons, List.mem_singleton, List.not_mem_nil, or_false] at hp
      rcases hp with rfl | rfl <;> norm_num [DBL_MAX])
  have ho := h.2.2.2.2.2
    (by
      intro p hp
      simp only [List.mem_cons, List.mem_singleton, List.not_mem_nil, or_false] at hp
      rcases hp with rfl | rfl <;> decide!)
    (Or.inl (by decide))
  exact ⟨hd, by decide!, by decide!, by decide!, by decide!, ho.1, ho.2⟩

/-- C30 fails as stated, on doubles: with the double 12.7 in three buckets of
one date the sum accumulates to 38.099999999999994 and the average 12.699999999999998 is
below `minValue` 12.7; with the double 0.1 in three buckets the average
0.10000000000000002 is above `maxValue` 0.1. -/
theorem average_leaves_the_range :
    (Rounded.displayCharts roundDouble sameValueWindow).map
        (fun r => (r.points.length, r.minValue, r.average, r.maxValue)) =
      [(3, 3574732204225331 / 281474976710656, 7149464408450661 / 562949953421312,
        3574732204225331 / 281474976710656)] ∧
    roundDouble (127 / 10) = 3574732204225331 / 281474976710656 ∧
    (7149464408450661 / 562949953421312 : Rat) < 3574732204225331 / 281474976710656 ∧
    (Rounded.displayCharts roundDouble tenthsGridWindow).map
        (fun r => (r.points.length, r.minValue, r.average, r.maxValue)) =
      [(3, 3602879701896397 / 36028797018963968, 7205759403792795 / 72057594037927936,
        3602879701896397 / 36028797018963968)] ∧
    roundDouble (1 / 10) = 3602879701896397 / 36028797018963968 ∧
    (3602879701896397 / 36028797018963968 : Rat) < 7205759403792795 / 72057594037927936 := by
  refine ⟨by decide!, by decide!, by norm_num, by decide!, by decide!, by norm_num⟩

end window_2_data_vis
